import Mathlib

/-!
# Grid and incremental A* pathfinder

A shallow embedding of `Grid` (`include/Grid.hpp`, `src/Grid.cpp`) and
`Pathfinder` (`include/Pathfinder.hpp`, `src/Pathfinder.cpp`).

Modelling conventions.

* C++ `int` values are `Int`; sizes and the `std::size_t` sequence counter are `Nat`.
* A `std::vector<T>` is a `List T`.  `v[i]` is `vecGet v i d`, `v[i] = a` is
  `vecSet v i a`.  An access outside the vector is undefined in C++; the model
  reads the default `d` and ignores the write.
* The `float` scores only ever hold whole numbers or `+infinity`
  (`0.0f`, `x + 1.0f`, the cast of an `int` sum of absolute values, sums of
  these, and `INF`); they are modelled by `Score`, the naturals with a top
  element.  The conversion to `float` and the `float` addition round to the
  nearest binary32 value, ties to even (`roundF32`): whole numbers up to `2^24`
  are exact, from there on the sum `g + 1.0f` can return `g`.
* A member function that mutates the object returns the new object (and the
  C++ return value, where there is one).  `Pathfinder` holds a reference to a
  `Grid`; its member functions take the grid and return it.
* `std::priority_queue` is a list of records; `top` picks the record that wins
  under `NodeCompare`, `pop` removes it.
* `reconstructPath` has a `while` loop that the model runs with fuel; `none`
  means that the loop does not terminate.
-/

set_option autoImplicit false

/-! ## Vectors -/

/-- Read `v[i]`; the default `d` stands for an access outside the vector. -/
def vecGet {α : Type} (v : List α) (i : Int) (d : α) : α :=
  match i with
  | Int.ofNat n => v.getD n d
  | Int.negSucc _ => d

/-- Write `v[i] = a`; a write outside the vector is ignored. -/
def vecSet {α : Type} (v : List α) (i : Int) (a : α) : List α :=
  match i with
  | Int.ofNat n => v.set n a
  | Int.negSucc _ => v

/-- The call `v.resize(n, d)`. -/
def vecResize {α : Type} (v : List α) (n : Nat) (d : α) : List α :=
  v.take n ++ List.replicate (n - v.length) d

/-- The loop `for (i = 0; i < n; ++i) v[i] = d`. -/
def vecFill {α : Type} (v : List α) (n : Nat) (d : α) : List α :=
  (List.range n).foldl (fun acc i => acc.set i d) v

/-! ## Grid -/

/-- The enum `CellType`. -/
inductive CellType where
  | Empty
  | Obstacle
  | Start
  | Goal
deriving DecidableEq, Repr

/-- The enum `CellOverlay`. -/
inductive CellOverlay where
  | None
  | OpenSet
  | ClosedSet
  | Path
deriving DecidableEq, Repr

/-- The type `sf::Vector2i`. -/
structure Vector2i where
  x : Int
  y : Int
deriving DecidableEq, Repr

/-- The data members of `class Grid`. -/
structure Grid where
  m_width : Int
  m_height : Int
  m_cells : List CellType
  m_overlays : List CellOverlay
  m_start : Option Vector2i
  m_goal : Option Vector2i
deriving DecidableEq, Repr

/-- The static helper `sameSpot` of `Grid.cpp`. -/
def sameSpot (a : Option Vector2i) (b : Vector2i) : Bool :=
  match a with
  | none => false
  | some v => decide (v.x = b.x) && decide (v.y = b.y)

/-- The constructor `Grid::Grid(width, height)`. -/
def Grid.ctor (width height : Int) : Grid :=
  { m_width := width
    m_height := height
    m_cells := List.replicate (width * height).toNat CellType.Empty
    m_overlays := List.replicate (width * height).toNat CellOverlay.None
    m_start := none
    m_goal := none }

/-- The accessor `Grid::cellCount`. -/
def Grid.cellCount (g : Grid) : Int := (g.m_cells.length : Int)

/-- The predicate `Grid::inBounds`. -/
def Grid.inBounds (g : Grid) (x y : Int) : Bool :=
  if x < 0 ∨ y < 0 then false
  else if x ≥ g.m_width then false
  else if y ≥ g.m_height then false
  else true

/-- The private `Grid::index`. -/
def Grid.index (g : Grid) (x y : Int) : Int := y * g.m_width + x

/-- The accessor `Grid::cell`. -/
def Grid.cell (g : Grid) (x y : Int) : CellType :=
  vecGet g.m_cells (g.index x y) CellType.Empty

/-- The accessor `Grid::overlay`. -/
def Grid.overlay (g : Grid) (x y : Int) : CellOverlay :=
  vecGet g.m_overlays (g.index x y) CellOverlay.None

/-- The mutator `Grid::setObstacle`. -/
def Grid.setObstacle (g : Grid) (x y : Int) : Bool × Grid :=
  if !g.inBounds x y then (false, g)
  else
    let idx := g.index x y
    if vecGet g.m_cells idx CellType.Empty = CellType.Start
        ∨ vecGet g.m_cells idx CellType.Empty = CellType.Goal then (false, g)
    else (true, { g with m_cells := vecSet g.m_cells idx CellType.Obstacle })

/-- The mutator `Grid::clearCell`. -/
def Grid.clearCell (g : Grid) (x y : Int) : Bool × Grid :=
  if !g.inBounds x y then (false, g)
  else
    let idx := g.index x y
    let currentType := vecGet g.m_cells idx CellType.Empty
    let g1 := { g with m_cells := vecSet g.m_cells idx CellType.Empty }
    if currentType = CellType.Start then (true, { g1 with m_start := none })
    else if currentType = CellType.Goal then (true, { g1 with m_goal := none })
    else (true, g1)

/-- The mutator `Grid::setStart`. -/
def Grid.setStart (g : Grid) (cellPos : Vector2i) : Bool × Grid :=
  if !g.inBounds cellPos.x cellPos.y then (false, g)
  else
    let idx := g.index cellPos.x cellPos.y
    if vecGet g.m_cells idx CellType.Empty = CellType.Obstacle then (false, g)
    else if sameSpot g.m_goal cellPos then (false, g)
    else
      let cells1 :=
        match g.m_start with
        | some old => vecSet g.m_cells (g.index old.x old.y) CellType.Empty
        | none => g.m_cells
      (true, { g with m_start := some cellPos, m_cells := vecSet cells1 idx CellType.Start })

/-- The mutator `Grid::setGoal`. -/
def Grid.setGoal (g : Grid) (cellPos : Vector2i) : Bool × Grid :=
  if !g.inBounds cellPos.x cellPos.y then (false, g)
  else
    let idx := g.index cellPos.x cellPos.y
    if vecGet g.m_cells idx CellType.Empty = CellType.Obstacle then (false, g)
    else if sameSpot g.m_start cellPos then (false, g)
    else
      let cells1 :=
        match g.m_goal with
        | some old => vecSet g.m_cells (g.index old.x old.y) CellType.Empty
        | none => g.m_cells
      (true, { g with m_goal := some cellPos, m_cells := vecSet cells1 idx CellType.Goal })

/-- The mutator `Grid::clearOverlays`. -/
def Grid.clearOverlays (g : Grid) : Grid :=
  { g with m_overlays := vecFill g.m_overlays g.m_overlays.length CellOverlay.None }

/-- The mutator `Grid::setOverlay`. -/
def Grid.setOverlay (g : Grid) (x y : Int) (value : CellOverlay) : Grid :=
  if !g.inBounds x y then g
  else
    let idx := g.index x y
    if vecGet g.m_cells idx CellType.Empty = CellType.Start
        ∨ vecGet g.m_cells idx CellType.Empty = CellType.Goal then g
    else { g with m_overlays := vecSet g.m_overlays idx value }

/-- The mutator `Grid::clearObstacles`: the loop visits every cell once. -/
def Grid.clearObstacles (g : Grid) : Grid :=
  { g with
    m_cells :=
      List.map (fun c => if c = CellType.Obstacle then CellType.Empty else c) g.m_cells }

/-- The mutator `Grid::reset`. -/
def Grid.reset (g : Grid) : Grid :=
  { g with
    m_cells := vecFill g.m_cells g.m_cells.length CellType.Empty
    m_overlays := vecFill g.m_overlays g.m_overlays.length CellOverlay.None
    m_start := none
    m_goal := none }

/-! ## Pathfinder -/

/-- A `float` score: a whole number (every finite score of the program is one)
or `INF`. -/
inductive Score where
  | fin (n : Nat)
  | inf
deriving DecidableEq, Repr

/-- The spacing of the binary32 values around `n`: the least power of two `p`,
from `p0` on and at most `fuel` doublings later, with `n < 2^24 * p`. -/
def f32Ulp : Nat → Nat → Nat → Nat
  | 0, _, p => p
  | fuel + 1, n, p => if n < 2 ^ 24 * p then p else f32Ulp fuel n (2 * p)

/-- The binary32 value nearest to the whole number `n`, ties to the even
mantissa, as the conversion `static_cast<float>` and the `float` addition
round; from `2^128 - 2^103` on the result is `INF`. -/
def roundF32 (n : Nat) : Score :=
  if n < 2 ^ 24 then Score.fin n
  else
    let ulp := f32Ulp 104 n 1
    let q := n / ulp
    let r := n % ulp
    let m :=
      if 2 * r < ulp then q * ulp
      else if ulp < 2 * r then (q + 1) * ulp
      else if q % 2 = 0 then q * ulp
      else (q + 1) * ulp
    if m < 2 ^ 128 then Score.fin m else Score.inf

/-- The comparison `a < b` on scores. -/
def Score.lt : Score → Score → Bool
  | Score.fin a, Score.fin b => decide (a < b)
  | Score.fin _, Score.inf => true
  | Score.inf, _ => false

/-- The `float` sum `a + b` on scores: the exact sum, rounded to binary32. -/
def Score.add : Score → Score → Score
  | Score.fin a, Score.fin b => roundF32 (a + b)
  | _, _ => Score.inf

/-- The enum `Pathfinder::Status`. -/
inductive Status where
  | Idle
  | Running
  | PathFound
  | NoPath
deriving DecidableEq, Repr

/-- The struct `Pathfinder::NodeRecord`. -/
structure NodeRecord where
  fScore : Score
  gScore : Score
  index : Int
  sequence : Nat
deriving DecidableEq, Repr

/-- The functor `Pathfinder::NodeCompare`: `lhs` comes out after `rhs`. -/
def NodeCompare (lhs rhs : NodeRecord) : Bool :=
  if lhs.fScore = rhs.fScore then decide (lhs.sequence > rhs.sequence)
  else rhs.fScore.lt lhs.fScore

/-- The call `m_openSet.top()`: the record that no other record precedes. -/
def pqTop : List NodeRecord → Option NodeRecord
  | [] => none
  | a :: rest =>
    match pqTop rest with
    | none => some a
    | some b => if NodeCompare a b then some b else some a

/-- The data members of `class Pathfinder` (the grid reference is passed
separately). -/
structure Pathfinder where
  m_width : Int
  m_height : Int
  m_startIndex : Int
  m_goalIndex : Int
  m_openSet : List NodeRecord
  m_gScores : List Score
  m_fScores : List Score
  m_parents : List Int
  m_inOpen : List Bool
  m_inClosed : List Bool
  m_sequenceCounter : Nat
  m_status : Status
deriving DecidableEq, Repr

/-- The constructor `Pathfinder::Pathfinder(grid)`. -/
def Pathfinder.ctor (g : Grid) : Pathfinder :=
  { m_width := g.m_width
    m_height := g.m_height
    m_startIndex := -1
    m_goalIndex := -1
    m_openSet := []
    m_gScores := List.replicate g.m_cells.length Score.inf
    m_fScores := List.replicate g.m_cells.length Score.inf
    m_parents := List.replicate g.m_cells.length (-1)
    m_inOpen := List.replicate g.m_cells.length false
    m_inClosed := List.replicate g.m_cells.length false
    m_sequenceCounter := 0
    m_status := Status.Idle }

/-- The method `Pathfinder::toGrid`; C++ `%` and `/` truncate. -/
def Pathfinder.toGrid (pf : Pathfinder) (index : Int) : Int × Int :=
  (Int.tmod index pf.m_width, Int.tdiv index pf.m_width)

/-- The method `Pathfinder::heuristic`: the `int` sum is converted to `float`. -/
def Pathfinder.heuristic (pf : Pathfinder) (g : Grid) (index : Int) : Score :=
  match g.m_goal with
  | none => Score.fin 0
  | some goalCell =>
    roundF32 ((goalCell.x - (pf.toGrid index).1).natAbs
      + (goalCell.y - (pf.toGrid index).2).natAbs)

/-- The method `Pathfinder::reset`. -/
def Pathfinder.reset (pf : Pathfinder) (g : Grid) : Pathfinder × Grid :=
  let cellCount := g.m_cells.length
  let pf1 :=
    if pf.m_gScores.length ≠ cellCount then
      { pf with
        m_gScores := vecResize pf.m_gScores cellCount Score.inf
        m_fScores := vecResize pf.m_fScores cellCount Score.inf
        m_parents := vecResize pf.m_parents cellCount (-1)
        m_inOpen := vecResize pf.m_inOpen cellCount false
        m_inClosed := vecResize pf.m_inClosed cellCount false }
    else pf
  ({ pf1 with
      m_gScores := vecFill pf1.m_gScores cellCount Score.inf
      m_fScores := vecFill pf1.m_fScores cellCount Score.inf
      m_parents := vecFill pf1.m_parents cellCount (-1)
      m_inOpen := vecFill pf1.m_inOpen cellCount false
      m_inClosed := vecFill pf1.m_inClosed cellCount false
      m_openSet := []
      m_sequenceCounter := 0
      m_startIndex := -1
      m_goalIndex := -1
      m_status := Status.Idle },
   g.clearOverlays)

/-- The method `Pathfinder::start`. -/
def Pathfinder.start (pf : Pathfinder) (g : Grid) : Bool × Pathfinder × Grid :=
  match g.m_start, g.m_goal with
  | some startCell, some goalCell =>
    let pf1 := (pf.reset g).1
    let g1 := (pf.reset g).2.clearOverlays
    if startCell.x = goalCell.x ∧ startCell.y = goalCell.y then
      (true, { pf1 with m_status := Status.PathFound }, g1)
    else
      let startIndex := startCell.y * pf1.m_width + startCell.x
      let goalIndex := goalCell.y * pf1.m_width + goalCell.x
      let pf2 := { pf1 with m_startIndex := startIndex, m_goalIndex := goalIndex }
      let pf3 := { pf2 with m_gScores := vecSet pf2.m_gScores startIndex (Score.fin 0) }
      let pf4 := { pf3 with
        m_fScores := vecSet pf3.m_fScores startIndex (pf3.heuristic g1 startIndex) }
      let pf5 := { pf4 with m_parents := vecSet pf4.m_parents startIndex (-1) }
      (true,
       { pf5 with
          m_openSet :=
            { fScore := vecGet pf5.m_fScores startIndex Score.inf
              gScore := Score.fin 0
              index := startIndex
              sequence := pf5.m_sequenceCounter } :: pf5.m_openSet
          m_sequenceCounter := pf5.m_sequenceCounter + 1
          m_inOpen := vecSet pf5.m_inOpen startIndex true
          m_status := Status.Running },
       g1)
  | _, _ => (false, pf, g)

/-- The loop of `Pathfinder::reconstructPath`, run with fuel. -/
def Pathfinder.reconstructLoop (pf : Pathfinder) : Nat → Int → Grid → Option Grid
  | 0, current, g => if current ≥ 0 then none else some g
  | fuel + 1, current, g =>
    if current ≥ 0 then
      Pathfinder.reconstructLoop pf fuel (vecGet pf.m_parents current (-1))
        (if current ≠ pf.m_startIndex then
          g.setOverlay (pf.toGrid current).1 (pf.toGrid current).2 CellOverlay.Path
        else g)
    else some g

/-- The method `Pathfinder::reconstructPath`.  A walk over distinct cells of
`m_parents` ends within `m_parents.size()` rounds, so this fuel runs out only
on a walk that never ends. -/
def Pathfinder.reconstructPath (pf : Pathfinder) (g : Grid) : Option Grid :=
  if pf.m_goalIndex < 0 then some g
  else pf.reconstructLoop pf.m_parents.length pf.m_goalIndex g

/-- The successive values of `current` in the loop of `reconstructPath`. -/
def Pathfinder.parentWalk (pf : Pathfinder) : Nat → Int → Option (List Int)
  | 0, current => if current ≥ 0 then none else some []
  | fuel + 1, current =>
    if current ≥ 0 then
      (Pathfinder.parentWalk pf fuel (vecGet pf.m_parents current (-1))).map
        (fun rest => current :: rest)
    else some []

/-- The cells visited by `reconstructPath`, from the goal back to the start. -/
def Pathfinder.pathCells (pf : Pathfinder) : Option (List Int) :=
  if pf.m_goalIndex < 0 then some []
  else pf.parentWalk pf.m_parents.length pf.m_goalIndex

/-- The table `offsets` of `Pathfinder::step`. -/
def Pathfinder.offsets : List (Int × Int) := [(1, 0), (-1, 0), (0, 1), (0, -1)]

/-- The body of the loop `for (const auto& offset : offsets)` of
`Pathfinder::step`, for the popped cell `cur` at `(cx, cy)`. -/
def Pathfinder.relaxNeighbor (cur cx cy : Int) (s : Pathfinder × Grid)
    (offset : Int × Int) : Pathfinder × Grid :=
  let pf := s.1
  let g := s.2
  let nx := cx + offset.1
  let ny := cy + offset.2
  if !g.inBounds nx ny then s
  else
    let neighborIndex := ny * pf.m_width + nx
    if vecGet pf.m_inClosed neighborIndex false then s
    else if g.cell nx ny = CellType.Obstacle then s
    else
      let tentativeG := (vecGet pf.m_gScores cur Score.inf).add (Score.fin 1)
      if tentativeG.lt (vecGet pf.m_gScores neighborIndex Score.inf) then
        let fScores1 := vecSet pf.m_fScores neighborIndex
          (tentativeG.add (pf.heuristic g neighborIndex))
        ({ pf with
            m_parents := vecSet pf.m_parents neighborIndex cur
            m_gScores := vecSet pf.m_gScores neighborIndex tentativeG
            m_fScores := fScores1
            m_openSet :=
              { fScore := vecGet fScores1 neighborIndex Score.inf
                gScore := tentativeG
                index := neighborIndex
                sequence := pf.m_sequenceCounter } :: pf.m_openSet
            m_sequenceCounter := pf.m_sequenceCounter + 1
            m_inOpen := vecSet pf.m_inOpen neighborIndex true },
         if neighborIndex ≠ pf.m_goalIndex ∧ neighborIndex ≠ pf.m_startIndex then
           g.setOverlay nx ny CellOverlay.OpenSet
         else g)
      else s

/-- One round of the `for (performed ...)` loop of `Pathfinder::step`. -/
def Pathfinder.iterate (pf : Pathfinder) (g : Grid) : Option (Pathfinder × Grid) :=
  match pqTop pf.m_openSet with
  | none => some ({ pf with m_status := Status.NoPath }, g)
  | some current =>
    let pf1 := { pf with m_openSet := pf.m_openSet.erase current }
    if current.index < 0 ∨ current.index ≥ g.cellCount then some (pf1, g)
    else if vecGet pf1.m_inClosed current.index false then some (pf1, g)
    else if (vecGet pf1.m_gScores current.index Score.inf).lt current.gScore then
      some (pf1, g)
    else
      let pf2 := { pf1 with m_inOpen := vecSet pf1.m_inOpen current.index false }
      if current.index = pf2.m_goalIndex then
        match pf2.reconstructPath g with
        | none => none
        | some g1 => some ({ pf2 with m_status := Status.PathFound }, g1)
      else
        let cx := (pf2.toGrid current.index).1
        let cy := (pf2.toGrid current.index).2
        let g1 :=
          if current.index ≠ pf2.m_startIndex then g.setOverlay cx cy CellOverlay.ClosedSet
          else g
        let s := Pathfinder.offsets.foldl (Pathfinder.relaxNeighbor current.index cx cy)
          (pf2, g1)
        some ({ s.1 with m_inClosed := vecSet s.1.m_inClosed current.index true }, s.2)

/-- The loop `for (performed = 0; performed < iterations && m_status == Running;
++performed)` of `Pathfinder::step`. -/
def Pathfinder.stepLoop : Nat → Pathfinder × Grid → Option (Pathfinder × Grid)
  | 0, s => some s
  | n + 1, s =>
    if s.1.m_status ≠ Status.Running then some s
    else
      match Pathfinder.iterate s.1 s.2 with
      | none => none
      | some s1 => Pathfinder.stepLoop n s1

/-- The method `Pathfinder::step`; the returned status is the new `m_status`. -/
def Pathfinder.step (pf : Pathfinder) (g : Grid) (iterations : Int) :
    Option (Pathfinder × Grid) :=
  if pf.m_status ≠ Status.Running then some (pf, g)
  else Pathfinder.stepLoop (if iterations < 1 then 1 else iterations).toNat (pf, g)

/-- A sequence of `step` calls with the given budgets. -/
def Pathfinder.runSteps : List Int → Pathfinder × Grid → Option (Pathfinder × Grid)
  | [], s => some s
  | n :: ns, s =>
    match Pathfinder.step s.1 s.2 n with
    | none => none
    | some s1 => Pathfinder.runSteps ns s1

/-- The call `start()` followed by `step` calls with the given budgets. -/
def Pathfinder.search (pf : Pathfinder) (g : Grid) (budgets : List Int) :
    Option (Pathfinder × Grid) :=
  Pathfinder.runSteps budgets (pf.start g).2

/-! ## Sequences of operations -/

/-- A public mutator of `Grid` together with its arguments. -/
inductive GridOp where
  | setObstacle (x y : Int)
  | clearCell (x y : Int)
  | setStart (cellPos : Vector2i)
  | setGoal (cellPos : Vector2i)
  | setOverlay (x y : Int) (value : CellOverlay)
  | clearOverlays
  | clearObstacles
  | reset
deriving DecidableEq, Repr

/-- The grid after one public mutator call. -/
def GridOp.run : GridOp → Grid → Grid
  | GridOp.setObstacle x y, g => (g.setObstacle x y).2
  | GridOp.clearCell x y, g => (g.clearCell x y).2
  | GridOp.setStart c, g => (g.setStart c).2
  | GridOp.setGoal c, g => (g.setGoal c).2
  | GridOp.setOverlay x y v, g => g.setOverlay x y v
  | GridOp.clearOverlays, g => g.clearOverlays
  | GridOp.clearObstacles, g => g.clearObstacles
  | GridOp.reset, g => g.reset

/-- The grid after a sequence of public mutator calls. -/
def GridOp.runAll : List GridOp → Grid → Grid
  | [], g => g
  | op :: ops, g => GridOp.runAll ops (op.run g)

/-- A core operation: a `Grid` mutator or a `Pathfinder` call. -/
inductive CoreOp where
  | grid (op : GridOp)
  | reset
  | start
  | step (iterations : Int)
deriving DecidableEq, Repr

/-- The pathfinder and its grid after one core operation. -/
def CoreOp.run : CoreOp → Pathfinder × Grid → Option (Pathfinder × Grid)
  | CoreOp.grid op, s => some (s.1, op.run s.2)
  | CoreOp.reset, s => some (s.1.reset s.2)
  | CoreOp.start, s => some (s.1.start s.2).2
  | CoreOp.step n, s => s.1.step s.2 n

/-- The pathfinder and its grid after a sequence of core operations. -/
def CoreOp.runAll : List CoreOp → Pathfinder × Grid → Option (Pathfinder × Grid)
  | [], s => some s
  | op :: ops, s =>
    match op.run s with
    | none => none
    | some s1 => CoreOp.runAll ops s1

/-- A freshly constructed grid with a pathfinder constructed on it. -/
def freshState (width height : Int) : Pathfinder × Grid :=
  (Pathfinder.ctor (Grid.ctor width height), Grid.ctor width height)

/-! ## Properties of grids -/

/-- The grid has positive dimensions and both layers hold one entry per cell. -/
def Grid.WF (g : Grid) : Prop :=
  1 ≤ g.m_width ∧ 1 ≤ g.m_height
    ∧ g.m_cells.length = (g.m_width * g.m_height).toNat
    ∧ g.m_overlays.length = (g.m_width * g.m_height).toNat

/-- The grid is small enough for every score that a search computes to be
exact in binary32: the number of cells plus width plus height is at most
`2^24`. -/
def Grid.Small (g : Grid) : Prop :=
  g.m_cells.length + (g.m_width + g.m_height).toNat ≤ 2 ^ 24

instance (g : Grid) : Decidable g.Small := by
  unfold Grid.Small
  exact inferInstance

/-- Placement invariant: the cells of kind Start (Goal) are exactly the stored
Start (Goal) position, the stored positions are in bounds and differ. -/
def Grid.Placed (g : Grid) : Prop :=
  (∀ x y, g.inBounds x y = true →
      (g.cell x y = CellType.Start ↔ g.m_start = some { x := x, y := y }))
    ∧ (∀ x y, g.inBounds x y = true →
      (g.cell x y = CellType.Goal ↔ g.m_goal = some { x := x, y := y }))
    ∧ (∀ p, g.m_start = some p → g.inBounds p.x p.y = true)
    ∧ (∀ p, g.m_goal = some p → g.inBounds p.x p.y = true)
    ∧ (∀ p q, g.m_start = some p → g.m_goal = some q → p ≠ q)

/-- The overlay of the stored Start and Goal positions is None. -/
def Grid.OverlayImmune (g : Grid) : Prop :=
  (∀ p, g.m_start = some p → g.overlay p.x p.y = CellOverlay.None)
    ∧ (∀ p, g.m_goal = some p → g.overlay p.x p.y = CellOverlay.None)

/-- A `setStart` or `setGoal` that succeeds lands on a cell without overlay. -/
def CoreOp.landsClean : CoreOp → Grid → Prop
  | CoreOp.grid (GridOp.setStart c), g =>
    (g.setStart c).1 = true → g.overlay c.x c.y = CellOverlay.None
  | CoreOp.grid (GridOp.setGoal c), g =>
    (g.setGoal c).1 = true → g.overlay c.x c.y = CellOverlay.None
  | _, _ => True

/-- Every `setStart` and `setGoal` of the sequence lands clean in the state
it is applied to. -/
def CoreOp.allLandClean : List CoreOp → Pathfinder × Grid → Prop
  | [], _ => True
  | op :: ops, s =>
    op.landsClean s.2 ∧
      match op.run s with
      | none => True
      | some s1 => CoreOp.allLandClean ops s1

instance CoreOp.decidableLandsClean (op : CoreOp) (g : Grid) : Decidable (op.landsClean g) :=
  match op with
  | CoreOp.grid (GridOp.setStart c) =>
    inferInstanceAs (Decidable ((g.setStart c).1 = true → g.overlay c.x c.y = CellOverlay.None))
  | CoreOp.grid (GridOp.setGoal c) =>
    inferInstanceAs (Decidable ((g.setGoal c).1 = true → g.overlay c.x c.y = CellOverlay.None))
  | CoreOp.grid (GridOp.setObstacle _ _) => isTrue trivial
  | CoreOp.grid (GridOp.clearCell _ _) => isTrue trivial
  | CoreOp.grid (GridOp.setOverlay _ _ _) => isTrue trivial
  | CoreOp.grid GridOp.clearOverlays => isTrue trivial
  | CoreOp.grid GridOp.clearObstacles => isTrue trivial
  | CoreOp.grid GridOp.reset => isTrue trivial
  | CoreOp.reset => isTrue trivial
  | CoreOp.start => isTrue trivial
  | CoreOp.step _ => isTrue trivial

instance CoreOp.decidableAllLandClean :
    (ops : List CoreOp) → (s : Pathfinder × Grid) → Decidable (CoreOp.allLandClean ops s)
  | [], _ => isTrue trivial
  | op :: ops, s =>
    match h : op.run s with
    | none =>
      decidable_of_iff (op.landsClean s.2) (by simp [CoreOp.allLandClean, h])
    | some s1 =>
      @decidable_of_iff _ (op.landsClean s.2 ∧ CoreOp.allLandClean ops s1)
        (by simp [CoreOp.allLandClean, h])
        (@instDecidableAnd _ _ _ (CoreOp.decidableAllLandClean ops s1))

/-- Two cells are 4-adjacent. -/
def Vector2i.adjacent (a b : Vector2i) : Prop :=
  (a.x - b.x).natAbs + (a.y - b.y).natAbs = 1

instance (a b : Vector2i) : Decidable (a.adjacent b) := by
  unfold Vector2i.adjacent
  exact inferInstance

/-- The cell is in bounds and its kind is not Obstacle. -/
def Grid.passable (g : Grid) (c : Vector2i) : Prop :=
  g.inBounds c.x c.y = true ∧ g.cell c.x c.y ≠ CellType.Obstacle

instance (g : Grid) (c : Vector2i) : Decidable (g.passable c) := by
  unfold Grid.passable
  exact inferInstance

/-- The list `p` is a 4-connected path from `a` to `b` through cells that are
not Obstacle; it makes `p.length - 1` moves. -/
def Grid.IsPath (g : Grid) (a b : Vector2i) (p : List Vector2i) : Prop :=
  p.head? = some a ∧ p.getLast? = some b
    ∧ List.Chain' Vector2i.adjacent p ∧ ∀ c ∈ p, g.passable c

/-- The cell of a linear index, as `Pathfinder::toGrid` computes it. -/
def Pathfinder.cellOf (pf : Pathfinder) (index : Int) : Vector2i :=
  { x := (pf.toGrid index).1, y := (pf.toGrid index).2 }

/-! ## Invariants of the search -/

/-- The linear index `y * m_width + x` that `start` and `step` compute inline. -/
def Pathfinder.idx (pf : Pathfinder) (x y : Int) : Int := y * pf.m_width + x

/-- The entry of `m_gScores` for the cell `(x, y)`. -/
def Pathfinder.gAt (pf : Pathfinder) (x y : Int) : Score :=
  vecGet pf.m_gScores (pf.idx x y) Score.inf

/-- The entry of `m_inClosed` for the cell `(x, y)`. -/
def Pathfinder.closedAt (pf : Pathfinder) (x y : Int) : Bool :=
  vecGet pf.m_inClosed (pf.idx x y) false

/-- The entry of `m_parents` for the cell `(x, y)`. -/
def Pathfinder.parentAt (pf : Pathfinder) (x y : Int) : Int :=
  vecGet pf.m_parents (pf.idx x y) (-1)

/-- Manhattan distance from `(x, y)` to the cell `t`. -/
def hDist (t : Vector2i) (x y : Int) : Nat := (t.x - x).natAbs + (t.y - y).natAbs

/-- The cell is marked closed, or it is the cell `cur` that `step` is expanding
(`step` marks it closed only after the neighbour loop). -/
def Pathfinder.closedEff (pf : Pathfinder) (cur : Option (Int × Int)) (x y : Int) : Prop :=
  pf.closedAt x y = true ∨ cur = some (x, y)

/-- The part of the grid that the pathfinder never changes is the same in both
grids, and the overlay layers have the same size. -/
def Grid.SameFrame (g g1 : Grid) : Prop :=
  g1.m_width = g.m_width ∧ g1.m_height = g.m_height ∧ g1.m_cells = g.m_cells
    ∧ g1.m_start = g.m_start ∧ g1.m_goal = g.m_goal
    ∧ g1.m_overlays.length = g.m_overlays.length

/-- Every Obstacle cell has overlay None. -/
def Grid.OverlayOK (g : Grid) : Prop :=
  ∀ x y, g.inBounds x y = true → g.cell x y = CellType.Obstacle →
    g.overlay x y = CellOverlay.None

/-- Invariant of a Running search from `s` to `t` on the grid `g`, at the head
of the loop of `step` (`cur = none`) and inside the neighbour loop for the
popped cell (`cur = some _`). -/
structure Pathfinder.Core (g : Grid) (s t : Vector2i) (pf : Pathfinder)
    (cur : Option (Int × Int)) : Prop where
  width : pf.m_width = g.m_width
  len_g : pf.m_gScores.length = g.m_cells.length
  len_f : pf.m_fScores.length = g.m_cells.length
  len_p : pf.m_parents.length = g.m_cells.length
  len_c : pf.m_inClosed.length = g.m_cells.length
  start_idx : pf.m_startIndex = pf.idx s.x s.y
  goal_idx : pf.m_goalIndex = pf.idx t.x t.y
  g_start : pf.gAt s.x s.y = Score.fin 0
  p_start : pf.parentAt s.x s.y = -1
  tree : ∀ x y a, g.inBounds x y = true → pf.gAt x y = Score.fin a →
    g.cell x y ≠ CellType.Obstacle ∧
      (¬ (x = s.x ∧ y = s.y) →
        ∃ ux uy b, g.inBounds ux uy = true ∧ pf.parentAt x y = pf.idx ux uy
          ∧ Vector2i.adjacent { x := ux, y := uy } { x := x, y := y }
          ∧ pf.closedEff cur ux uy ∧ pf.gAt ux uy = Score.fin b ∧ a = b + 1)
  closed_fin : ∀ x y, g.inBounds x y = true → pf.closedEff cur x y →
    ∃ a, pf.gAt x y = Score.fin a
  recs : ∀ r ∈ pf.m_openSet, ∃ x y a b, g.inBounds x y = true ∧ r.index = pf.idx x y
    ∧ r.gScore = Score.fin a ∧ pf.gAt x y = Score.fin b ∧ b ≤ a
    ∧ r.fScore = Score.fin (a + hDist t x y)
  open_has : ∀ x y a, g.inBounds x y = true → ¬ pf.closedEff cur x y →
    pf.gAt x y = Score.fin a →
    ∃ r ∈ pf.m_openSet, r.index = pf.idx x y ∧ r.gScore = Score.fin a
  edge : ∀ x y x1 y1 a, g.inBounds x y = true → pf.closedAt x y = true →
    pf.gAt x y = Score.fin a →
    Vector2i.adjacent { x := x, y := y } { x := x1, y := y1 } →
    g.passable { x := x1, y := y1 } →
    ∃ b, pf.gAt x1 y1 = Score.fin b ∧ b ≤ a + 1
  mono : ∀ x y a r c, g.inBounds x y = true → pf.closedEff cur x y →
    pf.gAt x y = Score.fin a → r ∈ pf.m_openSet → r.fScore = Score.fin c →
    a + hDist t x y ≤ c
  goal_open : pf.closedAt t.x t.y = false
  bound : ∀ x y a, g.inBounds x y = true → pf.gAt x y = Score.fin a →
    a ≤ pf.m_inClosed.count true + cur.toList.length

/-- Invariant inside the neighbour loop of `step` for the popped cell
`(cx, cy)` whose g score is `a0`. -/
structure Pathfinder.Mid (g : Grid) (s t : Vector2i) (pf : Pathfinder) (cx cy : Int)
    (a0 : Nat) : Prop where
  core : Pathfinder.Core g s t pf (some (cx, cy))
  cur_in : g.inBounds cx cy = true
  cur_open : pf.closedAt cx cy = false
  cur_ne_goal : ¬ (cx = t.x ∧ cy = t.y)
  cur_g : pf.gAt cx cy = Score.fin a0
  cur_bound : a0 ≤ pf.m_inClosed.count true
  cur_max : ∀ x y a, g.inBounds x y = true → pf.closedEff (some (cx, cy)) x y →
    pf.gAt x y = Score.fin a → a + hDist t x y ≤ a0 + hDist t cx cy

/-- What a search that ended in PathFound has computed: the walk of
`reconstructPath` ends, read from the start it is a path from `s` to `t`, and
no path from `s` to `t` is shorter. -/
def Pathfinder.Final (g : Grid) (s t : Vector2i) (pf : Pathfinder) : Prop :=
  ∃ cells, pf.pathCells = some cells
    ∧ g.IsPath s t ((cells.map pf.cellOf).reverse)
    ∧ ∀ p, g.IsPath s t p → cells.length ≤ p.length

/-- Invariant of the states of a search from `s` to `t` started on `g0`. -/
def Pathfinder.SearchInv (g0 : Grid) (s t : Vector2i) (st : Pathfinder × Grid) : Prop :=
  Grid.SameFrame g0 st.2 ∧ st.2.OverlayOK ∧ st.1.m_status ≠ Status.Idle
    ∧ (st.1.m_status = Status.Running → Pathfinder.Core g0 s t st.1 none)
    ∧ (st.1.m_status = Status.PathFound → Pathfinder.Final g0 s t st.1)
    ∧ (st.1.m_status = Status.NoPath → ¬ ∃ p, g0.IsPath s t p)

/-- A bound on the number of rounds of the loop of `step` that are left. -/
def Pathfinder.rounds (pf : Pathfinder) : Nat :=
  pf.m_openSet.length + 5 * pf.m_inClosed.count false + 1

/-- The pathfinder was constructed for a grid of this width and its five
per-cell arrays have one common size. -/
def Pathfinder.Attached (pf : Pathfinder) (g : Grid) : Prop :=
  pf.m_width = g.m_width ∧ pf.m_fScores.length = pf.m_gScores.length
    ∧ pf.m_parents.length = pf.m_gScores.length ∧ pf.m_inOpen.length = pf.m_gScores.length
    ∧ pf.m_inClosed.length = pf.m_gScores.length

instance (pf : Pathfinder) (g : Grid) : Decidable (pf.Attached g) := by
  unfold Pathfinder.Attached
  exact inferInstance

/-! ## Scenarios of the specification -/

/-- Scenario S2: a 5x1 grid with Start (0,0) and Goal (4,0), no obstacles. -/
def scenarioS2 : Grid :=
  GridOp.runAll [GridOp.setStart ⟨0, 0⟩, GridOp.setGoal ⟨4, 0⟩] (Grid.ctor 5 1)

/-- Scenario S4: a 3x3 grid with Start (0,0), Goal (2,2) and Obstacles at
(0,1), (1,1), (1,0), which wall the Start in. -/
def scenarioS4 : Grid :=
  GridOp.runAll
    [GridOp.setStart ⟨0, 0⟩, GridOp.setGoal ⟨2, 2⟩, GridOp.setObstacle 0 1,
      GridOp.setObstacle 1 1, GridOp.setObstacle 1 0] (Grid.ctor 3 3)

/-- Scenario S5: an empty 3x3 grid with Start (0,0) and Goal (2,2). -/
def scenarioS5 : Grid :=
  GridOp.runAll [GridOp.setStart ⟨0, 0⟩, GridOp.setGoal ⟨2, 2⟩] (Grid.ctor 3 3)

/-- The state in which the search of scenario S2 ends (on PathFound). -/
def scenarioS2Final : Pathfinder × Grid :=
  ((Pathfinder.ctor scenarioS2).search scenarioS2 [8]).getD (Pathfinder.ctor scenarioS2, scenarioS2)

/-- Invariant of a Running search from `s` to `t` on the grid `g`, at the head
of the loop of `step` (`cur = none`) and inside the neighbour loop for the
popped cell (`cur = some _`), that holds whatever the `float` rounding does to
the scores: every cell with a finite g score is not an Obstacle and, the Start
apart, has a closed 4-adjacent parent; closed cells were closed after their
parent (`rk` is the order of closing); every record sits on a cell with a
finite g score; every cell with a finite g score that is not closed has a
record with that score; and every passable neighbour of a closed cell has a
finite g score. -/
structure Pathfinder.Reach (g : Grid) (s t : Vector2i) (pf : Pathfinder)
    (cur : Option (Int × Int)) : Prop where
  width : pf.m_width = g.m_width
  len_g : pf.m_gScores.length = g.m_cells.length
  len_p : pf.m_parents.length = g.m_cells.length
  len_c : pf.m_inClosed.length = g.m_cells.length
  start_idx : pf.m_startIndex = pf.idx s.x s.y
  goal_idx : pf.m_goalIndex = pf.idx t.x t.y
  g_start : pf.gAt s.x s.y = Score.fin 0
  p_start : pf.parentAt s.x s.y = -1
  g_cap : ∀ x y a, g.inBounds x y = true → pf.gAt x y = Score.fin a → a ≤ 2 ^ 24
  tree : ∀ x y a, g.inBounds x y = true → pf.gAt x y = Score.fin a →
    g.cell x y ≠ CellType.Obstacle ∧
      (¬ (x = s.x ∧ y = s.y) →
        ∃ ux uy, g.inBounds ux uy = true ∧ pf.parentAt x y = pf.idx ux uy
          ∧ Vector2i.adjacent { x := ux, y := uy } { x := x, y := y }
          ∧ pf.closedEff cur ux uy)
  rank : ∃ rk : Int → Int → Nat,
    (∀ x y, g.inBounds x y = true → pf.closedEff cur x y →
        rk x y < pf.m_inClosed.count true + cur.toList.length)
      ∧ ∀ x y ux uy, g.inBounds x y = true → g.inBounds ux uy = true →
          pf.closedEff cur x y → pf.parentAt x y = pf.idx ux uy → rk ux uy < rk x y
  closed_fin : ∀ x y, g.inBounds x y = true → pf.closedEff cur x y →
    ∃ a, pf.gAt x y = Score.fin a
  recs : ∀ r ∈ pf.m_openSet, ∃ x y a, g.inBounds x y = true ∧ r.index = pf.idx x y
    ∧ pf.gAt x y = Score.fin a
  open_has : ∀ x y a, g.inBounds x y = true → ¬ pf.closedEff cur x y →
    pf.gAt x y = Score.fin a →
    ∃ r ∈ pf.m_openSet, r.index = pf.idx x y ∧ r.gScore = Score.fin a
  edge : ∀ x y x1 y1, g.inBounds x y = true → pf.closedAt x y = true →
    Vector2i.adjacent { x := x, y := y } { x := x1, y := y1 } →
    g.passable { x := x1, y := y1 } →
    ∃ b, pf.gAt x1 y1 = Score.fin b
  goal_open : pf.closedAt t.x t.y = false

/-- The invariant `Reach` inside the neighbour loop of `step` for the popped
cell `(cx, cy)`, which is in bounds, not yet marked closed and not the Goal. -/
structure Pathfinder.ReachMid (g : Grid) (s t : Vector2i) (pf : Pathfinder)
    (cx cy : Int) : Prop where
  reach : Pathfinder.Reach g s t pf (some (cx, cy))
  cur_in : g.inBounds cx cy = true
  cur_open : pf.closedAt cx cy = false
  cur_ne_goal : ¬ (cx = t.x ∧ cy = t.y)

/-- What a search that ended in PathFound has computed, whatever the rounding:
the walk of `reconstructPath` ends and, read from the start, it is a
4-connected Obstacle-free path from `s` to `t`. -/
def Pathfinder.Found (g : Grid) (s t : Vector2i) (pf : Pathfinder) : Prop :=
  ∃ cells, pf.pathCells = some cells ∧ g.IsPath s t ((cells.map pf.cellOf).reverse)

/-- Invariant of the states of a search from `s` to `t` started on `g0`, whatever
the rounding of the scores. -/
def Pathfinder.RunInv (g0 : Grid) (s t : Vector2i) (st : Pathfinder × Grid) : Prop :=
  Grid.SameFrame g0 st.2 ∧ st.2.OverlayOK ∧ st.1.m_status ≠ Status.Idle
    ∧ (st.1.m_status = Status.Running → Pathfinder.Reach g0 s t st.1 none)
    ∧ (st.1.m_status = Status.PathFound → Pathfinder.Found g0 s t st.1)
    ∧ (st.1.m_status = Status.NoPath → ¬ ∃ p, g0.IsPath s t p)

/-! ## Index safety -/

/-- The index `i` is within the bounds of the vector `v`. -/
def vecIn {α : Type} (v : List α) (i : Int) : Prop := 0 ≤ i ∧ i < v.length

/-- Shape invariant of a pathfinder and its grid: the grid is well formed with
Start and Goal placed consistently, the pathfinder has the grid's width and
one entry per cell in each of its five arrays, every record of the open set
and every parent other than -1 is a cell index, and while the status is
Running so are the start and the goal index. -/
def Pathfinder.Shape (s : Pathfinder × Grid) : Prop :=
  s.2.WF ∧ s.2.Placed ∧ s.1.m_width = s.2.m_width
    ∧ s.1.m_gScores.length = s.2.m_cells.length
    ∧ s.1.m_fScores.length = s.2.m_cells.length
    ∧ s.1.m_parents.length = s.2.m_cells.length
    ∧ s.1.m_inOpen.length = s.2.m_cells.length
    ∧ s.1.m_inClosed.length = s.2.m_cells.length
    ∧ (∀ r ∈ s.1.m_openSet, 0 ≤ r.index ∧ r.index < s.2.cellCount)
    ∧ (∀ p ∈ s.1.m_parents, -1 ≤ p ∧ p < s.2.cellCount)
    ∧ (s.1.m_status = Status.Running →
        (0 ≤ s.1.m_startIndex ∧ s.1.m_startIndex < s.2.cellCount)
          ∧ 0 ≤ s.1.m_goalIndex ∧ s.1.m_goalIndex < s.2.cellCount)

/-- The accesses `m_cells[idx]` and `m_overlays[idx]` of `Grid::setOverlay` are
within bounds. -/
def Grid.setOverlaySafe (g : Grid) (x y : Int) : Prop :=
  g.inBounds x y = true →
    vecIn g.m_cells (g.index x y)
      ∧ (¬ (vecGet g.m_cells (g.index x y) CellType.Empty = CellType.Start
            ∨ vecGet g.m_cells (g.index x y) CellType.Empty = CellType.Goal) →
          vecIn g.m_overlays (g.index x y))

/-- The accesses of the loop `for (i = 0; i < cellCount; ++i)` of
`Pathfinder::reset` are within bounds: when the size of `m_gScores` is not
`cellCount` the five arrays are resized to `cellCount` first. -/
def Pathfinder.resetSafe (pf : Pathfinder) (g : Grid) : Prop :=
  pf.m_gScores.length = g.m_cells.length →
    g.m_cells.length ≤ pf.m_fScores.length ∧ g.m_cells.length ≤ pf.m_parents.length
      ∧ g.m_cells.length ≤ pf.m_inOpen.length ∧ g.m_cells.length ≤ pf.m_inClosed.length

/-- The array accesses of `Pathfinder::start` are within bounds. -/
def Pathfinder.startSafe (pf : Pathfinder) (g : Grid) : Prop :=
  ∀ startCell goalCell, g.m_start = some startCell → g.m_goal = some goalCell →
    pf.resetSafe g
      ∧ (¬ (startCell.x = goalCell.x ∧ startCell.y = goalCell.y) →
        vecIn (pf.reset g).1.m_gScores (startCell.y * (pf.reset g).1.m_width + startCell.x)
          ∧ vecIn (pf.reset g).1.m_fScores
              (startCell.y * (pf.reset g).1.m_width + startCell.x)
          ∧ vecIn (pf.reset g).1.m_parents
              (startCell.y * (pf.reset g).1.m_width + startCell.x)
          ∧ vecIn (pf.reset g).1.m_inOpen
              (startCell.y * (pf.reset g).1.m_width + startCell.x))

/-- The accesses of the body of the loop `for (const auto& offset : offsets)` of
`Pathfinder::step` are within bounds, among them the read `m_cells[idx]` of
`Grid::cell(nx, ny)`, which is reached only after `inBounds(nx, ny)`. -/
def Pathfinder.relaxSafe (cur cx cy : Int) (s : Pathfinder × Grid)
    (offset : Int × Int) : Prop :=
  let pf := s.1
  let g := s.2
  let nx := cx + offset.1
  let ny := cy + offset.2
  g.inBounds nx ny = true →
    let neighborIndex := ny * pf.m_width + nx
    vecIn pf.m_inClosed neighborIndex
      ∧ (vecGet pf.m_inClosed neighborIndex false = false →
        vecIn g.m_cells (g.index nx ny)
          ∧ (g.cell nx ny ≠ CellType.Obstacle →
            vecIn pf.m_gScores cur ∧ vecIn pf.m_gScores neighborIndex
              ∧ (((vecGet pf.m_gScores cur Score.inf).add (Score.fin 1)).lt
                    (vecGet pf.m_gScores neighborIndex Score.inf) = true →
                vecIn pf.m_parents neighborIndex ∧ vecIn pf.m_fScores neighborIndex
                  ∧ vecIn pf.m_inOpen neighborIndex
                  ∧ (neighborIndex ≠ pf.m_goalIndex ∧ neighborIndex ≠ pf.m_startIndex →
                    g.setOverlaySafe nx ny))))

/-- The accesses of the whole neighbour loop are within bounds. -/
def Pathfinder.relaxAllSafe (cur cx cy : Int) :
    List (Int × Int) → Pathfinder × Grid → Prop
  | [], _ => True
  | offset :: rest, s =>
    Pathfinder.relaxSafe cur cx cy s offset
      ∧ Pathfinder.relaxAllSafe cur cx cy rest (Pathfinder.relaxNeighbor cur cx cy s offset)

/-- The accesses of the first `fuel` rounds of the loop of
`Pathfinder::reconstructPath` are within bounds. -/
def Pathfinder.reconstructSafe (pf : Pathfinder) : Nat → Int → Grid → Prop
  | 0, _, _ => True
  | fuel + 1, current, g =>
    current ≥ 0 →
      (current ≠ pf.m_startIndex →
          g.setOverlaySafe (pf.toGrid current).1 (pf.toGrid current).2)
        ∧ vecIn pf.m_parents current
        ∧ Pathfinder.reconstructSafe pf fuel (vecGet pf.m_parents current (-1))
            (if current ≠ pf.m_startIndex then
              g.setOverlay (pf.toGrid current).1 (pf.toGrid current).2 CellOverlay.Path
            else g)

/-- The accesses of `Pathfinder::reconstructPath` are within bounds, however
long its loop runs. -/
def Pathfinder.reconstructPathSafe (pf : Pathfinder) (g : Grid) : Prop :=
  ¬ pf.m_goalIndex < 0 → ∀ fuel, pf.reconstructSafe fuel pf.m_goalIndex g

/-- In one round of the loop of `Pathfinder::step` the defensive range check
on the popped record does not fire and every array access is within bounds. -/
def Pathfinder.iterateSafe (pf : Pathfinder) (g : Grid) : Prop :=
  ∀ current, pqTop pf.m_openSet = some current →
    ¬ (current.index < 0 ∨ current.index ≥ g.cellCount)
      ∧ vecIn pf.m_inClosed current.index
      ∧ (vecGet pf.m_inClosed current.index false = false →
        vecIn pf.m_gScores current.index
          ∧ ((vecGet pf.m_gScores current.index Score.inf).lt current.gScore = false →
            vecIn pf.m_inOpen current.index
              ∧ (current.index = pf.m_goalIndex →
                Pathfinder.reconstructPathSafe
                  { pf with
                    m_openSet := pf.m_openSet.erase current
                    m_inOpen := vecSet pf.m_inOpen current.index false } g)
              ∧ (current.index ≠ pf.m_goalIndex →
                (current.index ≠ pf.m_startIndex →
                    g.setOverlaySafe (pf.toGrid current.index).1 (pf.toGrid current.index).2)
                  ∧ Pathfinder.relaxAllSafe current.index (pf.toGrid current.index).1
                      (pf.toGrid current.index).2 Pathfinder.offsets
                      ({ pf with
                          m_openSet := pf.m_openSet.erase current
                          m_inOpen := vecSet pf.m_inOpen current.index false },
                       if current.index ≠ pf.m_startIndex then
                         g.setOverlay (pf.toGrid current.index).1 (pf.toGrid current.index).2
                           CellOverlay.ClosedSet
                       else g)
                  ∧ vecIn
                      (Pathfinder.offsets.foldl
                        (Pathfinder.relaxNeighbor current.index (pf.toGrid current.index).1
                          (pf.toGrid current.index).2)
                        ({ pf with
                            m_openSet := pf.m_openSet.erase current
                            m_inOpen := vecSet pf.m_inOpen current.index false },
                         if current.index ≠ pf.m_startIndex then
                           g.setOverlay (pf.toGrid current.index).1
                             (pf.toGrid current.index).2 CellOverlay.ClosedSet
                         else g)).1.m_inClosed current.index)))

/-- The rounds of the loop of `Pathfinder::step` are safe, up to `n` rounds. -/
def Pathfinder.stepLoopSafe : Nat → Pathfinder × Grid → Prop
  | 0, _ => True
  | n + 1, s =>
    s.1.m_status = Status.Running →
      Pathfinder.iterateSafe s.1 s.2
        ∧ ∀ s1, Pathfinder.iterate s.1 s.2 = some s1 → Pathfinder.stepLoopSafe n s1

/-- The call `step(iterations)` is safe. -/
def Pathfinder.stepSafe (pf : Pathfinder) (g : Grid) (iterations : Int) : Prop :=
  pf.m_status = Status.Running →
    Pathfinder.stepLoopSafe (if iterations < 1 then 1 else iterations).toNat (pf, g)

/-- One core operation is safe in the state `s`.  The mutators of `Grid` test
`inBounds` themselves before they index `m_cells`. -/
def CoreOp.safe : CoreOp → Pathfinder × Grid → Prop
  | CoreOp.grid _, _ => True
  | CoreOp.reset, s => s.1.resetSafe s.2
  | CoreOp.start, s => s.1.startSafe s.2
  | CoreOp.step n, s => s.1.stepSafe s.2 n

/-- Every operation of the sequence is safe in the state in which it runs. -/
def CoreOp.allSafe : List CoreOp → Pathfinder × Grid → Prop
  | [], _ => True
  | op :: ops, s => op.safe s ∧ ∀ s1, op.run s = some s1 → CoreOp.allSafe ops s1

/-! ## Searches on grids too large to enumerate

On a grid of more than `2^24` cells the arrays of a search cannot be written
out.  Here they are given as functions of the index, and one round of `step`
is restated on that representation (`Frame.iterateF`, proved equal to
`Pathfinder.iterate` on the vectors the functions describe). -/

/-- The vector with the entries `f 0, ..., f (n - 1)`. -/
def vecOf {α : Type} (n : Nat) (f : Int → α) : List α :=
  (List.range n).map (fun (i : Nat) => f (i : Int))

/-- The function `f` with the value at `i` replaced by `v`. -/
def upd {α : Type} (f : Int → α) (i : Int) (v : α) : Int → α :=
  fun j => if j = i then v else f j

/-- The part of a search that does not change: the dimensions, the kind of
every cell, and the stored Start and Goal. -/
structure Frame where
  w : Int
  h : Int
  kF : Int → CellType
  start : Vector2i
  goal : Vector2i

/-- The part of a search that changes, each array as a function of the index. -/
structure FState where
  openSet : List NodeRecord
  gF : Int → Score
  fF : Int → Score
  pF : Int → Int
  oF : Int → Bool
  cF : Int → Bool
  vF : Int → CellOverlay
  seq : Nat
  status : Status

/-- The number of cells of the frame. -/
def Frame.n (fr : Frame) : Nat := (fr.w * fr.h).toNat

/-- The start index that `start` computes. -/
def Frame.si (fr : Frame) : Int := fr.start.y * fr.w + fr.start.x

/-- The goal index that `start` computes. -/
def Frame.gi (fr : Frame) : Int := fr.goal.y * fr.w + fr.goal.x

/-- The grid of a frame with the overlays `vF`. -/
def Frame.grid (fr : Frame) (vF : Int → CellOverlay) : Grid :=
  { m_width := fr.w
    m_height := fr.h
    m_cells := vecOf fr.n fr.kF
    m_overlays := vecOf fr.n vF
    m_start := some fr.start
    m_goal := some fr.goal }

/-- The pathfinder of a frame in the state `st`. -/
def Frame.pf (fr : Frame) (st : FState) : Pathfinder :=
  { m_width := fr.w
    m_height := fr.h
    m_startIndex := fr.si
    m_goalIndex := fr.gi
    m_openSet := st.openSet
    m_gScores := vecOf fr.n st.gF
    m_fScores := vecOf fr.n st.fF
    m_parents := vecOf fr.n st.pF
    m_inOpen := vecOf fr.n st.oF
    m_inClosed := vecOf fr.n st.cF
    m_sequenceCounter := st.seq
    m_status := st.status }

/-- The pathfinder and the grid of a frame in the state `st`. -/
def Frame.pair (fr : Frame) (st : FState) : Pathfinder × Grid :=
  (fr.pf st, fr.grid st.vF)

/-- The predicate `Grid::inBounds` on a frame. -/
def Frame.inB (fr : Frame) (x y : Int) : Bool :=
  if x < 0 ∨ y < 0 then false
  else if x ≥ fr.w then false
  else if y ≥ fr.h then false
  else true

/-- The method `Pathfinder::heuristic` on a frame. -/
def Frame.heur (fr : Frame) (index : Int) : Score :=
  roundF32 ((fr.goal.x - Int.tmod index fr.w).natAbs
    + (fr.goal.y - Int.tdiv index fr.w).natAbs)

/-- The mutator `Grid::setOverlay` on the overlays of a frame. -/
def Frame.setOverlayF (fr : Frame) (vF : Int → CellOverlay) (x y : Int)
    (value : CellOverlay) : Int → CellOverlay :=
  if !fr.inB x y then vF
  else if fr.kF (y * fr.w + x) = CellType.Start ∨ fr.kF (y * fr.w + x) = CellType.Goal then vF
  else upd vF (y * fr.w + x) value

/-- The body of the neighbour loop of `Pathfinder::step` on a frame. -/
def Frame.relaxF (fr : Frame) (cur cx cy : Int) (st : FState) (offset : Int × Int) :
    FState :=
  if !fr.inB (cx + offset.1) (cy + offset.2) then st
  else if st.cF ((cy + offset.2) * fr.w + (cx + offset.1)) then st
  else if fr.kF ((cy + offset.2) * fr.w + (cx + offset.1)) = CellType.Obstacle then st
  else if ((st.gF cur).add (Score.fin 1)).lt
      (st.gF ((cy + offset.2) * fr.w + (cx + offset.1))) then
    { openSet :=
        { fScore := ((st.gF cur).add (Score.fin 1)).add
            (fr.heur ((cy + offset.2) * fr.w + (cx + offset.1)))
          gScore := (st.gF cur).add (Score.fin 1)
          index := (cy + offset.2) * fr.w + (cx + offset.1)
          sequence := st.seq } :: st.openSet
      gF := upd st.gF ((cy + offset.2) * fr.w + (cx + offset.1))
        ((st.gF cur).add (Score.fin 1))
      fF := upd st.fF ((cy + offset.2) * fr.w + (cx + offset.1))
        (((st.gF cur).add (Score.fin 1)).add
          (fr.heur ((cy + offset.2) * fr.w + (cx + offset.1))))
      pF := upd st.pF ((cy + offset.2) * fr.w + (cx + offset.1)) cur
      oF := upd st.oF ((cy + offset.2) * fr.w + (cx + offset.1)) true
      cF := st.cF
      vF :=
        if (cy + offset.2) * fr.w + (cx + offset.1) ≠ fr.gi
            ∧ (cy + offset.2) * fr.w + (cx + offset.1) ≠ fr.si then
          fr.setOverlayF st.vF (cx + offset.1) (cy + offset.2) CellOverlay.OpenSet
        else st.vF
      seq := st.seq + 1
      status := st.status }
  else st

/-- One round of the loop of `Pathfinder::step` on a frame.  When the popped
record is the Goal the overlays are left as they are: the Path overlays that
`reconstructPath` writes are not part of this representation. -/
def Frame.iterateF (fr : Frame) (st : FState) : FState :=
  match pqTop st.openSet with
  | none => { st with status := Status.NoPath }
  | some current =>
    if current.index < 0 ∨ current.index ≥ (fr.n : Int) then
      { st with openSet := st.openSet.erase current }
    else if st.cF current.index then { st with openSet := st.openSet.erase current }
    else if (st.gF current.index).lt current.gScore then
      { st with openSet := st.openSet.erase current }
    else if current.index = fr.gi then
      { st with
        openSet := st.openSet.erase current
        oF := upd st.oF current.index false
        status := Status.PathFound }
    else
      let s := Pathfinder.offsets.foldl
        (fr.relaxF current.index (Int.tmod current.index fr.w) (Int.tdiv current.index fr.w))
        { st with
          openSet := st.openSet.erase current
          oF := upd st.oF current.index false
          vF :=
            if current.index ≠ fr.si then
              fr.setOverlayF st.vF (Int.tmod current.index fr.w) (Int.tdiv current.index fr.w)
                CellOverlay.ClosedSet
            else st.vF }
      { s with cF := upd s.cF current.index true }

/-- The state that `start` sets up on a frame. -/
def Frame.startF (fr : Frame) : FState :=
  { openSet := [{ fScore := fr.heur fr.si, gScore := Score.fin 0, index := fr.si, sequence := 0 }]
    gF := upd (fun _ => Score.inf) fr.si (Score.fin 0)
    fF := upd (fun _ => Score.inf) fr.si (fr.heur fr.si)
    pF := upd (fun _ => -1) fr.si (-1)
    oF := upd (fun _ => false) fr.si true
    cF := fun _ => false
    vF := fun _ => CellOverlay.None
    seq := 1
    status := Status.Running }

/-- The state after `k` rounds on a frame. -/
def Frame.runF (fr : Frame) : Nat → FState → FState
  | 0, st => st
  | k + 1, st => Frame.runF fr k (fr.iterateF st)

/-! ### A grid on which the scores saturate

Width `2^24 + 5`, height 3.  The Start is at `(0, 1)`; for `x < 2^24` the cells
of rows 0 and 2 are Obstacles, so that the search walks the corridor of row 1
and reaches the cell `(2^24, 1)` with g score `2^24`.  Beyond it lies a block of
5 by 3 cells with the Goal at `(2^24 + 4, 0)` and Obstacles at `(2^24 + 3, 0)`,
`(2^24 + 1, 1)` and `(2^24 + 3, 1)`:

    row 0:   . . . # G
    row 1:   c # . # .
    row 2:   . . . . .

(`c` is the corridor's exit).  The shortest way from `c` to the Goal is through
row 2 and has 7 moves. -/

/-- The kind of the cell of index `j` of the long grid. -/
def longKind (j : Int) : CellType :=
  if j = 16777221 then CellType.Start
  else if j = 16777220 then CellType.Goal
  else if (j / 16777221 ≠ 1 ∧ j % 16777221 < 16777216)
      ∨ j = 16777219 ∨ j = 33554438 ∨ j = 33554440 then CellType.Obstacle
  else CellType.Empty

/-- The frame of the long grid. -/
def longFrame : Frame :=
  { w := 16777221
    h := 3
    kF := longKind
    start := ⟨0, 1⟩
    goal := ⟨16777220, 0⟩ }

/-- The long grid, before a search: no overlays. -/
def longGrid : Grid := longFrame.grid (fun _ => CellOverlay.None)

/-- The f score of the corridor cell `(i, 1)` of the long grid. -/
def longF (i : Int) : Score :=
  if i = 0 then longFrame.heur 16777221
  else (Score.fin i.toNat).add (longFrame.heur (16777221 + i))

/-- The state of the search on the long grid after `k` rounds, for
`k <= 2^24`: the cells `(0, 1)` to `(k - 1, 1)` are closed and `(k, 1)` is the
one open cell. -/
def longCorridor (k : Nat) : FState :=
  { openSet :=
      [{ fScore := longF k
         gScore := Score.fin k
         index := 16777221 + (k : Int)
         sequence := k }]
    gF := fun j => if 16777221 ≤ j ∧ j ≤ 16777221 + (k : Int) then Score.fin (j - 16777221).toNat
      else Score.inf
    fF := fun j => if 16777221 ≤ j ∧ j ≤ 16777221 + (k : Int) then longF (j - 16777221)
      else Score.inf
    pF := fun j => if 16777221 < j ∧ j ≤ 16777221 + (k : Int) then j - 1 else -1
    oF := fun j => decide (j = 16777221 + (k : Int))
    cF := fun j => decide (16777221 ≤ j ∧ j < 16777221 + (k : Int))
    vF := fun j =>
      if 16777221 < j ∧ j < 16777221 + (k : Int) then CellOverlay.ClosedSet
      else if j = 16777221 + (k : Int) ∧ 0 < k then CellOverlay.OpenSet
      else CellOverlay.None
    seq := k + 1
    status := Status.Running }

/-- The state of the search on the long grid when the record of the Goal is
about to be popped: 9 rounds after the corridor. -/
def longLast : FState := longFrame.runF 9 (longCorridor 16777216)

/-- The state in which the search on the long grid ends: the record of the Goal
has been popped. -/
def longEnd : FState := longFrame.iterateF longLast

/-- The indices of the corridor cells `(i, 1), ..., (0, 1)` of the long grid. -/
def longWalk : Nat → List Int
  | 0 => [16777221]
  | i + 1 => (16777221 + ((i + 1 : Nat) : Int)) :: longWalk i

/-- The cells that `reconstructPath` visits at the end of the search on the
long grid, from the Goal back to the Start: 9 cells of the block, then the
corridor. -/
def longCells : List Int :=
  [16777220, 33554441, 50331662, 50331661, 50331660, 33554439, 16777218, 16777217, 16777216]
    ++ longWalk 16777216

/-- A path of the long grid from the Start to the Goal: along the corridor and
through row 2 of the block. -/
def longShort : List Vector2i :=
  (List.range (16777216 + 1)).map (fun (i : Nat) => (⟨(i : Int), 1⟩ : Vector2i))
    ++ [⟨16777216, 2⟩, ⟨16777217, 2⟩, ⟨16777218, 2⟩, ⟨16777219, 2⟩, ⟨16777220, 2⟩,
        ⟨16777220, 1⟩, ⟨16777220, 0⟩]

/-! ## Vectors -/

theorem vecGet_ofNat {α : Type} (v : List α) (n : Nat) (d : α) :
    vecGet v (n : Int) d = v.getD n d := rfl

theorem vecSet_ofNat {α : Type} (v : List α) (n : Nat) (a : α) :
    vecSet v (n : Int) a = v.set n a := rfl

theorem vecSet_length {α : Type} (v : List α) (i : Int) (a : α) :
    (vecSet v i a).length = v.length := by
  cases i <;> simp [vecSet]

theorem vecGet_vecSet_eq {α : Type} (v : List α) (i : Int) (a d : α)
    (h0 : 0 ≤ i) (h1 : i < v.length) : vecGet (vecSet v i a) i d = a := by
  cases i with
  | ofNat n =>
    have hn : n < v.length := by
      have : (n : Int) < v.length := h1
      omega
    simp [vecGet, vecSet, List.getD_eq_getElem?_getD, List.getElem?_set, hn]
  | negSucc n => exact absurd h0 (by simp [Int.negSucc_lt_zero])

theorem vecGet_vecSet_ne {α : Type} (v : List α) (i j : Int) (a d : α)
    (h : i ≠ j) : vecGet (vecSet v i a) j d = vecGet v j d := by
  cases i with
  | ofNat n =>
    cases j with
    | ofNat m =>
      have hnm : n ≠ m := fun e => h (by rw [e])
      simp [vecGet, vecSet, List.getD_eq_getElem?_getD, List.getElem?_set, hnm]
    | negSucc m => rfl
  | negSucc n => rfl

theorem vecFill_eq {α : Type} (d : α) (n : Nat) (v : List α) (h : n ≤ v.length) :
    vecFill v n d = List.replicate n d ++ v.drop n := by
  induction n with
  | zero => simp [vecFill]
  | succ k ih =>
    have hk : k ≤ v.length := by omega
    have ih1 := ih hk
    unfold vecFill at ih1 ⊢
    rw [List.range_succ, List.foldl_append, ih1]
    simp only [List.foldl_cons, List.foldl_nil]
    apply List.ext_getElem
    · simp; omega
    · intro i h1 h2
      simp only [List.getElem_set, List.getElem_append, List.length_replicate,
        List.getElem_replicate, List.getElem_drop]
      by_cases hik : k = i
      · subst hik; simp
      · simp only [hik, if_false]
        by_cases hlt : i < k
        · have : i < k + 1 := by omega
          simp [hlt, this]
        · have h3 : ¬ i < k + 1 := by omega
          simp only [hlt, h3, dite_false]
          congr 1
          omega

theorem vecFill_length_eq {α : Type} (d : α) (v : List α) :
    vecFill v v.length d = List.replicate v.length d := by
  rw [vecFill_eq d v.length v (le_refl _)]
  simp

theorem vecGet_replicate {α : Type} (n : Nat) (a d : α) (i : Int)
    (h0 : 0 ≤ i) (h1 : i < n) : vecGet (List.replicate n a) i d = a := by
  cases i with
  | ofNat m =>
    have hm : m < n := by
      have : (m : Int) < n := h1
      omega
    simp [vecGet, List.getD_eq_getElem?_getD, hm]
  | negSucc m => exact absurd h0 (by simp [Int.negSucc_lt_zero])

theorem vecGet_replicate_self {α : Type} (n : Nat) (d : α) (i : Int) :
    vecGet (List.replicate n d) i d = d := by
  cases i with
  | ofNat m =>
    simp only [vecGet, List.getD_eq_getElem?_getD]
    by_cases hm : m < n
    · simp [hm]
    · simp [List.getElem?_eq_none (l := List.replicate n d) (by simpa using hm)]
  | negSucc m => rfl

theorem vecResize_length {α : Type} (v : List α) (n : Nat) (d : α) :
    (vecResize v n d).length = n := by
  simp [vecResize]
  omega

theorem vecFill_length {α : Type} (d : α) (n : Nat) (v : List α) :
    (vecFill v n d).length = v.length := by
  induction n with
  | zero => simp [vecFill]
  | succ k ih =>
    unfold vecFill at ih ⊢
    rw [List.range_succ, List.foldl_append]
    simp [ih]

theorem vecGet_map {α β : Type} (f : α → β) (v : List α) (i : Int) (d : α) :
    vecGet (v.map f) i (f d) = f (vecGet v i d) := by
  cases i with
  | ofNat n =>
    simp only [vecGet, List.getD_eq_getElem?_getD, List.getElem?_map]
    cases v[n]? <;> rfl
  | negSucc n => rfl

/-! ## Cell indices -/

theorem Grid.inBounds_iff (g : Grid) (x y : Int) :
    g.inBounds x y = true ↔ 0 ≤ x ∧ 0 ≤ y ∧ x < g.m_width ∧ y < g.m_height := by
  unfold Grid.inBounds
  by_cases h1 : x < 0 ∨ y < 0
  · simp only [h1, if_true]
    constructor
    · intro h; cases h
    · intro h; omega
  · simp only [h1, if_false]
    by_cases h2 : x ≥ g.m_width
    · simp only [h2, if_true]
      constructor
      · intro h; cases h
      · intro h; omega
    · simp only [h2, if_false]
      by_cases h3 : y ≥ g.m_height
      · simp only [h3, if_true]
        constructor
        · intro h; cases h
        · intro h; omega
      · simp only [h3, if_false]
        constructor
        · intro _; omega
        · intro _; trivial

theorem Grid.WF.length_cast (g : Grid) (h : g.WF) :
    (g.m_cells.length : Int) = g.m_width * g.m_height := by
  obtain ⟨hw, hh, hc, _⟩ := h
  rw [hc]
  have : 0 ≤ g.m_width * g.m_height := by positivity
  omega

theorem Grid.WF.overlays_length (g : Grid) (h : g.WF) :
    g.m_overlays.length = g.m_cells.length := by
  obtain ⟨_, _, hc, ho⟩ := h
  rw [hc, ho]

theorem Grid.index_range (g : Grid) (h : g.WF) (x y : Int) (hb : g.inBounds x y = true) :
    0 ≤ g.index x y ∧ g.index x y < g.m_cells.length := by
  rw [Grid.WF.length_cast g h]
  rw [Grid.inBounds_iff] at hb
  obtain ⟨hx, hy, hxw, hyh⟩ := hb
  unfold Grid.index
  have hw : 1 ≤ g.m_width := h.1
  constructor
  · have : 0 ≤ y * g.m_width := by positivity
    omega
  · have h1 : (y + 1) * g.m_width ≤ g.m_height * g.m_width :=
      Int.mul_le_mul_of_nonneg_right (by omega) (by omega)
    have h2 : (y + 1) * g.m_width = y * g.m_width + g.m_width := by ring
    have h3 : g.m_height * g.m_width = g.m_width * g.m_height := by ring
    omega

theorem index_unique (w x y x1 y1 : Int) (hx : 0 ≤ x) (hxw : x < w)
    (hx1 : 0 ≤ x1) (hx1w : x1 < w) (h : y * w + x = y1 * w + x1) : x = x1 ∧ y = y1 := by
  have hw : 0 < w := by omega
  have e1 : (y * w + x) % w = x := by
    rw [add_comm, Int.add_mul_emod_self, Int.emod_eq_of_lt hx hxw]
  have e2 : (y1 * w + x1) % w = x1 := by
    rw [add_comm, Int.add_mul_emod_self, Int.emod_eq_of_lt hx1 hx1w]
  have hxx : x = x1 := by rw [← e1, ← e2, h]
  refine ⟨hxx, ?_⟩
  subst hxx
  have : y * w = y1 * w := by omega
  exact Int.eq_of_mul_eq_mul_right (by omega) this

theorem Grid.index_inj (g : Grid) (x y x1 y1 : Int)
    (hb : g.inBounds x y = true) (hb1 : g.inBounds x1 y1 = true)
    (he : g.index x y = g.index x1 y1) : x = x1 ∧ y = y1 := by
  rw [Grid.inBounds_iff] at hb hb1
  exact index_unique g.m_width x y x1 y1 hb.1 hb.2.2.1 hb1.1 hb1.2.2.1 he

theorem toGrid_of_coords (pf : Pathfinder) (x y : Int) (hx : 0 ≤ x) (hy : 0 ≤ y)
    (hxw : x < pf.m_width) : pf.toGrid (y * pf.m_width + x) = (x, y) := by
  have hw : 0 < pf.m_width := by omega
  have hn : 0 ≤ y * pf.m_width + x := by
    have : 0 ≤ y * pf.m_width := by positivity
    omega
  unfold Pathfinder.toGrid
  rw [Int.tmod_eq_emod hn (by omega), Int.tdiv_eq_ediv hn (by omega)]
  have e1 : (y * pf.m_width + x) % pf.m_width = x := by
    rw [add_comm, Int.add_mul_emod_self, Int.emod_eq_of_lt hx hxw]
  have e2 : (y * pf.m_width + x) / pf.m_width = y := by
    rw [add_comm, Int.add_mul_ediv_right _ _ (by omega), Int.ediv_eq_zero_of_lt hx hxw]
    simp
  rw [e1, e2]

theorem Pathfinder.toGrid_index (pf : Pathfinder) (g : Grid) (hw : pf.m_width = g.m_width)
    (x y : Int) (hb : g.inBounds x y = true) : pf.toGrid (g.index x y) = (x, y) := by
  rw [Grid.inBounds_iff] at hb
  unfold Grid.index
  rw [← hw]
  exact toGrid_of_coords pf x y hb.1 hb.2.1 (by omega)

/-! ## Grid mutators -/

theorem Grid.cells_set_get (g : Grid) (hwf : g.WF) (x0 y0 x y : Int) (v d : CellType)
    (hb0 : g.inBounds x0 y0 = true) (hb : g.inBounds x y = true) :
    vecGet (vecSet g.m_cells (g.index x0 y0) v) (g.index x y) d
      = if x = x0 ∧ y = y0 then v else vecGet g.m_cells (g.index x y) d := by
  by_cases h : x = x0 ∧ y = y0
  · obtain ⟨rfl, rfl⟩ := h
    have hr := Grid.index_range g hwf x y hb
    simp [vecGet_vecSet_eq _ _ _ _ hr.1 hr.2]
  · have hne : g.index x0 y0 ≠ g.index x y := by
      intro he
      have := Grid.index_inj g x0 y0 x y hb0 hb he
      exact h ⟨this.1.symm, this.2.symm⟩
    simp [h, vecGet_vecSet_ne _ _ _ _ _ hne]

theorem Grid.ctor_WF (width height : Int) (hw : 1 ≤ width) (hh : 1 ≤ height) :
    (Grid.ctor width height).WF := by
  simp [Grid.WF, Grid.ctor, hw, hh]

theorem Grid.ctor_cell (width height x y : Int) :
    (Grid.ctor width height).cell x y = CellType.Empty := by
  simp [Grid.cell, Grid.ctor, vecGet_replicate_self]

theorem Grid.ctor_Placed (width height : Int) : (Grid.ctor width height).Placed := by
  refine ⟨?_, ?_, ?_, ?_, ?_⟩
  · intro x y _
    rw [Grid.ctor_cell]
    simp [Grid.ctor]
  · intro x y _
    rw [Grid.ctor_cell]
    simp [Grid.ctor]
  · intro p hp; simp [Grid.ctor] at hp
  · intro p hp; simp [Grid.ctor] at hp
  · intro p q hp; simp [Grid.ctor] at hp

theorem Grid.inBounds_congr (g g1 : Grid) (hw : g1.m_width = g.m_width)
    (hh : g1.m_height = g.m_height) (x y : Int) : g1.inBounds x y = g.inBounds x y := by
  simp [Grid.inBounds, hw, hh]

theorem Grid.list_set_get {α : Type} (g : Grid) (hwf : g.WF) (cs : List α)
    (hlen : cs.length = g.m_cells.length) (x0 y0 x y : Int) (v d : α)
    (hb0 : g.inBounds x0 y0 = true) (hb : g.inBounds x y = true) :
    vecGet (vecSet cs (g.index x0 y0) v) (g.index x y) d
      = if x = x0 ∧ y = y0 then v else vecGet cs (g.index x y) d := by
  by_cases h : x = x0 ∧ y = y0
  · obtain ⟨rfl, rfl⟩ := h
    have hr := Grid.index_range g hwf x y hb
    rw [← hlen] at hr
    simp [vecGet_vecSet_eq _ _ _ _ hr.1 hr.2]
  · have hne : g.index x0 y0 ≠ g.index x y := by
      intro he
      have := Grid.index_inj g x0 y0 x y hb0 hb he
      exact h ⟨this.1.symm, this.2.symm⟩
    simp [h, vecGet_vecSet_ne _ _ _ _ _ hne]

theorem sameSpot_iff (a : Option Vector2i) (b : Vector2i) :
    sameSpot a b = true ↔ a = some b := by
  cases a with
  | none => simp [sameSpot]
  | some v =>
    cases v with
    | mk vx vy =>
      cases b with
      | mk bx b_y => simp [sameSpot]

theorem Grid.setObstacle_spec (g : Grid) (x y : Int) :
    (g.inBounds x y = true ∧ g.cell x y ≠ CellType.Start ∧ g.cell x y ≠ CellType.Goal
        ∧ g.setObstacle x y
          = (true, { g with m_cells := vecSet g.m_cells (g.index x y) CellType.Obstacle }))
      ∨ ((g.inBounds x y = false ∨ g.cell x y = CellType.Start ∨ g.cell x y = CellType.Goal)
        ∧ g.setObstacle x y = (false, g)) := by
  by_cases hb : g.inBounds x y = true
  · by_cases hk : g.cell x y = CellType.Start ∨ g.cell x y = CellType.Goal
    · right
      refine ⟨Or.inr hk, ?_⟩
      unfold Grid.cell at hk
      simp [Grid.setObstacle, hb, hk]
    · left
      refine ⟨hb, fun h => hk (Or.inl h), fun h => hk (Or.inr h), ?_⟩
      unfold Grid.cell at hk
      simp [Grid.setObstacle, hb, hk]
  · right
    simp only [Bool.not_eq_true] at hb
    exact ⟨Or.inl hb, by simp [Grid.setObstacle, hb]⟩

theorem Grid.clearCell_spec (g : Grid) (x y : Int) :
    (g.inBounds x y = true ∧ g.clearCell x y
        = (true,
           { g with
             m_cells := vecSet g.m_cells (g.index x y) CellType.Empty
             m_start := if g.cell x y = CellType.Start then none else g.m_start
             m_goal := if g.cell x y = CellType.Goal then none else g.m_goal }))
      ∨ (g.inBounds x y = false ∧ g.clearCell x y = (false, g)) := by
  by_cases hb : g.inBounds x y = true
  · left
    refine ⟨hb, ?_⟩
    unfold Grid.cell
    by_cases h1 : vecGet g.m_cells (g.index x y) CellType.Empty = CellType.Start
    · simp [Grid.clearCell, hb, h1]
    · by_cases h2 : vecGet g.m_cells (g.index x y) CellType.Empty = CellType.Goal
      · simp [Grid.clearCell, hb, h2]
      · simp [Grid.clearCell, hb, h1, h2]
  · right
    simp only [Bool.not_eq_true] at hb
    exact ⟨hb, by simp [Grid.clearCell, hb]⟩

/-- The cell list after the old marker of `setStart` or `setGoal` is erased. -/
theorem Grid.setStart_spec (g : Grid) (c : Vector2i) :
    (g.inBounds c.x c.y = true ∧ g.cell c.x c.y ≠ CellType.Obstacle ∧ g.m_goal ≠ some c
        ∧ g.setStart c
          = (true,
             { g with
               m_start := some c
               m_cells := vecSet
                 (match g.m_start with
                  | some old => vecSet g.m_cells (g.index old.x old.y) CellType.Empty
                  | none => g.m_cells)
                 (g.index c.x c.y) CellType.Start }))
      ∨ ((g.inBounds c.x c.y = false ∨ g.cell c.x c.y = CellType.Obstacle ∨ g.m_goal = some c)
        ∧ g.setStart c = (false, g)) := by
  by_cases hb : g.inBounds c.x c.y = true
  · by_cases hk : g.cell c.x c.y = CellType.Obstacle
    · right
      refine ⟨Or.inr (Or.inl hk), ?_⟩
      unfold Grid.cell at hk
      simp [Grid.setStart, hb, hk]
    · by_cases hs : g.m_goal = some c
      · right
        refine ⟨Or.inr (Or.inr hs), ?_⟩
        have := (sameSpot_iff g.m_goal c).2 hs
        simp [Grid.setStart, hb, this]
      · left
        refine ⟨hb, hk, hs, ?_⟩
        have hss : sameSpot g.m_goal c = false := by
          cases h : sameSpot g.m_goal c
          · rfl
          · exact absurd ((sameSpot_iff g.m_goal c).1 h) hs
        unfold Grid.cell at hk
        simp [Grid.setStart, hb, hk, hss] <;> (cases g.m_start <;> rfl)
  · right
    simp only [Bool.not_eq_true] at hb
    exact ⟨Or.inl hb, by simp [Grid.setStart, hb]⟩

theorem Grid.setGoal_spec (g : Grid) (c : Vector2i) :
    (g.inBounds c.x c.y = true ∧ g.cell c.x c.y ≠ CellType.Obstacle ∧ g.m_start ≠ some c
        ∧ g.setGoal c
          = (true,
             { g with
               m_goal := some c
               m_cells := vecSet
                 (match g.m_goal with
                  | some old => vecSet g.m_cells (g.index old.x old.y) CellType.Empty
                  | none => g.m_cells)
                 (g.index c.x c.y) CellType.Goal }))
      ∨ ((g.inBounds c.x c.y = false ∨ g.cell c.x c.y = CellType.Obstacle ∨ g.m_start = some c)
        ∧ g.setGoal c = (false, g)) := by
  by_cases hb : g.inBounds c.x c.y = true
  · by_cases hk : g.cell c.x c.y = CellType.Obstacle
    · right
      refine ⟨Or.inr (Or.inl hk), ?_⟩
      unfold Grid.cell at hk
      simp [Grid.setGoal, hb, hk]
    · by_cases hs : g.m_start = some c
      · right
        refine ⟨Or.inr (Or.inr hs), ?_⟩
        have := (sameSpot_iff g.m_start c).2 hs
        simp [Grid.setGoal, hb, this]
      · left
        refine ⟨hb, hk, hs, ?_⟩
        have hss : sameSpot g.m_start c = false := by
          cases h : sameSpot g.m_start c
          · rfl
          · exact absurd ((sameSpot_iff g.m_start c).1 h) hs
        unfold Grid.cell at hk
        simp [Grid.setGoal, hb, hk, hss] <;> (cases g.m_goal <;> rfl)
  · right
    simp only [Bool.not_eq_true] at hb
    exact ⟨Or.inl hb, by simp [Grid.setGoal, hb]⟩

theorem Grid.setOverlay_spec (g : Grid) (x y : Int) (v : CellOverlay) :
    (g.inBounds x y = true ∧ g.cell x y ≠ CellType.Start ∧ g.cell x y ≠ CellType.Goal
        ∧ g.setOverlay x y v
          = { g with m_overlays := vecSet g.m_overlays (g.index x y) v })
      ∨ ((g.inBounds x y = false ∨ g.cell x y = CellType.Start ∨ g.cell x y = CellType.Goal)
        ∧ g.setOverlay x y v = g) := by
  by_cases hb : g.inBounds x y = true
  · by_cases hk : g.cell x y = CellType.Start ∨ g.cell x y = CellType.Goal
    · right
      refine ⟨Or.inr hk, ?_⟩
      unfold Grid.cell at hk
      simp [Grid.setOverlay, hb, hk]
    · left
      refine ⟨hb, fun h => hk (Or.inl h), fun h => hk (Or.inr h), ?_⟩
      unfold Grid.cell at hk
      simp [Grid.setOverlay, hb, hk]
  · right
    simp only [Bool.not_eq_true] at hb
    exact ⟨Or.inl hb, by simp [Grid.setOverlay, hb]⟩

theorem Grid.WF_of (g g1 : Grid) (h : g.WF) (hw : g1.m_width = g.m_width)
    (hh : g1.m_height = g.m_height) (hc : g1.m_cells.length = g.m_cells.length)
    (ho : g1.m_overlays.length = g.m_overlays.length) : g1.WF := by
  unfold Grid.WF at h ⊢
  rw [hw, hh, hc, ho]
  exact h

theorem Grid.cell_of_set (g g1 : Grid) (hwf : g.WF) (hw : g1.m_width = g.m_width)
    (cs : List CellType) (hlen : cs.length = g.m_cells.length) (x0 y0 : Int) (v : CellType)
    (hc : g1.m_cells = vecSet cs (g.index x0 y0) v) (hb0 : g.inBounds x0 y0 = true)
    (x y : Int) (hb : g.inBounds x y = true) :
    g1.cell x y = if x = x0 ∧ y = y0 then v else vecGet cs (g.index x y) CellType.Empty := by
  have hi : g1.index x y = g.index x y := by simp [Grid.index, hw]
  unfold Grid.cell
  rw [hi, hc]
  exact Grid.list_set_get g hwf cs hlen x0 y0 x y v CellType.Empty hb0 hb

theorem Vector2i.eq_mk_iff (p : Vector2i) (x y : Int) :
    p = { x := x, y := y } ↔ p.x = x ∧ p.y = y := by
  cases p
  simp

theorem Grid.Placed_update (g g1 : Grid) (hwf : g.WF) (hp : g.Placed) (x0 y0 : Int)
    (hb0 : g.inBounds x0 y0 = true) (v : CellType) (hv : v ≠ CellType.Start)
    (hv1 : v ≠ CellType.Goal) (hw : g1.m_width = g.m_width) (hh : g1.m_height = g.m_height)
    (hc : g1.m_cells = vecSet g.m_cells (g.index x0 y0) v)
    (hs : g1.m_start = if g.cell x0 y0 = CellType.Start then none else g.m_start)
    (ht : g1.m_goal = if g.cell x0 y0 = CellType.Goal then none else g.m_goal) :
    g1.Placed := by
  obtain ⟨hp1, hp2, hp3, hp4, hp5⟩ := hp
  have hcell : ∀ x y, g.inBounds x y = true →
      g1.cell x y = if x = x0 ∧ y = y0 then v else g.cell x y := by
    intro x y hb
    exact Grid.cell_of_set g g1 hwf hw g.m_cells rfl x0 y0 v hc hb0 x y hb
  have hib : ∀ x y, g1.inBounds x y = g.inBounds x y := Grid.inBounds_congr g g1 hw hh
  unfold Grid.Placed
  simp only [hib, hs, ht]
  refine ⟨?_, ?_, ?_, ?_, ?_⟩
  · intro x y hb
    have hb1 : g.inBounds x y = true := hb
    rw [hcell x y hb1]
    by_cases he : x = x0 ∧ y = y0
    · obtain ⟨rfl, rfl⟩ := he
      simp only [and_self, if_true]
      constructor
      · intro h; exact absurd h hv
      · intro h
        by_cases hk : g.cell x y = CellType.Start
        · simp [hk] at h
        · simp only [hk, if_false] at h
          exact absurd ((hp1 x y hb1).2 h) hk
    · simp only [he, if_false]
      rw [hp1 x y hb1]
      by_cases hk : g.cell x0 y0 = CellType.Start
      · have h0 := (hp1 x0 y0 hb0).1 hk
        simp only [hk, if_true]
        constructor
        · intro h
          rw [h0] at h
          simp only [Option.some.injEq, Vector2i.mk.injEq] at h
          exact absurd ⟨h.1.symm, h.2.symm⟩ he
        · intro h; cases h
      · simp [hk]
  · intro x y hb
    have hb1 : g.inBounds x y = true := hb
    rw [hcell x y hb1]
    by_cases he : x = x0 ∧ y = y0
    · obtain ⟨rfl, rfl⟩ := he
      simp only [and_self, if_true]
      constructor
      · intro h; exact absurd h hv1
      · intro h
        by_cases hk : g.cell x y = CellType.Goal
        · simp [hk] at h
        · simp only [hk, if_false] at h
          exact absurd ((hp2 x y hb1).2 h) hk
    · simp only [he, if_false]
      rw [hp2 x y hb1]
      by_cases hk : g.cell x0 y0 = CellType.Goal
      · have h0 := (hp2 x0 y0 hb0).1 hk
        simp only [hk, if_true]
        constructor
        · intro h
          rw [h0] at h
          simp only [Option.some.injEq, Vector2i.mk.injEq] at h
          exact absurd ⟨h.1.symm, h.2.symm⟩ he
        · intro h; cases h
      · simp [hk]
  · intro p h
    by_cases hk : g.cell x0 y0 = CellType.Start
    · simp [hk] at h
    · simp only [hk, if_false] at h
      exact hp3 p h
  · intro p h
    by_cases hk : g.cell x0 y0 = CellType.Goal
    · simp [hk] at h
    · simp only [hk, if_false] at h
      exact hp4 p h
  · intro p q h1 h2
    by_cases hk : g.cell x0 y0 = CellType.Start
    · simp [hk] at h1
    · by_cases hk1 : g.cell x0 y0 = CellType.Goal
      · simp [hk1] at h2
      · simp only [hk, if_false] at h1
        simp only [hk1, if_false] at h2
        exact hp5 p q h1 h2

theorem Grid.setStart_cell (g : Grid) (hwf : g.WF) (hp : g.Placed) (c : Vector2i)
    (hb : g.inBounds c.x c.y = true) (g1 : Grid) (hw : g1.m_width = g.m_width)
    (hc : g1.m_cells = vecSet
      (match g.m_start with
       | some old => vecSet g.m_cells (g.index old.x old.y) CellType.Empty
       | none => g.m_cells)
      (g.index c.x c.y) CellType.Start)
    (x y : Int) (hb1 : g.inBounds x y = true) :
    g1.cell x y = if c = { x := x, y := y } then CellType.Start
      else if g.m_start = some { x := x, y := y } then CellType.Empty else g.cell x y := by
  have hlen : (match g.m_start with
      | some old => vecSet g.m_cells (g.index old.x old.y) CellType.Empty
      | none => g.m_cells).length = g.m_cells.length := by
    cases g.m_start <;> simp [vecSet_length]
  rw [Grid.cell_of_set g g1 hwf hw _ hlen c.x c.y CellType.Start hc hb x y hb1]
  by_cases hxy : c = { x := x, y := y }
  · rw [if_pos hxy, if_pos ((Vector2i.eq_mk_iff c x y).1 hxy |>.imp Eq.symm Eq.symm)]
  · rw [if_neg hxy, if_neg (fun h => hxy ((Vector2i.eq_mk_iff c x y).2 ⟨h.1.symm, h.2.symm⟩))]
    cases hs : g.m_start with
    | none => simp [Grid.cell]
    | some old =>
      have hbo := hp.2.2.1 old hs
      show vecGet (vecSet g.m_cells (g.index old.x old.y) CellType.Empty) (g.index x y)
        CellType.Empty = _
      rw [Grid.list_set_get g hwf g.m_cells rfl old.x old.y x y _ _ hbo hb1]
      by_cases ho : old = { x := x, y := y }
      · rw [if_pos ((Vector2i.eq_mk_iff old x y).1 ho |>.imp Eq.symm Eq.symm),
          if_pos (by rw [ho])]
      · rw [if_neg (fun h => ho ((Vector2i.eq_mk_iff old x y).2 ⟨h.1.symm, h.2.symm⟩)),
          if_neg (fun h => ho (Option.some.inj h))]
        rfl

theorem Grid.setGoal_cell (g : Grid) (hwf : g.WF) (hp : g.Placed) (c : Vector2i)
    (hb : g.inBounds c.x c.y = true) (g1 : Grid) (hw : g1.m_width = g.m_width)
    (hc : g1.m_cells = vecSet
      (match g.m_goal with
       | some old => vecSet g.m_cells (g.index old.x old.y) CellType.Empty
       | none => g.m_cells)
      (g.index c.x c.y) CellType.Goal)
    (x y : Int) (hb1 : g.inBounds x y = true) :
    g1.cell x y = if c = { x := x, y := y } then CellType.Goal
      else if g.m_goal = some { x := x, y := y } then CellType.Empty else g.cell x y := by
  have hlen : (match g.m_goal with
      | some old => vecSet g.m_cells (g.index old.x old.y) CellType.Empty
      | none => g.m_cells).length = g.m_cells.length := by
    cases g.m_goal <;> simp [vecSet_length]
  rw [Grid.cell_of_set g g1 hwf hw _ hlen c.x c.y CellType.Goal hc hb x y hb1]
  by_cases hxy : c = { x := x, y := y }
  · rw [if_pos hxy, if_pos ((Vector2i.eq_mk_iff c x y).1 hxy |>.imp Eq.symm Eq.symm)]
  · rw [if_neg hxy, if_neg (fun h => hxy ((Vector2i.eq_mk_iff c x y).2 ⟨h.1.symm, h.2.symm⟩))]
    cases hs : g.m_goal with
    | none => simp [Grid.cell]
    | some old =>
      have hbo := hp.2.2.2.1 old hs
      show vecGet (vecSet g.m_cells (g.index old.x old.y) CellType.Empty) (g.index x y)
        CellType.Empty = _
      rw [Grid.list_set_get g hwf g.m_cells rfl old.x old.y x y _ _ hbo hb1]
      by_cases ho : old = { x := x, y := y }
      · rw [if_pos ((Vector2i.eq_mk_iff old x y).1 ho |>.imp Eq.symm Eq.symm),
          if_pos (by rw [ho])]
      · rw [if_neg (fun h => ho ((Vector2i.eq_mk_iff old x y).2 ⟨h.1.symm, h.2.symm⟩)),
          if_neg (fun h => ho (Option.some.inj h))]
        rfl

theorem Grid.setStart_ok (g : Grid) (c : Vector2i) (hb : g.inBounds c.x c.y = true)
    (hk : g.cell c.x c.y ≠ CellType.Obstacle) (hng : g.m_goal ≠ some c) :
    ∃ g1, g.setStart c = (true, g1) ∧ g1.m_width = g.m_width ∧ g1.m_height = g.m_height
      ∧ g1.m_cells = vecSet
          (match g.m_start with
           | some old => vecSet g.m_cells (g.index old.x old.y) CellType.Empty
           | none => g.m_cells)
          (g.index c.x c.y) CellType.Start
      ∧ g1.m_overlays = g.m_overlays ∧ g1.m_start = some c ∧ g1.m_goal = g.m_goal := by
  rcases Grid.setStart_spec g c with ⟨_, _, _, he⟩ | ⟨hf, _⟩
  · exact ⟨_, he, rfl, rfl, rfl, rfl, rfl, rfl⟩
  · rcases hf with h | h | h
    · rw [hb] at h; cases h
    · exact absurd h hk
    · exact absurd h hng

theorem Grid.setGoal_ok (g : Grid) (c : Vector2i) (hb : g.inBounds c.x c.y = true)
    (hk : g.cell c.x c.y ≠ CellType.Obstacle) (hng : g.m_start ≠ some c) :
    ∃ g1, g.setGoal c = (true, g1) ∧ g1.m_width = g.m_width ∧ g1.m_height = g.m_height
      ∧ g1.m_cells = vecSet
          (match g.m_goal with
           | some old => vecSet g.m_cells (g.index old.x old.y) CellType.Empty
           | none => g.m_cells)
          (g.index c.x c.y) CellType.Goal
      ∧ g1.m_overlays = g.m_overlays ∧ g1.m_start = g.m_start ∧ g1.m_goal = some c := by
  rcases Grid.setGoal_spec g c with ⟨_, _, _, he⟩ | ⟨hf, _⟩
  · exact ⟨_, he, rfl, rfl, rfl, rfl, rfl, rfl⟩
  · rcases hf with h | h | h
    · rw [hb] at h; cases h
    · exact absurd h hk
    · exact absurd h hng

theorem Grid.setStart_Placed (g : Grid) (hwf : g.WF) (hp : g.Placed) (c : Vector2i) :
    (g.setStart c).2.Placed := by
  rcases Grid.setStart_spec g c with ⟨hb, hk, hng, he⟩ | ⟨_, he⟩
  swap
  · rw [he]; exact hp
  obtain ⟨g1, he1, hw, hh, hc, _, hs1, ht1⟩ := Grid.setStart_ok g c hb hk hng
  rw [he1]
  have hcell := Grid.setStart_cell g hwf hp c hb g1 hw hc
  obtain ⟨hp1, hp2, hp3, hp4, hp5⟩ := hp
  have hib : ∀ x y, g1.inBounds x y = g.inBounds x y := Grid.inBounds_congr g g1 hw hh
  show g1.Placed
  unfold Grid.Placed
  simp only [hib, hs1, ht1]
  refine ⟨?_, ?_, ?_, ?_, ?_⟩
  · intro x y hb1
    have hb2 : g.inBounds x y = true := hb1
    rw [hcell x y hb2]
    show _ ↔ some c = some { x := x, y := y }
    by_cases hxy : c = { x := x, y := y }
    · rw [if_pos hxy, hxy]
      exact ⟨fun _ => rfl, fun _ => rfl⟩
    · rw [if_neg hxy]
      constructor
      · intro h
        by_cases hst : g.m_start = some { x := x, y := y }
        · rw [if_pos hst] at h; cases h
        · rw [if_neg hst] at h
          exact absurd ((hp1 x y hb2).1 h) hst
      · intro h; exact absurd (Option.some.inj h) hxy
  · intro x y hb1
    have hb2 : g.inBounds x y = true := hb1
    rw [hcell x y hb2]
    show _ ↔ g.m_goal = some { x := x, y := y }
    by_cases hxy : c = { x := x, y := y }
    · rw [if_pos hxy, ← hxy]
      constructor
      · intro h; cases h
      · intro h; exact absurd h hng
    · rw [if_neg hxy]
      by_cases hst : g.m_start = some { x := x, y := y }
      · rw [if_pos hst]
        constructor
        · intro h; cases h
        · intro h; exact absurd rfl (hp5 _ _ hst h)
      · rw [if_neg hst]
        exact hp2 x y hb2
  · intro p h
    have h1 : some c = some p := h
    cases h1
    exact hb
  · intro p h
    exact hp4 p h
  · intro p q h1 h2
    have h3 : some c = some p := h1
    cases h3
    intro hpq
    subst hpq
    exact hng h2

theorem Grid.setGoal_Placed (g : Grid) (hwf : g.WF) (hp : g.Placed) (c : Vector2i) :
    (g.setGoal c).2.Placed := by
  rcases Grid.setGoal_spec g c with ⟨hb, hk, hng, he⟩ | ⟨_, he⟩
  swap
  · rw [he]; exact hp
  obtain ⟨g1, he1, hw, hh, hc, _, hs1, ht1⟩ := Grid.setGoal_ok g c hb hk hng
  rw [he1]
  have hcell := Grid.setGoal_cell g hwf hp c hb g1 hw hc
  obtain ⟨hp1, hp2, hp3, hp4, hp5⟩ := hp
  have hib : ∀ x y, g1.inBounds x y = g.inBounds x y := Grid.inBounds_congr g g1 hw hh
  show g1.Placed
  unfold Grid.Placed
  simp only [hib, hs1, ht1]
  refine ⟨?_, ?_, ?_, ?_, ?_⟩
  · intro x y hb1
    have hb2 : g.inBounds x y = true := hb1
    rw [hcell x y hb2]
    show _ ↔ g.m_start = some { x := x, y := y }
    by_cases hxy : c = { x := x, y := y }
    · rw [if_pos hxy, ← hxy]
      constructor
      · intro h; cases h
      · intro h; exact absurd h hng
    · rw [if_neg hxy]
      by_cases hst : g.m_goal = some { x := x, y := y }
      · rw [if_pos hst]
        constructor
        · intro h; cases h
        · intro h; exact absurd rfl (hp5 _ _ h hst)
      · rw [if_neg hst]
        exact hp1 x y hb2
  · intro x y hb1
    have hb2 : g.inBounds x y = true := hb1
    rw [hcell x y hb2]
    show _ ↔ some c = some { x := x, y := y }
    by_cases hxy : c = { x := x, y := y }
    · rw [if_pos hxy, hxy]
      exact ⟨fun _ => rfl, fun _ => rfl⟩
    · rw [if_neg hxy]
      constructor
      · intro h
        by_cases hst : g.m_goal = some { x := x, y := y }
        · rw [if_pos hst] at h; cases h
        · rw [if_neg hst] at h
          exact absurd ((hp2 x y hb2).1 h) hst
      · intro h; exact absurd (Option.some.inj h) hxy
  · intro p h
    exact hp3 p h
  · intro p h
    have h1 : some c = some p := h
    cases h1
    exact hb
  · intro p q h1 h2
    have h3 : some c = some q := h2
    cases h3
    intro hpq
    subst hpq
    exact hng h1

theorem Grid.cell_congr (g g1 : Grid) (hw : g1.m_width = g.m_width)
    (hc : g1.m_cells = g.m_cells) (x y : Int) : g1.cell x y = g.cell x y := by
  simp [Grid.cell, Grid.index, hw, hc]

theorem Grid.Placed_congr (g g1 : Grid) (hp : g.Placed) (hw : g1.m_width = g.m_width)
    (hh : g1.m_height = g.m_height) (hc : g1.m_cells = g.m_cells)
    (hs : g1.m_start = g.m_start) (ht : g1.m_goal = g.m_goal) : g1.Placed := by
  unfold Grid.Placed at hp ⊢
  simp only [Grid.inBounds_congr g g1 hw hh, Grid.cell_congr g g1 hw hc, hs, ht]
  exact hp

theorem Grid.setObstacle_WF (g : Grid) (x y : Int) (h : g.WF) : (g.setObstacle x y).2.WF := by
  rcases Grid.setObstacle_spec g x y with ⟨_, _, _, he⟩ | ⟨_, he⟩
  · rw [he]; exact Grid.WF_of g _ h rfl rfl (vecSet_length _ _ _) rfl
  · rw [he]; exact h

theorem Grid.setObstacle_Placed (g : Grid) (x y : Int) (hwf : g.WF) (hp : g.Placed) :
    (g.setObstacle x y).2.Placed := by
  rcases Grid.setObstacle_spec g x y with ⟨hb, h1, h2, he⟩ | ⟨_, he⟩
  · rw [he]
    exact Grid.Placed_update g _ hwf hp x y hb CellType.Obstacle (by decide) (by decide)
      rfl rfl rfl (by rw [if_neg h1]) (by rw [if_neg h2])
  · rw [he]; exact hp

theorem Grid.clearCell_WF (g : Grid) (x y : Int) (h : g.WF) : (g.clearCell x y).2.WF := by
  rcases Grid.clearCell_spec g x y with ⟨_, he⟩ | ⟨_, he⟩
  · rw [he]; exact Grid.WF_of g _ h rfl rfl (vecSet_length _ _ _) rfl
  · rw [he]; exact h

theorem Grid.clearCell_Placed (g : Grid) (x y : Int) (hwf : g.WF) (hp : g.Placed) :
    (g.clearCell x y).2.Placed := by
  rcases Grid.clearCell_spec g x y with ⟨hb, he⟩ | ⟨_, he⟩
  · rw [he]
    exact Grid.Placed_update g _ hwf hp x y hb CellType.Empty (by decide) (by decide)
      rfl rfl rfl rfl rfl
  · rw [he]; exact hp

theorem Grid.setStart_WF (g : Grid) (c : Vector2i) (h : g.WF) : (g.setStart c).2.WF := by
  rcases Grid.setStart_spec g c with ⟨hb, hk, hng, _⟩ | ⟨_, he⟩
  · obtain ⟨g1, he1, hw, hh, hc, ho, _, _⟩ := Grid.setStart_ok g c hb hk hng
    rw [he1]
    refine Grid.WF_of g g1 h hw hh ?_ (by rw [ho])
    rw [hc, vecSet_length]
    cases g.m_start <;> simp [vecSet_length]
  · rw [he]; exact h

theorem Grid.setGoal_WF (g : Grid) (c : Vector2i) (h : g.WF) : (g.setGoal c).2.WF := by
  rcases Grid.setGoal_spec g c with ⟨hb, hk, hng, _⟩ | ⟨_, he⟩
  · obtain ⟨g1, he1, hw, hh, hc, ho, _, _⟩ := Grid.setGoal_ok g c hb hk hng
    rw [he1]
    refine Grid.WF_of g g1 h hw hh ?_ (by rw [ho])
    rw [hc, vecSet_length]
    cases g.m_goal <;> simp [vecSet_length]
  · rw [he]; exact h

theorem Grid.setOverlay_frame (g : Grid) (x y : Int) (v : CellOverlay) :
    (g.setOverlay x y v).m_width = g.m_width ∧ (g.setOverlay x y v).m_height = g.m_height
      ∧ (g.setOverlay x y v).m_cells = g.m_cells
      ∧ (g.setOverlay x y v).m_start = g.m_start ∧ (g.setOverlay x y v).m_goal = g.m_goal
      ∧ (g.setOverlay x y v).m_overlays.length = g.m_overlays.length := by
  rcases Grid.setOverlay_spec g x y v with ⟨_, _, _, he⟩ | ⟨_, he⟩
  · rw [he]; exact ⟨rfl, rfl, rfl, rfl, rfl, vecSet_length _ _ _⟩
  · rw [he]; exact ⟨rfl, rfl, rfl, rfl, rfl, rfl⟩

theorem Grid.setOverlay_WF (g : Grid) (x y : Int) (v : CellOverlay) (h : g.WF) :
    (g.setOverlay x y v).WF := by
  obtain ⟨hw, hh, hc, _, _, ho⟩ := Grid.setOverlay_frame g x y v
  exact Grid.WF_of g _ h hw hh (by rw [hc]) ho

theorem Grid.setOverlay_Placed (g : Grid) (x y : Int) (v : CellOverlay) (hp : g.Placed) :
    (g.setOverlay x y v).Placed := by
  obtain ⟨hw, hh, hc, hs, ht, _⟩ := Grid.setOverlay_frame g x y v
  exact Grid.Placed_congr g _ hp hw hh hc hs ht

theorem Grid.clearOverlays_WF (g : Grid) (h : g.WF) : g.clearOverlays.WF :=
  Grid.WF_of g _ h rfl rfl rfl (vecFill_length _ _ _)

theorem Grid.clearOverlays_Placed (g : Grid) (hp : g.Placed) : g.clearOverlays.Placed :=
  Grid.Placed_congr g _ hp rfl rfl rfl rfl rfl

theorem Grid.clearObstacles_WF (g : Grid) (h : g.WF) : g.clearObstacles.WF :=
  Grid.WF_of g _ h rfl rfl (List.length_map _ _) rfl

theorem Grid.clearObstacles_cell (g : Grid) (x y : Int) :
    g.clearObstacles.cell x y
      = if g.cell x y = CellType.Obstacle then CellType.Empty else g.cell x y := by
  have := vecGet_map (fun c => if c = CellType.Obstacle then CellType.Empty else c)
    g.m_cells (g.index x y) CellType.Empty
  simpa [Grid.cell, Grid.clearObstacles, Grid.index] using this

theorem Grid.clearObstacles_Placed (g : Grid) (hp : g.Placed) : g.clearObstacles.Placed := by
  obtain ⟨hp1, hp2, hp3, hp4, hp5⟩ := hp
  have hib : ∀ x y, g.clearObstacles.inBounds x y = g.inBounds x y :=
    Grid.inBounds_congr g _ rfl rfl
  refine ⟨?_, ?_, ?_, ?_, hp5⟩
  · intro x y hb
    rw [hib] at hb
    rw [Grid.clearObstacles_cell]
    show _ ↔ g.m_start = _
    rw [← hp1 x y hb]
    by_cases h : g.cell x y = CellType.Obstacle
    · rw [if_pos h, h]; decide
    · rw [if_neg h]
  · intro x y hb
    rw [hib] at hb
    rw [Grid.clearObstacles_cell]
    show _ ↔ g.m_goal = _
    rw [← hp2 x y hb]
    by_cases h : g.cell x y = CellType.Obstacle
    · rw [if_pos h, h]; decide
    · rw [if_neg h]
  · intro p h; rw [hib]; exact hp3 p h
  · intro p h; rw [hib]; exact hp4 p h

theorem Grid.reset_WF (g : Grid) (h : g.WF) : g.reset.WF :=
  Grid.WF_of g _ h rfl rfl (vecFill_length _ _ _) (vecFill_length _ _ _)

theorem Grid.reset_cell (g : Grid) (x y : Int) : g.reset.cell x y = CellType.Empty := by
  simp [Grid.cell, Grid.reset, vecFill_length_eq, vecGet_replicate_self]

theorem Grid.reset_Placed (g : Grid) : g.reset.Placed := by
  refine ⟨?_, ?_, ?_, ?_, ?_⟩
  · intro x y _
    rw [Grid.reset_cell]
    simp [Grid.reset]
  · intro x y _
    rw [Grid.reset_cell]
    simp [Grid.reset]
  · intro p hp; simp [Grid.reset] at hp
  · intro p hp; simp [Grid.reset] at hp
  · intro p q hp; simp [Grid.reset] at hp

theorem GridOp.run_WF (op : GridOp) (g : Grid) (h : g.WF) : (op.run g).WF := by
  cases op with
  | setObstacle x y => exact Grid.setObstacle_WF g x y h
  | clearCell x y => exact Grid.clearCell_WF g x y h
  | setStart c => exact Grid.setStart_WF g c h
  | setGoal c => exact Grid.setGoal_WF g c h
  | setOverlay x y v => exact Grid.setOverlay_WF g x y v h
  | clearOverlays => exact Grid.clearOverlays_WF g h
  | clearObstacles => exact Grid.clearObstacles_WF g h
  | reset => exact Grid.reset_WF g h

theorem GridOp.run_Placed (op : GridOp) (g : Grid) (hwf : g.WF) (h : g.Placed) :
    (op.run g).Placed := by
  cases op with
  | setObstacle x y => exact Grid.setObstacle_Placed g x y hwf h
  | clearCell x y => exact Grid.clearCell_Placed g x y hwf h
  | setStart c => exact Grid.setStart_Placed g hwf h c
  | setGoal c => exact Grid.setGoal_Placed g hwf h c
  | setOverlay x y v => exact Grid.setOverlay_Placed g x y v h
  | clearOverlays => exact Grid.clearOverlays_Placed g h
  | clearObstacles => exact Grid.clearObstacles_Placed g h
  | reset => exact Grid.reset_Placed g

theorem GridOp.runAll_inv (ops : List GridOp) (g : Grid) (hwf : g.WF) (h : g.Placed) :
    (GridOp.runAll ops g).WF ∧ (GridOp.runAll ops g).Placed := by
  induction ops generalizing g with
  | nil => exact ⟨hwf, h⟩
  | cons op ops ih => exact ih (op.run g) (GridOp.run_WF op g hwf) (GridOp.run_Placed op g hwf h)

theorem Grid.Placed.unique_start (g : Grid) (hp : g.Placed) (x y x1 y1 : Int)
    (hb : g.inBounds x y = true) (hb1 : g.inBounds x1 y1 = true)
    (h : g.cell x y = CellType.Start) (h1 : g.cell x1 y1 = CellType.Start) :
    x = x1 ∧ y = y1 := by
  have e := (hp.1 x y hb).1 h
  have e1 := (hp.1 x1 y1 hb1).1 h1
  rw [e] at e1
  simpa using e1

theorem Grid.Placed.unique_goal (g : Grid) (hp : g.Placed) (x y x1 y1 : Int)
    (hb : g.inBounds x y = true) (hb1 : g.inBounds x1 y1 = true)
    (h : g.cell x y = CellType.Goal) (h1 : g.cell x1 y1 = CellType.Goal) :
    x = x1 ∧ y = y1 := by
  have e := (hp.2.1 x y hb).1 h
  have e1 := (hp.2.1 x1 y1 hb1).1 h1
  rw [e] at e1
  simpa using e1

/-! ## The pathfinder changes the grid through `setOverlay` only -/

theorem Pathfinder.relaxNeighbor_grid (P : Grid → Prop)
    (hP : ∀ g x y v, P g → P (g.setOverlay x y v)) (cur cx cy : Int)
    (s : Pathfinder × Grid) (off : Int × Int) (h : P s.2) :
    P (Pathfinder.relaxNeighbor cur cx cy s off).2 := by
  unfold Pathfinder.relaxNeighbor
  simp only []
  split_ifs
  all_goals first
    | exact h
    | exact hP _ _ _ _ h

theorem Pathfinder.relaxAll_grid (P : Grid → Prop)
    (hP : ∀ g x y v, P g → P (g.setOverlay x y v)) (cur cx cy : Int)
    (offs : List (Int × Int)) (s : Pathfinder × Grid) (h : P s.2) :
    P (offs.foldl (Pathfinder.relaxNeighbor cur cx cy) s).2 := by
  induction offs generalizing s with
  | nil => exact h
  | cons o os ih =>
    exact ih _ (Pathfinder.relaxNeighbor_grid P hP cur cx cy s o h)

theorem Pathfinder.reconstructLoop_grid (P : Grid → Prop)
    (hP : ∀ g x y v, P g → P (g.setOverlay x y v)) (pf : Pathfinder) (fuel : Nat)
    (cur : Int) (g g1 : Grid) (hr : pf.reconstructLoop fuel cur g = some g1) (h : P g) :
    P g1 := by
  induction fuel generalizing cur g with
  | zero =>
    unfold Pathfinder.reconstructLoop at hr
    split_ifs at hr
    cases hr
    exact h
  | succ k ih =>
    unfold Pathfinder.reconstructLoop at hr
    split_ifs at hr with h1 h2
    · exact ih _ _ hr (hP _ _ _ _ h)
    · exact ih _ _ hr h
    · cases hr
      exact h

theorem Pathfinder.reconstructPath_grid (P : Grid → Prop)
    (hP : ∀ g x y v, P g → P (g.setOverlay x y v)) (pf : Pathfinder)
    (g g1 : Grid) (hr : pf.reconstructPath g = some g1) (h : P g) : P g1 := by
  unfold Pathfinder.reconstructPath at hr
  split_ifs at hr
  · cases hr; exact h
  · exact Pathfinder.reconstructLoop_grid P hP pf _ _ g g1 hr h

theorem Pathfinder.iterate_grid (P : Grid → Prop)
    (hP : ∀ g x y v, P g → P (g.setOverlay x y v)) (pf : Pathfinder) (g : Grid)
    (s1 : Pathfinder × Grid) (hr : pf.iterate g = some s1) (h : P g) : P s1.2 := by
  unfold Pathfinder.iterate at hr
  cases htop : pqTop pf.m_openSet with
  | none =>
    rw [htop] at hr
    simp only [Option.some.injEq] at hr
    rw [← hr]; exact h
  | some current =>
    rw [htop] at hr
    simp only [] at hr
    split_ifs at hr with h1 h2 h3 h4 h5
    · cases hr; exact h
    · cases hr; exact h
    · cases hr; exact h
    · cases hrec : Pathfinder.reconstructPath
        { pf with
          m_openSet := pf.m_openSet.erase current
          m_inOpen := vecSet pf.m_inOpen current.index false } g with
      | none => rw [hrec] at hr; cases hr
      | some g1 =>
        rw [hrec] at hr
        cases hr
        exact Pathfinder.reconstructPath_grid P hP _ g g1 hrec h
    · cases hr
      exact Pathfinder.relaxAll_grid P hP _ _ _ _ _ (hP _ _ _ _ h)
    · cases hr
      exact Pathfinder.relaxAll_grid P hP _ _ _ _ _ h

theorem Pathfinder.stepLoop_grid (P : Grid → Prop)
    (hP : ∀ g x y v, P g → P (g.setOverlay x y v)) (n : Nat) (s s1 : Pathfinder × Grid)
    (hr : Pathfinder.stepLoop n s = some s1) (h : P s.2) : P s1.2 := by
  induction n generalizing s with
  | zero =>
    unfold Pathfinder.stepLoop at hr
    cases hr; exact h
  | succ k ih =>
    unfold Pathfinder.stepLoop at hr
    split_ifs at hr with h1
    · cases hr; exact h
    · cases hit : Pathfinder.iterate s.1 s.2 with
      | none => rw [hit] at hr; cases hr
      | some s2 =>
        rw [hit] at hr
        exact ih s2 hr (Pathfinder.iterate_grid P hP s.1 s.2 s2 hit h)

theorem Pathfinder.step_grid (P : Grid → Prop)
    (hP : ∀ g x y v, P g → P (g.setOverlay x y v)) (pf : Pathfinder) (g : Grid) (n : Int)
    (s1 : Pathfinder × Grid) (hr : pf.step g n = some s1) (h : P g) : P s1.2 := by
  unfold Pathfinder.step at hr
  by_cases h1 : pf.m_status ≠ Status.Running
  · rw [if_pos h1] at hr
    cases hr; exact h
  · rw [if_neg h1] at hr
    exact Pathfinder.stepLoop_grid P hP _ (pf, g) s1 hr h

/-! ## Overlays of the Start and Goal cells -/

theorem Grid.overlay_congr (g g1 : Grid) (hw : g1.m_width = g.m_width)
    (ho : g1.m_overlays = g.m_overlays) (x y : Int) : g1.overlay x y = g.overlay x y := by
  simp [Grid.overlay, Grid.index, hw, ho]

theorem Grid.clearOverlays_overlay (g : Grid) (x y : Int) :
    g.clearOverlays.overlay x y = CellOverlay.None := by
  simp [Grid.overlay, Grid.clearOverlays, vecFill_length_eq, vecGet_replicate_self]

theorem Grid.setOverlay_overlay_ne (g : Grid) (hwf : g.WF) (x y : Int) (v : CellOverlay)
    (x1 y1 : Int) (hb1 : g.inBounds x1 y1 = true) (hne : ¬ (x1 = x ∧ y1 = y)) :
    (g.setOverlay x y v).overlay x1 y1 = g.overlay x1 y1 := by
  rcases Grid.setOverlay_spec g x y v with ⟨hb, _, _, he⟩ | ⟨_, he⟩
  · rw [he]
    show vecGet (vecSet g.m_overlays (g.index x y) v) (g.index x1 y1) CellOverlay.None = _
    rw [Grid.list_set_get g hwf g.m_overlays (Grid.WF.overlays_length g hwf) x y x1 y1 _ _ hb hb1,
      if_neg hne]
    rfl
  · rw [he]

theorem Grid.setOverlay_Immune (g : Grid) (hwf : g.WF) (hp : g.Placed)
    (hi : g.OverlayImmune) (x y : Int) (v : CellOverlay) :
    (g.setOverlay x y v).OverlayImmune := by
  obtain ⟨hw, hh, hc, hs, ht, _⟩ := Grid.setOverlay_frame g x y v
  unfold Grid.OverlayImmune
  rw [hs, ht]
  rcases Grid.setOverlay_spec g x y v with ⟨hb, h1, h2, _⟩ | ⟨_, he⟩
  · constructor
    · intro p hps
      have hbp := hp.2.2.1 p hps
      rw [Grid.setOverlay_overlay_ne g hwf x y v p.x p.y hbp]
      · exact hi.1 p hps
      · rintro ⟨rfl, rfl⟩
        exact h1 ((hp.1 p.x p.y hbp).2 hps)
    · intro p hps
      have hbp := hp.2.2.2.1 p hps
      rw [Grid.setOverlay_overlay_ne g hwf x y v p.x p.y hbp]
      · exact hi.2 p hps
      · rintro ⟨rfl, rfl⟩
        exact h2 ((hp.2.1 p.x p.y hbp).2 hps)
  · rw [he]; exact hi

theorem Grid.setOverlay_Clean (g : Grid) (x y : Int) (v : CellOverlay)
    (h : g.WF ∧ g.Placed ∧ g.OverlayImmune) :
    (g.setOverlay x y v).WF ∧ (g.setOverlay x y v).Placed
      ∧ (g.setOverlay x y v).OverlayImmune :=
  ⟨Grid.setOverlay_WF g x y v h.1, Grid.setOverlay_Placed g x y v h.2.1,
    Grid.setOverlay_Immune g h.1 h.2.1 h.2.2 x y v⟩

theorem Grid.clearOverlays_Immune (g : Grid) : g.clearOverlays.OverlayImmune :=
  ⟨fun p _ => Grid.clearOverlays_overlay g p.x p.y,
    fun p _ => Grid.clearOverlays_overlay g p.x p.y⟩

theorem Grid.Immune_congr (g g1 : Grid) (hi : g.OverlayImmune) (hw : g1.m_width = g.m_width)
    (ho : g1.m_overlays = g.m_overlays) (hs : g1.m_start = g.m_start)
    (ht : g1.m_goal = g.m_goal) : g1.OverlayImmune := by
  unfold Grid.OverlayImmune at hi ⊢
  simp only [Grid.overlay_congr g g1 hw ho, hs, ht]
  exact hi

theorem GridOp.run_Immune (op : GridOp) (g : Grid) (hwf : g.WF) (hp : g.Placed)
    (hi : g.OverlayImmune) (hc : (CoreOp.grid op).landsClean g) :
    (op.run g).OverlayImmune := by
  cases op with
  | setObstacle x y =>
    show (g.setObstacle x y).2.OverlayImmune
    rcases Grid.setObstacle_spec g x y with ⟨_, _, _, he⟩ | ⟨_, he⟩
    · rw [he]; exact Grid.Immune_congr g _ hi rfl rfl rfl rfl
    · rw [he]; exact hi
  | clearCell x y =>
    show (g.clearCell x y).2.OverlayImmune
    rcases Grid.clearCell_spec g x y with ⟨_, he⟩ | ⟨_, he⟩
    · rw [he]
      constructor
      · intro p hps
        have hps1 : (if g.cell x y = CellType.Start then none else g.m_start) = some p := hps
        by_cases hk : g.cell x y = CellType.Start
        · rw [if_pos hk] at hps1; cases hps1
        · rw [if_neg hk] at hps1
          exact hi.1 p hps1
      · intro p hps
        have hps1 : (if g.cell x y = CellType.Goal then none else g.m_goal) = some p := hps
        by_cases hk : g.cell x y = CellType.Goal
        · rw [if_pos hk] at hps1; cases hps1
        · rw [if_neg hk] at hps1
          exact hi.2 p hps1
    · rw [he]; exact hi
  | setStart c =>
    show (g.setStart c).2.OverlayImmune
    have hc1 : (g.setStart c).1 = true → g.overlay c.x c.y = CellOverlay.None := hc
    rcases Grid.setStart_spec g c with ⟨hb, hk, hng, _⟩ | ⟨_, he⟩
    · obtain ⟨g1, he1, hw, _, _, ho, hs, ht⟩ := Grid.setStart_ok g c hb hk hng
      rw [he1] at hc1 ⊢
      constructor
      · intro p hps
        rw [Grid.overlay_congr g g1 hw ho]
        have e : some c = some p := by rw [← hs]; exact hps
        cases e
        exact hc1 rfl
      · intro p hps
        rw [Grid.overlay_congr g g1 hw ho]
        exact hi.2 p (by rw [← ht]; exact hps)
    · rw [he]; exact hi
  | setGoal c =>
    show (g.setGoal c).2.OverlayImmune
    have hc1 : (g.setGoal c).1 = true → g.overlay c.x c.y = CellOverlay.None := hc
    rcases Grid.setGoal_spec g c with ⟨hb, hk, hng, _⟩ | ⟨_, he⟩
    · obtain ⟨g1, he1, hw, _, _, ho, hs, ht⟩ := Grid.setGoal_ok g c hb hk hng
      rw [he1] at hc1 ⊢
      constructor
      · intro p hps
        rw [Grid.overlay_congr g g1 hw ho]
        exact hi.1 p (by rw [← hs]; exact hps)
      · intro p hps
        rw [Grid.overlay_congr g g1 hw ho]
        have e : some c = some p := by rw [← ht]; exact hps
        cases e
        exact hc1 rfl
    · rw [he]; exact hi
  | setOverlay x y v => exact Grid.setOverlay_Immune g hwf hp hi x y v
  | clearOverlays => exact Grid.clearOverlays_Immune g
  | clearObstacles => exact Grid.Immune_congr g _ hi rfl rfl rfl rfl
  | reset =>
    constructor
    · intro p hps; cases hps
    · intro p hps; cases hps

theorem Pathfinder.reset_grid (pf : Pathfinder) (g : Grid) : (pf.reset g).2 = g.clearOverlays :=
  rfl

theorem Pathfinder.start_grid (pf : Pathfinder) (g : Grid) :
    (pf.start g).2.2 = g ∨ (pf.start g).2.2 = g.clearOverlays.clearOverlays := by
  unfold Pathfinder.start
  cases g.m_start with
  | none => left; rfl
  | some s =>
    cases g.m_goal with
    | none => left; rfl
    | some t =>
      right
      simp only []
      split_ifs <;> rfl

theorem CoreOp.run_Clean (op : CoreOp) (s s1 : Pathfinder × Grid)
    (h : s.2.WF ∧ s.2.Placed ∧ s.2.OverlayImmune) (hc : op.landsClean s.2)
    (hr : op.run s = some s1) : s1.2.WF ∧ s1.2.Placed ∧ s1.2.OverlayImmune := by
  cases op with
  | grid o =>
    have e : (s.1, o.run s.2) = s1 := Option.some.inj hr
    rw [← e]
    exact ⟨GridOp.run_WF o s.2 h.1, GridOp.run_Placed o s.2 h.1 h.2.1,
      GridOp.run_Immune o s.2 h.1 h.2.1 h.2.2 hc⟩
  | reset =>
    have e : s.1.reset s.2 = s1 := Option.some.inj hr
    rw [← e, Pathfinder.reset_grid]
    exact ⟨Grid.clearOverlays_WF _ h.1, Grid.clearOverlays_Placed _ h.2.1,
      Grid.clearOverlays_Immune _⟩
  | start =>
    have e : (s.1.start s.2).2 = s1 := Option.some.inj hr
    rw [← e]
    rcases Pathfinder.start_grid s.1 s.2 with h1 | h1
    · rw [h1]; exact h
    · rw [h1]
      exact ⟨Grid.clearOverlays_WF _ (Grid.clearOverlays_WF _ h.1),
        Grid.clearOverlays_Placed _ (Grid.clearOverlays_Placed _ h.2.1),
        Grid.clearOverlays_Immune _⟩
  | step n =>
    exact Pathfinder.step_grid (fun g => g.WF ∧ g.Placed ∧ g.OverlayImmune)
      (fun g x y v hg => Grid.setOverlay_Clean g x y v hg) s.1 s.2 n s1 hr h

theorem CoreOp.runAll_Clean (ops : List CoreOp) (s s1 : Pathfinder × Grid)
    (h : s.2.WF ∧ s.2.Placed ∧ s.2.OverlayImmune) (hc : CoreOp.allLandClean ops s)
    (hr : CoreOp.runAll ops s = some s1) : s1.2.WF ∧ s1.2.Placed ∧ s1.2.OverlayImmune := by
  induction ops generalizing s with
  | nil =>
    have e : s = s1 := Option.some.inj hr
    rw [← e]; exact h
  | cons op ops ih =>
    unfold CoreOp.runAll at hr
    unfold CoreOp.allLandClean at hc
    cases hop : op.run s with
    | none => rw [hop] at hr; cases hr
    | some s2 =>
      rw [hop] at hr hc
      exact ih s2 (CoreOp.run_Clean op s s2 h hc.1 hop) hc.2 hr

theorem Grid.ctor_Immune (width height : Int) : (Grid.ctor width height).OverlayImmune := by
  constructor
  · intro p hps; cases hps
  · intro p hps; cases hps

/-! ## Scores and the open set -/

theorem Score.lt_fin_fin (a b : Nat) : (Score.fin a).lt (Score.fin b) = true ↔ a < b := by
  simp [Score.lt]

theorem Score.lt_fin_inf (a : Nat) : (Score.fin a).lt Score.inf = true := rfl

theorem Score.lt_irrefl (a : Score) : a.lt a = false := by
  cases a <;> simp [Score.lt]

theorem Score.lt_asymm (a b : Score) (h : a.lt b = true) : b.lt a = false := by
  cases a <;> cases b <;> simp [Score.lt] at h ⊢
  omega

theorem Score.lt_of_lt_of_not_lt (r a b : Score) (h : r.lt a = true) (h1 : b.lt a = false) :
    r.lt b = true := by
  cases a <;> cases b <;> cases r <;> simp [Score.lt] at h h1 ⊢
  omega

theorem roundF32_small (n : Nat) (h : n < 2 ^ 24) : roundF32 n = Score.fin n := by
  unfold roundF32
  rw [if_pos h]

theorem Score.add_fin (a b : Nat) (h : a + b < 2 ^ 24) :
    (Score.fin a).add (Score.fin b) = Score.fin (a + b) :=
  roundF32_small (a + b) h

/-- Adding `1.0f` to a whole score up to `2^24` gives a whole score up to
`2^24`: at `2^24` the sum rounds back to `2^24`. -/
theorem Score.add_one_cap (a : Nat) (h : a ≤ 2 ^ 24) :
    ∃ b, (Score.fin a).add (Score.fin 1) = Score.fin b ∧ 1 ≤ b ∧ b ≤ 2 ^ 24 := by
  by_cases h1 : a + 1 < 2 ^ 24
  · exact ⟨a + 1, Score.add_fin a 1 h1, by omega, by omega⟩
  · by_cases h2 : a + 1 = 2 ^ 24
    · refine ⟨2 ^ 24, ?_, by norm_num, le_refl _⟩
      show roundF32 (a + 1) = Score.fin (2 ^ 24)
      rw [h2]
      decide
    · have h3 : a = 2 ^ 24 := by omega
      subst h3
      exact ⟨2 ^ 24, by decide, by norm_num, le_refl _⟩

theorem pqTop_eq_none (q : List NodeRecord) (h : pqTop q = none) : q = [] := by
  cases q with
  | nil => rfl
  | cons a rest =>
    unfold pqTop at h
    cases h1 : pqTop rest with
    | none => rw [h1] at h; cases h
    | some b =>
      rw [h1] at h
      simp only [] at h
      split_ifs at h

theorem pqTop_mem (q : List NodeRecord) (t : NodeRecord) (h : pqTop q = some t) : t ∈ q := by
  induction q generalizing t with
  | nil => cases h
  | cons a rest ih =>
    unfold pqTop at h
    cases h1 : pqTop rest with
    | none =>
      rw [h1] at h
      cases h
      exact List.mem_cons_self _ _
    | some b =>
      rw [h1] at h
      simp only [] at h
      split_ifs at h
      · have e : b = t := Option.some.inj h
        rw [← e]
        exact List.mem_cons_of_mem _ (ih b h1)
      · have e : a = t := Option.some.inj h
        rw [← e]
        exact List.mem_cons_self _ _

theorem pqTop_min (q : List NodeRecord) (t : NodeRecord) (h : pqTop q = some t) :
    ∀ r ∈ q, r.fScore.lt t.fScore = false := by
  induction q generalizing t with
  | nil => cases h
  | cons a rest ih =>
    unfold pqTop at h
    cases h1 : pqTop rest with
    | none =>
      rw [h1] at h
      cases h
      have hr : rest = [] := pqTop_eq_none rest h1
      subst hr
      intro r hr
      rw [List.mem_singleton] at hr
      subst hr
      exact Score.lt_irrefl _
    | some b =>
      rw [h1] at h
      simp only [] at h
      have ihb := ih b h1
      by_cases hc : NodeCompare a b = true
      · rw [if_pos hc] at h
        have e : b = t := Option.some.inj h
        rw [← e]
        intro r hr
        rcases List.mem_cons.1 hr with e | e
        · subst e
          unfold NodeCompare at hc
          by_cases hf : r.fScore = b.fScore
          · rw [hf]; exact Score.lt_irrefl _
          · rw [if_neg hf] at hc
            exact Score.lt_asymm _ _ hc
        · exact ihb r e
      · rw [if_neg hc] at h
        have e : a = t := Option.some.inj h
        rw [← e]
        have hab : b.fScore.lt a.fScore = false := by
          unfold NodeCompare at hc
          by_cases hf : a.fScore = b.fScore
          · rw [hf]; exact Score.lt_irrefl _
          · rw [if_neg hf] at hc
            simpa using hc
        intro r hr
        rcases List.mem_cons.1 hr with e | e
        · subst e
          exact Score.lt_irrefl _
        · cases hlt : r.fScore.lt a.fScore with
          | false => rfl
          | true =>
            have := Score.lt_of_lt_of_not_lt _ _ _ hlt hab
            rw [ihb r e] at this
            cases this

theorem pqTop_min_fin (q : List NodeRecord) (t : NodeRecord) (h : pqTop q = some t)
    (r : NodeRecord) (hr : r ∈ q) (c c1 : Nat) (ht : t.fScore = Score.fin c)
    (hrf : r.fScore = Score.fin c1) : c ≤ c1 := by
  have := pqTop_min q t h r hr
  rw [ht, hrf] at this
  simp [Score.lt] at this
  exact this

/-! ## Manhattan distance and adjacency -/

theorem hDist_le (g : Grid) (t : Vector2i) (x y : Int) (htb : g.inBounds t.x t.y = true)
    (hb : g.inBounds x y = true) : hDist t x y + 2 ≤ (g.m_width + g.m_height).toNat := by
  rw [Grid.inBounds_iff] at htb hb
  unfold hDist
  omega

theorem hDist_self (t : Vector2i) : hDist t t.x t.y = 0 := by
  simp [hDist]

theorem hDist_adjacent (t : Vector2i) (x y x1 y1 : Int)
    (h : Vector2i.adjacent { x := x, y := y } { x := x1, y := y1 }) :
    hDist t x y ≤ hDist t x1 y1 + 1 := by
  unfold Vector2i.adjacent at h
  unfold hDist
  simp only [] at h
  omega

theorem Vector2i.adjacent_symm (a b : Vector2i) (h : a.adjacent b) : b.adjacent a := by
  unfold Vector2i.adjacent at h ⊢
  omega

theorem adjacent_offset (x y x1 y1 : Int)
    (h : Vector2i.adjacent { x := x, y := y } { x := x1, y := y1 }) :
    ∃ off ∈ Pathfinder.offsets, x1 = x + off.1 ∧ y1 = y + off.2 := by
  unfold Vector2i.adjacent at h
  simp only [] at h
  have h1 : (x1 = x + 1 ∧ y1 = y) ∨ (x1 = x - 1 ∧ y1 = y)
      ∨ (x1 = x ∧ y1 = y + 1) ∨ (x1 = x ∧ y1 = y - 1) := by omega
  rcases h1 with ⟨e1, e2⟩ | ⟨e1, e2⟩ | ⟨e1, e2⟩ | ⟨e1, e2⟩
  · exact ⟨(1, 0), by simp [Pathfinder.offsets], by simp [e1], by simp [e2]⟩
  · exact ⟨(-1, 0), by simp [Pathfinder.offsets], by simp [e1]; omega, by simp [e2]⟩
  · exact ⟨(0, 1), by simp [Pathfinder.offsets], by simp [e1], by simp [e2]⟩
  · exact ⟨(0, -1), by simp [Pathfinder.offsets], by simp [e1], by simp [e2]; omega⟩

theorem offset_adjacent (x y : Int) (off : Int × Int) (h : off ∈ Pathfinder.offsets) :
    Vector2i.adjacent { x := x, y := y } { x := x + off.1, y := y + off.2 } := by
  unfold Vector2i.adjacent
  simp only [Pathfinder.offsets, List.mem_cons, List.mem_singleton, List.not_mem_nil,
    or_false] at h
  rcases h with e | e | e | e <;> subst e <;> simp

/-! ## Counting closed cells -/

theorem count_set_true (l : List Bool) (i : Nat) (h : i < l.length) (hf : l[i] = false) :
    (l.set i true).count true = l.count true + 1
      ∧ (l.set i true).count false + 1 = l.count false := by
  have h1 := List.count_set true true l i h
  have h2 := List.count_set true false l i h
  rw [hf] at h1 h2
  simp at h1 h2
  have h3 : 0 < l.count false := by
    apply List.count_pos_iff.2
    rw [← hf]
    exact List.getElem_mem h
  omega

theorem vecSet_count_true (l : List Bool) (i : Int) (h0 : 0 ≤ i) (h1 : i < l.length)
    (hf : vecGet l i false = false) :
    (vecSet l i true).count true = l.count true + 1
      ∧ (vecSet l i true).count false + 1 = l.count false := by
  cases i with
  | ofNat n =>
    have hn : n < l.length := by
      have : (n : Int) < l.length := h1
      omega
    have hf1 : l[n] = false := by
      have : l.getD n false = false := hf
      rw [List.getD_eq_getElem l false hn] at this
      exact this
    exact count_set_true l n hn hf1
  | negSucc n => exact absurd h0 (by simp [Int.negSucc_lt_zero])

/-! ## Cells of the pathfinder arrays -/

theorem Pathfinder.idx_eq_index (pf : Pathfinder) (g : Grid) (hw : pf.m_width = g.m_width)
    (x y : Int) : pf.idx x y = g.index x y := by
  simp [Pathfinder.idx, Grid.index, hw]

theorem Pathfinder.idx_range (pf : Pathfinder) (g : Grid) (hwf : g.WF)
    (hw : pf.m_width = g.m_width) (x y : Int) (hb : g.inBounds x y = true) :
    0 ≤ pf.idx x y ∧ pf.idx x y < g.m_cells.length := by
  rw [Pathfinder.idx_eq_index pf g hw]
  exact Grid.index_range g hwf x y hb

theorem Pathfinder.idx_inj (pf : Pathfinder) (g : Grid) (hw : pf.m_width = g.m_width)
    (x y x1 y1 : Int) (hb : g.inBounds x y = true) (hb1 : g.inBounds x1 y1 = true)
    (he : pf.idx x y = pf.idx x1 y1) : x = x1 ∧ y = y1 := by
  rw [Pathfinder.idx_eq_index pf g hw, Pathfinder.idx_eq_index pf g hw] at he
  exact Grid.index_inj g x y x1 y1 hb hb1 he

theorem Pathfinder.vec_set_get {α : Type} (pf : Pathfinder) (g : Grid) (hwf : g.WF)
    (hw : pf.m_width = g.m_width) (v : List α) (hlen : v.length = g.m_cells.length)
    (x0 y0 x y : Int) (a d : α) (hb0 : g.inBounds x0 y0 = true)
    (hb : g.inBounds x y = true) :
    vecGet (vecSet v (pf.idx x0 y0) a) (pf.idx x y) d
      = if x = x0 ∧ y = y0 then a else vecGet v (pf.idx x y) d := by
  rw [Pathfinder.idx_eq_index pf g hw, Pathfinder.idx_eq_index pf g hw]
  exact Grid.list_set_get g hwf v hlen x0 y0 x y a d hb0 hb

theorem Pathfinder.toGrid_idx (pf : Pathfinder) (g : Grid) (hw : pf.m_width = g.m_width)
    (x y : Int) (hb : g.inBounds x y = true) : pf.toGrid (pf.idx x y) = (x, y) := by
  rw [Pathfinder.idx_eq_index pf g hw]
  exact Pathfinder.toGrid_index pf g hw x y hb

theorem Pathfinder.cellOf_idx (pf : Pathfinder) (g : Grid) (hw : pf.m_width = g.m_width)
    (x y : Int) (hb : g.inBounds x y = true) :
    pf.cellOf (pf.idx x y) = { x := x, y := y } := by
  unfold Pathfinder.cellOf
  rw [Pathfinder.toGrid_idx pf g hw x y hb]

theorem Pathfinder.heuristic_idx (pf : Pathfinder) (g : Grid) (hw : pf.m_width = g.m_width)
    (t : Vector2i) (ht : g.m_goal = some t) (x y : Int) (hb : g.inBounds x y = true) :
    pf.heuristic g (pf.idx x y) = roundF32 (hDist t x y) := by
  unfold Pathfinder.heuristic
  rw [ht]
  simp only []
  rw [Pathfinder.toGrid_idx pf g hw x y hb]
  rfl

theorem Pathfinder.heuristic_small (pf : Pathfinder) (g : Grid) (hw : pf.m_width = g.m_width)
    (t : Vector2i) (ht : g.m_goal = some t) (x y : Int) (hb : g.inBounds x y = true)
    (hs : hDist t x y < 2 ^ 24) : pf.heuristic g (pf.idx x y) = Score.fin (hDist t x y) := by
  rw [Pathfinder.heuristic_idx pf g hw t ht x y hb, roundF32_small _ hs]

/-! ## The neighbour loop -/

theorem Pathfinder.relaxNeighbor_spec (cur cx cy : Int) (pf : Pathfinder) (g : Grid)
    (off : Int × Int) :
    (Pathfinder.relaxNeighbor cur cx cy (pf, g) off = (pf, g)
        ∧ (g.inBounds (cx + off.1) (cy + off.2) = false
          ∨ pf.closedAt (cx + off.1) (cy + off.2) = true
          ∨ g.cell (cx + off.1) (cy + off.2) = CellType.Obstacle
          ∨ ((vecGet pf.m_gScores cur Score.inf).add (Score.fin 1)).lt
              (pf.gAt (cx + off.1) (cy + off.2)) = false))
      ∨ (g.inBounds (cx + off.1) (cy + off.2) = true
        ∧ pf.closedAt (cx + off.1) (cy + off.2) = false
        ∧ g.cell (cx + off.1) (cy + off.2) ≠ CellType.Obstacle
        ∧ ((vecGet pf.m_gScores cur Score.inf).add (Score.fin 1)).lt
              (pf.gAt (cx + off.1) (cy + off.2)) = true
        ∧ ∃ pf1 g1, Pathfinder.relaxNeighbor cur cx cy (pf, g) off = (pf1, g1)
          ∧ pf1.m_width = pf.m_width
          ∧ pf1.m_startIndex = pf.m_startIndex ∧ pf1.m_goalIndex = pf.m_goalIndex
          ∧ pf1.m_status = pf.m_status
          ∧ pf1.m_inClosed = pf.m_inClosed
          ∧ pf1.m_parents = vecSet pf.m_parents (pf.idx (cx + off.1) (cy + off.2)) cur
          ∧ pf1.m_gScores = vecSet pf.m_gScores (pf.idx (cx + off.1) (cy + off.2))
              ((vecGet pf.m_gScores cur Score.inf).add (Score.fin 1))
          ∧ pf1.m_fScores = vecSet pf.m_fScores (pf.idx (cx + off.1) (cy + off.2))
              (((vecGet pf.m_gScores cur Score.inf).add (Score.fin 1)).add
                (pf.heuristic g (pf.idx (cx + off.1) (cy + off.2))))
          ∧ pf1.m_openSet =
              { fScore := vecGet pf1.m_fScores (pf.idx (cx + off.1) (cy + off.2)) Score.inf
                gScore := (vecGet pf.m_gScores cur Score.inf).add (Score.fin 1)
                index := pf.idx (cx + off.1) (cy + off.2)
                sequence := pf.m_sequenceCounter } :: pf.m_openSet
          ∧ (g1 = g ∨ g1 = g.setOverlay (cx + off.1) (cy + off.2) CellOverlay.OpenSet)) := by
  by_cases hb : g.inBounds (cx + off.1) (cy + off.2) = true
  swap
  · left
    simp only [Bool.not_eq_true] at hb
    exact ⟨by simp [Pathfinder.relaxNeighbor, hb], Or.inl hb⟩
  by_cases hc : pf.closedAt (cx + off.1) (cy + off.2) = true
  · left
    refine ⟨?_, Or.inr (Or.inl hc)⟩
    unfold Pathfinder.closedAt Pathfinder.idx at hc
    simp [Pathfinder.relaxNeighbor, hb, hc]
  by_cases hk : g.cell (cx + off.1) (cy + off.2) = CellType.Obstacle
  · left
    refine ⟨?_, Or.inr (Or.inr (Or.inl hk))⟩
    unfold Pathfinder.closedAt Pathfinder.idx at hc
    simp [Pathfinder.relaxNeighbor, hb, hc, hk]
  by_cases hl : ((vecGet pf.m_gScores cur Score.inf).add (Score.fin 1)).lt
      (pf.gAt (cx + off.1) (cy + off.2)) = true
  swap
  · left
    simp only [Bool.not_eq_true] at hl
    refine ⟨?_, Or.inr (Or.inr (Or.inr hl))⟩
    unfold Pathfinder.closedAt Pathfinder.idx at hc
    unfold Pathfinder.gAt Pathfinder.idx at hl
    simp [Pathfinder.relaxNeighbor, hb, hc, hk, hl]
  right
  simp only [Bool.not_eq_true] at hc
  refine ⟨hb, hc, hk, hl, ?_⟩
  unfold Pathfinder.closedAt Pathfinder.idx at hc
  unfold Pathfinder.gAt Pathfinder.idx at hl
  refine ⟨{ pf with
      m_parents := vecSet pf.m_parents ((cy + off.2) * pf.m_width + (cx + off.1)) cur
      m_gScores := vecSet pf.m_gScores ((cy + off.2) * pf.m_width + (cx + off.1))
        ((vecGet pf.m_gScores cur Score.inf).add (Score.fin 1))
      m_fScores := vecSet pf.m_fScores ((cy + off.2) * pf.m_width + (cx + off.1))
        (((vecGet pf.m_gScores cur Score.inf).add (Score.fin 1)).add
          (pf.heuristic g ((cy + off.2) * pf.m_width + (cx + off.1))))
      m_openSet :=
        { fScore := vecGet (vecSet pf.m_fScores ((cy + off.2) * pf.m_width + (cx + off.1))
            (((vecGet pf.m_gScores cur Score.inf).add (Score.fin 1)).add
              (pf.heuristic g ((cy + off.2) * pf.m_width + (cx + off.1)))))
            ((cy + off.2) * pf.m_width + (cx + off.1)) Score.inf
          gScore := (vecGet pf.m_gScores cur Score.inf).add (Score.fin 1)
          index := (cy + off.2) * pf.m_width + (cx + off.1)
          sequence := pf.m_sequenceCounter } :: pf.m_openSet
      m_sequenceCounter := pf.m_sequenceCounter + 1
      m_inOpen := vecSet pf.m_inOpen ((cy + off.2) * pf.m_width + (cx + off.1)) true },
    if (cy + off.2) * pf.m_width + (cx + off.1) ≠ pf.m_goalIndex
        ∧ (cy + off.2) * pf.m_width + (cx + off.1) ≠ pf.m_startIndex then
      g.setOverlay (cx + off.1) (cy + off.2) CellOverlay.OpenSet
    else g,
    ?_, rfl, rfl, rfl, rfl, rfl, rfl, rfl, rfl, rfl, ?_⟩
  · simp [Pathfinder.relaxNeighbor, hb, hc, hk, hl]
  · split_ifs
    · exact Or.inr rfl
    · exact Or.inl rfl

theorem Pathfinder.gAt_set (pf pf1 : Pathfinder) (g : Grid) (hwf : g.WF)
    (hw : pf.m_width = g.m_width) (hw1 : pf1.m_width = pf.m_width)
    (hlen : pf.m_gScores.length = g.m_cells.length) (nx ny : Int)
    (hbn : g.inBounds nx ny = true) (v : Score)
    (hg : pf1.m_gScores = vecSet pf.m_gScores (pf.idx nx ny) v)
    (x y : Int) (hb : g.inBounds x y = true) :
    pf1.gAt x y = if x = nx ∧ y = ny then v else pf.gAt x y := by
  have hi : ∀ a b, pf1.idx a b = pf.idx a b := by
    intro a b; simp [Pathfinder.idx, hw1]
  unfold Pathfinder.gAt
  rw [hi, hg]
  exact Pathfinder.vec_set_get pf g hwf hw _ hlen nx ny x y v Score.inf hbn hb

theorem Pathfinder.parentAt_set (pf pf1 : Pathfinder) (g : Grid) (hwf : g.WF)
    (hw : pf.m_width = g.m_width) (hw1 : pf1.m_width = pf.m_width)
    (hlen : pf.m_parents.length = g.m_cells.length) (nx ny : Int)
    (hbn : g.inBounds nx ny = true) (v : Int)
    (hg : pf1.m_parents = vecSet pf.m_parents (pf.idx nx ny) v)
    (x y : Int) (hb : g.inBounds x y = true) :
    pf1.parentAt x y = if x = nx ∧ y = ny then v else pf.parentAt x y := by
  have hi : ∀ a b, pf1.idx a b = pf.idx a b := by
    intro a b; simp [Pathfinder.idx, hw1]
  unfold Pathfinder.parentAt
  rw [hi, hg]
  exact Pathfinder.vec_set_get pf g hwf hw _ hlen nx ny x y v (-1) hbn hb

theorem Pathfinder.closedAt_same (pf pf1 : Pathfinder) (hw1 : pf1.m_width = pf.m_width)
    (hc : pf1.m_inClosed = pf.m_inClosed) (x y : Int) : pf1.closedAt x y = pf.closedAt x y := by
  simp [Pathfinder.closedAt, Pathfinder.idx, hw1, hc]

theorem Pathfinder.closedEff_same (pf pf1 : Pathfinder) (hw1 : pf1.m_width = pf.m_width)
    (hc : pf1.m_inClosed = pf.m_inClosed) (cur : Option (Int × Int)) (x y : Int) :
    pf1.closedEff cur x y ↔ pf.closedEff cur x y := by
  unfold Pathfinder.closedEff
  rw [Pathfinder.closedAt_same pf pf1 hw1 hc]

theorem Pathfinder.idx_same (pf pf1 : Pathfinder) (hw1 : pf1.m_width = pf.m_width)
    (x y : Int) : pf1.idx x y = pf.idx x y := by
  simp [Pathfinder.idx, hw1]

/-! ### Overlay writes on cells that are not Obstacle -/

theorem Grid.SameFrame.refl (g : Grid) : g.SameFrame g := ⟨rfl, rfl, rfl, rfl, rfl, rfl⟩

theorem Grid.SameFrame.trans (g g1 g2 : Grid) (h : g.SameFrame g1) (h1 : g1.SameFrame g2) :
    g.SameFrame g2 := by
  obtain ⟨a1, a2, a3, a4, a5, a6⟩ := h
  obtain ⟨b1, b2, b3, b4, b5, b6⟩ := h1
  exact ⟨b1.trans a1, b2.trans a2, b3.trans a3, b4.trans a4, b5.trans a5, b6.trans a6⟩

theorem Grid.setOverlay_SameFrame (g : Grid) (x y : Int) (v : CellOverlay) :
    g.SameFrame (g.setOverlay x y v) := by
  obtain ⟨hw, hh, hc, hs, ht, ho⟩ := Grid.setOverlay_frame g x y v
  exact ⟨hw, hh, hc, hs, ht, ho⟩

theorem Grid.SameFrame.WF (g g1 : Grid) (h : g.SameFrame g1) (hwf : g.WF) : g1.WF :=
  Grid.WF_of g g1 hwf h.1 h.2.1 (by rw [h.2.2.1]) h.2.2.2.2.2

theorem Grid.SameFrame.inBounds (g g1 : Grid) (h : g.SameFrame g1) (x y : Int) :
    g1.inBounds x y = g.inBounds x y := Grid.inBounds_congr g g1 h.1 h.2.1 x y

theorem Grid.SameFrame.cell (g g1 : Grid) (h : g.SameFrame g1) (x y : Int) :
    g1.cell x y = g.cell x y := Grid.cell_congr g g1 h.1 h.2.2.1 x y

theorem Grid.setOverlay_OverlayOK (g : Grid) (hwf : g.WF) (x y : Int) (v : CellOverlay)
    (hk : g.cell x y ≠ CellType.Obstacle) (h : g.OverlayOK) :
    (g.setOverlay x y v).OverlayOK := by
  intro x1 y1 hb1 hc1
  have hfr := Grid.setOverlay_SameFrame g x y v
  rw [Grid.SameFrame.inBounds g _ hfr] at hb1
  rw [Grid.SameFrame.cell g _ hfr] at hc1
  have hne : ¬ (x1 = x ∧ y1 = y) := by
    rintro ⟨rfl, rfl⟩
    exact hk hc1
  rw [Grid.setOverlay_overlay_ne g hwf x y v x1 y1 hb1 hne]
  exact h x1 y1 hb1 hc1

/-! ## One neighbour keeps the invariant -/

theorem Pathfinder.relax_Mid (g : Grid) (hwf : g.WF) (hsm : g.Small) (s t : Vector2i)
    (hsb : g.inBounds s.x s.y = true) (htb : g.inBounds t.x t.y = true)
    (ht : g.m_goal = some t) (pf : Pathfinder) (cx cy : Int) (a0 : Nat) (hm : Pathfinder.Mid g s t pf cx cy a0)
    (off : Int × Int) (hoff : off ∈ Pathfinder.offsets) :
    Pathfinder.Mid g s t (Pathfinder.relaxNeighbor (pf.idx cx cy) cx cy (pf, g) off).1 cx cy a0
      ∧ (∀ x y a, g.inBounds x y = true → pf.gAt x y = Score.fin a →
          ∃ b, (Pathfinder.relaxNeighbor (pf.idx cx cy) cx cy (pf, g) off).1.gAt x y
            = Score.fin b ∧ b ≤ a)
      ∧ (g.passable { x := cx + off.1, y := cy + off.2 } →
          ∃ b, (Pathfinder.relaxNeighbor (pf.idx cx cy) cx cy (pf, g) off).1.gAt
            (cx + off.1) (cy + off.2) = Score.fin b ∧ b ≤ a0 + 1)
      ∧ g.SameFrame (Pathfinder.relaxNeighbor (pf.idx cx cy) cx cy (pf, g) off).2
      ∧ (g.OverlayOK → (Pathfinder.relaxNeighbor (pf.idx cx cy) cx cy (pf, g) off).2.OverlayOK)
      ∧ (Pathfinder.relaxNeighbor (pf.idx cx cy) cx cy (pf, g) off).1.m_openSet.length
          ≤ pf.m_openSet.length + 1
      ∧ (Pathfinder.relaxNeighbor (pf.idx cx cy) cx cy (pf, g) off).1.m_inClosed = pf.m_inClosed
      ∧ (Pathfinder.relaxNeighbor (pf.idx cx cy) cx cy (pf, g) off).1.m_status = pf.m_status := by
  have hcore := hm.core
  have hw := hcore.width
  have hgcur : vecGet pf.m_gScores (pf.idx cx cy) Score.inf = Score.fin a0 := hm.cur_g
  have hadj := offset_adjacent cx cy off hoff
  have hh := hDist_adjacent t cx cy _ _ hadj
  have ha0 : a0 ≤ g.m_cells.length := by
    have h1 := hm.cur_bound
    have h2 : pf.m_inClosed.count true ≤ pf.m_inClosed.length := List.count_le_length _ _
    rw [hcore.len_c] at h2
    omega
  have hsm1 : g.m_cells.length + (g.m_width + g.m_height).toNat ≤ 2 ^ 24 := hsm
  have hexact : (Score.fin a0).add (Score.fin 1) = Score.fin (a0 + 1) := by
    have := hDist_le g t t.x t.y htb htb
    exact Score.add_fin a0 1 (by omega)
  rcases Pathfinder.relaxNeighbor_spec (pf.idx cx cy) cx cy pf g off with
    ⟨he, hreason⟩ | ⟨hb, hc, hk, hl, pf1, g1, he, hw1, hsi, hgi, hst, hcl, hpa, hgs, hfs, hos, hg1⟩
  · rw [he]
    refine ⟨hm, fun x y a _ h => ⟨a, h, le_refl _⟩, ?_, Grid.SameFrame.refl g, id,
      Nat.le_succ _, rfl, rfl⟩
    intro hp
    have hbn : g.inBounds (cx + off.1) (cy + off.2) = true := hp.1
    rcases hreason with h | h | h | h
    · rw [h] at hbn; cases hbn
    · obtain ⟨b, hbv⟩ := hcore.closed_fin _ _ hbn (Or.inl h)
      have := hm.cur_max _ _ b hbn (Or.inl h) hbv
      exact ⟨b, hbv, by omega⟩
    · exact absurd h hp.2
    · rw [hgcur, hexact] at h
      cases hv : pf.gAt (cx + off.1) (cy + off.2) with
      | fin b =>
        rw [hv] at h
        simp [Score.lt] at h
        exact ⟨b, rfl, h⟩
      | inf =>
        rw [hv] at h
        simp [Score.lt] at h
  · rw [he]
    rw [hgcur] at hl hgs hfs hos
    rw [hexact] at hl hgs hfs hos
    generalize hnx : cx + off.1 = nx at *
    generalize hny : cy + off.2 = ny at *
    -- the old score of the neighbour
    have hold : ∀ b, pf.gAt nx ny = Score.fin b → a0 + 1 < b := by
      intro b hv
      rw [hv] at hl
      simpa [Score.lt] using hl
    have hncur : ¬ (cx = nx ∧ cy = ny) := by
      rintro ⟨rfl, rfl⟩
      have := hold a0 hm.cur_g
      omega
    have hns : ¬ (s.x = nx ∧ s.y = ny) := by
      rintro ⟨e1, e2⟩
      have h0 := hcore.g_start
      rw [e1, e2] at h0
      have := hold 0 h0
      omega
    have hneff : ∀ x y, pf.closedEff (some (cx, cy)) x y → ¬ (x = nx ∧ y = ny) := by
      rintro x y (h | h) ⟨rfl, rfl⟩
      · rw [hc] at h; cases h
      · simp only [Option.some.injEq, Prod.mk.injEq] at h
        exact hncur h
    have hgA := Pathfinder.gAt_set pf pf1 g hwf hw hw1 hcore.len_g nx ny hb _ hgs
    have hpA := Pathfinder.parentAt_set pf pf1 g hwf hw hw1 hcore.len_p nx ny hb _ hpa
    have hcA := Pathfinder.closedAt_same pf pf1 hw1 hcl
    have heA := Pathfinder.closedEff_same pf pf1 hw1 hcl (some (cx, cy))
    have hiA := Pathfinder.idx_same pf pf1 hw1
    have hrange := Pathfinder.idx_range pf g hwf hw nx ny hb
    have hfnew : vecGet pf1.m_fScores (pf.idx nx ny) Score.inf
        = Score.fin (a0 + 1 + hDist t nx ny) := by
      have hd := hDist_le g t nx ny htb hb
      rw [hfs, vecGet_vecSet_eq _ _ _ _ hrange.1 (by rw [hcore.len_f]; exact hrange.2),
        Pathfinder.heuristic_small pf g hw t ht nx ny hb (by omega)]
      exact Score.add_fin _ _ (by omega)
    rw [hfnew] at hos
    have hgcur1 : pf1.gAt cx cy = Score.fin a0 := by
      rw [hgA cx cy hm.cur_in, if_neg hncur]; exact hm.cur_g
    refine ⟨?_, ?_, ?_, ?_, ?_, ?_, hcl, hst⟩
    · refine
        { core :=
            { width := by rw [hw1]; exact hw
              len_g := by rw [hgs, vecSet_length]; exact hcore.len_g
              len_f := by rw [hfs, vecSet_length]; exact hcore.len_f
              len_p := by rw [hpa, vecSet_length]; exact hcore.len_p
              len_c := by rw [hcl]; exact hcore.len_c
              start_idx := by rw [hsi, hiA]; exact hcore.start_idx
              goal_idx := by rw [hgi, hiA]; exact hcore.goal_idx
              g_start := by rw [hgA s.x s.y hsb, if_neg hns]; exact hcore.g_start
              p_start := by rw [hpA s.x s.y hsb, if_neg hns]; exact hcore.p_start
              tree := ?_
              closed_fin := ?_
              recs := ?_
              open_has := ?_
              edge := ?_
              mono := ?_
              goal_open := by rw [hcA]; exact hcore.goal_open
              bound := ?_ }
          cur_in := hm.cur_in
          cur_open := by rw [hcA]; exact hm.cur_open
          cur_ne_goal := hm.cur_ne_goal
          cur_g := hgcur1
          cur_bound := by rw [hcl]; exact hm.cur_bound
          cur_max := ?_ }
      · -- tree
        intro x y a hbxy hga
        rw [hgA x y hbxy] at hga
        by_cases hxy : x = nx ∧ y = ny
        · obtain ⟨rfl, rfl⟩ := hxy
          rw [if_pos ⟨rfl, rfl⟩] at hga
          refine ⟨hk, fun _ => ⟨cx, cy, a0, hm.cur_in, ?_, ?_, ?_, hgcur1, ?_⟩⟩
          · rw [hpA x y hbxy, if_pos ⟨rfl, rfl⟩, hiA]
          · exact hadj
          · exact Or.inr rfl
          · cases hga; rfl
        · rw [if_neg hxy] at hga
          obtain ⟨h1, h2⟩ := hcore.tree x y a hbxy hga
          refine ⟨h1, fun hne => ?_⟩
          obtain ⟨ux, uy, b, hbu, hpu, hau, hcu, hgu, hab⟩ := h2 hne
          refine ⟨ux, uy, b, hbu, ?_, hau, (heA ux uy).2 hcu, ?_, hab⟩
          · rw [hpA x y hbxy, if_neg hxy, hiA]; exact hpu
          · rw [hgA ux uy hbu, if_neg (hneff ux uy hcu)]; exact hgu
      · -- closed_fin
        intro x y hbxy hce
        have hce1 := (heA x y).1 hce
        rw [hgA x y hbxy, if_neg (hneff x y hce1)]
        exact hcore.closed_fin x y hbxy hce1
      · -- recs
        intro r hr
        rw [hos] at hr
        rcases List.mem_cons.1 hr with e | e
        · subst e
          refine ⟨nx, ny, a0 + 1, a0 + 1, hb, ?_, rfl, ?_, le_refl _, rfl⟩
          · rw [hiA]
          · rw [hgA nx ny hb, if_pos ⟨rfl, rfl⟩]
        · obtain ⟨x, y, a, b, hbxy, hri, hrg, hgv, hba, hrf⟩ := hcore.recs r e
          by_cases hxy : x = nx ∧ y = ny
          · obtain ⟨rfl, rfl⟩ := hxy
            refine ⟨x, y, a, a0 + 1, hbxy, ?_, hrg, ?_, ?_, hrf⟩
            · rw [hiA]; exact hri
            · rw [hgA x y hbxy, if_pos ⟨rfl, rfl⟩]
            · have := hold b hgv
              omega
          · refine ⟨x, y, a, b, hbxy, ?_, hrg, ?_, hba, hrf⟩
            · rw [hiA]; exact hri
            · rw [hgA x y hbxy, if_neg hxy]; exact hgv
      · -- open_has
        intro x y a hbxy hnc hga
        have hnc1 : ¬ pf.closedEff (some (cx, cy)) x y := fun h => hnc ((heA x y).2 h)
        rw [hgA x y hbxy] at hga
        rw [hos, hiA]
        by_cases hxy : x = nx ∧ y = ny
        · obtain ⟨rfl, rfl⟩ := hxy
          rw [if_pos ⟨rfl, rfl⟩] at hga
          exact ⟨_, List.mem_cons_self _ _, rfl, hga⟩
        · rw [if_neg hxy] at hga
          obtain ⟨r, hr, h1, h2⟩ := hcore.open_has x y a hbxy hnc1 hga
          exact ⟨r, List.mem_cons_of_mem _ hr, h1, h2⟩
      · -- edge
        intro x y x1 y1 a hbxy hcl1 hga hadj1 hp1
        rw [hcA] at hcl1
        have hne := hneff x y (Or.inl hcl1)
        rw [hgA x y hbxy, if_neg hne] at hga
        obtain ⟨b, hgb, hba⟩ := hcore.edge x y x1 y1 a hbxy hcl1 hga hadj1 hp1
        have hb1 : g.inBounds x1 y1 = true := hp1.1
        rw [hgA x1 y1 hb1]
        by_cases hxy : x1 = nx ∧ y1 = ny
        · obtain ⟨rfl, rfl⟩ := hxy
          rw [if_pos ⟨rfl, rfl⟩]
          have := hold b hgb
          exact ⟨a0 + 1, rfl, by omega⟩
        · rw [if_neg hxy]
          exact ⟨b, hgb, hba⟩
      · -- mono
        intro x y a r c hbxy hce hga hr hrf
        have hce1 := (heA x y).1 hce
        rw [hgA x y hbxy, if_neg (hneff x y hce1)] at hga
        rw [hos] at hr
        rcases List.mem_cons.1 hr with e | e
        · subst e
          have h1 : Score.fin (a0 + 1 + hDist t nx ny) = Score.fin c := hrf
          cases h1
          have := hm.cur_max x y a hbxy hce1 hga
          omega
        · exact hcore.mono x y a r c hbxy hce1 hga e hrf
      · -- bound
        intro x y a hbxy hga
        rw [hgA x y hbxy] at hga
        rw [hcl]
        by_cases hxy : x = nx ∧ y = ny
        · rw [if_pos hxy] at hga
          cases hga
          have := hm.cur_bound
          simp
          omega
        · rw [if_neg hxy] at hga
          exact hcore.bound x y a hbxy hga
      · -- cur_max
        intro x y a hbxy hce hga
        have hce1 := (heA x y).1 hce
        rw [hgA x y hbxy, if_neg (hneff x y hce1)] at hga
        exact hm.cur_max x y a hbxy hce1 hga
    · intro x y a hbxy hga
      rw [hgA x y hbxy]
      by_cases hxy : x = nx ∧ y = ny
      · obtain ⟨rfl, rfl⟩ := hxy
        rw [if_pos ⟨rfl, rfl⟩]
        have := hold a hga
        exact ⟨a0 + 1, rfl, by omega⟩
      · rw [if_neg hxy]
        exact ⟨a, hga, le_refl _⟩
    · intro _
      rw [hgA nx ny hb, if_pos ⟨rfl, rfl⟩]
      exact ⟨a0 + 1, rfl, le_refl _⟩
    · rcases hg1 with e | e
      · rw [e]; exact Grid.SameFrame.refl g
      · rw [e]; exact Grid.setOverlay_SameFrame g nx ny _
    · intro hok
      rcases hg1 with e | e
      · rw [e]; exact hok
      · rw [e]; exact Grid.setOverlay_OverlayOK g hwf nx ny _ hk hok
    · rw [hos]; simp

/-! ## The invariant does not read the overlay layer -/

theorem Grid.SameFrame.eq_with (g g1 : Grid) (h : g.SameFrame g1) :
    g1 = { g with m_overlays := g1.m_overlays } := by
  obtain ⟨a1, a2, a3, a4, a5, _⟩ := h
  cases g1
  cases g
  simp only [] at a1 a2 a3 a4 a5
  subst a1 a2 a3 a4 a5
  rfl

theorem Pathfinder.Core.reframe (g g1 : Grid) (h : g.SameFrame g1) (s t : Vector2i)
    (pf : Pathfinder) (cur : Option (Int × Int)) (hc : Pathfinder.Core g s t pf cur) :
    Pathfinder.Core g1 s t pf cur := by
  rw [Grid.SameFrame.eq_with g g1 h]
  exact
    { width := hc.width
      len_g := hc.len_g
      len_f := hc.len_f
      len_p := hc.len_p
      len_c := hc.len_c
      start_idx := hc.start_idx
      goal_idx := hc.goal_idx
      g_start := hc.g_start
      p_start := hc.p_start
      tree := hc.tree
      closed_fin := hc.closed_fin
      recs := hc.recs
      open_has := hc.open_has
      edge := hc.edge
      mono := hc.mono
      goal_open := hc.goal_open
      bound := hc.bound }

theorem Pathfinder.Mid.regrid (g g1 : Grid) (h : g.SameFrame g1) (s t : Vector2i)
    (pf : Pathfinder) (cx cy : Int) (a0 : Nat) (hm : Pathfinder.Mid g s t pf cx cy a0) :
    Pathfinder.Mid g1 s t pf cx cy a0 := by
  have hcore := Pathfinder.Core.reframe g g1 h s t pf _ hm.core
  rw [Grid.SameFrame.eq_with g g1 h] at hcore ⊢
  exact
    { core := hcore
      cur_in := hm.cur_in
      cur_open := hm.cur_open
      cur_ne_goal := hm.cur_ne_goal
      cur_g := hm.cur_g
      cur_bound := hm.cur_bound
      cur_max := hm.cur_max }

theorem Grid.SameFrame.symm (g g1 : Grid) (h : g.SameFrame g1) : g1.SameFrame g := by
  obtain ⟨a1, a2, a3, a4, a5, a6⟩ := h
  exact ⟨a1.symm, a2.symm, a3.symm, a4.symm, a5.symm, a6.symm⟩

theorem Grid.SameFrame.passable (g g1 : Grid) (h : g.SameFrame g1) (c : Vector2i) :
    g1.passable c ↔ g.passable c := by
  unfold Grid.passable
  rw [Grid.SameFrame.inBounds g g1 h, Grid.SameFrame.cell g g1 h]

/-! ## The whole neighbour loop -/

theorem Pathfinder.relaxAll_Mid (s t : Vector2i) (cx cy : Int) (a0 : Nat)
    (offs : List (Int × Int)) (hoffs : ∀ o ∈ offs, o ∈ Pathfinder.offsets)
    (g0 : Grid) (hwf : g0.WF) (hsm : g0.Small) (hsb : g0.inBounds s.x s.y = true)
    (htb : g0.inBounds t.x t.y = true) (ht : g0.m_goal = some t)
    (pf : Pathfinder) (g : Grid) (hfr : g0.SameFrame g)
    (hm : Pathfinder.Mid g0 s t pf cx cy a0) (hok : g.OverlayOK) :
    Pathfinder.Mid g0 s t (offs.foldl (Pathfinder.relaxNeighbor (pf.idx cx cy) cx cy) (pf, g)).1
        cx cy a0
      ∧ (∀ x y a, g0.inBounds x y = true → pf.gAt x y = Score.fin a →
          ∃ b, (offs.foldl (Pathfinder.relaxNeighbor (pf.idx cx cy) cx cy) (pf, g)).1.gAt x y
            = Score.fin b ∧ b ≤ a)
      ∧ (∀ o ∈ offs, g0.passable { x := cx + o.1, y := cy + o.2 } →
          ∃ b, (offs.foldl (Pathfinder.relaxNeighbor (pf.idx cx cy) cx cy) (pf, g)).1.gAt
            (cx + o.1) (cy + o.2) = Score.fin b ∧ b ≤ a0 + 1)
      ∧ g0.SameFrame (offs.foldl (Pathfinder.relaxNeighbor (pf.idx cx cy) cx cy) (pf, g)).2
      ∧ (offs.foldl (Pathfinder.relaxNeighbor (pf.idx cx cy) cx cy) (pf, g)).2.OverlayOK
      ∧ (offs.foldl (Pathfinder.relaxNeighbor (pf.idx cx cy) cx cy) (pf, g)).1.m_openSet.length
          ≤ pf.m_openSet.length + offs.length
      ∧ (offs.foldl (Pathfinder.relaxNeighbor (pf.idx cx cy) cx cy) (pf, g)).1.m_inClosed
          = pf.m_inClosed
      ∧ (offs.foldl (Pathfinder.relaxNeighbor (pf.idx cx cy) cx cy) (pf, g)).1.m_status
          = pf.m_status := by
  induction offs generalizing pf g with
  | nil =>
    exact ⟨hm, fun x y a _ h => ⟨a, h, le_refl _⟩, fun o ho => absurd ho (List.not_mem_nil _),
      hfr, hok, le_refl _, rfl, rfl⟩
  | cons o os ih =>
    have hwfg : g.WF := Grid.SameFrame.WF g0 g hfr hwf
    have hsbg : g.inBounds s.x s.y = true := by
      rw [Grid.SameFrame.inBounds g0 g hfr]; exact hsb
    have htg : g.m_goal = some t := by rw [hfr.2.2.2.2.1]; exact ht
    have htbg : g.inBounds t.x t.y = true := by
      rw [Grid.SameFrame.inBounds g0 g hfr]; exact htb
    have hsmg : g.Small := by
      unfold Grid.Small at hsm ⊢
      rw [hfr.1, hfr.2.1, hfr.2.2.1]
      exact hsm
    have hmg := Pathfinder.Mid.regrid g0 g hfr s t pf cx cy a0 hm
    obtain ⟨h1, h2, h3, h4, h5, h6, h7, h8⟩ :=
      Pathfinder.relax_Mid g hwfg hsmg s t hsbg htbg htg pf cx cy a0 hmg o
        (hoffs o (List.mem_cons_self _ _))
    have hw1 : (Pathfinder.relaxNeighbor (pf.idx cx cy) cx cy (pf, g) o).1.m_width
        = pf.m_width := by rw [h1.core.width, hmg.core.width]
    have hidx : (Pathfinder.relaxNeighbor (pf.idx cx cy) cx cy (pf, g) o).1.idx cx cy
        = pf.idx cx cy := Pathfinder.idx_same pf _ hw1 cx cy
    have hfr1 : g0.SameFrame (Pathfinder.relaxNeighbor (pf.idx cx cy) cx cy (pf, g) o).2 :=
      Grid.SameFrame.trans g0 g _ hfr h4
    have hm1 := Pathfinder.Mid.regrid g _ (Grid.SameFrame.symm g0 g hfr) s t _ cx cy a0 h1
    obtain ⟨i1, i2, i3, i4, i5, i6, i7, i8⟩ :=
      ih (fun o1 ho1 => hoffs o1 (List.mem_cons_of_mem _ ho1))
        (Pathfinder.relaxNeighbor (pf.idx cx cy) cx cy (pf, g) o).1
        (Pathfinder.relaxNeighbor (pf.idx cx cy) cx cy (pf, g) o).2 hfr1 hm1 (h5 hok)
    rw [hidx] at i1 i2 i3 i4 i5 i6 i7 i8
    simp only [List.foldl_cons]
    refine ⟨i1, ?_, ?_, i4, i5, ?_, i7.trans h7, i8.trans h8⟩
    · intro x y a hbxy hga
      have hbg : g.inBounds x y = true := by
        rw [Grid.SameFrame.inBounds g0 g hfr]; exact hbxy
      obtain ⟨b, hb1, hb2⟩ := h2 x y a hbg hga
      obtain ⟨c, hc1, hc2⟩ := i2 x y b hbxy hb1
      exact ⟨c, hc1, le_trans hc2 hb2⟩
    · intro o1 ho1 hp
      rcases List.mem_cons.1 ho1 with e | e
      · subst e
        obtain ⟨b, hb1, hb2⟩ := h3 ((Grid.SameFrame.passable g0 g hfr _).2 hp)
        obtain ⟨c, hc1, hc2⟩ := i2 _ _ b hp.1 hb1
        exact ⟨c, hc1, le_trans hc2 hb2⟩
      · exact i3 o1 e hp
    · simp only [List.length_cons]
      exact le_trans i6 (by omega)

/-! ## The frontier of a path -/

theorem hDist_chain (t : Vector2i) (q : List Vector2i) (c e : Vector2i)
    (hch : List.Chain Vector2i.adjacent c q) (hl : (c :: q).getLast? = some e) :
    hDist t c.x c.y ≤ q.length + hDist t e.x e.y := by
  induction q generalizing c with
  | nil =>
    simp only [List.getLast?_singleton, Option.some.injEq] at hl
    subst hl
    simp
  | cons d q1 ih =>
    rw [List.chain_cons] at hch
    have hl1 : (d :: q1).getLast? = some e := by
      rw [List.getLast?_cons_cons] at hl; exact hl
    have h1 := ih d hch.2 hl1
    have h2 := hDist_adjacent t c.x c.y d.x d.y hch.1
    simp only [List.length_cons]
    omega

theorem Pathfinder.Core.frontier (g : Grid) (s t : Vector2i) (pf : Pathfinder)
    (hc : Pathfinder.Core g s t pf none) (q : List Vector2i) (c e : Vector2i) (k : Nat)
    (hch : List.Chain Vector2i.adjacent c q) (hp : ∀ d ∈ c :: q, g.passable d)
    (hl : (c :: q).getLast? = some e)
    (hg : ∃ a, pf.gAt c.x c.y = Score.fin a ∧ a ≤ k) :
    (∃ w ∈ c :: q, pf.closedAt w.x w.y = false
        ∧ ∃ a, pf.gAt w.x w.y = Score.fin a
          ∧ a + hDist t w.x w.y ≤ k + q.length + hDist t e.x e.y)
      ∨ pf.closedAt e.x e.y = true := by
  induction q generalizing c k with
  | nil =>
    simp only [List.getLast?_singleton, Option.some.injEq] at hl
    subst hl
    cases hcl : pf.closedAt c.x c.y with
    | true => exact Or.inr rfl
    | false =>
      left
      obtain ⟨a, ha, hak⟩ := hg
      exact ⟨c, List.mem_cons_self _ _, hcl, a, ha, by simp; omega⟩
  | cons d q1 ih =>
    obtain ⟨a, ha, hak⟩ := hg
    have hch0 := hch
    rw [List.chain_cons] at hch
    have hl1 : (d :: q1).getLast? = some e := by
      rw [List.getLast?_cons_cons] at hl; exact hl
    cases hcl : pf.closedAt c.x c.y with
    | false =>
      left
      have := hDist_chain t (d :: q1) c e hch0 hl
      exact ⟨c, List.mem_cons_self _ _, hcl, a, ha, by omega⟩
    | true =>
      have hpc := hp c (List.mem_cons_self _ _)
      have hpd := hp d (List.mem_cons_of_mem _ (List.mem_cons_self _ _))
      obtain ⟨b, hb, hba⟩ := hc.edge c.x c.y d.x d.y a hpc.1 hcl ha hch.1 hpd
      rcases ih d (k + 1) hch.2 (fun d1 hd1 => hp d1 (List.mem_cons_of_mem _ hd1)) hl1
          ⟨b, hb, by omega⟩ with ⟨w, hw, hwc, a1, ha1, hle⟩ | h
      · left
        refine ⟨w, List.mem_cons_of_mem _ hw, hwc, a1, ha1, ?_⟩
        simp only [List.length_cons]
        omega
      · exact Or.inr h

/-- A path from `s` either meets an open cell that has a record no worse than
the path, or its end is closed. -/
theorem Pathfinder.Core.frontier_path (g : Grid) (s t : Vector2i) (pf : Pathfinder)
    (hc : Pathfinder.Core g s t pf none) (p : List Vector2i) (hp : g.IsPath s t p) :
    ∃ r ∈ pf.m_openSet, ∃ c, r.fScore = Score.fin c ∧ c + 1 ≤ p.length := by
  obtain ⟨hh, hl, hch, hpass⟩ := hp
  cases p with
  | nil => cases hh
  | cons c q =>
    simp only [List.head?_cons, Option.some.injEq] at hh
    subst hh
    rw [List.chain'_cons'] at hch
    have hch1 : List.Chain Vector2i.adjacent c q := by
      cases q with
      | nil => exact List.Chain.nil
      | cons d q1 =>
        rw [List.chain_cons]
        exact ⟨hch.1 d (by simp), by simpa using hch.2⟩
    rcases Pathfinder.Core.frontier g c t pf hc q c t 0 hch1 hpass hl
        ⟨0, hc.g_start, le_refl _⟩ with ⟨w, hw, hwc, a, ha, hle⟩ | h
    · have hbw := (hpass w hw).1
      have hnc : ¬ pf.closedEff none w.x w.y := by
        rintro (h | h)
        · rw [hwc] at h; cases h
        · cases h
      obtain ⟨r, hr, hri, hrg⟩ := hc.open_has w.x w.y a hbw hnc ha
      obtain ⟨x, y, a1, b1, hbxy, hri1, hrg1, _, _, hrf⟩ := hc.recs r hr
      have hxy := Pathfinder.idx_inj pf g hc.width x y w.x w.y hbxy hbw (by rw [← hri1, hri])
      rw [hrg] at hrg1
      cases hrg1
      rw [hxy.1, hxy.2] at hrf
      refine ⟨r, hr, _, hrf, ?_⟩
      rw [hDist_self] at hle
      simp only [List.length_cons]
      omega
    · rw [hc.goal_open] at h; cases h

/-! ## Popping a record -/

theorem Pathfinder.Core.erase (g : Grid) (s t : Vector2i) (pf pf1 : Pathfinder)
    (cur : Option (Int × Int)) (hc : Pathfinder.Core g s t pf cur) (r0 : NodeRecord)
    (hw : pf1.m_width = pf.m_width) (hsi : pf1.m_startIndex = pf.m_startIndex)
    (hgi : pf1.m_goalIndex = pf.m_goalIndex) (hgs : pf1.m_gScores = pf.m_gScores)
    (hfs : pf1.m_fScores = pf.m_fScores) (hps : pf1.m_parents = pf.m_parents)
    (hcs : pf1.m_inClosed = pf.m_inClosed) (hos : pf1.m_openSet = pf.m_openSet.erase r0)
    (hne : ∀ x y a, g.inBounds x y = true → ¬ pf.closedEff cur x y →
      pf.gAt x y = Score.fin a → r0.index = pf.idx x y → r0.gScore ≠ Score.fin a) :
    Pathfinder.Core g s t pf1 cur := by
  have hi : ∀ x y, pf1.idx x y = pf.idx x y := Pathfinder.idx_same pf pf1 hw
  have hg : ∀ x y, pf1.gAt x y = pf.gAt x y := by
    intro x y; simp [Pathfinder.gAt, hi, hgs]
  have hp : ∀ x y, pf1.parentAt x y = pf.parentAt x y := by
    intro x y; simp [Pathfinder.parentAt, hi, hps]
  have hcl : ∀ x y, pf1.closedAt x y = pf.closedAt x y := Pathfinder.closedAt_same pf pf1 hw hcs
  have he : ∀ x y, pf1.closedEff cur x y ↔ pf.closedEff cur x y :=
    Pathfinder.closedEff_same pf pf1 hw hcs cur
  have hsub : ∀ r, r ∈ pf1.m_openSet → r ∈ pf.m_openSet := by
    intro r hr; rw [hos] at hr; exact List.mem_of_mem_erase hr
  exact
    { width := by rw [hw]; exact hc.width
      len_g := by rw [hgs]; exact hc.len_g
      len_f := by rw [hfs]; exact hc.len_f
      len_p := by rw [hps]; exact hc.len_p
      len_c := by rw [hcs]; exact hc.len_c
      start_idx := by rw [hsi, hi]; exact hc.start_idx
      goal_idx := by rw [hgi, hi]; exact hc.goal_idx
      g_start := by rw [hg]; exact hc.g_start
      p_start := by rw [hp]; exact hc.p_start
      tree := by
        intro x y a hb hga
        rw [hg] at hga
        obtain ⟨h1, h2⟩ := hc.tree x y a hb hga
        refine ⟨h1, fun hn => ?_⟩
        obtain ⟨ux, uy, b, hbu, hpu, hau, hcu, hgu, hab⟩ := h2 hn
        exact ⟨ux, uy, b, hbu, by rw [hp, hi]; exact hpu, hau, (he ux uy).2 hcu,
          by rw [hg]; exact hgu, hab⟩
      closed_fin := by
        intro x y hb hce
        rw [hg]
        exact hc.closed_fin x y hb ((he x y).1 hce)
      recs := by
        intro r hr
        obtain ⟨x, y, a, b, hb, hri, hrg, hgv, hba, hrf⟩ := hc.recs r (hsub r hr)
        exact ⟨x, y, a, b, hb, by rw [hi]; exact hri, hrg, by rw [hg]; exact hgv, hba, hrf⟩
      open_has := by
        intro x y a hb hnc hga
        rw [hg] at hga
        have hnc1 : ¬ pf.closedEff cur x y := fun h => hnc ((he x y).2 h)
        obtain ⟨r, hr, hri, hrg⟩ := hc.open_has x y a hb hnc1 hga
        refine ⟨r, ?_, by rw [hi]; exact hri, hrg⟩
        rw [hos]
        refine (List.mem_erase_of_ne ?_).2 hr
        intro e
        subst e
        exact hne x y a hb hnc1 hga hri hrg
      edge := by
        intro x y x1 y1 a hb hcl1 hga hadj hp1
        rw [hcl] at hcl1
        rw [hg] at hga
        obtain ⟨b, hgb, hba⟩ := hc.edge x y x1 y1 a hb hcl1 hga hadj hp1
        exact ⟨b, by rw [hg]; exact hgb, hba⟩
      mono := by
        intro x y a r c hb hce hga hr hrf
        rw [hg] at hga
        exact hc.mono x y a r c hb ((he x y).1 hce) hga (hsub r hr) hrf
      goal_open := by rw [hcl]; exact hc.goal_open
      bound := by
        intro x y a hb hga
        rw [hg] at hga
        rw [hcs]
        exact hc.bound x y a hb hga }

/-- The popped cell counts as closed from the pop on. -/
theorem Pathfinder.Core.select (g : Grid) (s t : Vector2i) (pf : Pathfinder)
    (hc : Pathfinder.Core g s t pf none) (r0 : NodeRecord) (htop : pqTop pf.m_openSet = some r0)
    (x y : Int) (a : Nat) (hb : g.inBounds x y = true) (hga : pf.gAt x y = Score.fin a)
    (hrf : r0.fScore = Score.fin (a + hDist t x y)) :
    Pathfinder.Core g s t pf (some (x, y))
      ∧ ∀ x1 y1 a1, g.inBounds x1 y1 = true → pf.closedEff (some (x, y)) x1 y1 →
          pf.gAt x1 y1 = Score.fin a1 → a1 + hDist t x1 y1 ≤ a + hDist t x y := by
  have hmem := pqTop_mem _ _ htop
  have hweak : ∀ x1 y1, pf.closedEff none x1 y1 → pf.closedEff (some (x, y)) x1 y1 := by
    rintro x1 y1 (h | h)
    · exact Or.inl h
    · cases h
  have hmax : ∀ x1 y1 a1, g.inBounds x1 y1 = true → pf.closedEff (some (x, y)) x1 y1 →
      pf.gAt x1 y1 = Score.fin a1 → a1 + hDist t x1 y1 ≤ a + hDist t x y := by
    rintro x1 y1 a1 hb1 (h | h) hg1
    · exact hc.mono x1 y1 a1 r0 _ hb1 (Or.inl h) hg1 hmem hrf
    · simp only [Option.some.injEq, Prod.mk.injEq] at h
      obtain ⟨rfl, rfl⟩ := h
      rw [hga] at hg1
      cases hg1
      exact le_refl _
  refine ⟨?_, hmax⟩
  exact
    { width := hc.width
      len_g := hc.len_g
      len_f := hc.len_f
      len_p := hc.len_p
      len_c := hc.len_c
      start_idx := hc.start_idx
      goal_idx := hc.goal_idx
      g_start := hc.g_start
      p_start := hc.p_start
      tree := by
        intro x1 y1 a1 hb1 hg1
        obtain ⟨h1, h2⟩ := hc.tree x1 y1 a1 hb1 hg1
        refine ⟨h1, fun hn => ?_⟩
        obtain ⟨ux, uy, b, hbu, hpu, hau, hcu, hgu, hab⟩ := h2 hn
        exact ⟨ux, uy, b, hbu, hpu, hau, hweak ux uy hcu, hgu, hab⟩
      closed_fin := by
        rintro x1 y1 hb1 (h | h)
        · exact hc.closed_fin x1 y1 hb1 (Or.inl h)
        · simp only [Option.some.injEq, Prod.mk.injEq] at h
          obtain ⟨rfl, rfl⟩ := h
          exact ⟨a, hga⟩
      recs := hc.recs
      open_has := by
        intro x1 y1 a1 hb1 hnc hg1
        exact hc.open_has x1 y1 a1 hb1 (fun h => hnc (hweak x1 y1 h)) hg1
      edge := hc.edge
      mono := by
        intro x1 y1 a1 r c hb1 hce hg1 hr hrf1
        have h1 := hmax x1 y1 a1 hb1 hce hg1
        have h2 := pqTop_min_fin _ _ htop r hr _ _ hrf hrf1
        omega
      goal_open := hc.goal_open
      bound := by
        intro x1 y1 a1 hb1 hg1
        have := hc.bound x1 y1 a1 hb1 hg1
        simp at this ⊢
        omega }

/-! ## Closing the expanded cell -/

theorem Pathfinder.Mid.close (g : Grid) (hwf : g.WF) (s t : Vector2i)
    (htb : g.inBounds t.x t.y = true) (pf pf1 : Pathfinder) (cx cy : Int) (a0 : Nat)
    (hm : Pathfinder.Mid g s t pf cx cy a0)
    (hdone : ∀ o ∈ Pathfinder.offsets, g.passable { x := cx + o.1, y := cy + o.2 } →
      ∃ b, pf.gAt (cx + o.1) (cy + o.2) = Score.fin b ∧ b ≤ a0 + 1)
    (hw : pf1.m_width = pf.m_width) (hsi : pf1.m_startIndex = pf.m_startIndex)
    (hgi : pf1.m_goalIndex = pf.m_goalIndex) (hgs : pf1.m_gScores = pf.m_gScores)
    (hfs : pf1.m_fScores = pf.m_fScores) (hps : pf1.m_parents = pf.m_parents)
    (hos : pf1.m_openSet = pf.m_openSet)
    (hcs : pf1.m_inClosed = vecSet pf.m_inClosed (pf.idx cx cy) true) :
    Pathfinder.Core g s t pf1 none
      ∧ pf1.m_inClosed.count false + 1 = pf.m_inClosed.count false := by
  have hc := hm.core
  have hi : ∀ x y, pf1.idx x y = pf.idx x y := Pathfinder.idx_same pf pf1 hw
  have hg : ∀ x y, pf1.gAt x y = pf.gAt x y := by
    intro x y; simp [Pathfinder.gAt, hi, hgs]
  have hp : ∀ x y, pf1.parentAt x y = pf.parentAt x y := by
    intro x y; simp [Pathfinder.parentAt, hi, hps]
  have hcl : ∀ x y, g.inBounds x y = true →
      pf1.closedAt x y = if x = cx ∧ y = cy then true else pf.closedAt x y := by
    intro x y hb
    unfold Pathfinder.closedAt
    rw [hi, hcs]
    exact Pathfinder.vec_set_get pf g hwf hc.width _ hc.len_c cx cy x y true false hm.cur_in hb
  have he : ∀ x y, g.inBounds x y = true →
      (pf1.closedEff none x y ↔ pf.closedEff (some (cx, cy)) x y) := by
    intro x y hb
    unfold Pathfinder.closedEff
    rw [hcl x y hb]
    by_cases hxy : x = cx ∧ y = cy
    · obtain ⟨rfl, rfl⟩ := hxy
      simp
    · rw [if_neg hxy]
      constructor
      · rintro (h | h)
        · exact Or.inl h
        · cases h
      · rintro (h | h)
        · exact Or.inl h
        · simp only [Option.some.injEq, Prod.mk.injEq] at h
          exact absurd ⟨h.1.symm, h.2.symm⟩ hxy
  have hrange := Pathfinder.idx_range pf g hwf hc.width cx cy hm.cur_in
  have hcount := vecSet_count_true pf.m_inClosed (pf.idx cx cy) hrange.1
    (by rw [hc.len_c]; exact hrange.2) hm.cur_open
  rw [← hcs] at hcount
  refine ⟨?_, hcount.2⟩
  exact
    { width := by rw [hw]; exact hc.width
      len_g := by rw [hgs]; exact hc.len_g
      len_f := by rw [hfs]; exact hc.len_f
      len_p := by rw [hps]; exact hc.len_p
      len_c := by rw [hcs, vecSet_length]; exact hc.len_c
      start_idx := by rw [hsi, hi]; exact hc.start_idx
      goal_idx := by rw [hgi, hi]; exact hc.goal_idx
      g_start := by rw [hg]; exact hc.g_start
      p_start := by rw [hp]; exact hc.p_start
      tree := by
        intro x y a hb hga
        rw [hg] at hga
        obtain ⟨h1, h2⟩ := hc.tree x y a hb hga
        refine ⟨h1, fun hn => ?_⟩
        obtain ⟨ux, uy, b, hbu, hpu, hau, hcu, hgu, hab⟩ := h2 hn
        exact ⟨ux, uy, b, hbu, by rw [hp, hi]; exact hpu, hau, (he ux uy hbu).2 hcu,
          by rw [hg]; exact hgu, hab⟩
      closed_fin := by
        intro x y hb hce
        rw [hg]
        exact hc.closed_fin x y hb ((he x y hb).1 hce)
      recs := by
        intro r hr
        rw [hos] at hr
        obtain ⟨x, y, a, b, hb, hri, hrg, hgv, hba, hrf⟩ := hc.recs r hr
        exact ⟨x, y, a, b, hb, by rw [hi]; exact hri, hrg, by rw [hg]; exact hgv, hba, hrf⟩
      open_has := by
        intro x y a hb hnc hga
        rw [hg] at hga
        obtain ⟨r, hr, hri, hrg⟩ :=
          hc.open_has x y a hb (fun h => hnc ((he x y hb).2 h)) hga
        exact ⟨r, by rw [hos]; exact hr, by rw [hi]; exact hri, hrg⟩
      edge := by
        intro x y x1 y1 a hb hcl1 hga hadj hp1
        rw [hg] at hga
        rw [hg]
        rw [hcl x y hb] at hcl1
        by_cases hxy : x = cx ∧ y = cy
        · obtain ⟨rfl, rfl⟩ := hxy
          obtain ⟨o, ho, e1, e2⟩ := adjacent_offset x y x1 y1 hadj
          subst e1 e2
          rw [hm.cur_g] at hga
          cases hga
          exact hdone o ho hp1
        · rw [if_neg hxy] at hcl1
          exact hc.edge x y x1 y1 a hb hcl1 hga hadj hp1
      mono := by
        intro x y a r c hb hce hga hr hrf
        rw [hg] at hga
        rw [hos] at hr
        exact hc.mono x y a r c hb ((he x y hb).1 hce) hga hr hrf
      goal_open := by
        rw [hcl t.x t.y htb, if_neg (fun h => hm.cur_ne_goal ⟨h.1.symm, h.2.symm⟩)]
        exact hc.goal_open
      bound := by
        intro x y a hb hga
        rw [hg] at hga
        have := hc.bound x y a hb hga
        simp at this ⊢
        omega }

/-! ## The walk of `reconstructPath` -/

theorem Pathfinder.parentWalk_neg (pf : Pathfinder) (fuel : Nat) (cur : Int) (h : cur < 0) :
    pf.parentWalk fuel cur = some [] := by
  cases fuel with
  | zero =>
    unfold Pathfinder.parentWalk
    rw [if_neg (by omega)]
  | succ k =>
    unfold Pathfinder.parentWalk
    rw [if_neg (by omega)]

theorem Pathfinder.Core.walk (g : Grid) (hwf : g.WF) (s t : Vector2i)
    (hsb : g.inBounds s.x s.y = true) (pf : Pathfinder) (cur : Option (Int × Int))
    (hc : Pathfinder.Core g s t pf cur) (a : Nat) :
    ∀ (x y : Int) (fuel : Nat), g.inBounds x y = true → pf.gAt x y = Score.fin a → a < fuel →
      ∃ l q, pf.parentWalk fuel (pf.idx x y) = some l
        ∧ l.map pf.cellOf = { x := x, y := y } :: q ∧ q.length = a
        ∧ List.Chain (flip Vector2i.adjacent) { x := x, y := y } q
        ∧ (∀ d ∈ ({ x := x, y := y } : Vector2i) :: q, g.passable d)
        ∧ (({ x := x, y := y } : Vector2i) :: q).getLast? = some s := by
  induction a with
  | zero =>
    intro x y fuel hb hga hlt
    obtain ⟨hk, hpar⟩ := hc.tree x y 0 hb hga
    by_cases hxy : x = s.x ∧ y = s.y
    · obtain ⟨rfl, rfl⟩ := hxy
      obtain ⟨f, rfl⟩ : ∃ f, fuel = f + 1 := ⟨fuel - 1, by omega⟩
      have hr := Pathfinder.idx_range pf g hwf hc.width s.x s.y hb
      have hps : vecGet pf.m_parents (pf.idx s.x s.y) (-1) = -1 := hc.p_start
      refine ⟨[pf.idx s.x s.y], [], ?_, ?_, rfl, List.Chain.nil, ?_, rfl⟩
      · unfold Pathfinder.parentWalk
        rw [if_pos (by omega), hps, Pathfinder.parentWalk_neg pf f (-1) (by omega)]
        rfl
      · simp [Pathfinder.cellOf_idx pf g hc.width s.x s.y hb]
      · intro d hd
        rw [List.mem_singleton] at hd
        subst hd
        exact ⟨hb, hk⟩
    · obtain ⟨ux, uy, b, _, _, _, _, _, hab⟩ := hpar hxy
      omega
  | succ n ih =>
    intro x y fuel hb hga hlt
    obtain ⟨hk, hpar⟩ := hc.tree x y (n + 1) hb hga
    by_cases hxy : x = s.x ∧ y = s.y
    · obtain ⟨rfl, rfl⟩ := hxy
      rw [hc.g_start] at hga
      cases hga
    · obtain ⟨ux, uy, b, hbu, hpu, hau, _, hgu, hab⟩ := hpar hxy
      have hbn : b = n := by omega
      subst hbn
      obtain ⟨f, rfl⟩ : ∃ f, fuel = f + 1 := ⟨fuel - 1, by omega⟩
      obtain ⟨l1, q1, hw1, hm1, hl1, hc1, hp1, hg1⟩ := ih ux uy f hbu hgu (by omega)
      have hr := Pathfinder.idx_range pf g hwf hc.width x y hb
      have hpv : vecGet pf.m_parents (pf.idx x y) (-1) = pf.idx ux uy := hpu
      refine ⟨pf.idx x y :: l1, { x := ux, y := uy } :: q1, ?_, ?_, ?_, ?_, ?_, ?_⟩
      · unfold Pathfinder.parentWalk
        rw [if_pos (by omega), hpv, hw1]
        rfl
      · simp [Pathfinder.cellOf_idx pf g hc.width x y hb, hm1]
      · simp [hl1]
      · exact List.Chain.cons hau hc1
      · intro d hd
        rcases List.mem_cons.1 hd with e | e
        · subst e
          exact ⟨hb, hk⟩
        · exact hp1 d e
      · rw [List.getLast?_cons_cons]
        exact hg1

theorem Pathfinder.reconstruct_of_walk (pf : Pathfinder) (g0 : Grid) (hwf : g0.WF)
    (fuel : Nat) :
    ∀ (cur : Int) (l : List Int) (g : Grid), g0.SameFrame g → g.OverlayOK →
      pf.parentWalk fuel cur = some l →
      (∀ i ∈ l, g0.cell (pf.cellOf i).x (pf.cellOf i).y ≠ CellType.Obstacle) →
      ∃ g1, pf.reconstructLoop fuel cur g = some g1 ∧ g0.SameFrame g1 ∧ g1.OverlayOK := by
  induction fuel with
  | zero =>
    intro cur l g hfr hok hwalk _
    unfold Pathfinder.parentWalk at hwalk
    unfold Pathfinder.reconstructLoop
    by_cases h : cur ≥ 0
    · rw [if_pos h] at hwalk; cases hwalk
    · rw [if_neg h]
      exact ⟨g, rfl, hfr, hok⟩
  | succ k ih =>
    intro cur l g hfr hok hwalk hcells
    unfold Pathfinder.parentWalk at hwalk
    unfold Pathfinder.reconstructLoop
    by_cases h : cur ≥ 0
    · rw [if_pos h] at hwalk
      rw [if_pos h]
      cases hw1 : pf.parentWalk k (vecGet pf.m_parents cur (-1)) with
      | none => rw [hw1] at hwalk; cases hwalk
      | some l1 =>
        rw [hw1] at hwalk
        simp only [Option.map_some', Option.some.injEq] at hwalk
        subst hwalk
        have hk : g.cell (pf.toGrid cur).1 (pf.toGrid cur).2 ≠ CellType.Obstacle := by
          rw [Grid.SameFrame.cell g0 g hfr]
          exact hcells cur (List.mem_cons_self _ _)
        have hwfg := Grid.SameFrame.WF g0 g hfr hwf
        apply ih _ l1 _ _ _ hw1 (fun i hi => hcells i (List.mem_cons_of_mem _ hi))
        · split_ifs
          · exact Grid.SameFrame.trans g0 g _ hfr (Grid.setOverlay_SameFrame g _ _ _)
          · exact hfr
        · split_ifs
          · exact Grid.setOverlay_OverlayOK g hwfg _ _ _ hk hok
          · exact hok
    · rw [if_neg h]
      exact ⟨g, rfl, hfr, hok⟩

theorem count_true_lt (l : List Bool) (i : Int) (h0 : 0 ≤ i) (h1 : i < l.length)
    (hf : vecGet l i false = false) : l.count true < l.length := by
  cases i with
  | ofNat n =>
    have hn : n < l.length := by
      have : (n : Int) < l.length := h1
      omega
    have hf1 : l[n] = false := by
      have : l.getD n false = false := hf
      rw [List.getD_eq_getElem l false hn] at this
      exact this
    have h3 : 0 < l.count false := by
      apply List.count_pos_iff.2
      rw [← hf1]
      exact List.getElem_mem hn
    have := List.count_true_add_count_false l
    omega
  | negSucc n => exact absurd h0 (by simp [Int.negSucc_lt_zero])

theorem Pathfinder.Core.final (g : Grid) (hwf : g.WF) (s t : Vector2i)
    (hsb : g.inBounds s.x s.y = true) (htb : g.inBounds t.x t.y = true) (pf : Pathfinder)
    (cur : Option (Int × Int)) (hc : Pathfinder.Core g s t pf cur) (a : Nat)
    (hga : pf.gAt t.x t.y = Score.fin a) (hlt : a < pf.m_parents.length)
    (hopt : ∀ p, g.IsPath s t p → a + 1 ≤ p.length) :
    Pathfinder.Final g s t pf
      ∧ ∀ g1, g.SameFrame g1 → g1.OverlayOK →
          ∃ g2, pf.reconstructPath g1 = some g2 ∧ g.SameFrame g2 ∧ g2.OverlayOK := by
  obtain ⟨l, q, hwalk, hmap, hlen, hch, hpass, hlast⟩ :=
    Pathfinder.Core.walk g hwf s t hsb pf cur hc a t.x t.y pf.m_parents.length htb hga hlt
  have hr := Pathfinder.idx_range pf g hwf hc.width t.x t.y htb
  have hgi : ¬ pf.m_goalIndex < 0 := by rw [hc.goal_idx]; omega
  have hll : l.length = a + 1 := by
    have := congrArg List.length hmap
    simp only [List.length_map, List.length_cons] at this
    omega
  constructor
  · refine ⟨l, ?_, ⟨?_, ?_, ?_, ?_⟩, ?_⟩
    · unfold Pathfinder.pathCells
      rw [if_neg hgi, hc.goal_idx]
      exact hwalk
    · rw [List.head?_reverse, hmap]; exact hlast
    · rw [List.getLast?_reverse, hmap]; rfl
    · rw [List.chain'_reverse, hmap]
      exact hch
    · intro c hcm
      rw [List.mem_reverse, hmap] at hcm
      exact hpass c hcm
    · intro p hp
      rw [hll]
      exact hopt p hp
  · intro g1 hfr hok
    unfold Pathfinder.reconstructPath
    rw [if_neg hgi, hc.goal_idx]
    apply Pathfinder.reconstruct_of_walk pf g hwf _ _ l g1 hfr hok hwalk
    intro i hi
    have : pf.cellOf i ∈ l.map pf.cellOf := List.mem_map_of_mem _ hi
    rw [hmap] at this
    exact (hpass _ this).2

/-! ## One round of the loop of `step` -/

theorem Pathfinder.iterate_spec (pf : Pathfinder) (g : Grid) :
    (pqTop pf.m_openSet = none
        ∧ pf.iterate g = some ({ pf with m_status := Status.NoPath }, g))
      ∨ ∃ current, pqTop pf.m_openSet = some current
        ∧ (((current.index < 0 ∨ current.index ≥ g.cellCount
              ∨ vecGet pf.m_inClosed current.index false = true
              ∨ (vecGet pf.m_gScores current.index Score.inf).lt current.gScore = true)
            ∧ pf.iterate g = some ({ pf with m_openSet := pf.m_openSet.erase current }, g))
          ∨ (0 ≤ current.index ∧ current.index < g.cellCount
            ∧ vecGet pf.m_inClosed current.index false = false
            ∧ (vecGet pf.m_gScores current.index Score.inf).lt current.gScore = false
            ∧ current.index = pf.m_goalIndex
            ∧ ∀ g1, Pathfinder.reconstructPath
                  { pf with
                    m_openSet := pf.m_openSet.erase current
                    m_inOpen := vecSet pf.m_inOpen current.index false } g = some g1 →
                pf.iterate g = some
                  ({ pf with
                      m_openSet := pf.m_openSet.erase current
                      m_inOpen := vecSet pf.m_inOpen current.index false
                      m_status := Status.PathFound }, g1))
          ∨ (0 ≤ current.index ∧ current.index < g.cellCount
            ∧ vecGet pf.m_inClosed current.index false = false
            ∧ (vecGet pf.m_gScores current.index Score.inf).lt current.gScore = false
            ∧ current.index ≠ pf.m_goalIndex
            ∧ pf.iterate g = some
                ({ (Pathfinder.offsets.foldl
                      (Pathfinder.relaxNeighbor current.index (pf.toGrid current.index).1
                        (pf.toGrid current.index).2)
                      ({ pf with
                          m_openSet := pf.m_openSet.erase current
                          m_inOpen := vecSet pf.m_inOpen current.index false },
                       if current.index ≠ pf.m_startIndex then
                         g.setOverlay (pf.toGrid current.index).1 (pf.toGrid current.index).2
                           CellOverlay.ClosedSet
                       else g)).1 with
                    m_inClosed := vecSet
                      (Pathfinder.offsets.foldl
                        (Pathfinder.relaxNeighbor current.index (pf.toGrid current.index).1
                          (pf.toGrid current.index).2)
                        ({ pf with
                            m_openSet := pf.m_openSet.erase current
                            m_inOpen := vecSet pf.m_inOpen current.index false },
                         if current.index ≠ pf.m_startIndex then
                           g.setOverlay (pf.toGrid current.index).1 (pf.toGrid current.index).2
                             CellOverlay.ClosedSet
                         else g)).1.m_inClosed current.index true },
                 (Pathfinder.offsets.foldl
                    (Pathfinder.relaxNeighbor current.index (pf.toGrid current.index).1
                      (pf.toGrid current.index).2)
                    ({ pf with
                        m_openSet := pf.m_openSet.erase current
                        m_inOpen := vecSet pf.m_inOpen current.index false },
                     if current.index ≠ pf.m_startIndex then
                       g.setOverlay (pf.toGrid current.index).1 (pf.toGrid current.index).2
                         CellOverlay.ClosedSet
                     else g)).2))) := by
  cases htop : pqTop pf.m_openSet with
  | none =>
    left
    exact ⟨rfl, by simp [Pathfinder.iterate, htop]⟩
  | some current =>
    right
    refine ⟨current, rfl, ?_⟩
    by_cases h1 : current.index < 0 ∨ current.index ≥ g.cellCount
    · left
      refine ⟨by rcases h1 with h | h; exact Or.inl h; exact Or.inr (Or.inl h), ?_⟩
      simp [Pathfinder.iterate, htop, h1]
    have h1a : 0 ≤ current.index := by omega
    have h1b : current.index < g.cellCount := by omega
    by_cases h2 : vecGet pf.m_inClosed current.index false = true
    · left
      refine ⟨Or.inr (Or.inr (Or.inl h2)), ?_⟩
      simp [Pathfinder.iterate, htop, h1, h2]
    by_cases h3 : (vecGet pf.m_gScores current.index Score.inf).lt current.gScore = true
    · left
      refine ⟨Or.inr (Or.inr (Or.inr h3)), ?_⟩
      simp [Pathfinder.iterate, htop, h1, h2, h3]
    simp only [Bool.not_eq_true] at h2 h3
    right
    by_cases h4 : current.index = pf.m_goalIndex
    · left
      refine ⟨h1a, h1b, h2, h3, h4, ?_⟩
      intro g1 hg1
      have h1c := h1
      have h2c := h2
      have h3c := h3
      rw [h4] at h1c h2c h3c
      simp only [h4] at hg1
      simp [Pathfinder.iterate, htop, h4, h1c, h2c, h3c, hg1]
    · right
      refine ⟨h1a, h1b, h2, h3, h4, ?_⟩
      unfold Pathfinder.iterate
      simp only [htop, h1, h2, h3, h4, if_false, Bool.false_eq_true]
      rfl

theorem Pathfinder.iterate_Core (g : Grid) (hwf : g.WF) (hsm : g.Small) (s t : Vector2i)
    (hsb : g.inBounds s.x s.y = true) (htb : g.inBounds t.x t.y = true)
    (hgoal : g.m_goal = some t) (pf : Pathfinder) (hc : Pathfinder.Core g s t pf none)
    (hok : g.OverlayOK) :
    ∃ pf1 g1, pf.iterate g = some (pf1, g1) ∧ g.SameFrame g1 ∧ g1.OverlayOK
      ∧ ((pf1.m_status = pf.m_status ∧ Pathfinder.Core g s t pf1 none
            ∧ pf1.rounds < pf.rounds)
          ∨ (pf1.m_status = Status.PathFound ∧ Pathfinder.Final g s t pf1)
          ∨ (pf1.m_status = Status.NoPath ∧ ¬ ∃ p, g.IsPath s t p)) := by
  rcases Pathfinder.iterate_spec pf g with ⟨htop, he⟩ | ⟨current, htop, hcase⟩
  · refine ⟨_, _, he, Grid.SameFrame.refl g, hok, Or.inr (Or.inr ⟨rfl, ?_⟩)⟩
    rintro ⟨p, hp⟩
    obtain ⟨r, hr, _⟩ := Pathfinder.Core.frontier_path g s t pf hc p hp
    rw [pqTop_eq_none _ htop] at hr
    cases hr
  have hmem := pqTop_mem _ _ htop
  obtain ⟨x, y, a, b, hb, hri, hrg, hgv, hba, hrf⟩ := hc.recs current hmem
  have hr := Pathfinder.idx_range pf g hwf hc.width x y hb
  have hcc : g.cellCount = (g.m_cells.length : Int) := rfl
  have hgv1 : vecGet pf.m_gScores (pf.idx x y) Score.inf = Score.fin b := hgv
  have hlenpos : 0 < pf.m_openSet.length := List.length_pos_of_mem hmem
  have hlen1 : (pf.m_openSet.erase current).length = pf.m_openSet.length - 1 :=
    List.length_erase_of_mem hmem
  have hsame : ∀ x1 y1, g.inBounds x1 y1 = true → current.index = pf.idx x1 y1 →
      x1 = x ∧ y1 = y := by
    intro x1 y1 hb1 h
    exact Pathfinder.idx_inj pf g hc.width x1 y1 x y hb1 hb (by rw [← h, hri])
  rw [hri] at hcase
  rcases hcase with ⟨hstale, he⟩ | ⟨_, _, h2, h3, h4, he⟩ | ⟨_, _, h2, h3, h4, he⟩
  · -- a stale record
    refine ⟨_, _, he, Grid.SameFrame.refl g, hok, Or.inl ⟨rfl, ?_, ?_⟩⟩
    · refine Pathfinder.Core.erase g s t pf _ none hc current rfl rfl rfl rfl rfl rfl rfl rfl ?_
      intro x1 y1 a1 hb1 hnc hg1 hidx hgs
      obtain ⟨rfl, rfl⟩ := hsame x1 y1 hb1 hidx
      rw [hgv] at hg1
      cases hg1
      rw [hrg] at hgs
      cases hgs
      rcases hstale with h | h | h | h
      · omega
      · omega
      · exact hnc (Or.inl h)
      · rw [hgv1, hrg] at h
        simp [Score.lt] at h
    · show (pf.m_openSet.erase current).length + 5 * pf.m_inClosed.count false + 1
        < pf.m_openSet.length + 5 * pf.m_inClosed.count false + 1
      omega
  all_goals
    have hab : a = b := by
      rw [hgv1, hrg] at h3
      simp [Score.lt] at h3
      omega
    subst hab
    have hcl : pf.closedAt x y = false := h2
    obtain ⟨hsel, hmax⟩ := Pathfinder.Core.select g s t pf hc current htop x y a hb hgv hrf
    have hne : ∀ x1 y1 a1, g.inBounds x1 y1 = true → ¬ pf.closedEff (some (x, y)) x1 y1 →
        pf.gAt x1 y1 = Score.fin a1 → current.index = pf.idx x1 y1 →
        current.gScore ≠ Score.fin a1 := by
      intro x1 y1 a1 hb1 hnc _ hidx
      obtain ⟨rfl, rfl⟩ := hsame x1 y1 hb1 hidx
      exact absurd (Or.inr rfl) hnc
  · -- the goal is popped
    have hxy : x = t.x ∧ y = t.y := by
      rw [hc.goal_idx] at h4
      exact Pathfinder.idx_inj pf g hc.width x y t.x t.y hb htb h4
    obtain ⟨rfl, rfl⟩ := hxy
    have hrt := Pathfinder.idx_range pf g hwf hc.width t.x t.y htb
    have hlt : a < pf.m_parents.length := by
      have h1 := hc.bound t.x t.y a htb hgv
      have h2 := count_true_lt pf.m_inClosed (pf.idx t.x t.y) hrt.1
        (by rw [hc.len_c]; exact hrt.2) hc.goal_open
      rw [hc.len_p, ← hc.len_c]
      simp at h1
      omega
    have hopt : ∀ p, g.IsPath s t p → a + 1 ≤ p.length := by
      intro p hp
      obtain ⟨r, hrm, c, hrc, hle⟩ := Pathfinder.Core.frontier_path g s t pf hc p hp
      have := pqTop_min_fin _ _ htop r hrm _ _ hrf hrc
      rw [hDist_self] at this
      omega
    have hcore2 : Pathfinder.Core g s t
        { pf with
          m_openSet := pf.m_openSet.erase current
          m_inOpen := vecSet pf.m_inOpen (pf.idx t.x t.y) false } (some (t.x, t.y)) :=
      Pathfinder.Core.erase g s t pf _ _ hsel current rfl rfl rfl rfl rfl rfl rfl rfl hne
    have hcore3 : Pathfinder.Core g s t
        { pf with
          m_openSet := pf.m_openSet.erase current
          m_inOpen := vecSet pf.m_inOpen (pf.idx t.x t.y) false
          m_status := Status.PathFound } (some (t.x, t.y)) :=
      Pathfinder.Core.erase g s t pf _ _ hsel current rfl rfl rfl rfl rfl rfl rfl rfl hne
    obtain ⟨_, hrec⟩ := Pathfinder.Core.final g hwf s t hsb htb _ _ hcore2 a hgv hlt hopt
    obtain ⟨hfin, _⟩ := Pathfinder.Core.final g hwf s t hsb htb _ _ hcore3 a hgv hlt hopt
    obtain ⟨g2, hg2, hfr2, hok2⟩ := hrec g (Grid.SameFrame.refl g) hok
    exact ⟨_, _, he g2 hg2, hfr2, hok2, Or.inr (Or.inl ⟨rfl, hfin⟩)⟩
  · -- a cell is expanded
    have htg : pf.toGrid (pf.idx x y) = (x, y) := Pathfinder.toGrid_idx pf g hc.width x y hb
    rw [htg] at he
    simp only [] at he
    have hk : g.cell x y ≠ CellType.Obstacle := (hc.tree x y a hb hgv).1
    have hm : Pathfinder.Mid g s t
        { pf with
          m_openSet := pf.m_openSet.erase current
          m_inOpen := vecSet pf.m_inOpen (pf.idx x y) false } x y a :=
      { core := Pathfinder.Core.erase g s t pf _ _ hsel current rfl rfl rfl rfl rfl rfl rfl rfl hne
        cur_in := hb
        cur_open := hcl
        cur_ne_goal := by
          rintro ⟨rfl, rfl⟩
          exact h4 hc.goal_idx.symm
        cur_g := hgv
        cur_bound := by
          have := hc.bound x y a hb hgv
          simpa using this
        cur_max := hmax }
    have hfr1 : g.SameFrame (if pf.idx x y ≠ pf.m_startIndex then
        g.setOverlay x y CellOverlay.ClosedSet else g) := by
      split_ifs
      · exact Grid.setOverlay_SameFrame g x y _
      · exact Grid.SameFrame.refl g
    have hok1 : Grid.OverlayOK (if pf.idx x y ≠ pf.m_startIndex then
        g.setOverlay x y CellOverlay.ClosedSet else g) := by
      split_ifs
      · exact Grid.setOverlay_OverlayOK g hwf x y _ hk hok
      · exact hok
    obtain ⟨sF, hsF⟩ : ∃ sF : Pathfinder × Grid,
        sF = Pathfinder.offsets.foldl (Pathfinder.relaxNeighbor (pf.idx x y) x y)
          ({ pf with
              m_openSet := pf.m_openSet.erase current
              m_inOpen := vecSet pf.m_inOpen (pf.idx x y) false },
           if pf.idx x y ≠ pf.m_startIndex then g.setOverlay x y CellOverlay.ClosedSet
           else g) := ⟨_, rfl⟩
    rw [← hsF] at he
    have key : Pathfinder.Mid g s t sF.1 x y a
        ∧ (∀ o ∈ Pathfinder.offsets, g.passable { x := x + o.1, y := y + o.2 } →
            ∃ b, sF.1.gAt (x + o.1) (y + o.2) = Score.fin b ∧ b ≤ a + 1)
        ∧ g.SameFrame sF.2 ∧ sF.2.OverlayOK
        ∧ sF.1.m_openSet.length ≤ (pf.m_openSet.erase current).length + 4
        ∧ sF.1.m_inClosed = pf.m_inClosed ∧ sF.1.m_status = pf.m_status := by
      rw [hsF]
      obtain ⟨i1, _, i3, i4, i5, i6, i7, i8⟩ :=
        Pathfinder.relaxAll_Mid s t x y a Pathfinder.offsets (fun o h => h) g hwf hsm hsb htb
          hgoal
          { pf with
            m_openSet := pf.m_openSet.erase current
            m_inOpen := vecSet pf.m_inOpen (pf.idx x y) false } _ hfr1 hm hok1
      exact ⟨i1, i3, i4, i5, i6, i7, i8⟩
    obtain ⟨i1, i3, i4, i5, i6, i7, i8⟩ := key
    have hidx : sF.1.idx x y = pf.idx x y :=
      Pathfinder.idx_same pf sF.1 (i1.core.width.trans hc.width.symm) x y
    obtain ⟨j1, j2⟩ := Pathfinder.Mid.close g hwf s t htb sF.1
      { sF.1 with m_inClosed := vecSet sF.1.m_inClosed (pf.idx x y) true }
      x y a i1 i3 rfl rfl rfl rfl rfl rfl rfl (by rw [hidx])
    refine ⟨_, _, he, i4, i5, Or.inl ⟨i8, j1, ?_⟩⟩
    have j2a : List.count false (vecSet sF.1.m_inClosed (pf.idx x y) true) + 1
        = List.count false sF.1.m_inClosed := j2
    rw [i7] at j2a
    show sF.1.m_openSet.length + 5 * List.count false (vecSet sF.1.m_inClosed (pf.idx x y) true)
        + 1 < pf.m_openSet.length + 5 * List.count false pf.m_inClosed + 1
    rw [i7]
    omega

/-! ## `reset` and `start` -/

theorem vecFill_of_length {α : Type} (v : List α) (n : Nat) (d : α) (h : v.length = n) :
    vecFill v n d = List.replicate n d := by
  subst h
  exact vecFill_length_eq d v

theorem Pathfinder.reset_spec (pf : Pathfinder) (g : Grid) (hat : pf.Attached g) :
    (pf.reset g).1.m_width = pf.m_width
      ∧ (pf.reset g).1.m_gScores = List.replicate g.m_cells.length Score.inf
      ∧ (pf.reset g).1.m_fScores = List.replicate g.m_cells.length Score.inf
      ∧ (pf.reset g).1.m_parents = List.replicate g.m_cells.length (-1)
      ∧ (pf.reset g).1.m_inOpen = List.replicate g.m_cells.length false
      ∧ (pf.reset g).1.m_inClosed = List.replicate g.m_cells.length false
      ∧ (pf.reset g).1.m_openSet = []
      ∧ (pf.reset g).1.m_sequenceCounter = 0
      ∧ (pf.reset g).1.m_status = Status.Idle
      ∧ (pf.reset g).2 = g.clearOverlays := by
  obtain ⟨_, h1, h2, h3, h4⟩ := hat
  by_cases hl : pf.m_gScores.length ≠ g.m_cells.length
  · refine ⟨?_, ?_, ?_, ?_, ?_, ?_, ?_, ?_, ?_, ?_⟩ <;>
      simp only [Pathfinder.reset, if_pos hl] <;>
      exact vecFill_of_length _ _ _ (vecResize_length _ _ _)
  · have hl1 : pf.m_gScores.length = g.m_cells.length := by
      by_contra h; exact hl h
    refine ⟨?_, ?_, ?_, ?_, ?_, ?_, ?_, ?_, ?_, ?_⟩ <;>
      simp only [Pathfinder.reset, if_neg hl] <;>
      first
        | exact vecFill_of_length _ _ _ hl1
        | exact vecFill_of_length _ _ _ (h1.trans hl1)
        | exact vecFill_of_length _ _ _ (h2.trans hl1)
        | exact vecFill_of_length _ _ _ (h3.trans hl1)
        | exact vecFill_of_length _ _ _ (h4.trans hl1)

theorem Pathfinder.start_spec (pf : Pathfinder) (g : Grid) (hat : pf.Attached g)
    (s t : Vector2i) (hs : g.m_start = some s) (ht : g.m_goal = some t) (hne : s ≠ t) :
    ∃ pf1, pf.start g = (true, pf1, g.clearOverlays.clearOverlays)
      ∧ pf1.m_width = pf.m_width
      ∧ pf1.m_startIndex = pf.idx s.x s.y ∧ pf1.m_goalIndex = pf.idx t.x t.y
      ∧ pf1.m_gScores
          = vecSet (List.replicate g.m_cells.length Score.inf) (pf.idx s.x s.y) (Score.fin 0)
      ∧ pf1.m_fScores.length = g.m_cells.length
      ∧ pf1.m_parents = vecSet (List.replicate g.m_cells.length (-1)) (pf.idx s.x s.y) (-1)
      ∧ pf1.m_inClosed = List.replicate g.m_cells.length false
      ∧ pf1.m_openSet =
          [{ fScore := vecGet
                (vecSet (List.replicate g.m_cells.length Score.inf) (pf.idx s.x s.y)
                  (pf.heuristic g.clearOverlays.clearOverlays (pf.idx s.x s.y)))
                (pf.idx s.x s.y) Score.inf
             gScore := Score.fin 0
             index := pf.idx s.x s.y
             sequence := 0 }]
      ∧ pf1.m_status = Status.Running := by
  obtain ⟨r1, r2, r3, r4, r5, r6, r7, r8, r9, r10⟩ := Pathfinder.reset_spec pf g hat
  have hxy : ¬ (s.x = t.x ∧ s.y = t.y) := by
    rintro ⟨h1, h2⟩
    apply hne
    cases s; cases t
    simp only [] at h1 h2
    subst h1 h2
    rfl
  unfold Pathfinder.start
  rw [hs, ht]
  simp only [if_neg hxy]
  refine ⟨_, rfl, r1, ?_, ?_, ?_, ?_, ?_, r6, ?_, rfl⟩
  · simp [Pathfinder.idx, r1]
  · simp [Pathfinder.idx, r1]
  · simp only [r2, r1]; rfl
  · simp only [r3, vecSet_length, List.length_replicate]
  · simp only [r4, r1]; rfl
  · simp only [r3, r7, r8, r1, r10]
    rfl

theorem Grid.clearOverlays_SameFrame (g : Grid) : g.SameFrame g.clearOverlays :=
  ⟨rfl, rfl, rfl, rfl, rfl, vecFill_length _ _ _⟩

theorem Grid.clearOverlays_OverlayOK (g : Grid) : g.clearOverlays.OverlayOK :=
  fun x y _ _ => Grid.clearOverlays_overlay g x y

theorem Pathfinder.start_Inv (g : Grid) (hwf : g.WF) (hsm : g.Small) (hpl : g.Placed)
    (s t : Vector2i)
    (hs : g.m_start = some s) (ht : g.m_goal = some t) (pf : Pathfinder)
    (hat : pf.Attached g) :
    Pathfinder.SearchInv g s t (pf.start g).2
      ∧ (pf.start g).2.1.m_status = Status.Running
      ∧ (pf.start g).2.1.rounds = 5 * g.m_cells.length + 2 := by
  have hsb : g.inBounds s.x s.y = true := hpl.2.2.1 s hs
  have htb : g.inBounds t.x t.y = true := hpl.2.2.2.1 t ht
  have hne : s ≠ t := hpl.2.2.2.2 s t hs ht
  have hks : g.cell s.x s.y = CellType.Start := (hpl.1 s.x s.y hsb).2 hs
  obtain ⟨pf1, he, hw, hsi, hgi, hgs, hfl, hps, hcs, hos, hst⟩ :=
    Pathfinder.start_spec pf g hat s t hs ht hne
  rw [he]
  have hwg : pf.m_width = g.m_width := hat.1
  have hw1 : pf1.m_width = g.m_width := hw.trans hwg
  have hi : ∀ x y, pf1.idx x y = pf.idx x y := Pathfinder.idx_same pf pf1 hw
  have hrs := Pathfinder.idx_range pf g hwf hwg s.x s.y hsb
  have hfr : g.SameFrame g.clearOverlays.clearOverlays :=
    Grid.SameFrame.trans g _ _ (Grid.clearOverlays_SameFrame g)
      (Grid.clearOverlays_SameFrame g.clearOverlays)
  have hgA : ∀ x y, g.inBounds x y = true →
      pf1.gAt x y = if x = s.x ∧ y = s.y then Score.fin 0 else Score.inf := by
    intro x y hb
    unfold Pathfinder.gAt
    rw [hi, hgs, Pathfinder.vec_set_get pf g hwf hwg _ (by simp) s.x s.y x y _ _ hsb hb,
      vecGet_replicate_self]
  have hcA : ∀ x y, pf1.closedAt x y = false := by
    intro x y
    unfold Pathfinder.closedAt
    rw [hcs, vecGet_replicate_self]
  have hfin : ∀ x y a, g.inBounds x y = true → pf1.gAt x y = Score.fin a →
      (x = s.x ∧ y = s.y) ∧ a = 0 := by
    intro x y a hb hga
    rw [hgA x y hb] at hga
    by_cases hxy : x = s.x ∧ y = s.y
    · rw [if_pos hxy] at hga
      cases hga
      exact ⟨hxy, rfl⟩
    · rw [if_neg hxy] at hga
      cases hga
  have hrec : vecGet
      (vecSet (List.replicate g.m_cells.length Score.inf) (pf.idx s.x s.y)
        (pf.heuristic g.clearOverlays.clearOverlays (pf.idx s.x s.y)))
      (pf.idx s.x s.y) Score.inf = Score.fin (0 + hDist t s.x s.y) := by
    have hd := hDist_le g t s.x s.y htb hsb
    have hsm1 : g.m_cells.length + (g.m_width + g.m_height).toNat ≤ 2 ^ 24 := hsm
    rw [vecGet_vecSet_eq _ _ _ _ hrs.1 (by simpa using hrs.2),
      Pathfinder.heuristic_small pf _ (hwg.trans hfr.1.symm) t (hfr.2.2.2.2.1.trans ht) s.x s.y
        (by rw [Grid.SameFrame.inBounds g _ hfr]; exact hsb) (by omega), Nat.zero_add]
  rw [hrec] at hos
  have hncl : ∀ x y, ¬ pf1.closedAt x y = true := by
    intro x y h
    rw [hcA] at h
    cases h
  have hcore : Pathfinder.Core g s t pf1 none :=
    { width := hw1
      len_g := by rw [hgs, vecSet_length]; simp
      len_f := hfl
      len_p := by rw [hps, vecSet_length]; simp
      len_c := by rw [hcs]; simp
      start_idx := by rw [hsi, hi]
      goal_idx := by rw [hgi, hi]
      g_start := by rw [hgA s.x s.y hsb, if_pos ⟨rfl, rfl⟩]
      p_start := by
        unfold Pathfinder.parentAt
        rw [hi, hps, vecGet_vecSet_eq _ _ _ _ hrs.1 (by simpa using hrs.2)]
      tree := by
        intro x y a hb hga
        obtain ⟨⟨rfl, rfl⟩, _⟩ := hfin x y a hb hga
        refine ⟨by rw [hks]; decide, fun h => absurd ⟨rfl, rfl⟩ h⟩
      closed_fin := by
        rintro x y _ (h | h)
        · exact absurd h (hncl x y)
        · cases h
      recs := by
        intro r hr
        rw [hos, List.mem_singleton] at hr
        subst hr
        exact ⟨s.x, s.y, 0, 0, hsb, by rw [hi], rfl,
          by rw [hgA s.x s.y hsb, if_pos ⟨rfl, rfl⟩], le_refl _, rfl⟩
      open_has := by
        intro x y a hb _ hga
        obtain ⟨⟨rfl, rfl⟩, rfl⟩ := hfin x y a hb hga
        exact ⟨_, by rw [hos]; exact List.mem_singleton_self _, by rw [hi], rfl⟩
      edge := by
        intro x y x1 y1 a _ h
        exact absurd h (hncl x y)
      mono := by
        rintro x y a r c _ (h | h)
        · exact absurd h (hncl x y)
        · cases h
      goal_open := hcA t.x t.y
      bound := by
        intro x y a hb hga
        obtain ⟨_, rfl⟩ := hfin x y a hb hga
        exact Nat.zero_le _ }
  refine ⟨⟨hfr, Grid.clearOverlays_OverlayOK _, ?_, fun _ => hcore, ?_, ?_⟩, hst, ?_⟩
  · show pf1.m_status ≠ Status.Idle
    rw [hst]; decide
  · intro h
    have h1 : pf1.m_status = Status.PathFound := h
    rw [hst] at h1; cases h1
  · intro h
    have h1 : pf1.m_status = Status.NoPath := h
    rw [hst] at h1; cases h1
  · show pf1.m_openSet.length + 5 * pf1.m_inClosed.count false + 1 = _
    rw [hos, hcs]
    simp
    omega

/-! ## The invariant along `step` calls -/

theorem Grid.SameFrame.isPath (g g1 : Grid) (h : g.SameFrame g1) (s t : Vector2i)
    (p : List Vector2i) : g1.IsPath s t p ↔ g.IsPath s t p := by
  unfold Grid.IsPath
  simp only [Grid.SameFrame.passable g g1 h]

theorem Pathfinder.iterate_Inv (g0 : Grid) (hwf : g0.WF) (hsm : g0.Small)
    (s t : Vector2i)
    (hsb : g0.inBounds s.x s.y = true) (htb : g0.inBounds t.x t.y = true)
    (hgoal : g0.m_goal = some t) (st : Pathfinder × Grid)
    (hinv : Pathfinder.SearchInv g0 s t st) (hrun : st.1.m_status = Status.Running) :
    ∃ st1, st.1.iterate st.2 = some st1 ∧ Pathfinder.SearchInv g0 s t st1
      ∧ (st1.1.m_status = Status.Running → st1.1.rounds < st.1.rounds) := by
  obtain ⟨hfr, hok, _, hcore, _, _⟩ := hinv
  have hc := Pathfinder.Core.reframe g0 st.2 hfr s t st.1 none (hcore hrun)
  have hib := Grid.SameFrame.inBounds g0 st.2 hfr
  obtain ⟨pf1, g1, he, hfr1, hok1, hres⟩ :=
    Pathfinder.iterate_Core st.2 (Grid.SameFrame.WF g0 st.2 hfr hwf)
      (by unfold Grid.Small at hsm ⊢; rw [hfr.1, hfr.2.1, hfr.2.2.1]; exact hsm) s t
      (by rw [hib]; exact hsb) (by rw [hib]; exact htb) (hfr.2.2.2.2.1.trans hgoal) st.1 hc hok
  have hfr2 : g0.SameFrame g1 := Grid.SameFrame.trans g0 st.2 g1 hfr hfr1
  have hback := Grid.SameFrame.symm g0 st.2 hfr
  refine ⟨(pf1, g1), he, ?_, ?_⟩
  · rcases hres with ⟨h1, h2, _⟩ | ⟨h1, h2⟩ | ⟨h1, h2⟩
    · refine ⟨hfr2, hok1, ?_, fun _ => Pathfinder.Core.reframe st.2 g0 hback s t pf1 none h2,
        ?_, ?_⟩
      · show pf1.m_status ≠ Status.Idle
        rw [h1, hrun]; decide
      · intro h
        have h3 : pf1.m_status = Status.PathFound := h
        rw [h1, hrun] at h3; cases h3
      · intro h
        have h3 : pf1.m_status = Status.NoPath := h
        rw [h1, hrun] at h3; cases h3
    · refine ⟨hfr2, hok1, ?_, ?_, ?_, ?_⟩
      · show pf1.m_status ≠ Status.Idle
        rw [h1]; decide
      · intro h
        have h3 : pf1.m_status = Status.Running := h
        rw [h1] at h3; cases h3
      · intro _
        obtain ⟨cells, hc1, hc2, hc3⟩ := h2
        exact ⟨cells, hc1, (Grid.SameFrame.isPath g0 st.2 hfr s t _).1 hc2,
          fun p hp => hc3 p ((Grid.SameFrame.isPath g0 st.2 hfr s t p).2 hp)⟩
      · intro h
        have h3 : pf1.m_status = Status.NoPath := h
        rw [h1] at h3; cases h3
    · refine ⟨hfr2, hok1, ?_, ?_, ?_, ?_⟩
      · show pf1.m_status ≠ Status.Idle
        rw [h1]; decide
      · intro h
        have h3 : pf1.m_status = Status.Running := h
        rw [h1] at h3; cases h3
      · intro h
        have h3 : pf1.m_status = Status.PathFound := h
        rw [h1] at h3; cases h3
      · intro _
        rintro ⟨p, hp⟩
        exact h2 ⟨p, (Grid.SameFrame.isPath g0 st.2 hfr s t p).2 hp⟩
  · intro h
    have h3 : pf1.m_status = Status.Running := h
    rcases hres with ⟨_, _, h2⟩ | ⟨h1, _⟩ | ⟨h1, _⟩
    · exact h2
    · rw [h1] at h3; cases h3
    · rw [h1] at h3; cases h3

theorem Pathfinder.stepLoop_idle (n : Nat) (st : Pathfinder × Grid)
    (h : st.1.m_status ≠ Status.Running) : Pathfinder.stepLoop n st = some st := by
  cases n with
  | zero => rfl
  | succ k =>
    unfold Pathfinder.stepLoop
    rw [if_pos h]

theorem Pathfinder.stepLoop_Inv (g0 : Grid) (hwf : g0.WF) (hsm : g0.Small)
    (s t : Vector2i)
    (hsb : g0.inBounds s.x s.y = true) (htb : g0.inBounds t.x t.y = true)
    (hgoal : g0.m_goal = some t) (n : Nat) :
    ∀ st : Pathfinder × Grid, Pathfinder.SearchInv g0 s t st →
      ∃ st1, Pathfinder.stepLoop n st = some st1 ∧ Pathfinder.SearchInv g0 s t st1
        ∧ (st1.1.m_status = Status.Running → st1.1.rounds + n ≤ st.1.rounds) := by
  induction n with
  | zero =>
    intro st hinv
    exact ⟨st, rfl, hinv, fun _ => le_refl _⟩
  | succ k ih =>
    intro st hinv
    by_cases hrun : st.1.m_status = Status.Running
    · obtain ⟨st2, he2, hinv2, hm2⟩ :=
        Pathfinder.iterate_Inv g0 hwf hsm s t hsb htb hgoal st hinv hrun
      obtain ⟨st1, he1, hinv1, hm1⟩ := ih st2 hinv2
      refine ⟨st1, ?_, hinv1, ?_⟩
      · unfold Pathfinder.stepLoop
        rw [if_neg (by rw [hrun]; decide), he2]
        exact he1
      · intro h1
        have hr2 : st2.1.m_status = Status.Running := by
          by_contra hn
          rw [Pathfinder.stepLoop_idle k st2 hn] at he1
          cases he1
          exact hn h1
        have := hm1 h1
        have := hm2 hr2
        omega
    · refine ⟨st, Pathfinder.stepLoop_idle _ st hrun, hinv, fun h => absurd h hrun⟩

theorem Pathfinder.step_Inv (g0 : Grid) (hwf : g0.WF) (hsm : g0.Small)
    (s t : Vector2i)
    (hsb : g0.inBounds s.x s.y = true) (htb : g0.inBounds t.x t.y = true)
    (hgoal : g0.m_goal = some t) (st : Pathfinder × Grid)
    (hinv : Pathfinder.SearchInv g0 s t st) (iterations : Int) :
    ∃ st1, st.1.step st.2 iterations = some st1 ∧ Pathfinder.SearchInv g0 s t st1
      ∧ (st1.1.m_status = Status.Running → st1.1.rounds + 1 ≤ st.1.rounds) := by
  unfold Pathfinder.step
  by_cases hrun : st.1.m_status ≠ Status.Running
  · rw [if_pos hrun]
    exact ⟨st, rfl, hinv, fun h => absurd h hrun⟩
  · rw [if_neg hrun]
    obtain ⟨st1, he, hinv1, hm⟩ := Pathfinder.stepLoop_Inv g0 hwf hsm s t hsb htb hgoal
      (if iterations < 1 then 1 else iterations).toNat st hinv
    refine ⟨st1, he, hinv1, fun h => ?_⟩
    have h1 := hm h
    have h2 : 1 ≤ (if iterations < 1 then 1 else iterations).toNat := by
      split_ifs <;> omega
    omega

theorem Pathfinder.runSteps_Inv (g0 : Grid) (hwf : g0.WF) (hsm : g0.Small)
    (s t : Vector2i)
    (hsb : g0.inBounds s.x s.y = true) (htb : g0.inBounds t.x t.y = true)
    (hgoal : g0.m_goal = some t) (budgets : List Int) :
    ∀ st : Pathfinder × Grid, Pathfinder.SearchInv g0 s t st →
      ∃ st1, Pathfinder.runSteps budgets st = some st1 ∧ Pathfinder.SearchInv g0 s t st1
        ∧ (st1.1.m_status = Status.Running → st1.1.rounds + budgets.length ≤ st.1.rounds) := by
  induction budgets with
  | nil =>
    intro st hinv
    exact ⟨st, rfl, hinv, fun _ => le_refl _⟩
  | cons n ns ih =>
    intro st hinv
    obtain ⟨st2, he2, hinv2, hm2⟩ := Pathfinder.step_Inv g0 hwf hsm s t hsb htb hgoal st hinv n
    obtain ⟨st1, he1, hinv1, hm1⟩ := ih st2 hinv2
    refine ⟨st1, ?_, hinv1, ?_⟩
    · unfold Pathfinder.runSteps
      rw [he2]
      exact he1
    · intro h1
      have hr2 : st2.1.m_status = Status.Running := by
        by_contra hn
        have hidle : ∀ l : List Int, Pathfinder.runSteps l st2 = some st2 := by
          intro l
          induction l with
          | nil => rfl
          | cons a l ihl =>
            unfold Pathfinder.runSteps Pathfinder.step
            rw [if_pos hn]
            exact ihl
        rw [hidle ns] at he1
        cases he1
        exact hn h1
      have := hm1 h1
      have := hm2 hr2
      simp only [List.length_cons]
      omega

/-- A search on a well-formed grid with Start and Goal placed runs to a state
that satisfies the search invariant, whatever the budgets of the `step` calls. -/
theorem Pathfinder.search_Inv (g : Grid) (hwf : g.WF) (hsm : g.Small) (hpl : g.Placed)
    (s t : Vector2i)
    (hs : g.m_start = some s) (ht : g.m_goal = some t) (pf : Pathfinder)
    (hat : pf.Attached g) (budgets : List Int) :
    ∃ st1, pf.search g budgets = some st1 ∧ Pathfinder.SearchInv g s t st1
      ∧ (st1.1.m_status = Status.Running →
          st1.1.rounds + budgets.length ≤ 5 * g.m_cells.length + 2) := by
  obtain ⟨hinv, _, hr⟩ := Pathfinder.start_Inv g hwf hsm hpl s t hs ht pf hat
  obtain ⟨st1, he, hinv1, hm⟩ := Pathfinder.runSteps_Inv g hwf hsm s t (hpl.2.2.1 s hs)
    (hpl.2.2.2.1 t ht) ht budgets _ hinv
  rw [hr] at hm
  exact ⟨st1, he, hinv1, hm⟩

/-! ## `reconstructPath` writes the cells of its walk -/

theorem Pathfinder.reconstructLoop_eq_fold (pf : Pathfinder) (fuel : Nat) :
    ∀ (cur : Int) (l : List Int) (g : Grid), pf.parentWalk fuel cur = some l →
      pf.reconstructLoop fuel cur g = some
        (l.foldl
          (fun acc i =>
            if i ≠ pf.m_startIndex then
              acc.setOverlay (pf.toGrid i).1 (pf.toGrid i).2 CellOverlay.Path
            else acc) g) := by
  induction fuel with
  | zero =>
    intro cur l g hwalk
    unfold Pathfinder.parentWalk at hwalk
    unfold Pathfinder.reconstructLoop
    by_cases h : cur ≥ 0
    · rw [if_pos h] at hwalk; cases hwalk
    · rw [if_neg h] at hwalk ⊢
      cases hwalk
      rfl
  | succ k ih =>
    intro cur l g hwalk
    unfold Pathfinder.parentWalk at hwalk
    unfold Pathfinder.reconstructLoop
    by_cases h : cur ≥ 0
    · rw [if_pos h] at hwalk
      rw [if_pos h]
      cases hw1 : pf.parentWalk k (vecGet pf.m_parents cur (-1)) with
      | none => rw [hw1] at hwalk; cases hwalk
      | some l1 =>
        rw [hw1] at hwalk
        simp only [Option.map_some', Option.some.injEq] at hwalk
        subst hwalk
        rw [ih _ l1 _ hw1]
        rfl
    · rw [if_neg h] at hwalk ⊢
      cases hwalk
      rfl

theorem Pathfinder.reconstructPath_eq_fold (pf : Pathfinder) (cells : List Int)
    (h : pf.pathCells = some cells) (g : Grid) :
    pf.reconstructPath g = some
      (cells.foldl
        (fun acc i =>
          if i ≠ pf.m_startIndex then
            acc.setOverlay (pf.toGrid i).1 (pf.toGrid i).2 CellOverlay.Path
          else acc) g) := by
  unfold Pathfinder.pathCells at h
  unfold Pathfinder.reconstructPath
  by_cases hg : pf.m_goalIndex < 0
  · rw [if_pos hg] at h ⊢
    cases h
    rfl
  · rw [if_neg hg] at h ⊢
    exact Pathfinder.reconstructLoop_eq_fold pf _ _ cells g h

/-! ## Splitting the budget of `step` -/

theorem Pathfinder.stepLoop_succ (n : Nat) (s : Pathfinder × Grid)
    (hrun : ¬ s.1.m_status ≠ Status.Running) :
    Pathfinder.stepLoop (n + 1) s = (Pathfinder.iterate s.1 s.2).bind (Pathfinder.stepLoop n) := by
  rw [Pathfinder.stepLoop, if_neg hrun]
  cases Pathfinder.iterate s.1 s.2 <;> rfl

theorem Pathfinder.stepLoop_add (a b : Nat) (s : Pathfinder × Grid) :
    Pathfinder.stepLoop (a + b) s = (Pathfinder.stepLoop a s).bind (Pathfinder.stepLoop b) := by
  induction a generalizing s with
  | zero =>
    rw [Nat.zero_add]
    rfl
  | succ k ih =>
    rw [Nat.succ_add]
    by_cases hrun : s.1.m_status ≠ Status.Running
    · rw [Pathfinder.stepLoop_idle _ s hrun, Pathfinder.stepLoop_idle _ s hrun]
      exact (Pathfinder.stepLoop_idle b s hrun).symm
    · rw [Pathfinder.stepLoop_succ _ s hrun, Pathfinder.stepLoop_succ _ s hrun]
      cases hit : Pathfinder.iterate s.1 s.2 with
      | none => rfl
      | some s1 => exact ih s1

/-- The number of rounds that `step(iterations)` allows. -/
theorem Pathfinder.step_eq_stepLoop (s : Pathfinder × Grid) (iterations : Int) :
    s.1.step s.2 iterations
      = Pathfinder.stepLoop (if iterations < 1 then 1 else iterations).toNat s := by
  unfold Pathfinder.step
  by_cases hrun : s.1.m_status ≠ Status.Running
  · rw [if_pos hrun, Pathfinder.stepLoop_idle _ s hrun]
  · rw [if_neg hrun]

theorem Pathfinder.runSteps_eq_stepLoop (budgets : List Int) (s : Pathfinder × Grid) :
    Pathfinder.runSteps budgets s
      = Pathfinder.stepLoop
          (budgets.map (fun n => (if n < 1 then 1 else n).toNat)).sum s := by
  induction budgets generalizing s with
  | nil => rfl
  | cons n ns ih =>
    unfold Pathfinder.runSteps
    rw [Pathfinder.step_eq_stepLoop s n]
    simp only [List.map_cons, List.sum_cons]
    rw [Pathfinder.stepLoop_add]
    cases hs : Pathfinder.stepLoop (if n < 1 then 1 else n).toNat s with
    | none => rfl
    | some s1 => exact ih s1

/-- A search whose status is Running after fewer than `rounds` rounds and is
not Running after `rounds` rounds ends in the state reached after `rounds`
rounds, however the rounds are split over `step` calls. -/
theorem Pathfinder.search_final (pf : Pathfinder) (g : Grid) (rounds : Nat)
    (last : Status)
    (hfin : (Pathfinder.stepLoop rounds (pf.start g).2).map (fun s => s.1.m_status)
      = some last)
    (hterm : last ≠ Status.Running)
    (hrun : ∀ k, k < rounds →
      (Pathfinder.stepLoop k (pf.start g).2).map (fun s => s.1.m_status)
        = some Status.Running)
    (budgets : List Int) (st : Pathfinder × Grid) (hs : pf.search g budgets = some st)
    (hst : st.1.m_status ≠ Status.Running) :
    Pathfinder.stepLoop rounds (pf.start g).2 = some st := by
  unfold Pathfinder.search at hs
  rw [Pathfinder.runSteps_eq_stepLoop] at hs
  by_cases hlt : (budgets.map (fun n => (if n < 1 then 1 else n).toNat)).sum < rounds
  · have := hrun _ hlt
    rw [hs] at this
    simp only [Option.map_some', Option.some.injEq] at this
    exact absurd this hst
  · obtain ⟨d, hd⟩ : ∃ d, (budgets.map (fun n => (if n < 1 then 1 else n).toNat)).sum
        = rounds + d := ⟨_, (Nat.add_sub_cancel' (Nat.le_of_not_lt hlt)).symm⟩
    rw [hd, Pathfinder.stepLoop_add] at hs
    cases hf : Pathfinder.stepLoop rounds (pf.start g).2 with
    | none => rw [hf] at hfin; cases hfin
    | some final =>
      rw [hf] at hfin hs
      simp only [Option.map_some', Option.some.injEq] at hfin
      simp only [Option.some_bind] at hs
      rw [Pathfinder.stepLoop_idle d final (by rw [hfin]; exact hterm)] at hs
      rw [hs]

/-- Two runs of the loop of `step` from one state that both end outside Running
end in the same state. -/
theorem Pathfinder.stepLoop_terminal (s : Pathfinder × Grid) (n1 n2 : Nat)
    (st1 st2 : Pathfinder × Grid) (h1 : Pathfinder.stepLoop n1 s = some st1)
    (h2 : Pathfinder.stepLoop n2 s = some st2) (t1 : st1.1.m_status ≠ Status.Running)
    (t2 : st2.1.m_status ≠ Status.Running) : st1 = st2 := by
  have key : ∀ (a b : Nat) (u v : Pathfinder × Grid), a ≤ b →
      Pathfinder.stepLoop a s = some u → Pathfinder.stepLoop b s = some v →
      u.1.m_status ≠ Status.Running → u = v := by
    intro a b u v hab hu hv tu
    obtain ⟨d, rfl⟩ : ∃ d, b = a + d := ⟨b - a, by omega⟩
    rw [Pathfinder.stepLoop_add, hu] at hv
    simp only [Option.some_bind] at hv
    rw [Pathfinder.stepLoop_idle d u tu] at hv
    exact Option.some.inj hv
  rcases Nat.le_total n1 n2 with h | h
  · exact key n1 n2 st1 st2 h h1 h2 t1
  · exact (key n2 n1 st2 st1 h h2 h1 t2).symm

/-! ## `reset` on arrays of one size -/

theorem Pathfinder.reset_arrays (pf : Pathfinder) (g : Grid)
    (h1 : pf.m_fScores.length = pf.m_gScores.length)
    (h2 : pf.m_parents.length = pf.m_gScores.length)
    (h3 : pf.m_inOpen.length = pf.m_gScores.length)
    (h4 : pf.m_inClosed.length = pf.m_gScores.length) :
    pf.reset g =
      ({ m_width := pf.m_width
         m_height := pf.m_height
         m_startIndex := -1
         m_goalIndex := -1
         m_openSet := []
         m_gScores := List.replicate g.m_cells.length Score.inf
         m_fScores := List.replicate g.m_cells.length Score.inf
         m_parents := List.replicate g.m_cells.length (-1)
         m_inOpen := List.replicate g.m_cells.length false
         m_inClosed := List.replicate g.m_cells.length false
         m_sequenceCounter := 0
         m_status := Status.Idle },
       { g with m_overlays := List.replicate g.m_overlays.length CellOverlay.None }) := by
  have hg : g.clearOverlays
      = { g with m_overlays := List.replicate g.m_overlays.length CellOverlay.None } := by
    unfold Grid.clearOverlays
    rw [vecFill_length_eq]
  by_cases hl : pf.m_gScores.length ≠ g.m_cells.length
  · unfold Pathfinder.reset
    simp only [if_pos hl]
    rw [hg, vecFill_of_length _ _ _ (vecResize_length _ _ _),
      vecFill_of_length _ _ _ (vecResize_length _ _ _),
      vecFill_of_length _ _ _ (vecResize_length _ _ _),
      vecFill_of_length _ _ _ (vecResize_length _ _ _),
      vecFill_of_length _ _ _ (vecResize_length _ _ _)]
  · have hl1 : pf.m_gScores.length = g.m_cells.length := by
      by_contra h; exact hl h
    unfold Pathfinder.reset
    simp only [if_neg hl]
    rw [hg, vecFill_of_length _ _ _ hl1, vecFill_of_length _ _ _ (h1.trans hl1),
      vecFill_of_length _ _ _ (h2.trans hl1), vecFill_of_length _ _ _ (h3.trans hl1),
      vecFill_of_length _ _ _ (h4.trans hl1)]

/-! ## `toGrid` on an index that is not negative -/

theorem Pathfinder.toGrid_nonneg (pf : Pathfinder) (i : Int) (hi : 0 ≤ i)
    (hw : 1 ≤ pf.m_width) : pf.toGrid i = (i % pf.m_width, i / pf.m_width) := by
  unfold Pathfinder.toGrid
  rw [Int.tmod_eq_emod hi (by omega), Int.tdiv_eq_ediv hi (by omega)]

theorem Grid.cell_of_index (g : Grid) (hwf : g.WF) (i : Int) (h0 : 0 ≤ i)
    (h1 : i < g.cellCount) :
    g.inBounds (i % g.m_width) (i / g.m_width) = true
      ∧ g.index (i % g.m_width) (i / g.m_width) = i := by
  obtain ⟨hw, hh, hlen, _⟩ := hwf
  have hN : g.cellCount = g.m_width * g.m_height := by
    unfold Grid.cellCount
    rw [hlen, Int.toNat_of_nonneg (by positivity)]
  rw [hN] at h1
  have hwpos : 0 < g.m_width := by omega
  have e1 : 0 ≤ i % g.m_width := Int.emod_nonneg i (by omega)
  have e2 : i % g.m_width < g.m_width := Int.emod_lt_of_pos i hwpos
  have e3 : 0 ≤ i / g.m_width := Int.ediv_nonneg h0 (by omega)
  have e4 : i / g.m_width < g.m_height := by
    rw [Int.ediv_lt_iff_lt_mul hwpos, mul_comm]
    exact h1
  refine ⟨(Grid.inBounds_iff g _ _).2 ⟨e1, e3, e2, e4⟩, ?_⟩
  unfold Grid.index
  have := Int.emod_add_ediv i g.m_width
  rw [mul_comm]
  omega

/-! ## The rounding-independent invariant: one neighbour -/

theorem Pathfinder.reach_reframe (g g1 : Grid) (h : g.SameFrame g1) (s t : Vector2i)
    (pf : Pathfinder) (cur : Option (Int × Int)) (hc : Pathfinder.Reach g s t pf cur) :
    Pathfinder.Reach g1 s t pf cur := by
  rw [Grid.SameFrame.eq_with g g1 h]
  exact
    { width := hc.width
      len_g := hc.len_g
      len_p := hc.len_p
      len_c := hc.len_c
      start_idx := hc.start_idx
      goal_idx := hc.goal_idx
      g_start := hc.g_start
      p_start := hc.p_start
      g_cap := hc.g_cap
      tree := hc.tree
      rank := hc.rank
      closed_fin := hc.closed_fin
      recs := hc.recs
      open_has := hc.open_has
      edge := hc.edge
      goal_open := hc.goal_open }

theorem Pathfinder.reachMid_reframe (g g1 : Grid) (h : g.SameFrame g1) (s t : Vector2i)
    (pf : Pathfinder) (cx cy : Int) (hm : Pathfinder.ReachMid g s t pf cx cy) :
    Pathfinder.ReachMid g1 s t pf cx cy := by
  have hr := Pathfinder.reach_reframe g g1 h s t pf _ hm.reach
  rw [Grid.SameFrame.eq_with g g1 h] at hr ⊢
  exact
    { reach := hr
      cur_in := hm.cur_in
      cur_open := hm.cur_open
      cur_ne_goal := hm.cur_ne_goal }

theorem Pathfinder.reach_relax (g : Grid) (hwf : g.WF) (s t : Vector2i)
    (hsb : g.inBounds s.x s.y = true) (pf : Pathfinder) (cx cy : Int)
    (hm : Pathfinder.ReachMid g s t pf cx cy) (off : Int × Int)
    (hoff : off ∈ Pathfinder.offsets) :
    Pathfinder.ReachMid g s t (Pathfinder.relaxNeighbor (pf.idx cx cy) cx cy (pf, g) off).1 cx cy
      ∧ (∀ x y a, g.inBounds x y = true → pf.gAt x y = Score.fin a →
          ∃ b, (Pathfinder.relaxNeighbor (pf.idx cx cy) cx cy (pf, g) off).1.gAt x y
            = Score.fin b)
      ∧ (g.passable { x := cx + off.1, y := cy + off.2 } →
          ∃ b, (Pathfinder.relaxNeighbor (pf.idx cx cy) cx cy (pf, g) off).1.gAt
            (cx + off.1) (cy + off.2) = Score.fin b)
      ∧ g.SameFrame (Pathfinder.relaxNeighbor (pf.idx cx cy) cx cy (pf, g) off).2
      ∧ (g.OverlayOK → (Pathfinder.relaxNeighbor (pf.idx cx cy) cx cy (pf, g) off).2.OverlayOK)
      ∧ (Pathfinder.relaxNeighbor (pf.idx cx cy) cx cy (pf, g) off).1.m_openSet.length
          ≤ pf.m_openSet.length + 1
      ∧ (Pathfinder.relaxNeighbor (pf.idx cx cy) cx cy (pf, g) off).1.m_inClosed = pf.m_inClosed
      ∧ (Pathfinder.relaxNeighbor (pf.idx cx cy) cx cy (pf, g) off).1.m_status = pf.m_status := by
  have hcore := hm.reach
  have hw := hcore.width
  obtain ⟨a0, hgcur0⟩ := hcore.closed_fin cx cy hm.cur_in (Or.inr rfl)
  have hgcur : vecGet pf.m_gScores (pf.idx cx cy) Score.inf = Score.fin a0 := hgcur0
  have hadj := offset_adjacent cx cy off hoff
  obtain ⟨b1, hexact, hb1pos, hb1cap⟩ :=
    Score.add_one_cap a0 (hcore.g_cap cx cy a0 hm.cur_in hgcur0)
  rcases Pathfinder.relaxNeighbor_spec (pf.idx cx cy) cx cy pf g off with
    ⟨he, hreason⟩ | ⟨hb, hc, hk, hl, pf1, g1, he, hw1, hsi, hgi, hst, hcl, hpa, hgs, hfs, hos, hg1⟩
  · rw [he]
    refine ⟨hm, fun x y a _ h => ⟨a, h⟩, ?_, Grid.SameFrame.refl g, id,
      Nat.le_succ _, rfl, rfl⟩
    intro hp
    have hbn : g.inBounds (cx + off.1) (cy + off.2) = true := hp.1
    rcases hreason with h | h | h | h
    · rw [h] at hbn; cases hbn
    · exact hcore.closed_fin _ _ hbn (Or.inl h)
    · exact absurd h hp.2
    · rw [hgcur, hexact] at h
      cases hv : pf.gAt (cx + off.1) (cy + off.2) with
      | fin b => exact ⟨b, rfl⟩
      | inf =>
        rw [hv] at h
        simp [Score.lt] at h
  · rw [he]
    rw [hgcur] at hl hgs hfs hos
    rw [hexact] at hl hgs hfs hos
    generalize hnx : cx + off.1 = nx at *
    generalize hny : cy + off.2 = ny at *
    have hold : ∀ b, pf.gAt nx ny = Score.fin b → b1 < b := by
      intro b hv
      rw [hv] at hl
      simpa [Score.lt] using hl
    have hncur : ¬ (cx = nx ∧ cy = ny) := by
      rintro ⟨e1, e2⟩
      unfold Vector2i.adjacent at hadj
      simp only [] at hadj
      omega
    have hns : ¬ (s.x = nx ∧ s.y = ny) := by
      rintro ⟨e1, e2⟩
      have h0 := hcore.g_start
      rw [e1, e2] at h0
      have := hold 0 h0
      omega
    have hneff : ∀ x y, pf.closedEff (some (cx, cy)) x y → ¬ (x = nx ∧ y = ny) := by
      rintro x y (h | h) ⟨rfl, rfl⟩
      · rw [hc] at h; cases h
      · simp only [Option.some.injEq, Prod.mk.injEq] at h
        exact hncur h
    have hgA := Pathfinder.gAt_set pf pf1 g hwf hw hw1 hcore.len_g nx ny hb _ hgs
    have hpA := Pathfinder.parentAt_set pf pf1 g hwf hw hw1 hcore.len_p nx ny hb _ hpa
    have hcA := Pathfinder.closedAt_same pf pf1 hw1 hcl
    have heA := Pathfinder.closedEff_same pf pf1 hw1 hcl (some (cx, cy))
    have hiA := Pathfinder.idx_same pf pf1 hw1
    refine ⟨?_, ?_, ?_, ?_, ?_, ?_, hcl, hst⟩
    · refine
        { reach :=
            { width := by rw [hw1]; exact hw
              len_g := by rw [hgs, vecSet_length]; exact hcore.len_g
              len_p := by rw [hpa, vecSet_length]; exact hcore.len_p
              len_c := by rw [hcl]; exact hcore.len_c
              start_idx := by rw [hsi, hiA]; exact hcore.start_idx
              goal_idx := by rw [hgi, hiA]; exact hcore.goal_idx
              g_start := by rw [hgA s.x s.y hsb, if_neg hns]; exact hcore.g_start
              p_start := by rw [hpA s.x s.y hsb, if_neg hns]; exact hcore.p_start
              g_cap := ?_
              tree := ?_
              rank := ?_
              closed_fin := ?_
              recs := ?_
              open_has := ?_
              edge := ?_
              goal_open := by rw [hcA]; exact hcore.goal_open }
          cur_in := hm.cur_in
          cur_open := by rw [hcA]; exact hm.cur_open
          cur_ne_goal := hm.cur_ne_goal }
      · -- g_cap
        intro x y a hbxy hga
        rw [hgA x y hbxy] at hga
        by_cases hxy : x = nx ∧ y = ny
        · rw [if_pos hxy] at hga
          cases hga
          exact hb1cap
        · rw [if_neg hxy] at hga
          exact hcore.g_cap x y a hbxy hga
      · -- tree
        intro x y a hbxy hga
        rw [hgA x y hbxy] at hga
        by_cases hxy : x = nx ∧ y = ny
        · obtain ⟨rfl, rfl⟩ := hxy
          refine ⟨hk, fun _ => ⟨cx, cy, hm.cur_in, ?_, hadj, Or.inr rfl⟩⟩
          rw [hpA x y hbxy, if_pos ⟨rfl, rfl⟩, hiA]
        · rw [if_neg hxy] at hga
          obtain ⟨h1, h2⟩ := hcore.tree x y a hbxy hga
          refine ⟨h1, fun hne => ?_⟩
          obtain ⟨ux, uy, hbu, hpu, hau, hcu⟩ := h2 hne
          refine ⟨ux, uy, hbu, ?_, hau, (heA ux uy).2 hcu⟩
          rw [hpA x y hbxy, if_neg hxy, hiA]; exact hpu
      · -- rank
        obtain ⟨rk, hr1, hr2⟩ := hcore.rank
        refine ⟨rk, ?_, ?_⟩
        · intro x y hbxy hce
          rw [hcl]
          exact hr1 x y hbxy ((heA x y).1 hce)
        · intro x y ux uy hbxy hbu hce hpu
          have hce1 := (heA x y).1 hce
          rw [hpA x y hbxy, if_neg (hneff x y hce1), hiA] at hpu
          exact hr2 x y ux uy hbxy hbu hce1 hpu
      · -- closed_fin
        intro x y hbxy hce
        have hce1 := (heA x y).1 hce
        rw [hgA x y hbxy, if_neg (hneff x y hce1)]
        exact hcore.closed_fin x y hbxy hce1
      · -- recs
        intro r hr
        rw [hos] at hr
        rcases List.mem_cons.1 hr with e | e
        · subst e
          refine ⟨nx, ny, b1, hb, ?_, ?_⟩
          · rw [hiA]
          · rw [hgA nx ny hb, if_pos ⟨rfl, rfl⟩]
        · obtain ⟨x, y, a, hbxy, hri, hgv⟩ := hcore.recs r e
          by_cases hxy : x = nx ∧ y = ny
          · obtain ⟨rfl, rfl⟩ := hxy
            refine ⟨x, y, b1, hbxy, ?_, ?_⟩
            · rw [hiA]; exact hri
            · rw [hgA x y hbxy, if_pos ⟨rfl, rfl⟩]
          · refine ⟨x, y, a, hbxy, ?_, ?_⟩
            · rw [hiA]; exact hri
            · rw [hgA x y hbxy, if_neg hxy]; exact hgv
      · -- open_has
        intro x y a hbxy hnc hga
        have hnc1 : ¬ pf.closedEff (some (cx, cy)) x y := fun h => hnc ((heA x y).2 h)
        rw [hgA x y hbxy] at hga
        rw [hos, hiA]
        by_cases hxy : x = nx ∧ y = ny
        · obtain ⟨rfl, rfl⟩ := hxy
          rw [if_pos ⟨rfl, rfl⟩] at hga
          exact ⟨_, List.mem_cons_self _ _, rfl, hga⟩
        · rw [if_neg hxy] at hga
          obtain ⟨r, hr, h1, h2⟩ := hcore.open_has x y a hbxy hnc1 hga
          exact ⟨r, List.mem_cons_of_mem _ hr, h1, h2⟩
      · -- edge
        intro x y x1 y1 hbxy hcl1 hadj1 hp1
        rw [hcA] at hcl1
        obtain ⟨b, hgb⟩ := hcore.edge x y x1 y1 hbxy hcl1 hadj1 hp1
        have hbn1 : g.inBounds x1 y1 = true := hp1.1
        rw [hgA x1 y1 hbn1]
        by_cases hxy : x1 = nx ∧ y1 = ny
        · rw [if_pos hxy]
          exact ⟨b1, rfl⟩
        · rw [if_neg hxy]
          exact ⟨b, hgb⟩
    · intro x y a hbxy hga
      rw [hgA x y hbxy]
      by_cases hxy : x = nx ∧ y = ny
      · rw [if_pos hxy]
        exact ⟨b1, rfl⟩
      · rw [if_neg hxy]
        exact ⟨a, hga⟩
    · intro _
      rw [hgA nx ny hb, if_pos ⟨rfl, rfl⟩]
      exact ⟨b1, rfl⟩
    · rcases hg1 with e | e
      · rw [e]; exact Grid.SameFrame.refl g
      · rw [e]; exact Grid.setOverlay_SameFrame g nx ny _
    · intro hok
      rcases hg1 with e | e
      · rw [e]; exact hok
      · rw [e]; exact Grid.setOverlay_OverlayOK g hwf nx ny _ hk hok
    · rw [hos]; simp

/-! ## The rounding-independent invariant: the whole neighbour loop -/

theorem Pathfinder.reach_relaxAll (s t : Vector2i) (cx cy : Int)
    (offs : List (Int × Int)) (hoffs : ∀ o ∈ offs, o ∈ Pathfinder.offsets)
    (g0 : Grid) (hwf : g0.WF) (hsb : g0.inBounds s.x s.y = true)
    (pf : Pathfinder) (g : Grid) (hfr : g0.SameFrame g)
    (hm : Pathfinder.ReachMid g0 s t pf cx cy) (hok : g.OverlayOK) :
    Pathfinder.ReachMid g0 s t
        (offs.foldl (Pathfinder.relaxNeighbor (pf.idx cx cy) cx cy) (pf, g)).1 cx cy
      ∧ (∀ x y a, g0.inBounds x y = true → pf.gAt x y = Score.fin a →
          ∃ b, (offs.foldl (Pathfinder.relaxNeighbor (pf.idx cx cy) cx cy) (pf, g)).1.gAt x y
            = Score.fin b)
      ∧ (∀ o ∈ offs, g0.passable { x := cx + o.1, y := cy + o.2 } →
          ∃ b, (offs.foldl (Pathfinder.relaxNeighbor (pf.idx cx cy) cx cy) (pf, g)).1.gAt
            (cx + o.1) (cy + o.2) = Score.fin b)
      ∧ g0.SameFrame (offs.foldl (Pathfinder.relaxNeighbor (pf.idx cx cy) cx cy) (pf, g)).2
      ∧ (offs.foldl (Pathfinder.relaxNeighbor (pf.idx cx cy) cx cy) (pf, g)).2.OverlayOK
      ∧ (offs.foldl (Pathfinder.relaxNeighbor (pf.idx cx cy) cx cy) (pf, g)).1.m_openSet.length
          ≤ pf.m_openSet.length + offs.length
      ∧ (offs.foldl (Pathfinder.relaxNeighbor (pf.idx cx cy) cx cy) (pf, g)).1.m_inClosed
          = pf.m_inClosed
      ∧ (offs.foldl (Pathfinder.relaxNeighbor (pf.idx cx cy) cx cy) (pf, g)).1.m_status
          = pf.m_status := by
  induction offs generalizing pf g with
  | nil =>
    exact ⟨hm, fun x y a _ h => ⟨a, h⟩, fun o ho => absurd ho (List.not_mem_nil _),
      hfr, hok, le_refl _, rfl, rfl⟩
  | cons o os ih =>
    have hwfg : g.WF := Grid.SameFrame.WF g0 g hfr hwf
    have hsbg : g.inBounds s.x s.y = true := by
      rw [Grid.SameFrame.inBounds g0 g hfr]; exact hsb
    have hmg := Pathfinder.reachMid_reframe g0 g hfr s t pf cx cy hm
    obtain ⟨h1, h2, h3, h4, h5, h6, h7, h8⟩ :=
      Pathfinder.reach_relax g hwfg s t hsbg pf cx cy hmg o (hoffs o (List.mem_cons_self _ _))
    have hw1 : (Pathfinder.relaxNeighbor (pf.idx cx cy) cx cy (pf, g) o).1.m_width
        = pf.m_width := by rw [h1.reach.width, hmg.reach.width]
    have hidx : (Pathfinder.relaxNeighbor (pf.idx cx cy) cx cy (pf, g) o).1.idx cx cy
        = pf.idx cx cy := Pathfinder.idx_same pf _ hw1 cx cy
    have hfr1 : g0.SameFrame (Pathfinder.relaxNeighbor (pf.idx cx cy) cx cy (pf, g) o).2 :=
      Grid.SameFrame.trans g0 g _ hfr h4
    have hm1 := Pathfinder.reachMid_reframe g _ (Grid.SameFrame.symm g0 g hfr) s t _ cx cy h1
    obtain ⟨i1, i2, i3, i4, i5, i6, i7, i8⟩ :=
      ih (fun o1 ho1 => hoffs o1 (List.mem_cons_of_mem _ ho1))
        (Pathfinder.relaxNeighbor (pf.idx cx cy) cx cy (pf, g) o).1
        (Pathfinder.relaxNeighbor (pf.idx cx cy) cx cy (pf, g) o).2 hfr1 hm1 (h5 hok)
    rw [hidx] at i1 i2 i3 i4 i5 i6 i7 i8
    simp only [List.foldl_cons]
    refine ⟨i1, ?_, ?_, i4, i5, ?_, i7.trans h7, i8.trans h8⟩
    · intro x y a hbxy hga
      have hbg : g.inBounds x y = true := by
        rw [Grid.SameFrame.inBounds g0 g hfr]; exact hbxy
      obtain ⟨b, hb1⟩ := h2 x y a hbg hga
      exact i2 x y b hbxy hb1
    · intro o1 ho1 hp
      rcases List.mem_cons.1 ho1 with e | e
      · subst e
        obtain ⟨b, hb1⟩ := h3 ((Grid.SameFrame.passable g0 g hfr _).2 hp)
        exact i2 _ _ b hp.1 hb1
      · exact i3 o1 e hp
    · simp only [List.length_cons]
      exact le_trans i6 (by omega)

/-! ## The rounding-independent invariant: the frontier -/

theorem Pathfinder.reach_frontier (g : Grid) (s t : Vector2i) (pf : Pathfinder)
    (hc : Pathfinder.Reach g s t pf none) (q : List Vector2i) (c e : Vector2i)
    (hch : List.Chain Vector2i.adjacent c q) (hp : ∀ d ∈ c :: q, g.passable d)
    (hl : (c :: q).getLast? = some e)
    (hg : ∃ a, pf.gAt c.x c.y = Score.fin a) :
    (∃ w ∈ c :: q, pf.closedAt w.x w.y = false ∧ ∃ a, pf.gAt w.x w.y = Score.fin a)
      ∨ pf.closedAt e.x e.y = true := by
  induction q generalizing c with
  | nil =>
    simp only [List.getLast?_singleton, Option.some.injEq] at hl
    subst hl
    cases hcl : pf.closedAt c.x c.y with
    | true => exact Or.inr rfl
    | false => exact Or.inl ⟨c, List.mem_cons_self _ _, hcl, hg⟩
  | cons d q1 ih =>
    rw [List.chain_cons] at hch
    have hl1 : (d :: q1).getLast? = some e := by
      rw [List.getLast?_cons_cons] at hl; exact hl
    cases hcl : pf.closedAt c.x c.y with
    | false => exact Or.inl ⟨c, List.mem_cons_self _ _, hcl, hg⟩
    | true =>
      have hpc := hp c (List.mem_cons_self _ _)
      have hpd := hp d (List.mem_cons_of_mem _ (List.mem_cons_self _ _))
      have hb := hc.edge c.x c.y d.x d.y hpc.1 hcl hch.1 hpd
      rcases ih d hch.2 (fun d1 hd1 => hp d1 (List.mem_cons_of_mem _ hd1)) hl1 hb
        with ⟨w, hw, hwc, hwa⟩ | h
      · exact Or.inl ⟨w, List.mem_cons_of_mem _ hw, hwc, hwa⟩
      · exact Or.inr h

/-- While a path from `s` to `t` exists the open set is not empty. -/
theorem Pathfinder.reach_open (g : Grid) (s t : Vector2i) (pf : Pathfinder)
    (hc : Pathfinder.Reach g s t pf none) (p : List Vector2i) (hp : g.IsPath s t p) :
    ∃ r, r ∈ pf.m_openSet := by
  obtain ⟨hh, hl, hch, hpass⟩ := hp
  cases p with
  | nil => cases hh
  | cons c q =>
    simp only [List.head?_cons, Option.some.injEq] at hh
    subst hh
    rw [List.chain'_cons'] at hch
    have hch1 : List.Chain Vector2i.adjacent c q := by
      cases q with
      | nil => exact List.Chain.nil
      | cons d q1 =>
        rw [List.chain_cons]
        exact ⟨hch.1 d (by simp), by simpa using hch.2⟩
    rcases Pathfinder.reach_frontier g c t pf hc q c t hch1 hpass hl ⟨0, hc.g_start⟩
      with ⟨w, hw, hwc, a, ha⟩ | h
    · have hbw := (hpass w hw).1
      have hnc : ¬ pf.closedEff none w.x w.y := by
        rintro (h | h)
        · rw [hwc] at h; cases h
        · cases h
      obtain ⟨r, hr, _, _⟩ := hc.open_has w.x w.y a hbw hnc ha
      exact ⟨r, hr⟩
    · rw [hc.goal_open] at h; cases h

/-! ## The rounding-independent invariant: popping a record -/

theorem Pathfinder.reach_erase (g : Grid) (s t : Vector2i) (pf pf1 : Pathfinder)
    (cur : Option (Int × Int)) (hc : Pathfinder.Reach g s t pf cur) (r0 : NodeRecord)
    (hw : pf1.m_width = pf.m_width) (hsi : pf1.m_startIndex = pf.m_startIndex)
    (hgi : pf1.m_goalIndex = pf.m_goalIndex) (hgs : pf1.m_gScores = pf.m_gScores)
    (hps : pf1.m_parents = pf.m_parents)
    (hcs : pf1.m_inClosed = pf.m_inClosed) (hos : pf1.m_openSet = pf.m_openSet.erase r0)
    (hne : ∀ x y a, g.inBounds x y = true → ¬ pf.closedEff cur x y →
      pf.gAt x y = Score.fin a → r0.index = pf.idx x y → r0.gScore ≠ Score.fin a) :
    Pathfinder.Reach g s t pf1 cur := by
  have hi : ∀ x y, pf1.idx x y = pf.idx x y := Pathfinder.idx_same pf pf1 hw
  have hg : ∀ x y, pf1.gAt x y = pf.gAt x y := by
    intro x y; simp [Pathfinder.gAt, hi, hgs]
  have hp : ∀ x y, pf1.parentAt x y = pf.parentAt x y := by
    intro x y; simp [Pathfinder.parentAt, hi, hps]
  have hcl : ∀ x y, pf1.closedAt x y = pf.closedAt x y := Pathfinder.closedAt_same pf pf1 hw hcs
  have he : ∀ x y, pf1.closedEff cur x y ↔ pf.closedEff cur x y :=
    Pathfinder.closedEff_same pf pf1 hw hcs cur
  have hsub : ∀ r, r ∈ pf1.m_openSet → r ∈ pf.m_openSet := by
    intro r hr; rw [hos] at hr; exact List.mem_of_mem_erase hr
  exact
    { width := by rw [hw]; exact hc.width
      len_g := by rw [hgs]; exact hc.len_g
      len_p := by rw [hps]; exact hc.len_p
      len_c := by rw [hcs]; exact hc.len_c
      start_idx := by rw [hsi, hi]; exact hc.start_idx
      goal_idx := by rw [hgi, hi]; exact hc.goal_idx
      g_start := by rw [hg]; exact hc.g_start
      p_start := by rw [hp]; exact hc.p_start
      g_cap := by
        intro x y a hb hga
        rw [hg] at hga
        exact hc.g_cap x y a hb hga
      tree := by
        intro x y a hb hga
        rw [hg] at hga
        obtain ⟨h1, h2⟩ := hc.tree x y a hb hga
        refine ⟨h1, fun hn => ?_⟩
        obtain ⟨ux, uy, hbu, hpu, hau, hcu⟩ := h2 hn
        exact ⟨ux, uy, hbu, by rw [hp, hi]; exact hpu, hau, (he ux uy).2 hcu⟩
      rank := by
        obtain ⟨rk, h1, h2⟩ := hc.rank
        refine ⟨rk, ?_, ?_⟩
        · intro x y hb hce
          rw [hcs]
          exact h1 x y hb ((he x y).1 hce)
        · intro x y ux uy hb hbu hce hpu
          rw [hp, hi] at hpu
          exact h2 x y ux uy hb hbu ((he x y).1 hce) hpu
      closed_fin := by
        intro x y hb hce
        rw [hg]
        exact hc.closed_fin x y hb ((he x y).1 hce)
      recs := by
        intro r hr
        obtain ⟨x, y, a, hb, hri, hgv⟩ := hc.recs r (hsub r hr)
        exact ⟨x, y, a, hb, by rw [hi]; exact hri, by rw [hg]; exact hgv⟩
      open_has := by
        intro x y a hb hnc hga
        rw [hg] at hga
        have hnc1 : ¬ pf.closedEff cur x y := fun h => hnc ((he x y).2 h)
        obtain ⟨r, hr, hri, hrg⟩ := hc.open_has x y a hb hnc1 hga
        refine ⟨r, ?_, by rw [hi]; exact hri, hrg⟩
        rw [hos]
        refine (List.mem_erase_of_ne ?_).2 hr
        intro e
        subst e
        exact hne x y a hb hnc1 hga hri hrg
      edge := by
        intro x y x1 y1 hb hcl1 hadj hp1
        rw [hcl] at hcl1
        obtain ⟨b, hgb⟩ := hc.edge x y x1 y1 hb hcl1 hadj hp1
        exact ⟨b, by rw [hg]; exact hgb⟩
      goal_open := by rw [hcl]; exact hc.goal_open }

/-- The popped cell counts as closed from the pop on; it is closed after every
cell closed so far. -/
theorem Pathfinder.reach_select (g : Grid) (hwf : g.WF) (s t : Vector2i) (pf : Pathfinder)
    (hc : Pathfinder.Reach g s t pf none) (x y : Int) (a : Nat)
    (hb : g.inBounds x y = true) (hcl : pf.closedAt x y = false)
    (hga : pf.gAt x y = Score.fin a) :
    Pathfinder.Reach g s t pf (some (x, y)) := by
  have hweak : ∀ x1 y1, pf.closedEff none x1 y1 → pf.closedEff (some (x, y)) x1 y1 := by
    rintro x1 y1 (h | h)
    · exact Or.inl h
    · cases h
  have hsplit : ∀ x1 y1, pf.closedEff (some (x, y)) x1 y1 →
      pf.closedAt x1 y1 = true ∨ (x1 = x ∧ y1 = y) := by
    rintro x1 y1 (h | h)
    · exact Or.inl h
    · simp only [Option.some.injEq, Prod.mk.injEq] at h
      exact Or.inr ⟨h.1.symm, h.2.symm⟩
  exact
    { width := hc.width
      len_g := hc.len_g
      len_p := hc.len_p
      len_c := hc.len_c
      start_idx := hc.start_idx
      goal_idx := hc.goal_idx
      g_start := hc.g_start
      p_start := hc.p_start
      g_cap := hc.g_cap
      tree := by
        intro x1 y1 a1 hb1 hg1
        obtain ⟨h1, h2⟩ := hc.tree x1 y1 a1 hb1 hg1
        refine ⟨h1, fun hn => ?_⟩
        obtain ⟨ux, uy, hbu, hpu, hau, hcu⟩ := h2 hn
        exact ⟨ux, uy, hbu, hpu, hau, hweak ux uy hcu⟩
      rank := by
        obtain ⟨rk, h1, h2⟩ := hc.rank
        refine ⟨fun x1 y1 => if x1 = x ∧ y1 = y then pf.m_inClosed.count true else rk x1 y1,
          ?_, ?_⟩
        · intro x1 y1 hb1 hce
          simp only [Option.toList_some, List.length_singleton]
          by_cases hxy : x1 = x ∧ y1 = y
          · rw [if_pos hxy]
            omega
          · rw [if_neg hxy]
            rcases hsplit x1 y1 hce with h | h
            · have := h1 x1 y1 hb1 (Or.inl h)
              simp only [Option.toList_none, List.length_nil] at this
              omega
            · exact absurd h hxy
        · intro x1 y1 ux uy hb1 hbu hce hpu
          simp only []
          -- the parent of a cell with a finite score is closed
          have hpar : pf.closedAt ux uy = true := by
            obtain ⟨a1, hg1⟩ : ∃ a1, pf.gAt x1 y1 = Score.fin a1 := by
              rcases hsplit x1 y1 hce with h | h
              · exact hc.closed_fin x1 y1 hb1 (Or.inl h)
              · rw [h.1, h.2]; exact ⟨a, hga⟩
            have hns : ¬ (x1 = s.x ∧ y1 = s.y) := by
              rintro ⟨e1, e2⟩
              rw [e1, e2, hc.p_start] at hpu
              have := (Pathfinder.idx_range pf g hwf hc.width ux uy hbu).1
              omega
            obtain ⟨vx, vy, hbv, hpv, _, hcv⟩ := (hc.tree x1 y1 a1 hb1 hg1).2 hns
            obtain ⟨e1, e2⟩ := Pathfinder.idx_inj pf g hc.width ux uy vx vy hbu hbv
              (by rw [← hpu, hpv])
            rw [e1, e2]
            rcases hcv with h | h
            · exact h
            · cases h
          have hune : ¬ (ux = x ∧ uy = y) := by
            rintro ⟨e1, e2⟩
            rw [e1, e2, hcl] at hpar
            cases hpar
          rw [if_neg hune]
          by_cases hxy : x1 = x ∧ y1 = y
          · rw [if_pos hxy]
            have := h1 ux uy hbu (Or.inl hpar)
            simp only [Option.toList_none, List.length_nil] at this
            omega
          · rw [if_neg hxy]
            rcases hsplit x1 y1 hce with h | h
            · exact h2 x1 y1 ux uy hb1 hbu (Or.inl h) hpu
            · exact absurd h hxy
      closed_fin := by
        intro x1 y1 hb1 hce
        rcases hsplit x1 y1 hce with h | h
        · exact hc.closed_fin x1 y1 hb1 (Or.inl h)
        · rw [h.1, h.2]; exact ⟨a, hga⟩
      recs := hc.recs
      open_has := by
        intro x1 y1 a1 hb1 hnc hg1
        exact hc.open_has x1 y1 a1 hb1 (fun h => hnc (hweak x1 y1 h)) hg1
      edge := hc.edge
      goal_open := hc.goal_open }

/-! ## The rounding-independent invariant: closing the expanded cell -/

theorem Pathfinder.reach_close (g : Grid) (hwf : g.WF) (s t : Vector2i)
    (htb : g.inBounds t.x t.y = true) (pf pf1 : Pathfinder) (cx cy : Int)
    (hm : Pathfinder.ReachMid g s t pf cx cy)
    (hdone : ∀ o ∈ Pathfinder.offsets, g.passable { x := cx + o.1, y := cy + o.2 } →
      ∃ b, pf.gAt (cx + o.1) (cy + o.2) = Score.fin b)
    (hw : pf1.m_width = pf.m_width) (hsi : pf1.m_startIndex = pf.m_startIndex)
    (hgi : pf1.m_goalIndex = pf.m_goalIndex) (hgs : pf1.m_gScores = pf.m_gScores)
    (hps : pf1.m_parents = pf.m_parents)
    (hos : pf1.m_openSet = pf.m_openSet)
    (hcs : pf1.m_inClosed = vecSet pf.m_inClosed (pf.idx cx cy) true) :
    Pathfinder.Reach g s t pf1 none
      ∧ pf1.m_inClosed.count false + 1 = pf.m_inClosed.count false := by
  have hc := hm.reach
  have hi : ∀ x y, pf1.idx x y = pf.idx x y := Pathfinder.idx_same pf pf1 hw
  have hg : ∀ x y, pf1.gAt x y = pf.gAt x y := by
    intro x y; simp [Pathfinder.gAt, hi, hgs]
  have hp : ∀ x y, pf1.parentAt x y = pf.parentAt x y := by
    intro x y; simp [Pathfinder.parentAt, hi, hps]
  have hcl : ∀ x y, g.inBounds x y = true →
      pf1.closedAt x y = if x = cx ∧ y = cy then true else pf.closedAt x y := by
    intro x y hb
    unfold Pathfinder.closedAt
    rw [hi, hcs]
    exact Pathfinder.vec_set_get pf g hwf hc.width _ hc.len_c cx cy x y true false hm.cur_in hb
  have he : ∀ x y, g.inBounds x y = true →
      (pf1.closedEff none x y ↔ pf.closedEff (some (cx, cy)) x y) := by
    intro x y hb
    unfold Pathfinder.closedEff
    rw [hcl x y hb]
    by_cases hxy : x = cx ∧ y = cy
    · obtain ⟨rfl, rfl⟩ := hxy
      simp
    · rw [if_neg hxy]
      constructor
      · rintro (h | h)
        · exact Or.inl h
        · cases h
      · rintro (h | h)
        · exact Or.inl h
        · simp only [Option.some.injEq, Prod.mk.injEq] at h
          exact absurd ⟨h.1.symm, h.2.symm⟩ hxy
  have hrange := Pathfinder.idx_range pf g hwf hc.width cx cy hm.cur_in
  have hcount := vecSet_count_true pf.m_inClosed (pf.idx cx cy) hrange.1
    (by rw [hc.len_c]; exact hrange.2) hm.cur_open
  rw [← hcs] at hcount
  refine ⟨?_, hcount.2⟩
  exact
    { width := by rw [hw]; exact hc.width
      len_g := by rw [hgs]; exact hc.len_g
      len_p := by rw [hps]; exact hc.len_p
      len_c := by rw [hcs, vecSet_length]; exact hc.len_c
      start_idx := by rw [hsi, hi]; exact hc.start_idx
      goal_idx := by rw [hgi, hi]; exact hc.goal_idx
      g_start := by rw [hg]; exact hc.g_start
      p_start := by rw [hp]; exact hc.p_start
      g_cap := by
        intro x y a hb hga
        rw [hg] at hga
        exact hc.g_cap x y a hb hga
      tree := by
        intro x y a hb hga
        rw [hg] at hga
        obtain ⟨h1, h2⟩ := hc.tree x y a hb hga
        refine ⟨h1, fun hn => ?_⟩
        obtain ⟨ux, uy, hbu, hpu, hau, hcu⟩ := h2 hn
        exact ⟨ux, uy, hbu, by rw [hp, hi]; exact hpu, hau, (he ux uy hbu).2 hcu⟩
      rank := by
        obtain ⟨rk, h1, h2⟩ := hc.rank
        refine ⟨rk, ?_, ?_⟩
        · intro x y hb hce
          have := h1 x y hb ((he x y hb).1 hce)
          simp only [Option.toList_some, List.length_singleton] at this
          simp only [Option.toList_none, List.length_nil]
          omega
        · intro x y ux uy hb hbu hce hpu
          rw [hp, hi] at hpu
          exact h2 x y ux uy hb hbu ((he x y hb).1 hce) hpu
      closed_fin := by
        intro x y hb hce
        rw [hg]
        exact hc.closed_fin x y hb ((he x y hb).1 hce)
      recs := by
        intro r hr
        rw [hos] at hr
        obtain ⟨x, y, a, hb, hri, hgv⟩ := hc.recs r hr
        exact ⟨x, y, a, hb, by rw [hi]; exact hri, by rw [hg]; exact hgv⟩
      open_has := by
        intro x y a hb hnc hga
        rw [hg] at hga
        obtain ⟨r, hr, hri, hrg⟩ :=
          hc.open_has x y a hb (fun h => hnc ((he x y hb).2 h)) hga
        exact ⟨r, by rw [hos]; exact hr, by rw [hi]; exact hri, hrg⟩
      edge := by
        intro x y x1 y1 hb hcl1 hadj hp1
        rw [hg]
        rw [hcl x y hb] at hcl1
        by_cases hxy : x = cx ∧ y = cy
        · obtain ⟨rfl, rfl⟩ := hxy
          obtain ⟨o, ho, e1, e2⟩ := adjacent_offset x y x1 y1 hadj
          subst e1 e2
          exact hdone o ho hp1
        · rw [if_neg hxy] at hcl1
          exact hc.edge x y x1 y1 hb hcl1 hadj hp1
      goal_open := by
        rw [hcl t.x t.y htb, if_neg (fun h => hm.cur_ne_goal ⟨h.1.symm, h.2.symm⟩)]
        exact hc.goal_open }

/-! ## The rounding-independent invariant: the walk of `reconstructPath` -/

theorem Pathfinder.reach_walk (g : Grid) (hwf : g.WF) (s t : Vector2i)
    (hsb : g.inBounds s.x s.y = true) (pf : Pathfinder) (cur : Option (Int × Int))
    (hc : Pathfinder.Reach g s t pf cur) (rk : Int → Int → Nat)
    (hrk : ∀ x y ux uy, g.inBounds x y = true → g.inBounds ux uy = true →
      pf.closedEff cur x y → pf.parentAt x y = pf.idx ux uy → rk ux uy < rk x y)
    (n : Nat) :
    ∀ (x y : Int) (fuel : Nat), g.inBounds x y = true → pf.closedEff cur x y → rk x y ≤ n →
      n < fuel →
      ∃ l q, pf.parentWalk fuel (pf.idx x y) = some l
        ∧ l.map pf.cellOf = { x := x, y := y } :: q
        ∧ List.Chain (flip Vector2i.adjacent) { x := x, y := y } q
        ∧ (∀ d ∈ ({ x := x, y := y } : Vector2i) :: q, g.passable d)
        ∧ (({ x := x, y := y } : Vector2i) :: q).getLast? = some s := by
  have hstart : ∀ fuel, 0 < fuel →
      ∃ l q, pf.parentWalk fuel (pf.idx s.x s.y) = some l
        ∧ l.map pf.cellOf = { x := s.x, y := s.y } :: q
        ∧ List.Chain (flip Vector2i.adjacent) { x := s.x, y := s.y } q
        ∧ (∀ d ∈ ({ x := s.x, y := s.y } : Vector2i) :: q, g.passable d)
        ∧ (({ x := s.x, y := s.y } : Vector2i) :: q).getLast? = some s := by
    intro fuel hf
    obtain ⟨f, rfl⟩ : ∃ f, fuel = f + 1 := ⟨fuel - 1, by omega⟩
    have hr := Pathfinder.idx_range pf g hwf hc.width s.x s.y hsb
    have hps : vecGet pf.m_parents (pf.idx s.x s.y) (-1) = -1 := hc.p_start
    refine ⟨[pf.idx s.x s.y], [], ?_, ?_, List.Chain.nil, ?_, rfl⟩
    · unfold Pathfinder.parentWalk
      rw [if_pos (by omega), hps, Pathfinder.parentWalk_neg pf f (-1) (by omega)]
      rfl
    · simp [Pathfinder.cellOf_idx pf g hc.width s.x s.y hsb]
    · intro d hd
      rw [List.mem_singleton] at hd
      subst hd
      exact ⟨hsb, (hc.tree s.x s.y 0 hsb hc.g_start).1⟩
  induction n with
  | zero =>
    intro x y fuel hb hce hrank hlt
    by_cases hxy : x = s.x ∧ y = s.y
    · obtain ⟨rfl, rfl⟩ := hxy
      exact hstart fuel hlt
    · obtain ⟨a, hga⟩ := hc.closed_fin x y hb hce
      obtain ⟨ux, uy, hbu, hpu, _, _⟩ := (hc.tree x y a hb hga).2 hxy
      have := hrk x y ux uy hb hbu hce hpu
      omega
  | succ m ih =>
    intro x y fuel hb hce hrank hlt
    by_cases hxy : x = s.x ∧ y = s.y
    · obtain ⟨rfl, rfl⟩ := hxy
      exact hstart fuel (by omega)
    · obtain ⟨a, hga⟩ := hc.closed_fin x y hb hce
      obtain ⟨hk, hpar⟩ := hc.tree x y a hb hga
      obtain ⟨ux, uy, hbu, hpu, hau, hcu⟩ := hpar hxy
      have hlt1 := hrk x y ux uy hb hbu hce hpu
      obtain ⟨f, rfl⟩ : ∃ f, fuel = f + 1 := ⟨fuel - 1, by omega⟩
      obtain ⟨l1, q1, hw1, hm1, hc1, hp1, hg1⟩ := ih ux uy f hbu hcu (by omega) (by omega)
      have hr := Pathfinder.idx_range pf g hwf hc.width x y hb
      have hpv : vecGet pf.m_parents (pf.idx x y) (-1) = pf.idx ux uy := hpu
      refine ⟨pf.idx x y :: l1, { x := ux, y := uy } :: q1, ?_, ?_, ?_, ?_, ?_⟩
      · unfold Pathfinder.parentWalk
        rw [if_pos (by omega), hpv, hw1]
        rfl
      · simp [Pathfinder.cellOf_idx pf g hc.width x y hb, hm1]
      · exact List.Chain.cons hau hc1
      · intro d hd
        rcases List.mem_cons.1 hd with e | e
        · subst e
          exact ⟨hb, hk⟩
        · exact hp1 d e
      · rw [List.getLast?_cons_cons]
        exact hg1

/-- When the Goal is popped, the walk of `reconstructPath` ends and is a path
from `s` to `t`. -/
theorem Pathfinder.reach_found (g : Grid) (hwf : g.WF) (s t : Vector2i)
    (hsb : g.inBounds s.x s.y = true) (htb : g.inBounds t.x t.y = true) (pf : Pathfinder)
    (hc : Pathfinder.Reach g s t pf (some (t.x, t.y))) :
    Pathfinder.Found g s t pf
      ∧ ∀ g1, g.SameFrame g1 → g1.OverlayOK →
          ∃ g2, pf.reconstructPath g1 = some g2 ∧ g.SameFrame g2 ∧ g2.OverlayOK := by
  obtain ⟨rk, hr1, hr2⟩ := hc.rank
  have hrt := Pathfinder.idx_range pf g hwf hc.width t.x t.y htb
  have hct : pf.closedEff (some (t.x, t.y)) t.x t.y := Or.inr rfl
  have hlt : rk t.x t.y < pf.m_parents.length := by
    have h1 := hr1 t.x t.y htb hct
    have h2 := count_true_lt pf.m_inClosed (pf.idx t.x t.y) hrt.1
      (by rw [hc.len_c]; exact hrt.2) hc.goal_open
    rw [hc.len_p, ← hc.len_c]
    simp only [Option.toList_some, List.length_singleton] at h1
    omega
  obtain ⟨l, q, hwalk, hmap, hch, hpass, hlast⟩ :=
    Pathfinder.reach_walk g hwf s t hsb pf _ hc rk hr2 (rk t.x t.y) t.x t.y
      pf.m_parents.length htb hct (le_refl _) hlt
  have hgi : ¬ pf.m_goalIndex < 0 := by rw [hc.goal_idx]; omega
  constructor
  · refine ⟨l, ?_, ⟨?_, ?_, ?_, ?_⟩⟩
    · unfold Pathfinder.pathCells
      rw [if_neg hgi, hc.goal_idx]
      exact hwalk
    · rw [List.head?_reverse, hmap]; exact hlast
    · rw [List.getLast?_reverse, hmap]; rfl
    · rw [List.chain'_reverse, hmap]
      exact hch
    · intro c hcm
      rw [List.mem_reverse, hmap] at hcm
      exact hpass c hcm
  · intro g1 hfr hok
    unfold Pathfinder.reconstructPath
    rw [if_neg hgi, hc.goal_idx]
    apply Pathfinder.reconstruct_of_walk pf g hwf _ _ l g1 hfr hok hwalk
    intro i hi
    have : pf.cellOf i ∈ l.map pf.cellOf := List.mem_map_of_mem _ hi
    rw [hmap] at this
    exact (hpass _ this).2

/-! ## The rounding-independent invariant: one round of `step` -/

theorem Pathfinder.iterate_Reach (g : Grid) (hwf : g.WF) (s t : Vector2i)
    (hsb : g.inBounds s.x s.y = true) (htb : g.inBounds t.x t.y = true)
    (pf : Pathfinder) (hc : Pathfinder.Reach g s t pf none) (hok : g.OverlayOK) :
    ∃ pf1 g1, pf.iterate g = some (pf1, g1) ∧ g.SameFrame g1 ∧ g1.OverlayOK
      ∧ ((pf1.m_status = pf.m_status ∧ Pathfinder.Reach g s t pf1 none
            ∧ pf1.rounds < pf.rounds)
          ∨ (pf1.m_status = Status.PathFound ∧ Pathfinder.Found g s t pf1)
          ∨ (pf1.m_status = Status.NoPath ∧ ¬ ∃ p, g.IsPath s t p)) := by
  rcases Pathfinder.iterate_spec pf g with ⟨htop, he⟩ | ⟨current, htop, hcase⟩
  · refine ⟨_, _, he, Grid.SameFrame.refl g, hok, Or.inr (Or.inr ⟨rfl, ?_⟩)⟩
    rintro ⟨p, hp⟩
    obtain ⟨r, hr⟩ := Pathfinder.reach_open g s t pf hc p hp
    rw [pqTop_eq_none _ htop] at hr
    cases hr
  have hmem := pqTop_mem _ _ htop
  obtain ⟨x, y, a, hb, hri, hgv⟩ := hc.recs current hmem
  have hr := Pathfinder.idx_range pf g hwf hc.width x y hb
  have hcc : g.cellCount = (g.m_cells.length : Int) := rfl
  have hgv1 : vecGet pf.m_gScores (pf.idx x y) Score.inf = Score.fin a := hgv
  have hlenpos : 0 < pf.m_openSet.length := List.length_pos_of_mem hmem
  have hlen1 : (pf.m_openSet.erase current).length = pf.m_openSet.length - 1 :=
    List.length_erase_of_mem hmem
  have hsame : ∀ x1 y1, g.inBounds x1 y1 = true → current.index = pf.idx x1 y1 →
      x1 = x ∧ y1 = y := by
    intro x1 y1 hb1 h
    exact Pathfinder.idx_inj pf g hc.width x1 y1 x y hb1 hb (by rw [← h, hri])
  rw [hri] at hcase
  rcases hcase with ⟨hstale, he⟩ | ⟨_, _, h2, h3, h4, he⟩ | ⟨_, _, h2, h3, h4, he⟩
  · -- a stale record
    refine ⟨_, _, he, Grid.SameFrame.refl g, hok, Or.inl ⟨rfl, ?_, ?_⟩⟩
    · refine Pathfinder.reach_erase g s t pf _ none hc current rfl rfl rfl rfl rfl rfl rfl ?_
      intro x1 y1 a1 hb1 hnc hg1 hidx hgs
      obtain ⟨rfl, rfl⟩ := hsame x1 y1 hb1 hidx
      rw [hgv] at hg1
      cases hg1
      rcases hstale with h | h | h | h
      · omega
      · omega
      · exact hnc (Or.inl h)
      · rw [hgv1, hgs] at h
        simp [Score.lt] at h
    · show (pf.m_openSet.erase current).length + 5 * pf.m_inClosed.count false + 1
        < pf.m_openSet.length + 5 * pf.m_inClosed.count false + 1
      omega
  all_goals
    have hcl : pf.closedAt x y = false := h2
    have hsel := Pathfinder.reach_select g hwf s t pf hc x y a hb hcl hgv
    have hne : ∀ x1 y1 a1, g.inBounds x1 y1 = true → ¬ pf.closedEff (some (x, y)) x1 y1 →
        pf.gAt x1 y1 = Score.fin a1 → current.index = pf.idx x1 y1 →
        current.gScore ≠ Score.fin a1 := by
      intro x1 y1 a1 hb1 hnc _ hidx
      obtain ⟨rfl, rfl⟩ := hsame x1 y1 hb1 hidx
      exact absurd (Or.inr rfl) hnc
  · -- the goal is popped
    have hxy : x = t.x ∧ y = t.y := by
      rw [hc.goal_idx] at h4
      exact Pathfinder.idx_inj pf g hc.width x y t.x t.y hb htb h4
    obtain ⟨rfl, rfl⟩ := hxy
    have hcore2 : Pathfinder.Reach g s t
        { pf with
          m_openSet := pf.m_openSet.erase current
          m_inOpen := vecSet pf.m_inOpen (pf.idx t.x t.y) false } (some (t.x, t.y)) :=
      Pathfinder.reach_erase g s t pf _ _ hsel current rfl rfl rfl rfl rfl rfl rfl hne
    have hcore3 : Pathfinder.Reach g s t
        { pf with
          m_openSet := pf.m_openSet.erase current
          m_inOpen := vecSet pf.m_inOpen (pf.idx t.x t.y) false
          m_status := Status.PathFound } (some (t.x, t.y)) :=
      Pathfinder.reach_erase g s t pf _ _ hsel current rfl rfl rfl rfl rfl rfl rfl hne
    obtain ⟨_, hrec⟩ := Pathfinder.reach_found g hwf s t hsb htb _ hcore2
    obtain ⟨hfin, _⟩ := Pathfinder.reach_found g hwf s t hsb htb _ hcore3
    obtain ⟨g2, hg2, hfr2, hok2⟩ := hrec g (Grid.SameFrame.refl g) hok
    exact ⟨_, _, he g2 hg2, hfr2, hok2, Or.inr (Or.inl ⟨rfl, hfin⟩)⟩
  · -- a cell is expanded
    have htg : pf.toGrid (pf.idx x y) = (x, y) := Pathfinder.toGrid_idx pf g hc.width x y hb
    rw [htg] at he
    simp only [] at he
    have hk : g.cell x y ≠ CellType.Obstacle := (hc.tree x y a hb hgv).1
    have hm : Pathfinder.ReachMid g s t
        { pf with
          m_openSet := pf.m_openSet.erase current
          m_inOpen := vecSet pf.m_inOpen (pf.idx x y) false } x y :=
      { reach :=
          Pathfinder.reach_erase g s t pf _ _ hsel current rfl rfl rfl rfl rfl rfl rfl hne
        cur_in := hb
        cur_open := hcl
        cur_ne_goal := by
          rintro ⟨rfl, rfl⟩
          exact h4 hc.goal_idx.symm }
    have hfr1 : g.SameFrame (if pf.idx x y ≠ pf.m_startIndex then
        g.setOverlay x y CellOverlay.ClosedSet else g) := by
      split_ifs
      · exact Grid.setOverlay_SameFrame g x y _
      · exact Grid.SameFrame.refl g
    have hok1 : Grid.OverlayOK (if pf.idx x y ≠ pf.m_startIndex then
        g.setOverlay x y CellOverlay.ClosedSet else g) := by
      split_ifs
      · exact Grid.setOverlay_OverlayOK g hwf x y _ hk hok
      · exact hok
    obtain ⟨sF, hsF⟩ : ∃ sF : Pathfinder × Grid,
        sF = Pathfinder.offsets.foldl (Pathfinder.relaxNeighbor (pf.idx x y) x y)
          ({ pf with
              m_openSet := pf.m_openSet.erase current
              m_inOpen := vecSet pf.m_inOpen (pf.idx x y) false },
           if pf.idx x y ≠ pf.m_startIndex then g.setOverlay x y CellOverlay.ClosedSet
           else g) := ⟨_, rfl⟩
    rw [← hsF] at he
    have key : Pathfinder.ReachMid g s t sF.1 x y
        ∧ (∀ o ∈ Pathfinder.offsets, g.passable { x := x + o.1, y := y + o.2 } →
            ∃ b, sF.1.gAt (x + o.1) (y + o.2) = Score.fin b)
        ∧ g.SameFrame sF.2 ∧ sF.2.OverlayOK
        ∧ sF.1.m_openSet.length ≤ (pf.m_openSet.erase current).length + 4
        ∧ sF.1.m_inClosed = pf.m_inClosed ∧ sF.1.m_status = pf.m_status := by
      rw [hsF]
      obtain ⟨i1, _, i3, i4, i5, i6, i7, i8⟩ :=
        Pathfinder.reach_relaxAll s t x y Pathfinder.offsets (fun o h => h) g hwf hsb
          { pf with
            m_openSet := pf.m_openSet.erase current
            m_inOpen := vecSet pf.m_inOpen (pf.idx x y) false } _ hfr1 hm hok1
      exact ⟨i1, i3, i4, i5, i6, i7, i8⟩
    obtain ⟨i1, i3, i4, i5, i6, i7, i8⟩ := key
    have hidx : sF.1.idx x y = pf.idx x y :=
      Pathfinder.idx_same pf sF.1 (i1.reach.width.trans hc.width.symm) x y
    obtain ⟨j1, j2⟩ := Pathfinder.reach_close g hwf s t htb sF.1
      { sF.1 with m_inClosed := vecSet sF.1.m_inClosed (pf.idx x y) true }
      x y i1 i3 rfl rfl rfl rfl rfl rfl (by rw [hidx])
    refine ⟨_, _, he, i4, i5, Or.inl ⟨i8, j1, ?_⟩⟩
    have j2a : List.count false (vecSet sF.1.m_inClosed (pf.idx x y) true) + 1
        = List.count false sF.1.m_inClosed := j2
    rw [i7] at j2a
    show sF.1.m_openSet.length + 5 * List.count false (vecSet sF.1.m_inClosed (pf.idx x y) true)
        + 1 < pf.m_openSet.length + 5 * List.count false pf.m_inClosed + 1
    rw [i7]
    omega

/-! ## The rounding-independent invariant along a search -/

theorem Pathfinder.start_Run (g : Grid) (hwf : g.WF) (hpl : g.Placed) (s t : Vector2i)
    (hs : g.m_start = some s) (ht : g.m_goal = some t) (pf : Pathfinder)
    (hat : pf.Attached g) :
    Pathfinder.RunInv g s t (pf.start g).2
      ∧ (pf.start g).2.1.m_status = Status.Running
      ∧ (pf.start g).2.1.rounds = 5 * g.m_cells.length + 2 := by
  have hsb : g.inBounds s.x s.y = true := hpl.2.2.1 s hs
  have hne : s ≠ t := hpl.2.2.2.2 s t hs ht
  have hks : g.cell s.x s.y = CellType.Start := (hpl.1 s.x s.y hsb).2 hs
  obtain ⟨pf1, he, hw, hsi, hgi, hgs, _, hps, hcs, hos, hst⟩ :=
    Pathfinder.start_spec pf g hat s t hs ht hne
  rw [he]
  have hwg : pf.m_width = g.m_width := hat.1
  have hw1 : pf1.m_width = g.m_width := hw.trans hwg
  have hi : ∀ x y, pf1.idx x y = pf.idx x y := Pathfinder.idx_same pf pf1 hw
  have hrs := Pathfinder.idx_range pf g hwf hwg s.x s.y hsb
  have hfr : g.SameFrame g.clearOverlays.clearOverlays :=
    Grid.SameFrame.trans g _ _ (Grid.clearOverlays_SameFrame g)
      (Grid.clearOverlays_SameFrame g.clearOverlays)
  have hgA : ∀ x y, g.inBounds x y = true →
      pf1.gAt x y = if x = s.x ∧ y = s.y then Score.fin 0 else Score.inf := by
    intro x y hb
    unfold Pathfinder.gAt
    rw [hi, hgs, Pathfinder.vec_set_get pf g hwf hwg _ (by simp) s.x s.y x y _ _ hsb hb,
      vecGet_replicate_self]
  have hcA : ∀ x y, pf1.closedAt x y = false := by
    intro x y
    unfold Pathfinder.closedAt
    rw [hcs, vecGet_replicate_self]
  have hfin : ∀ x y a, g.inBounds x y = true → pf1.gAt x y = Score.fin a →
      (x = s.x ∧ y = s.y) ∧ a = 0 := by
    intro x y a hb hga
    rw [hgA x y hb] at hga
    by_cases hxy : x = s.x ∧ y = s.y
    · rw [if_pos hxy] at hga
      cases hga
      exact ⟨hxy, rfl⟩
    · rw [if_neg hxy] at hga
      cases hga
  have hncl : ∀ x y, ¬ pf1.closedAt x y = true := by
    intro x y h
    rw [hcA] at h
    cases h
  have hnce : ∀ x y, ¬ pf1.closedEff none x y := by
    rintro x y (h | h)
    · exact hncl x y h
    · cases h
  have hcore : Pathfinder.Reach g s t pf1 none :=
    { width := hw1
      len_g := by rw [hgs, vecSet_length]; simp
      len_p := by rw [hps, vecSet_length]; simp
      len_c := by rw [hcs]; simp
      start_idx := by rw [hsi, hi]
      goal_idx := by rw [hgi, hi]
      g_start := by rw [hgA s.x s.y hsb, if_pos ⟨rfl, rfl⟩]
      p_start := by
        unfold Pathfinder.parentAt
        rw [hi, hps, vecGet_vecSet_eq _ _ _ _ hrs.1 (by simpa using hrs.2)]
      g_cap := by
        intro x y a hb hga
        obtain ⟨_, rfl⟩ := hfin x y a hb hga
        exact Nat.zero_le _
      tree := by
        intro x y a hb hga
        obtain ⟨⟨rfl, rfl⟩, _⟩ := hfin x y a hb hga
        refine ⟨by rw [hks]; decide, fun h => absurd ⟨rfl, rfl⟩ h⟩
      rank := ⟨fun _ _ => 0, fun x y _ h => absurd h (hnce x y),
        fun x y _ _ _ _ h => absurd h (hnce x y)⟩
      closed_fin := fun x y _ h => absurd h (hnce x y)
      recs := by
        intro r hr
        rw [hos, List.mem_singleton] at hr
        subst hr
        exact ⟨s.x, s.y, 0, hsb, by rw [hi], by rw [hgA s.x s.y hsb, if_pos ⟨rfl, rfl⟩]⟩
      open_has := by
        intro x y a hb _ hga
        obtain ⟨⟨rfl, rfl⟩, rfl⟩ := hfin x y a hb hga
        exact ⟨_, by rw [hos]; exact List.mem_singleton_self _, by rw [hi], rfl⟩
      edge := by
        intro x y x1 y1 _ h
        exact absurd h (hncl x y)
      goal_open := hcA t.x t.y }
  refine ⟨⟨hfr, Grid.clearOverlays_OverlayOK _, ?_, fun _ => hcore, ?_, ?_⟩, hst, ?_⟩
  · show pf1.m_status ≠ Status.Idle
    rw [hst]; decide
  · intro h
    have h1 : pf1.m_status = Status.PathFound := h
    rw [hst] at h1; cases h1
  · intro h
    have h1 : pf1.m_status = Status.NoPath := h
    rw [hst] at h1; cases h1
  · show pf1.m_openSet.length + 5 * pf1.m_inClosed.count false + 1 = _
    rw [hos, hcs]
    simp
    omega

theorem Pathfinder.iterate_Run (g0 : Grid) (hwf : g0.WF) (s t : Vector2i)
    (hsb : g0.inBounds s.x s.y = true) (htb : g0.inBounds t.x t.y = true)
    (st : Pathfinder × Grid)
    (hinv : Pathfinder.RunInv g0 s t st) (hrun : st.1.m_status = Status.Running) :
    ∃ st1, st.1.iterate st.2 = some st1 ∧ Pathfinder.RunInv g0 s t st1
      ∧ (st1.1.m_status = Status.Running → st1.1.rounds < st.1.rounds) := by
  obtain ⟨hfr, hok, _, hcore, _, _⟩ := hinv
  have hc := Pathfinder.reach_reframe g0 st.2 hfr s t st.1 none (hcore hrun)
  have hib := Grid.SameFrame.inBounds g0 st.2 hfr
  obtain ⟨pf1, g1, he, hfr1, hok1, hres⟩ :=
    Pathfinder.iterate_Reach st.2 (Grid.SameFrame.WF g0 st.2 hfr hwf) s t
      (by rw [hib]; exact hsb) (by rw [hib]; exact htb) st.1 hc hok
  have hfr2 : g0.SameFrame g1 := Grid.SameFrame.trans g0 st.2 g1 hfr hfr1
  have hback := Grid.SameFrame.symm g0 st.2 hfr
  refine ⟨(pf1, g1), he, ?_, ?_⟩
  · rcases hres with ⟨h1, h2, _⟩ | ⟨h1, h2⟩ | ⟨h1, h2⟩
    · refine ⟨hfr2, hok1, ?_, fun _ => Pathfinder.reach_reframe st.2 g0 hback s t pf1 none h2,
        ?_, ?_⟩
      · show pf1.m_status ≠ Status.Idle
        rw [h1, hrun]; decide
      · intro h
        have h3 : pf1.m_status = Status.PathFound := h
        rw [h1, hrun] at h3; cases h3
      · intro h
        have h3 : pf1.m_status = Status.NoPath := h
        rw [h1, hrun] at h3; cases h3
    · refine ⟨hfr2, hok1, ?_, ?_, ?_, ?_⟩
      · show pf1.m_status ≠ Status.Idle
        rw [h1]; decide
      · intro h
        have h3 : pf1.m_status = Status.Running := h
        rw [h1] at h3; cases h3
      · intro _
        obtain ⟨cells, hc1, hc2⟩ := h2
        exact ⟨cells, hc1, (Grid.SameFrame.isPath g0 st.2 hfr s t _).1 hc2⟩
      · intro h
        have h3 : pf1.m_status = Status.NoPath := h
        rw [h1] at h3; cases h3
    · refine ⟨hfr2, hok1, ?_, ?_, ?_, ?_⟩
      · show pf1.m_status ≠ Status.Idle
        rw [h1]; decide
      · intro h
        have h3 : pf1.m_status = Status.Running := h
        rw [h1] at h3; cases h3
      · intro h
        have h3 : pf1.m_status = Status.PathFound := h
        rw [h1] at h3; cases h3
      · intro _
        rintro ⟨p, hp⟩
        exact h2 ⟨p, (Grid.SameFrame.isPath g0 st.2 hfr s t p).2 hp⟩
  · intro h
    have h3 : pf1.m_status = Status.Running := h
    rcases hres with ⟨_, _, h2⟩ | ⟨h1, _⟩ | ⟨h1, _⟩
    · exact h2
    · rw [h1] at h3; cases h3
    · rw [h1] at h3; cases h3

theorem Pathfinder.stepLoop_Run (g0 : Grid) (hwf : g0.WF) (s t : Vector2i)
    (hsb : g0.inBounds s.x s.y = true) (htb : g0.inBounds t.x t.y = true)
    (n : Nat) :
    ∀ st : Pathfinder × Grid, Pathfinder.RunInv g0 s t st →
      ∃ st1, Pathfinder.stepLoop n st = some st1 ∧ Pathfinder.RunInv g0 s t st1
        ∧ (st1.1.m_status = Status.Running → st1.1.rounds + n ≤ st.1.rounds) := by
  induction n with
  | zero =>
    intro st hinv
    exact ⟨st, rfl, hinv, fun _ => le_refl _⟩
  | succ k ih =>
    intro st hinv
    by_cases hrun : st.1.m_status = Status.Running
    · obtain ⟨st2, he2, hinv2, hm2⟩ :=
        Pathfinder.iterate_Run g0 hwf s t hsb htb st hinv hrun
      obtain ⟨st1, he1, hinv1, hm1⟩ := ih st2 hinv2
      refine ⟨st1, ?_, hinv1, ?_⟩
      · unfold Pathfinder.stepLoop
        rw [if_neg (by rw [hrun]; decide), he2]
        exact he1
      · intro h1
        have hr2 : st2.1.m_status = Status.Running := by
          by_contra hn
          rw [Pathfinder.stepLoop_idle k st2 hn] at he1
          cases he1
          exact hn h1
        have := hm1 h1
        have := hm2 hr2
        omega
    · refine ⟨st, Pathfinder.stepLoop_idle _ st hrun, hinv, fun h => absurd h hrun⟩

theorem Pathfinder.step_Run (g0 : Grid) (hwf : g0.WF) (s t : Vector2i)
    (hsb : g0.inBounds s.x s.y = true) (htb : g0.inBounds t.x t.y = true)
    (st : Pathfinder × Grid)
    (hinv : Pathfinder.RunInv g0 s t st) (iterations : Int) :
    ∃ st1, st.1.step st.2 iterations = some st1 ∧ Pathfinder.RunInv g0 s t st1
      ∧ (st1.1.m_status = Status.Running → st1.1.rounds + 1 ≤ st.1.rounds) := by
  unfold Pathfinder.step
  by_cases hrun : st.1.m_status ≠ Status.Running
  · rw [if_pos hrun]
    exact ⟨st, rfl, hinv, fun h => absurd h hrun⟩
  · rw [if_neg hrun]
    obtain ⟨st1, he, hinv1, hm⟩ := Pathfinder.stepLoop_Run g0 hwf s t hsb htb
      (if iterations < 1 then 1 else iterations).toNat st hinv
    refine ⟨st1, he, hinv1, fun h => ?_⟩
    have h1 := hm h
    have h2 : 1 ≤ (if iterations < 1 then 1 else iterations).toNat := by
      split_ifs <;> omega
    omega

theorem Pathfinder.runSteps_Run (g0 : Grid) (hwf : g0.WF) (s t : Vector2i)
    (hsb : g0.inBounds s.x s.y = true) (htb : g0.inBounds t.x t.y = true)
    (budgets : List Int) :
    ∀ st : Pathfinder × Grid, Pathfinder.RunInv g0 s t st →
      ∃ st1, Pathfinder.runSteps budgets st = some st1 ∧ Pathfinder.RunInv g0 s t st1
        ∧ (st1.1.m_status = Status.Running → st1.1.rounds + budgets.length ≤ st.1.rounds) := by
  induction budgets with
  | nil =>
    intro st hinv
    exact ⟨st, rfl, hinv, fun _ => le_refl _⟩
  | cons n ns ih =>
    intro st hinv
    obtain ⟨st2, he2, hinv2, hm2⟩ := Pathfinder.step_Run g0 hwf s t hsb htb st hinv n
    obtain ⟨st1, he1, hinv1, hm1⟩ := ih st2 hinv2
    refine ⟨st1, ?_, hinv1, ?_⟩
    · unfold Pathfinder.runSteps
      rw [he2]
      exact he1
    · intro h1
      have hr2 : st2.1.m_status = Status.Running := by
        by_contra hn
        have hidle : ∀ l : List Int, Pathfinder.runSteps l st2 = some st2 := by
          intro l
          induction l with
          | nil => rfl
          | cons a l ihl =>
            unfold Pathfinder.runSteps Pathfinder.step
            rw [if_pos hn]
            exact ihl
        rw [hidle ns] at he1
        cases he1
        exact hn h1
      have := hm1 h1
      have := hm2 hr2
      simp only [List.length_cons]
      omega

/-- A search on a well-formed grid with Start and Goal placed runs to a state
that satisfies the rounding-independent invariant, whatever the size of the
grid and the budgets of the `step` calls. -/
theorem Pathfinder.search_Run (g : Grid) (hwf : g.WF) (hpl : g.Placed)
    (s t : Vector2i)
    (hs : g.m_start = some s) (ht : g.m_goal = some t) (pf : Pathfinder)
    (hat : pf.Attached g) (budgets : List Int) :
    ∃ st1, pf.search g budgets = some st1 ∧ Pathfinder.RunInv g s t st1
      ∧ (st1.1.m_status = Status.Running →
          st1.1.rounds + budgets.length ≤ 5 * g.m_cells.length + 2) := by
  obtain ⟨hinv, _, hr⟩ := Pathfinder.start_Run g hwf hpl s t hs ht pf hat
  obtain ⟨st1, he, hinv1, hm⟩ := Pathfinder.runSteps_Run g hwf s t (hpl.2.2.1 s hs)
    (hpl.2.2.2.1 t ht) budgets _ hinv
  rw [hr] at hm
  exact ⟨st1, he, hinv1, hm⟩

/-! ## Reads and writes outside a vector -/

theorem vecGet_mem {α : Type} (v : List α) (i : Int) (d : α) (h0 : 0 ≤ i)
    (h1 : i < v.length) : vecGet v i d ∈ v := by
  cases i with
  | ofNat n =>
    have hn : n < v.length := by
      have : ((n : Nat) : Int) < v.length := h1
      omega
    simp only [vecGet, List.getD_eq_getElem?_getD, List.getElem?_eq_getElem hn,
      Option.getD_some]
    exact List.getElem_mem hn
  | negSucc n => exact absurd h0 (by simp)

theorem vecSet_mem {α : Type} (v : List α) (i : Int) (a b : α) (h : b ∈ vecSet v i a) :
    b = a ∨ b ∈ v := by
  cases i with
  | ofNat n =>
    simp only [vecSet] at h
    rcases List.mem_or_eq_of_mem_set h with h1 | h1
    · exact Or.inr h1
    · exact Or.inl h1
  | negSucc n => exact Or.inr h

/-! ## The cases of one round of `step` -/

theorem Pathfinder.iterate_cases (pf : Pathfinder) (g : Grid) (s1 : Pathfinder × Grid)
    (hr : pf.iterate g = some s1) :
    (pqTop pf.m_openSet = none ∧ s1 = ({ pf with m_status := Status.NoPath }, g))
      ∨ ∃ current, pqTop pf.m_openSet = some current
        ∧ (((current.index < 0 ∨ current.index ≥ g.cellCount
              ∨ vecGet pf.m_inClosed current.index false = true
              ∨ (vecGet pf.m_gScores current.index Score.inf).lt current.gScore = true)
            ∧ s1 = ({ pf with m_openSet := pf.m_openSet.erase current }, g))
          ∨ (0 ≤ current.index ∧ current.index < g.cellCount
            ∧ vecGet pf.m_inClosed current.index false = false
            ∧ (vecGet pf.m_gScores current.index Score.inf).lt current.gScore = false
            ∧ current.index = pf.m_goalIndex
            ∧ ∃ g1, Pathfinder.reconstructPath
                  { pf with
                    m_openSet := pf.m_openSet.erase current
                    m_inOpen := vecSet pf.m_inOpen current.index false } g = some g1
              ∧ s1 = ({ pf with
                        m_openSet := pf.m_openSet.erase current
                        m_inOpen := vecSet pf.m_inOpen current.index false
                        m_status := Status.PathFound }, g1))
          ∨ (0 ≤ current.index ∧ current.index < g.cellCount
            ∧ vecGet pf.m_inClosed current.index false = false
            ∧ (vecGet pf.m_gScores current.index Score.inf).lt current.gScore = false
            ∧ current.index ≠ pf.m_goalIndex
            ∧ ∃ gc F, (gc = g ∨ gc = g.setOverlay (pf.toGrid current.index).1
                  (pf.toGrid current.index).2 CellOverlay.ClosedSet)
              ∧ F = Pathfinder.offsets.foldl
                  (Pathfinder.relaxNeighbor current.index (pf.toGrid current.index).1
                    (pf.toGrid current.index).2)
                  ({ pf with
                      m_openSet := pf.m_openSet.erase current
                      m_inOpen := vecSet pf.m_inOpen current.index false }, gc)
              ∧ s1 = ({ F.1 with m_inClosed := vecSet F.1.m_inClosed current.index true },
                  F.2))) := by
  unfold Pathfinder.iterate at hr
  cases htop : pqTop pf.m_openSet with
  | none =>
    rw [htop] at hr
    simp only [Option.some.injEq] at hr
    exact Or.inl ⟨rfl, hr.symm⟩
  | some current =>
    rw [htop] at hr
    simp only [] at hr
    right
    refine ⟨current, rfl, ?_⟩
    split_ifs at hr with h1 h2 h3 h4 h5
    · cases hr
      left
      refine ⟨?_, rfl⟩
      rcases h1 with h | h
      · exact Or.inl h
      · exact Or.inr (Or.inl h)
    · cases hr
      exact Or.inl ⟨Or.inr (Or.inr (Or.inl h2)), rfl⟩
    · cases hr
      exact Or.inl ⟨Or.inr (Or.inr (Or.inr h3)), rfl⟩
    · right; left
      simp only [Bool.not_eq_true] at h2 h3
      cases hrec : Pathfinder.reconstructPath
        { pf with
          m_openSet := pf.m_openSet.erase current
          m_inOpen := vecSet pf.m_inOpen current.index false } g with
      | none => rw [hrec] at hr; cases hr
      | some g1 =>
        rw [hrec] at hr
        cases hr
        exact ⟨by omega, by omega, h2, h3, h4, g1, rfl, rfl⟩
    · right; right
      simp only [Bool.not_eq_true] at h2 h3
      cases hr
      exact ⟨by omega, by omega, h2, h3, h4, _, _, Or.inr rfl, rfl, rfl⟩
    · right; right
      simp only [Bool.not_eq_true] at h2 h3
      cases hr
      exact ⟨by omega, by omega, h2, h3, h4, _, _, Or.inl rfl, rfl, rfl⟩

/-! ## What the neighbour loop keeps -/

theorem Pathfinder.parentWalk_more (pf : Pathfinder) (fuel : Nat) :
    ∀ (n : Int) (l : List Int) (k : Nat), pf.parentWalk fuel n = some l →
      pf.parentWalk (fuel + k) n = some l := by
  induction fuel with
  | zero =>
    intro n l k h
    unfold Pathfinder.parentWalk at h
    by_cases hn : n ≥ 0
    · rw [if_pos hn] at h
      cases h
    · rw [if_neg hn] at h
      rw [Pathfinder.parentWalk_neg pf _ n (by omega)]
      exact h
  | succ f ih =>
    intro n l k h
    rw [Nat.succ_add]
    unfold Pathfinder.parentWalk at h ⊢
    by_cases hn : n ≥ 0
    · rw [if_pos hn] at h ⊢
      cases hw : pf.parentWalk f (vecGet pf.m_parents n (-1)) with
      | none => rw [hw] at h; cases h
      | some l1 =>
        rw [hw] at h
        rw [ih _ l1 k hw]
        exact h
    · rw [if_neg hn] at h ⊢
      exact h

theorem GridOp.run_dims (op : GridOp) (g : Grid) :
    (op.run g).m_width = g.m_width ∧ (op.run g).m_height = g.m_height := by
  cases op with
  | setObstacle x y =>
    show (g.setObstacle x y).2.m_width = g.m_width ∧ (g.setObstacle x y).2.m_height = g.m_height
    rcases Grid.setObstacle_spec g x y with ⟨_, _, _, he⟩ | ⟨_, he⟩ <;> rw [he] <;> exact ⟨rfl, rfl⟩
  | clearCell x y =>
    show (g.clearCell x y).2.m_width = g.m_width ∧ (g.clearCell x y).2.m_height = g.m_height
    rcases Grid.clearCell_spec g x y with ⟨_, he⟩ | ⟨_, he⟩ <;> rw [he] <;> exact ⟨rfl, rfl⟩
  | setStart c =>
    show (g.setStart c).2.m_width = g.m_width ∧ (g.setStart c).2.m_height = g.m_height
    rcases Grid.setStart_spec g c with ⟨_, _, _, he⟩ | ⟨_, he⟩ <;> rw [he] <;> exact ⟨rfl, rfl⟩
  | setGoal c =>
    show (g.setGoal c).2.m_width = g.m_width ∧ (g.setGoal c).2.m_height = g.m_height
    rcases Grid.setGoal_spec g c with ⟨_, _, _, he⟩ | ⟨_, he⟩ <;> rw [he] <;> exact ⟨rfl, rfl⟩
  | setOverlay x y v =>
    exact ⟨(Grid.setOverlay_frame g x y v).1, (Grid.setOverlay_frame g x y v).2.1⟩
  | clearOverlays => exact ⟨rfl, rfl⟩
  | clearObstacles => exact ⟨rfl, rfl⟩
  | reset => exact ⟨rfl, rfl⟩

theorem Grid.WF.same_count (g g1 : Grid) (h : g.WF) (h1 : g1.WF)
    (hw : g1.m_width = g.m_width) (hh : g1.m_height = g.m_height) :
    g1.m_cells.length = g.m_cells.length := by
  rw [h.2.2.1, h1.2.2.1, hw, hh]

theorem Pathfinder.Shape.move (pf : Pathfinder) (g g1 : Grid) (h : Pathfinder.Shape (pf, g))
    (hwf : g1.WF) (hpl : g1.Placed) (hw : g1.m_width = g.m_width)
    (hc : g1.m_cells.length = g.m_cells.length) : Pathfinder.Shape (pf, g1) := by
  unfold Pathfinder.Shape Grid.cellCount at h ⊢
  simp only [] at h ⊢
  rw [hw, hc]
  exact ⟨hwf, hpl, h.2.2⟩

theorem GridOp.edit_Shape (op : GridOp) (s : Pathfinder × Grid) (h : Pathfinder.Shape s) :
    Pathfinder.Shape (s.1, op.run s.2) := by
  have hwf := GridOp.run_WF op s.2 h.1
  have hd := GridOp.run_dims op s.2
  exact Pathfinder.Shape.move s.1 s.2 _ h hwf (GridOp.run_Placed op s.2 h.1 h.2.1) hd.1
    (Grid.WF.same_count s.2 _ h.1 hwf hd.1 hd.2)

theorem Pathfinder.reset_Shape (s : Pathfinder × Grid) (h : Pathfinder.Shape s) :
    Pathfinder.Shape (s.1.reset s.2) := by
  obtain ⟨hwf, hpl, hw, h1, h2, h3, h4, h5, _, _, _⟩ := h
  have e := Pathfinder.reset_arrays s.1 s.2 (h2.trans h1.symm) (h3.trans h1.symm)
    (h4.trans h1.symm) (h5.trans h1.symm)
  have e1 := congrArg Prod.fst e
  have e2 := Pathfinder.reset_grid s.1 s.2
  simp only [] at e1
  unfold Pathfinder.Shape
  rw [e2, e1]
  refine ⟨Grid.clearOverlays_WF _ hwf, Grid.clearOverlays_Placed _ hpl, hw, ?_, ?_, ?_, ?_, ?_,
    ?_, ?_, ?_⟩
  · exact List.length_replicate _ _
  · exact List.length_replicate _ _
  · exact List.length_replicate _ _
  · exact List.length_replicate _ _
  · exact List.length_replicate _ _
  · intro r hr
    cases hr
  · intro p hp
    have := List.eq_of_mem_replicate hp
    subst this
    unfold Grid.cellCount
    constructor
    · exact le_refl _
    · have : (0 : Int) ≤ (s.2.clearOverlays.m_cells.length : Int) := Int.ofNat_nonneg _
      omega
  · intro hst
    cases hst

theorem Pathfinder.start_inOpen (pf : Pathfinder) (g : Grid) (startCell goalCell : Vector2i)
    (hs : g.m_start = some startCell) (ht : g.m_goal = some goalCell) :
    (pf.start g).2.1.m_inOpen.length = (pf.reset g).1.m_inOpen.length := by
  unfold Pathfinder.start
  rw [hs, ht]
  simp only []
  split_ifs
  · rfl
  · exact vecSet_length _ _ _

theorem Pathfinder.start_none (pf : Pathfinder) (g : Grid)
    (h : g.m_start = none ∨ g.m_goal = none) : pf.start g = (false, pf, g) := by
  unfold Pathfinder.start
  rcases h with h | h
  · rw [h]
  · rw [h]
    cases g.m_start <;> rfl

theorem Pathfinder.start_Shape (s : Pathfinder × Grid) (h : Pathfinder.Shape s) :
    Pathfinder.Shape (s.1.start s.2).2 := by
  cases hs : s.2.m_start with
  | none =>
    rw [Pathfinder.start_none s.1 s.2 (Or.inl hs)]
    exact h
  | some startCell =>
    cases ht : s.2.m_goal with
    | none =>
      rw [Pathfinder.start_none s.1 s.2 (Or.inr ht)]
      exact h
    | some goalCell =>
      have hr := Pathfinder.reset_Shape s h
      obtain ⟨hwf, hpl, hw, h1, h2, h3, h4, h5, _, _, _⟩ := h
      have hne : startCell ≠ goalCell := hpl.2.2.2.2 startCell goalCell hs ht
      have hsb : s.2.inBounds startCell.x startCell.y = true := hpl.2.2.1 startCell hs
      have htb : s.2.inBounds goalCell.x goalCell.y = true := hpl.2.2.2.1 goalCell ht
      have hat : s.1.Attached s.2 :=
        ⟨hw, h2.trans h1.symm, h3.trans h1.symm, h4.trans h1.symm, h5.trans h1.symm⟩
      have hio := Pathfinder.start_inOpen s.1 s.2 startCell goalCell hs ht
      obtain ⟨pf1, he, e1, e2, e3, e4, e5, e6, e7, e8, e9⟩ :=
        Pathfinder.start_spec s.1 s.2 hat startCell goalCell hs ht hne
      rw [he] at hio ⊢
      simp only [] at hio
      have hrs := Pathfinder.idx_range s.1 s.2 hwf hw startCell.x startCell.y hsb
      have hrt := Pathfinder.idx_range s.1 s.2 hwf hw goalCell.x goalCell.y htb
      have hwf2 : s.2.clearOverlays.clearOverlays.WF :=
        Grid.clearOverlays_WF _ (Grid.clearOverlays_WF _ hwf)
      have hpl2 : s.2.clearOverlays.clearOverlays.Placed :=
        Grid.clearOverlays_Placed _ (Grid.clearOverlays_Placed _ hpl)
      refine Pathfinder.Shape.move pf1 s.2 _ ?_ hwf2 hpl2 rfl rfl
      refine ⟨hwf, hpl, e1.trans hw, ?_, e5, ?_, ?_, ?_, ?_, ?_, ?_⟩
      · show pf1.m_gScores.length = s.2.m_cells.length
        rw [e4, vecSet_length, List.length_replicate]
      · show pf1.m_parents.length = s.2.m_cells.length
        rw [e6, vecSet_length, List.length_replicate]
      · show pf1.m_inOpen.length = s.2.m_cells.length
        rw [hio]
        exact hr.2.2.2.2.2.2.1
      · show pf1.m_inClosed.length = s.2.m_cells.length
        rw [e7, List.length_replicate]
      · intro r hr1
        have hr2 : r ∈ pf1.m_openSet := hr1
        rw [e8, List.mem_singleton] at hr2
        rw [hr2]
        exact hrs
      · intro p hp
        have hp2 : p ∈ pf1.m_parents := hp
        rw [e6] at hp2
        have hN : (0 : Int) ≤ s.2.cellCount := Int.ofNat_nonneg _
        show -1 ≤ p ∧ p < s.2.cellCount
        rcases vecSet_mem _ _ _ _ hp2 with e | e
        · subst e
          exact ⟨le_refl _, by omega⟩
        · have := List.eq_of_mem_replicate e
          subst this
          exact ⟨le_refl _, by omega⟩
      · intro _
        show (0 ≤ pf1.m_startIndex ∧ pf1.m_startIndex < s.2.cellCount)
          ∧ 0 ≤ pf1.m_goalIndex ∧ pf1.m_goalIndex < s.2.cellCount
        rw [e2, e3]
        exact ⟨hrs, hrt⟩

theorem Pathfinder.relaxNeighbor_inOpen (cur cx cy : Int) (s : Pathfinder × Grid)
    (off : Int × Int) :
    (Pathfinder.relaxNeighbor cur cx cy s off).1.m_inOpen.length = s.1.m_inOpen.length := by
  unfold Pathfinder.relaxNeighbor
  simp only []
  split_ifs
  all_goals first
    | rfl
    | exact vecSet_length _ _ _

theorem Pathfinder.relaxNeighbor_Shape (cur cx cy : Int) (s : Pathfinder × Grid)
    (off : Int × Int)
    (h : Pathfinder.Shape s ∧ 0 ≤ cur ∧ cur < s.2.cellCount) :
    Pathfinder.Shape (Pathfinder.relaxNeighbor cur cx cy s off)
      ∧ 0 ≤ cur ∧ cur < (Pathfinder.relaxNeighbor cur cx cy s off).2.cellCount := by
  obtain ⟨hsh, hc0, hc1⟩ := h
  have hio := Pathfinder.relaxNeighbor_inOpen cur cx cy s off
  rcases Pathfinder.relaxNeighbor_spec cur cx cy s.1 s.2 off with ⟨he, _⟩
    | ⟨hb, _, _, _, pf1, g1, he, e1, e2, e3, e4, e5, e6, e7, e8, e9, hg⟩
  · rw [Prod.mk.eta] at he
    rw [he]
    exact ⟨hsh, hc0, hc1⟩
  · rw [Prod.mk.eta] at he
    rw [he] at hio ⊢
    simp only [] at hio
    obtain ⟨hwf, hpl, hw, h1, h2, h3, h4, h5, h6, h7, h8⟩ := hsh
    have hrn := Pathfinder.idx_range s.1 s.2 hwf hw _ _ hb
    have hsh1 : Pathfinder.Shape (pf1, s.2) := by
      refine ⟨hwf, hpl, e1.trans hw, ?_, ?_, ?_, hio.trans h4, ?_, ?_, ?_, ?_⟩
      · show pf1.m_gScores.length = s.2.m_cells.length
        rw [e7, vecSet_length]; exact h1
      · show pf1.m_fScores.length = s.2.m_cells.length
        rw [e8, vecSet_length]; exact h2
      · show pf1.m_parents.length = s.2.m_cells.length
        rw [e6, vecSet_length]; exact h3
      · show pf1.m_inClosed.length = s.2.m_cells.length
        rw [e5]; exact h5
      · intro r hr
        have hr2 : r ∈ pf1.m_openSet := hr
        rw [e9] at hr2
        rcases List.mem_cons.1 hr2 with e | e
        · rw [e]
          exact hrn
        · exact h6 r e
      · intro p hp
        have hp2 : p ∈ pf1.m_parents := hp
        rw [e6] at hp2
        show -1 ≤ p ∧ p < s.2.cellCount
        rcases vecSet_mem _ _ _ _ hp2 with e | e
        · subst e
          exact ⟨by omega, hc1⟩
        · exact h7 p e
      · intro hst
        have hst2 : pf1.m_status = Status.Running := hst
        rw [e4] at hst2
        show (0 ≤ pf1.m_startIndex ∧ pf1.m_startIndex < s.2.cellCount)
          ∧ 0 ≤ pf1.m_goalIndex ∧ pf1.m_goalIndex < s.2.cellCount
        rw [e2, e3]
        exact h8 hst2
    rcases hg with e | e
    · rw [e]
      exact ⟨hsh1, hc0, hc1⟩
    · rw [e]
      obtain ⟨f1, _, f3, _, _, _⟩ := Grid.setOverlay_frame s.2 (cx + off.1) (cy + off.2)
        CellOverlay.OpenSet
      refine ⟨Pathfinder.Shape.move pf1 s.2 _ hsh1 (Grid.setOverlay_WF _ _ _ _ hwf)
        (Grid.setOverlay_Placed _ _ _ _ hpl) f1 (by rw [f3]), hc0, ?_⟩
      show cur < ((s.2.setOverlay (cx + off.1) (cy + off.2) CellOverlay.OpenSet).m_cells.length
        : Int)
      rw [f3]
      exact hc1

theorem Pathfinder.relaxAll_pair (P : Pathfinder × Grid → Prop) (cur cx cy : Int)
    (hP : ∀ (s : Pathfinder × Grid) (off : Int × Int), P s →
      P (Pathfinder.relaxNeighbor cur cx cy s off))
    (offs : List (Int × Int)) (s : Pathfinder × Grid) (h : P s) :
    P (offs.foldl (Pathfinder.relaxNeighbor cur cx cy) s) := by
  induction offs generalizing s with
  | nil => exact h
  | cons o os ih => exact ih _ (hP s o h)

theorem Pathfinder.relaxAll_Shape (cur cx cy : Int) (offs : List (Int × Int))
    (s : Pathfinder × Grid) (h : Pathfinder.Shape s ∧ 0 ≤ cur ∧ cur < s.2.cellCount) :
    Pathfinder.Shape (offs.foldl (Pathfinder.relaxNeighbor cur cx cy) s)
      ∧ 0 ≤ cur ∧ cur < (offs.foldl (Pathfinder.relaxNeighbor cur cx cy) s).2.cellCount :=
  Pathfinder.relaxAll_pair
    (fun s0 => Pathfinder.Shape s0 ∧ 0 ≤ cur ∧ cur < s0.2.cellCount) cur cx cy
    (fun s0 off h0 => Pathfinder.relaxNeighbor_Shape cur cx cy s0 off h0) offs s h

theorem Pathfinder.Shape.pop (pf : Pathfinder) (g : Grid) (h : Pathfinder.Shape (pf, g))
    (current : NodeRecord) (i : Int) (b : Bool) :
    Pathfinder.Shape
      ({ pf with
          m_openSet := pf.m_openSet.erase current
          m_inOpen := vecSet pf.m_inOpen i b }, g) := by
  obtain ⟨hwf, hpl, hw, h1, h2, h3, h4, h5, h6, h7, h8⟩ := h
  refine ⟨hwf, hpl, hw, h1, h2, h3, ?_, h5, ?_, h7, h8⟩
  · show (vecSet pf.m_inOpen i b).length = g.m_cells.length
    rw [vecSet_length]; exact h4
  · intro r hr
    exact h6 r (List.mem_of_mem_erase hr)

theorem Pathfinder.iterate_Shape (s s1 : Pathfinder × Grid) (h : Pathfinder.Shape s)
    (he : s.1.iterate s.2 = some s1) : Pathfinder.Shape s1 := by
  have hsh := h
  obtain ⟨hwf, hpl, hw, h1, h2, h3, h4, h5, h6, h7, h8⟩ := h
  rcases Pathfinder.iterate_cases s.1 s.2 s1 he with ⟨_, e⟩ | ⟨current, htop, hcase⟩
  · rw [e]
    exact ⟨hwf, hpl, hw, h1, h2, h3, h4, h5, h6, h7, fun hst => by cases hst⟩
  rcases hcase with ⟨_, e⟩ | ⟨_, _, _, _, _, g1, hrec, e⟩
    | ⟨hi0, hi1, _, _, _, gc, F, hgc, hF, e⟩
  · rw [e]
    exact ⟨hwf, hpl, hw, h1, h2, h3, h4, h5, fun r hr => h6 r (List.mem_of_mem_erase hr), h7, h8⟩
  · rw [e]
    have hg1 : g1.WF ∧ g1.Placed ∧ g1.m_width = s.2.m_width
        ∧ g1.m_cells.length = s.2.m_cells.length := by
      refine Pathfinder.reconstructPath_grid
        (fun g0 => g0.WF ∧ g0.Placed ∧ g0.m_width = s.2.m_width
          ∧ g0.m_cells.length = s.2.m_cells.length) ?_ _ s.2 g1 hrec ⟨hwf, hpl, rfl, rfl⟩
      intro g0 x y v hg0
      obtain ⟨f1, _, f3, _, _, _⟩ := Grid.setOverlay_frame g0 x y v
      exact ⟨Grid.setOverlay_WF _ _ _ _ hg0.1, Grid.setOverlay_Placed _ _ _ _ hg0.2.1,
        f1.trans hg0.2.2.1, by rw [f3]; exact hg0.2.2.2⟩
    have hpop := Pathfinder.Shape.pop s.1 s.2 hsh current current.index false
    obtain ⟨_, _, p3, p4, p5, p6, p7, p8, p9, p10, _⟩ := hpop
    refine Pathfinder.Shape.move _ s.2 g1 ?_ hg1.1 hg1.2.1 hg1.2.2.1 hg1.2.2.2
    exact ⟨hwf, hpl, p3, p4, p5, p6, p7, p8, p9, p10, fun hst => by cases hst⟩
  · have hpop := Pathfinder.Shape.pop s.1 s.2 hsh current current.index false
    have hstart : Pathfinder.Shape
        ({ s.1 with
            m_openSet := s.1.m_openSet.erase current
            m_inOpen := vecSet s.1.m_inOpen current.index false }, gc)
        ∧ 0 ≤ current.index ∧ current.index < gc.cellCount := by
      rcases hgc with e1 | e1
      · rw [e1]
        exact ⟨hpop, hi0, hi1⟩
      · rw [e1]
        obtain ⟨f1, _, f3, _, _, _⟩ := Grid.setOverlay_frame s.2 (s.1.toGrid current.index).1
          (s.1.toGrid current.index).2 CellOverlay.ClosedSet
        refine ⟨Pathfinder.Shape.move _ s.2 _ hpop (Grid.setOverlay_WF _ _ _ _ hwf)
          (Grid.setOverlay_Placed _ _ _ _ hpl) f1 (by rw [f3]), hi0, ?_⟩
        unfold Grid.cellCount
        rw [f3]
        exact hi1
    have hF1 := Pathfinder.relaxAll_Shape current.index (s.1.toGrid current.index).1
      (s.1.toGrid current.index).2 Pathfinder.offsets _ hstart
    rw [← hF] at hF1
    obtain ⟨⟨q1, q2, q3, q4, q5, q6, q7, q8, q9, q10, q11⟩, _, _⟩ := hF1
    rw [e]
    refine ⟨q1, q2, q3, q4, q5, q6, q7, ?_, q9, q10, q11⟩
    show (vecSet F.1.m_inClosed current.index true).length = F.2.m_cells.length
    rw [vecSet_length]
    exact q8

theorem Pathfinder.stepLoop_Shape (n : Nat) (s s1 : Pathfinder × Grid)
    (h : Pathfinder.Shape s) (he : Pathfinder.stepLoop n s = some s1) :
    Pathfinder.Shape s1 := by
  induction n generalizing s with
  | zero =>
    unfold Pathfinder.stepLoop at he
    cases he
    exact h
  | succ k ih =>
    unfold Pathfinder.stepLoop at he
    split_ifs at he with hst
    · cases he
      exact h
    · cases hit : Pathfinder.iterate s.1 s.2 with
      | none => rw [hit] at he; cases he
      | some s2 =>
        rw [hit] at he
        exact ih s2 (Pathfinder.iterate_Shape s s2 h hit) he

theorem Pathfinder.step_Shape (s s1 : Pathfinder × Grid) (n : Int) (h : Pathfinder.Shape s)
    (he : s.1.step s.2 n = some s1) : Pathfinder.Shape s1 := by
  rw [Pathfinder.step_eq_stepLoop] at he
  exact Pathfinder.stepLoop_Shape _ s s1 h he

theorem CoreOp.run_Shape (op : CoreOp) (s s1 : Pathfinder × Grid) (h : Pathfinder.Shape s)
    (he : op.run s = some s1) : Pathfinder.Shape s1 := by
  cases op with
  | grid o =>
    simp only [CoreOp.run, Option.some.injEq] at he
    rw [← he]
    exact GridOp.edit_Shape o s h
  | reset =>
    simp only [CoreOp.run, Option.some.injEq] at he
    rw [← he]
    exact Pathfinder.reset_Shape s h
  | start =>
    simp only [CoreOp.run, Option.some.injEq] at he
    rw [← he]
    exact Pathfinder.start_Shape s h
  | step n => exact Pathfinder.step_Shape s s1 n h he

theorem CoreOp.runAll_Shape (ops : List CoreOp) (s s1 : Pathfinder × Grid)
    (h : Pathfinder.Shape s) (he : CoreOp.runAll ops s = some s1) : Pathfinder.Shape s1 := by
  induction ops generalizing s with
  | nil =>
    simp only [CoreOp.runAll, Option.some.injEq] at he
    rw [← he]
    exact h
  | cons op ops ih =>
    unfold CoreOp.runAll at he
    cases hr : op.run s with
    | none => rw [hr] at he; cases he
    | some s2 =>
      rw [hr] at he
      exact ih s2 (CoreOp.run_Shape op s s2 h hr) he

theorem freshState_Shape (width height : Int) (hw : 1 ≤ width) (hh : 1 ≤ height) :
    Pathfinder.Shape (freshState width height) := by
  unfold freshState
  have hwf := Grid.ctor_WF width height hw hh
  refine ⟨hwf, Grid.ctor_Placed width height, rfl, ?_, ?_, ?_, ?_, ?_, ?_, ?_, ?_⟩
  · exact List.length_replicate _ _
  · exact List.length_replicate _ _
  · exact List.length_replicate _ _
  · exact List.length_replicate _ _
  · exact List.length_replicate _ _
  · intro r hr
    cases hr
  · intro p hp
    have hp2 : p ∈ List.replicate (Grid.ctor width height).m_cells.length (-1 : Int) := hp
    have := List.eq_of_mem_replicate hp2
    subst this
    have hN : (0 : Int) ≤ (Grid.ctor width height).cellCount := Int.ofNat_nonneg _
    show -1 ≤ (-1 : Int) ∧ (-1 : Int) < (Grid.ctor width height).cellCount
    omega
  · intro hst
    cases hst

/-! ## Index safety under the shape invariant -/

theorem Grid.setOverlaySafe_of_WF (g : Grid) (hwf : g.WF) (x y : Int) :
    g.setOverlaySafe x y := by
  intro hb
  have hr := Grid.index_range g hwf x y hb
  refine ⟨hr, fun _ => ?_⟩
  unfold vecIn
  rw [hwf.2.2.2, ← hwf.2.2.1]
  exact hr

theorem Pathfinder.resetSafe_of_Shape (s : Pathfinder × Grid) (h : Pathfinder.Shape s) :
    s.1.resetSafe s.2 := by
  obtain ⟨_, _, _, h1, h2, h3, h4, h5, _⟩ := h
  intro _
  exact ⟨by rw [h2], by rw [h3], by rw [h4], by rw [h5]⟩

theorem Pathfinder.startSafe_of_Shape (s : Pathfinder × Grid) (h : Pathfinder.Shape s) :
    s.1.startSafe s.2 := by
  intro startCell goalCell hs ht
  refine ⟨Pathfinder.resetSafe_of_Shape s h, fun _ => ?_⟩
  have hr := Pathfinder.reset_Shape s h
  obtain ⟨hwf, hpl, hw, h1, h2, h3, h4, _, _, _, _⟩ := hr
  have hs1 : (s.1.reset s.2).2.m_start = some startCell := hs
  have hsb := hpl.2.2.1 startCell hs1
  have hrs := Pathfinder.idx_range (s.1.reset s.2).1 (s.1.reset s.2).2 hwf hw
    startCell.x startCell.y hsb
  unfold Pathfinder.idx at hrs
  unfold vecIn
  rw [h1, h2, h3, h4]
  exact ⟨hrs, hrs, hrs, hrs⟩

theorem Pathfinder.relaxSafe_of_Shape (cur cx cy : Int) (s : Pathfinder × Grid)
    (off : Int × Int) (h : Pathfinder.Shape s) (hc0 : 0 ≤ cur) (hc1 : cur < s.2.cellCount) :
    Pathfinder.relaxSafe cur cx cy s off := by
  obtain ⟨hwf, hpl, hw, h1, h2, h3, h4, h5, _, _, _⟩ := h
  unfold Pathfinder.relaxSafe
  simp only []
  intro hb
  have hrn := Pathfinder.idx_range s.1 s.2 hwf hw _ _ hb
  unfold Pathfinder.idx at hrn
  have hrc := Grid.index_range s.2 hwf _ _ hb
  unfold vecIn
  rw [h1, h2, h3, h4, h5]
  exact ⟨hrn, fun _ => ⟨hrc, fun _ => ⟨⟨hc0, hc1⟩, hrn, fun _ =>
    ⟨hrn, hrn, hrn, fun _ => Grid.setOverlaySafe_of_WF s.2 hwf _ _⟩⟩⟩⟩

theorem Pathfinder.relaxAllSafe_of_Shape (cur cx cy : Int) (offs : List (Int × Int)) :
    ∀ s : Pathfinder × Grid, Pathfinder.Shape s → 0 ≤ cur → cur < s.2.cellCount →
      Pathfinder.relaxAllSafe cur cx cy offs s := by
  induction offs with
  | nil =>
    intro s _ _ _
    exact True.intro
  | cons o os ih =>
    intro s h hc0 hc1
    obtain ⟨k1, k2, k3⟩ := Pathfinder.relaxNeighbor_Shape cur cx cy s o ⟨h, hc0, hc1⟩
    exact ⟨Pathfinder.relaxSafe_of_Shape cur cx cy s o h hc0 hc1, ih _ k1 k2 k3⟩

theorem Pathfinder.reconstructSafe_of_range (pf : Pathfinder)
    (hp : ∀ p ∈ pf.m_parents, -1 ≤ p ∧ p < pf.m_parents.length) (fuel : Nat) :
    ∀ (current : Int) (g : Grid), g.WF → current < pf.m_parents.length →
      pf.reconstructSafe fuel current g := by
  induction fuel with
  | zero =>
    intro current g _ _
    exact True.intro
  | succ k ih =>
    intro current g hwf hc
    unfold Pathfinder.reconstructSafe
    intro h0
    refine ⟨fun _ => Grid.setOverlaySafe_of_WF g hwf _ _, ⟨h0, hc⟩, ?_⟩
    refine ih _ _ ?_ (hp _ (vecGet_mem _ _ _ h0 hc)).2
    split_ifs
    · exact Grid.setOverlay_WF _ _ _ _ hwf
    · exact hwf

theorem Pathfinder.iterateSafe_of_Shape (s : Pathfinder × Grid) (h : Pathfinder.Shape s) :
    Pathfinder.iterateSafe s.1 s.2 := by
  have hsh := h
  obtain ⟨hwf, hpl, hw, h1, h2, h3, h4, h5, h6, h7, h8⟩ := h
  intro current htop
  have hr := h6 current (pqTop_mem _ _ htop)
  have hr1 : current.index < (s.2.m_cells.length : Int) := hr.2
  refine ⟨by omega, ⟨hr.1, by rw [h5]; exact hr1⟩, fun _ =>
    ⟨⟨hr.1, by rw [h1]; exact hr1⟩, fun _ => ⟨⟨hr.1, by rw [h4]; exact hr1⟩, ?_, ?_⟩⟩⟩
  · intro hgo
    unfold Pathfinder.reconstructPathSafe
    intro _ fuel
    refine Pathfinder.reconstructSafe_of_range _ ?_ fuel _ s.2 hwf ?_
    · intro p hp
      have := h7 p hp
      unfold Grid.cellCount at this
      rw [← h3] at this
      exact this
    · show s.1.m_goalIndex < (s.1.m_parents.length : Int)
      rw [← hgo, h3]
      exact hr1
  · intro _
    have hpop := Pathfinder.Shape.pop s.1 s.2 hsh current current.index false
    have hstart : Pathfinder.Shape
        ({ s.1 with
            m_openSet := s.1.m_openSet.erase current
            m_inOpen := vecSet s.1.m_inOpen current.index false },
          if current.index ≠ s.1.m_startIndex then
            s.2.setOverlay (s.1.toGrid current.index).1 (s.1.toGrid current.index).2
              CellOverlay.ClosedSet
          else s.2)
        ∧ 0 ≤ current.index
        ∧ current.index <
          (if current.index ≠ s.1.m_startIndex then
            s.2.setOverlay (s.1.toGrid current.index).1 (s.1.toGrid current.index).2
              CellOverlay.ClosedSet
          else s.2).cellCount := by
      split_ifs
      · obtain ⟨f1, _, f3, _, _, _⟩ := Grid.setOverlay_frame s.2 (s.1.toGrid current.index).1
          (s.1.toGrid current.index).2 CellOverlay.ClosedSet
        refine ⟨Pathfinder.Shape.move _ s.2 _ hpop (Grid.setOverlay_WF _ _ _ _ hwf)
          (Grid.setOverlay_Placed _ _ _ _ hpl) f1 (by rw [f3]), hr.1, ?_⟩
        unfold Grid.cellCount
        rw [f3]
        exact hr1
      · exact ⟨hpop, hr.1, hr.2⟩
    refine ⟨fun _ => Grid.setOverlaySafe_of_WF s.2 hwf _ _,
      Pathfinder.relaxAllSafe_of_Shape _ _ _ _ _ hstart.1 hstart.2.1 hstart.2.2, ?_⟩
    obtain ⟨hF, _, hF2⟩ := Pathfinder.relaxAll_Shape current.index
      (s.1.toGrid current.index).1 (s.1.toGrid current.index).2 Pathfinder.offsets _ hstart
    refine ⟨hr.1, ?_⟩
    rw [hF.2.2.2.2.2.2.2.1]
    exact hF2

theorem Pathfinder.stepLoopSafe_of_Shape (n : Nat) :
    ∀ s : Pathfinder × Grid, Pathfinder.Shape s → Pathfinder.stepLoopSafe n s := by
  induction n with
  | zero =>
    intro s _
    exact True.intro
  | succ k ih =>
    intro s h
    unfold Pathfinder.stepLoopSafe
    intro _
    exact ⟨Pathfinder.iterateSafe_of_Shape s h,
      fun s1 he => ih s1 (Pathfinder.iterate_Shape s s1 h he)⟩

theorem CoreOp.safe_of_Shape (op : CoreOp) (s : Pathfinder × Grid) (h : Pathfinder.Shape s) :
    op.safe s := by
  cases op with
  | grid o => exact True.intro
  | reset => exact Pathfinder.resetSafe_of_Shape s h
  | start => exact Pathfinder.startSafe_of_Shape s h
  | step n =>
    show s.1.stepSafe s.2 n
    intro _
    exact Pathfinder.stepLoopSafe_of_Shape _ (s.1, s.2) h

theorem CoreOp.allSafe_of_Shape (ops : List CoreOp) :
    ∀ s : Pathfinder × Grid, Pathfinder.Shape s → CoreOp.allSafe ops s := by
  induction ops with
  | nil =>
    intro s _
    exact True.intro
  | cons op ops ih =>
    intro s h
    exact ⟨CoreOp.safe_of_Shape op s h, fun s1 he => ih s1 (CoreOp.run_Shape op s s1 h he)⟩

/-! ## Vectors given by a function -/

theorem vecOf_length {α : Type} (n : Nat) (f : Int → α) : (vecOf n f).length = n := by
  simp [vecOf]

theorem vecGet_vecOf {α : Type} (n : Nat) (f : Int → α) (i : Int) (d : α) (h0 : 0 ≤ i)
    (h1 : i < n) : vecGet (vecOf n f) i d = f i := by
  cases i with
  | ofNat m =>
    have hm : m < n := by
      have : (m : Int) < n := h1
      omega
    simp [vecGet, vecOf, List.getD_eq_getElem?_getD, hm]
  | negSucc m => exact absurd h0 (by simp)

theorem vecOf_congr {α : Type} (n : Nat) (f f1 : Int → α)
    (h : ∀ i : Int, 0 ≤ i → i < n → f i = f1 i) : vecOf n f = vecOf n f1 := by
  unfold vecOf
  apply List.map_congr_left
  intro a ha
  rw [List.mem_range] at ha
  exact h a (by omega) (by omega)

theorem vecSet_vecOf {α : Type} (n : Nat) (f : Int → α) (i : Int) (v : α) :
    vecSet (vecOf n f) i v = vecOf n (upd f i v) := by
  cases i with
  | ofNat m =>
    apply List.ext_getElem
    · simp [vecSet, vecOf]
    · intro k h1 h2
      simp only [vecSet, vecOf, List.length_set, List.length_map, List.length_range] at h1 h2
      simp only [vecSet, vecOf, List.getElem_set, List.getElem_map, List.getElem_range, upd]
      by_cases hk : m = k
      · subst hk
        simp
      · have : ¬ ((k : Int) = Int.ofNat m) := by
          intro e
          apply hk
          have : (k : Int) = (m : Int) := e
          omega
        have hk1 : ¬ k = m := fun e => hk e.symm
        simp [hk, hk1, this]
  | negSucc m =>
    simp only [vecSet]
    apply vecOf_congr
    intro j h0 _
    unfold upd
    rw [if_neg]
    intro e
    rw [e] at h0
    exact absurd h0 (by simp)

theorem replicate_eq_vecOf {α : Type} (n : Nat) (a : α) :
    List.replicate n a = vecOf n (fun _ => a) := by
  apply List.ext_getElem
  · simp [vecOf]
  · intro k h1 h2
    simp [vecOf]

/-! ## A round of `step` on a frame -/

theorem Frame.inBounds_grid (fr : Frame) (vF : Int → CellOverlay) (x y : Int) :
    (fr.grid vF).inBounds x y = fr.inB x y := rfl

theorem Frame.inB_iff (fr : Frame) (x y : Int) :
    fr.inB x y = true ↔ 0 ≤ x ∧ 0 ≤ y ∧ x < fr.w ∧ y < fr.h :=
  Grid.inBounds_iff (fr.grid (fun _ => CellOverlay.None)) x y

theorem Frame.index_bounds (fr : Frame) (x y : Int) (hb : fr.inB x y = true) :
    0 ≤ y * fr.w + x ∧ y * fr.w + x < (fr.n : Int) := by
  rw [Frame.inB_iff] at hb
  obtain ⟨h0, h1, h2, h3⟩ := hb
  unfold Frame.n
  have hy : y * fr.w ≤ (fr.h - 1) * fr.w := by nlinarith
  have hn : 0 ≤ y * fr.w := by nlinarith
  have hwh : 0 ≤ fr.w * fr.h := by nlinarith
  rw [Int.toNat_of_nonneg hwh]
  constructor
  · omega
  · nlinarith

theorem Frame.cell_grid (fr : Frame) (vF : Int → CellOverlay) (x y : Int)
    (hb : fr.inB x y = true) : (fr.grid vF).cell x y = fr.kF (y * fr.w + x) := by
  obtain ⟨h0, h1⟩ := Frame.index_bounds fr x y hb
  unfold Grid.cell Grid.index Frame.grid
  exact vecGet_vecOf _ _ _ _ h0 h1

theorem Frame.setOverlay_grid (fr : Frame) (vF : Int → CellOverlay) (x y : Int)
    (value : CellOverlay) :
    (fr.grid vF).setOverlay x y value = fr.grid (fr.setOverlayF vF x y value) := by
  unfold Grid.setOverlay Frame.setOverlayF
  rw [Frame.inBounds_grid]
  by_cases hb : fr.inB x y = true
  · obtain ⟨h0, h1⟩ := Frame.index_bounds fr x y hb
    have hk : vecGet (fr.grid vF).m_cells ((fr.grid vF).index x y) CellType.Empty
        = fr.kF (y * fr.w + x) := Frame.cell_grid fr vF x y hb
    simp only [hb, Bool.not_true, Bool.false_eq_true, if_false, hk]
    by_cases hc : fr.kF (y * fr.w + x) = CellType.Start ∨ fr.kF (y * fr.w + x) = CellType.Goal
    · rw [if_pos hc, if_pos hc]
    · rw [if_neg hc, if_neg hc]
      unfold Frame.grid Grid.index
      simp only [vecSet_vecOf]
  · simp only [hb, Bool.not_false, if_true]

theorem Frame.heuristic_pf (fr : Frame) (st : FState) (vF : Int → CellOverlay) (i : Int) :
    (fr.pf st).heuristic (fr.grid vF) i = fr.heur i := rfl

theorem Frame.relaxNeighbor_pair (fr : Frame) (cur cx cy : Int) (st : FState)
    (off : Int × Int) (hc0 : 0 ≤ cur) (hc1 : cur < (fr.n : Int)) :
    Pathfinder.relaxNeighbor cur cx cy (fr.pair st) off
      = fr.pair (fr.relaxF cur cx cy st off) := by
  unfold Pathfinder.relaxNeighbor Frame.relaxF
  simp only [Frame.pair, Frame.inBounds_grid]
  by_cases hb : fr.inB (cx + off.1) (cy + off.2) = true
  · obtain ⟨h0, h1⟩ := Frame.index_bounds fr _ _ hb
    have hk := Frame.cell_grid fr st.vF _ _ hb
    have hw : (fr.pf st).m_width = fr.w := rfl
    have hcl : vecGet (fr.pf st).m_inClosed ((cy + off.2) * fr.w + (cx + off.1)) false
        = st.cF ((cy + off.2) * fr.w + (cx + off.1)) := vecGet_vecOf _ _ _ _ h0 h1
    have hgn : vecGet (fr.pf st).m_gScores ((cy + off.2) * fr.w + (cx + off.1)) Score.inf
        = st.gF ((cy + off.2) * fr.w + (cx + off.1)) := vecGet_vecOf _ _ _ _ h0 h1
    have hgc : vecGet (fr.pf st).m_gScores cur Score.inf = st.gF cur :=
      vecGet_vecOf _ _ _ _ hc0 hc1
    simp only [hb, Bool.not_true, Bool.false_eq_true, if_false, hw, hcl, hk, hgn, hgc]
    by_cases h2 : st.cF ((cy + off.2) * fr.w + (cx + off.1)) = true
    · simp only [h2, if_true]
    · simp only [h2, Bool.false_eq_true, if_false]
      by_cases h3 : fr.kF ((cy + off.2) * fr.w + (cx + off.1)) = CellType.Obstacle
      · simp only [h3, if_true]
      · simp only [h3, if_false]
        by_cases h4 : ((st.gF cur).add (Score.fin 1)).lt
            (st.gF ((cy + off.2) * fr.w + (cx + off.1))) = true
        · simp only [h4, if_true]
          have hfs : vecGet (vecSet (fr.pf st).m_fScores ((cy + off.2) * fr.w + (cx + off.1))
              (((st.gF cur).add (Score.fin 1)).add
                ((fr.pf st).heuristic (fr.grid st.vF) ((cy + off.2) * fr.w + (cx + off.1)))))
              ((cy + off.2) * fr.w + (cx + off.1)) Score.inf
              = ((st.gF cur).add (Score.fin 1)).add
                (fr.heur ((cy + off.2) * fr.w + (cx + off.1))) := by
            rw [vecGet_vecSet_eq _ _ _ _ h0 (by
              show _ < ((vecOf fr.n st.fF).length : Int)
              rw [vecOf_length]; exact h1)]
            rfl
          rw [hfs]
          have hgi : (fr.pf st).m_goalIndex = fr.gi := rfl
          have hsi : (fr.pf st).m_startIndex = fr.si := rfl
          simp only [hgi, hsi]
          refine Prod.ext ?_ ?_
          · simp only [Frame.pf, vecSet_vecOf, Frame.heuristic_pf]
            rfl
          · simp only []
            by_cases h5 : (cy + off.2) * fr.w + (cx + off.1) ≠ fr.gi
                ∧ (cy + off.2) * fr.w + (cx + off.1) ≠ fr.si
            · rw [if_pos h5, if_pos h5, Frame.setOverlay_grid]
            · rw [if_neg h5, if_neg h5]
        · simp only [h4, Bool.false_eq_true, if_false]
  · simp only [hb, Bool.not_false, if_true]

theorem Frame.relaxFold_pair (fr : Frame) (cur cx cy : Int) (hc0 : 0 ≤ cur)
    (hc1 : cur < (fr.n : Int)) (offs : List (Int × Int)) (st : FState) :
    offs.foldl (Pathfinder.relaxNeighbor cur cx cy) (fr.pair st)
      = fr.pair (offs.foldl (fr.relaxF cur cx cy) st) := by
  induction offs generalizing st with
  | nil => rfl
  | cons o rest ih =>
    simp only [List.foldl_cons]
    rw [Frame.relaxNeighbor_pair fr cur cx cy st o hc0 hc1]
    exact ih _

theorem Frame.cellCount_grid (fr : Frame) (vF : Int → CellOverlay) :
    (fr.grid vF).cellCount = (fr.n : Int) := by
  unfold Grid.cellCount Frame.grid
  simp only [vecOf_length]

/-- One round of `step` on the vectors of a frame is `iterateF`, as long as the
popped record is not the Goal. -/
theorem Frame.iterate_pair (fr : Frame) (st : FState)
    (hng : ∀ c, pqTop st.openSet = some c → c.index ≠ fr.gi) :
    Pathfinder.iterate (fr.pf st) (fr.grid st.vF) = some (fr.pair (fr.iterateF st)) := by
  unfold Pathfinder.iterate Frame.iterateF
  have ho : (fr.pf st).m_openSet = st.openSet := rfl
  rw [ho]
  cases htop : pqTop st.openSet with
  | none => rfl
  | some current =>
    have hne := hng current htop
    simp only [Frame.cellCount_grid]
    by_cases h1 : current.index < 0 ∨ current.index ≥ (fr.n : Int)
    · simp only [h1, if_true]
      rfl
    · have h0 : 0 ≤ current.index := by omega
      have h01 : current.index < (fr.n : Int) := by omega
      have hcl : vecGet (vecOf fr.n st.cF) current.index false = st.cF current.index :=
        vecGet_vecOf _ _ _ _ h0 h01
      have hg : vecGet (vecOf fr.n st.gF) current.index Score.inf = st.gF current.index :=
        vecGet_vecOf _ _ _ _ h0 h01
      simp only [h1, if_false, Frame.pf, hcl, hg]
      by_cases h2 : st.cF current.index = true
      · simp only [h2, if_true]
        rfl
      · simp only [h2, Bool.false_eq_true, if_false]
        by_cases h3 : (st.gF current.index).lt current.gScore = true
        · simp only [h3, if_true]
          rfl
        · simp only [h3, Bool.false_eq_true, if_false, hne]
          simp only [Pathfinder.toGrid, vecSet_vecOf]
          have hgr : (if current.index ≠ fr.si then
                (fr.grid st.vF).setOverlay (Int.tmod current.index fr.w)
                  (Int.tdiv current.index fr.w) CellOverlay.ClosedSet
              else fr.grid st.vF)
              = fr.grid (if current.index ≠ fr.si then
                  fr.setOverlayF st.vF (Int.tmod current.index fr.w)
                    (Int.tdiv current.index fr.w) CellOverlay.ClosedSet
                else st.vF) := by
            by_cases h5 : current.index ≠ fr.si
            · rw [if_pos h5, if_pos h5, Frame.setOverlay_grid]
            · rw [if_neg h5, if_neg h5]
          rw [hgr]
          have hrel := Frame.relaxFold_pair fr current.index (Int.tmod current.index fr.w)
            (Int.tdiv current.index fr.w) h0 h01 Pathfinder.offsets
            { st with
              openSet := st.openSet.erase current
              oF := upd st.oF current.index false
              vF :=
                if current.index ≠ fr.si then
                  fr.setOverlayF st.vF (Int.tmod current.index fr.w)
                    (Int.tdiv current.index fr.w) CellOverlay.ClosedSet
                else st.vF }
          unfold Frame.pair Frame.pf at hrel
          simp only [] at hrel
          rw [hrel]
          simp only [vecSet_vecOf]
          rfl

/-- When the popped record is the Goal and the round returns, the pathfinder
it returns is the one of `iterateF`. -/
theorem Frame.iterate_goal (fr : Frame) (st : FState) (s1 : Pathfinder × Grid)
    (h : Pathfinder.iterate (fr.pf st) (fr.grid st.vF) = some s1) :
    s1.1 = fr.pf (fr.iterateF st) := by
  by_cases hng : ∀ c, pqTop st.openSet = some c → c.index ≠ fr.gi
  · rw [Frame.iterate_pair fr st hng] at h
    cases h
    rfl
  · simp only [not_forall, not_not] at hng
    obtain ⟨current, htop, hgi⟩ := hng
    unfold Pathfinder.iterate at h
    unfold Frame.iterateF
    have ho : (fr.pf st).m_openSet = st.openSet := rfl
    rw [ho, htop] at h
    rw [htop]
    simp only [Frame.cellCount_grid] at h
    simp only []
    by_cases h1 : current.index < 0 ∨ current.index ≥ (fr.n : Int)
    · simp only [h1, if_true] at h ⊢
      cases h
      rfl
    · have h0 : 0 ≤ current.index := by omega
      have h01 : current.index < (fr.n : Int) := by omega
      have hcl : vecGet (vecOf fr.n st.cF) current.index false = st.cF current.index :=
        vecGet_vecOf _ _ _ _ h0 h01
      have hg : vecGet (vecOf fr.n st.gF) current.index Score.inf = st.gF current.index :=
        vecGet_vecOf _ _ _ _ h0 h01
      simp only [h1, if_false, Frame.pf, hcl, hg] at h ⊢
      by_cases h2 : st.cF current.index = true
      · simp only [h2, if_true] at h ⊢
        cases h
        rfl
      · simp only [h2, Bool.false_eq_true, if_false] at h ⊢
        by_cases h3 : (st.gF current.index).lt current.gScore = true
        · simp only [h3, if_true] at h ⊢
          cases h
          rfl
        · simp only [h3, Bool.false_eq_true, if_false] at h ⊢
          rw [if_pos hgi] at h ⊢
          split at h
          · cases h
          · cases h
            simp only [vecSet_vecOf]

theorem Frame.runF_succ (fr : Frame) (k : Nat) (st : FState) :
    fr.runF (k + 1) st = fr.iterateF (fr.runF k st) := by
  induction k generalizing st with
  | zero => rfl
  | succ n ih =>
    show fr.runF (n + 1) (fr.iterateF st) = _
    rw [ih]
    rfl

/-- As long as the status is Running and the popped record is not the Goal,
`k` rounds of `step` on the vectors of a frame are `runF k`. -/
theorem Frame.stepLoop_pair (fr : Frame) (k : Nat) (st : FState)
    (h : ∀ i, i < k → (fr.runF i st).status = Status.Running
      ∧ ∀ c, pqTop (fr.runF i st).openSet = some c → c.index ≠ fr.gi) :
    Pathfinder.stepLoop k (fr.pair st) = some (fr.pair (fr.runF k st)) := by
  induction k generalizing st with
  | zero => rfl
  | succ n ih =>
    have h0 := h 0 (by omega)
    rw [Pathfinder.stepLoop_succ n _ (by
      show ¬ (fr.pf st).m_status ≠ Status.Running
      rw [not_not]
      exact h0.1)]
    show (Pathfinder.iterate (fr.pf st) (fr.grid st.vF)).bind _ = _
    rw [Frame.iterate_pair fr st h0.2]
    show Pathfinder.stepLoop n (fr.pair (fr.iterateF st)) = _
    rw [ih (fr.iterateF st) (fun i hi => h (i + 1) (by omega))]
    rfl

/-! ## The cases of the neighbour step on a frame -/

theorem Frame.relaxF_out (fr : Frame) (cur cx cy : Int) (st : FState) (off : Int × Int)
    (h : fr.inB (cx + off.1) (cy + off.2) = false) : fr.relaxF cur cx cy st off = st := by
  unfold Frame.relaxF
  simp [h]

theorem Frame.relaxF_closed (fr : Frame) (cur cx cy : Int) (st : FState) (off : Int × Int)
    (h : st.cF ((cy + off.2) * fr.w + (cx + off.1)) = true) :
    fr.relaxF cur cx cy st off = st := by
  unfold Frame.relaxF
  by_cases hb : fr.inB (cx + off.1) (cy + off.2) = true
  · simp [hb, h]
  · simp [hb]

theorem Frame.relaxF_obstacle (fr : Frame) (cur cx cy : Int) (st : FState) (off : Int × Int)
    (h : fr.kF ((cy + off.2) * fr.w + (cx + off.1)) = CellType.Obstacle) :
    fr.relaxF cur cx cy st off = st := by
  unfold Frame.relaxF
  by_cases hb : fr.inB (cx + off.1) (cy + off.2) = true
  · by_cases hc : st.cF ((cy + off.2) * fr.w + (cx + off.1)) = true
    · simp [hb, hc]
    · simp [hb, hc, h]
  · simp [hb]

theorem Frame.relaxF_take (fr : Frame) (cur cx cy : Int) (st : FState) (off : Int × Int)
    (ni : Int) (tg : Score) (hni : (cy + off.2) * fr.w + (cx + off.1) = ni)
    (hb : fr.inB (cx + off.1) (cy + off.2) = true) (hc : st.cF ni = false)
    (hk : fr.kF ni ≠ CellType.Obstacle) (htg : (st.gF cur).add (Score.fin 1) = tg)
    (hlt : tg.lt (st.gF ni) = true) :
    fr.relaxF cur cx cy st off
      = { openSet :=
            { fScore := tg.add (fr.heur ni), gScore := tg, index := ni, sequence := st.seq }
              :: st.openSet
          gF := upd st.gF ni tg
          fF := upd st.fF ni (tg.add (fr.heur ni))
          pF := upd st.pF ni cur
          oF := upd st.oF ni true
          cF := st.cF
          vF :=
            if ni ≠ fr.gi ∧ ni ≠ fr.si then
              fr.setOverlayF st.vF (cx + off.1) (cy + off.2) CellOverlay.OpenSet
            else st.vF
          seq := st.seq + 1
          status := st.status } := by
  unfold Frame.relaxF
  subst hni htg
  simp [hb, hc, hk, hlt]

theorem Frame.setOverlayF_plain (fr : Frame) (vF : Int → CellOverlay) (x y : Int)
    (value : CellOverlay) (hb : fr.inB x y = true) (hs : fr.kF (y * fr.w + x) ≠ CellType.Start)
    (hg : fr.kF (y * fr.w + x) ≠ CellType.Goal) :
    fr.setOverlayF vF x y value = upd vF (y * fr.w + x) value := by
  unfold Frame.setOverlayF
  simp [hb, hs, hg]

/-- A round of `iterateF` that pops a live record other than the Goal. -/
theorem Frame.iterateF_round (fr : Frame) (st : FState) (c : NodeRecord)
    (htop : pqTop st.openSet = some c) (h0 : 0 ≤ c.index) (h1 : c.index < (fr.n : Int))
    (hc : st.cF c.index = false) (hlt : (st.gF c.index).lt c.gScore = false)
    (hg : c.index ≠ fr.gi) (cx cy : Int) (hx : Int.tmod c.index fr.w = cx)
    (hy : Int.tdiv c.index fr.w = cy) (vF1 : Int → CellOverlay)
    (hv : (if c.index ≠ fr.si then fr.setOverlayF st.vF cx cy CellOverlay.ClosedSet
      else st.vF) = vF1)
    (e : List NodeRecord) (he : st.openSet.erase c = e) (s : FState)
    (hs : Pathfinder.offsets.foldl (fr.relaxF c.index cx cy)
        { openSet := e
          gF := st.gF
          fF := st.fF
          pF := st.pF
          oF := upd st.oF c.index false
          cF := st.cF
          vF := vF1
          seq := st.seq
          status := st.status } = s) :
    fr.iterateF st
      = { openSet := s.openSet
          gF := s.gF
          fF := s.fF
          pF := s.pF
          oF := s.oF
          cF := upd s.cF c.index true
          vF := s.vF
          seq := s.seq
          status := s.status } := by
  unfold Frame.iterateF
  rw [htop]
  simp only []
  rw [if_neg (by omega), hc, hlt]
  simp only [Bool.false_eq_true, if_false]
  rw [if_neg hg, hx, hy, hv, he, hs]

theorem Frame.relaxF_closed_or_out (fr : Frame) (cur cx cy : Int) (st : FState)
    (off : Int × Int)
    (h : fr.inB (cx + off.1) (cy + off.2) = false
      ∨ st.cF ((cy + off.2) * fr.w + (cx + off.1)) = true) :
    fr.relaxF cur cx cy st off = st := by
  rcases h with h | h
  · exact Frame.relaxF_out fr cur cx cy st off h
  · exact Frame.relaxF_closed fr cur cx cy st off h

/-! ## The start of a search on a frame -/

theorem Frame.heuristic_eq (fr : Frame) (pf : Pathfinder) (g : Grid) (hw : pf.m_width = fr.w)
    (hg : g.m_goal = some fr.goal) (i : Int) : pf.heuristic g i = fr.heur i := by
  unfold Pathfinder.heuristic Frame.heur Pathfinder.toGrid
  rw [hg, hw]

theorem Frame.start_pair (fr : Frame) (vF0 : Int → CellOverlay)
    (hb : fr.inB fr.start.x fr.start.y = true)
    (hne : ¬ (fr.start.x = fr.goal.x ∧ fr.start.y = fr.goal.y)) :
    (Pathfinder.ctor (fr.grid vF0)).start (fr.grid vF0) = (true, fr.pair fr.startF) := by
  have hlen : (fr.grid vF0).m_cells.length = fr.n := vecOf_length _ _
  have hlen2 : (fr.grid vF0).m_overlays.length = fr.n := vecOf_length _ _
  have hr := Pathfinder.reset_arrays (Pathfinder.ctor (fr.grid vF0)) (fr.grid vF0)
    (by simp [Pathfinder.ctor]) (by simp [Pathfinder.ctor]) (by simp [Pathfinder.ctor])
    (by simp [Pathfinder.ctor])
  have hs : (fr.grid vF0).m_start = some fr.start := rfl
  have ht : (fr.grid vF0).m_goal = some fr.goal := rfl
  obtain ⟨h0, h1⟩ := Frame.index_bounds fr _ _ hb
  have hsi : fr.start.y * fr.w + fr.start.x = fr.si := rfl
  have hgi : fr.goal.y * fr.w + fr.goal.x = fr.gi := rfl
  rw [hsi] at h0 h1
  unfold Pathfinder.start
  rw [hs, ht]
  simp only []
  rw [hr]
  simp only []
  rw [if_neg hne, hlen, hlen2]
  have hw : (Pathfinder.ctor (fr.grid vF0)).m_width = fr.w := rfl
  have hh : (Pathfinder.ctor (fr.grid vF0)).m_height = fr.h := rfl
  simp only [hw, hh, hsi, hgi]
  refine Prod.ext rfl (Prod.ext ?_ ?_)
  · simp only []
    unfold Frame.pair Frame.pf Frame.startF
    simp only [Pathfinder.mk.injEq, replicate_eq_vecOf, vecSet_vecOf, true_and, and_true,
      List.cons.injEq, NodeRecord.mk.injEq]
    have hheur : ∀ (pf : Pathfinder) (g : Grid), pf.m_width = fr.w → g.m_goal = some fr.goal →
        vecGet (vecOf fr.n (upd (fun _ => Score.inf) fr.si (pf.heuristic g fr.si))) fr.si
          Score.inf = fr.heur fr.si
          ∧ vecOf fr.n (upd (fun _ => Score.inf) fr.si (pf.heuristic g fr.si))
            = vecOf fr.n (upd (fun _ => Score.inf) fr.si (fr.heur fr.si)) := by
      intro pf g e1 e2
      rw [Frame.heuristic_eq fr pf g e1 e2, vecGet_vecOf _ _ _ _ h0 h1]
      refine ⟨?_, rfl⟩
      unfold upd
      rw [if_pos rfl]
    exact hheur _ _ rfl (show (Grid.clearOverlays _).m_goal = _ from rfl)
  · simp only []
    unfold Grid.clearOverlays
    simp only []
    have := vecFill_length_eq CellOverlay.None (List.replicate fr.n CellOverlay.None)
    rw [List.length_replicate] at this
    rw [List.length_replicate, this, replicate_eq_vecOf]
    rfl

/-! ## The search on the long grid -/

theorem roundF32_le (n : Nat) (h : n ≤ 2 ^ 24) : roundF32 n = Score.fin n := by
  rcases Nat.lt_or_ge n (2 ^ 24) with h1 | h1
  · exact roundF32_small n h1
  · have : n = 2 ^ 24 := by omega
    subst this
    decide

theorem longFrame_n : (longFrame.n : Int) = 50331663 := by decide

theorem longFrame_tmod (k : Int) (h0 : 0 ≤ k) (h1 : k < 16777221) :
    Int.tmod (16777221 + k) 16777221 = k ∧ Int.tdiv (16777221 + k) 16777221 = 1 := by
  rw [Int.tmod_eq_emod (by omega) (by omega), Int.tdiv_eq_ediv (by omega) (by omega)]
  constructor <;> omega

theorem longKind_corridor (i : Int) (h0 : 0 < i) (h1 : i ≤ 16777216) :
    longKind (16777221 + i) = CellType.Empty := by
  unfold longKind
  rw [if_neg (by omega), if_neg (by omega), if_neg]
  intro h
  omega

theorem longKind_wall0 (i : Int) (h0 : 0 ≤ i) (h1 : i < 16777216) :
    longKind i = CellType.Obstacle := by
  unfold longKind
  rw [if_neg (by omega), if_neg (by omega), if_pos]
  left
  omega

theorem longKind_wall2 (i : Int) (h0 : 0 ≤ i) (h1 : i < 16777216) :
    longKind (2 * 16777221 + i) = CellType.Obstacle := by
  unfold longKind
  rw [if_neg (by omega), if_neg (by omega), if_pos]
  left
  omega

theorem longFrame_inB (x y : Int) :
    longFrame.inB x y = true ↔ 0 ≤ x ∧ 0 ≤ y ∧ x < 16777221 ∧ y < 3 :=
  Frame.inB_iff longFrame x y

theorem longFrame_inB_false (x y : Int) (h : x < 0 ∨ y < 0 ∨ 16777221 ≤ x ∨ 3 ≤ y) :
    longFrame.inB x y = false := by
  cases hb : longFrame.inB x y
  · rfl
  · rw [longFrame_inB] at hb
    omega

theorem Score.add_one_le (k : Nat) (hk : k < 16777216) :
    (Score.fin k).add (Score.fin 1) = Score.fin (k + 1) :=
  roundF32_le (k + 1) (by norm_num; omega)

/-- The neighbour loop of a round of the corridor: only the cell to the right is
taken. -/
theorem longCorridor_relax (k : Nat) (hk : k < 16777216) (vF1 : Int → CellOverlay) :
    Pathfinder.offsets.foldl (longFrame.relaxF (16777221 + (k : Int)) (k : Int) 1)
        { openSet := []
          gF := (longCorridor k).gF
          fF := (longCorridor k).fF
          pF := (longCorridor k).pF
          oF := upd (longCorridor k).oF (16777221 + (k : Int)) false
          cF := (longCorridor k).cF
          vF := vF1
          seq := k + 1
          status := Status.Running }
      = { openSet :=
            [{ fScore := (Score.fin (k + 1)).add (longFrame.heur (16777221 + ((k : Int) + 1)))
               gScore := Score.fin (k + 1)
               index := 16777221 + ((k : Int) + 1)
               sequence := k + 1 }]
          gF := upd (longCorridor k).gF (16777221 + ((k : Int) + 1)) (Score.fin (k + 1))
          fF := upd (longCorridor k).fF (16777221 + ((k : Int) + 1))
            ((Score.fin (k + 1)).add (longFrame.heur (16777221 + ((k : Int) + 1))))
          pF := upd (longCorridor k).pF (16777221 + ((k : Int) + 1)) (16777221 + (k : Int))
          oF := upd (upd (longCorridor k).oF (16777221 + (k : Int)) false)
            (16777221 + ((k : Int) + 1)) true
          cF := (longCorridor k).cF
          vF := upd vF1 (16777221 + ((k : Int) + 1)) CellOverlay.OpenSet
          seq := k + 1 + 1
          status := Status.Running } := by
  have hgi : longFrame.gi = 16777220 := by decide
  have hsi : longFrame.si = 16777221 := by decide
  have i1 : (1 + 0) * (16777221 : Int) + ((k : Int) + 1) = 16777221 + ((k : Int) + 1) := by
    omega
  have i2 : (1 + 0) * (16777221 : Int) + ((k : Int) + -1) = 16777221 + ((k : Int) - 1) := by
    omega
  have i3 : (1 + 1) * (16777221 : Int) + ((k : Int) + 0) = 2 * 16777221 + (k : Int) := by
    omega
  have i4 : (1 + -1) * (16777221 : Int) + ((k : Int) + 0) = (k : Int) := by
    omega
  unfold Pathfinder.offsets
  simp only [List.foldl_cons, List.foldl_nil]
  have hb1 : longFrame.inB ((k : Int) + 1) (1 + 0) = true := by
    rw [longFrame_inB]
    omega
  have hk1 : longKind (16777221 + ((k : Int) + 1)) = CellType.Empty :=
    longKind_corridor _ (by omega) (by omega)
  have e1 := Frame.relaxF_take longFrame (16777221 + (k : Int)) (k : Int) 1
    { openSet := []
      gF := (longCorridor k).gF
      fF := (longCorridor k).fF
      pF := (longCorridor k).pF
      oF := upd (longCorridor k).oF (16777221 + (k : Int)) false
      cF := (longCorridor k).cF
      vF := vF1
      seq := k + 1
      status := Status.Running } (1, 0) (16777221 + ((k : Int) + 1)) (Score.fin (k + 1))
    i1 hb1
    (by
      show decide _ = false
      rw [decide_eq_false_iff_not]; omega)
    (by show longKind _ ≠ _; rw [hk1]; decide)
    (by
      show ((longCorridor k).gF (16777221 + (k : Int))).add (Score.fin 1) = _
      have : (longCorridor k).gF (16777221 + (k : Int)) = Score.fin k := by
        simp [longCorridor]
      rw [this]
      exact Score.add_one_le k hk)
    (by
      show (Score.fin (k + 1)).lt ((longCorridor k).gF (16777221 + ((k : Int) + 1))) = true
      have : (longCorridor k).gF (16777221 + ((k : Int) + 1)) = Score.inf := by
        simp only [longCorridor]
        rw [if_neg (by omega)]
      rw [this]
      rfl)
  rw [e1]
  have hov : longFrame.setOverlayF vF1 ((k : Int) + 1) (1 + 0)
      CellOverlay.OpenSet = upd vF1 (16777221 + ((k : Int) + 1)) CellOverlay.OpenSet := by
    rw [Frame.setOverlayF_plain longFrame vF1 _ _ _ hb1]
    · exact congrArg (fun i => upd vF1 i CellOverlay.OpenSet) i1
    · show longKind ((1 + 0) * (16777221 : Int) + ((k : Int) + 1)) ≠ _
      rw [i1, hk1]; decide
    · show longKind ((1 + 0) * (16777221 : Int) + ((k : Int) + 1)) ≠ _
      rw [i1, hk1]; decide
  rw [if_pos (by rw [hgi, hsi]; omega)]
  simp only []
  rw [hov]
  have h4 : longFrame.kF ((1 + ((0 : Int), (-1 : Int)).2) * longFrame.w
      + ((k : Int) + ((0 : Int), (-1 : Int)).1)) = CellType.Obstacle := by
    show longKind ((1 + -1) * (16777221 : Int) + ((k : Int) + 0)) = _
    rw [i4]
    exact longKind_wall0 _ (by omega) (by omega)
  have h3 : longFrame.kF ((1 + ((0 : Int), (1 : Int)).2) * longFrame.w
      + ((k : Int) + ((0 : Int), (1 : Int)).1)) = CellType.Obstacle := by
    show longKind ((1 + 1) * (16777221 : Int) + ((k : Int) + 0)) = _
    rw [i3]
    exact longKind_wall2 _ (by omega) (by omega)
  rw [Frame.relaxF_obstacle longFrame _ _ _ _ (0, -1) h4,
    Frame.relaxF_obstacle longFrame _ _ _ _ (0, 1) h3]
  apply Frame.relaxF_closed_or_out
  by_cases h0 : k = 0
  · left
    apply longFrame_inB_false
    show (k : Int) + -1 < 0 ∨ _
    omega
  · right
    show decide (16777221 ≤ (1 + 0) * (16777221 : Int) + ((k : Int) + -1)
      ∧ (1 + 0) * (16777221 : Int) + ((k : Int) + -1) < 16777221 + (k : Int)) = true
    rw [decide_eq_true_eq]
    omega

theorem longCorridor_step (k : Nat) (hk : k < 16777216) :
    longFrame.iterateF (longCorridor k) = longCorridor (k + 1) := by
  have htop : pqTop (longCorridor k).openSet
      = some { fScore := longF k, gScore := Score.fin k, index := 16777221 + (k : Int),
               sequence := k } := rfl
  have hn := longFrame_n
  have hgi : longFrame.gi = 16777220 := by decide
  have hsi : longFrame.si = 16777221 := by decide
  have hw : longFrame.w = 16777221 := rfl
  obtain ⟨hx, hy⟩ := longFrame_tmod k (by omega) (by omega)
  have her : (longCorridor k).openSet.erase
      { fScore := longF k, gScore := Score.fin k, index := 16777221 + (k : Int), sequence := k }
      = [] := by
    show [_].erase _ = []
    simp
  have a1 : (0 : Int) ≤ 16777221 + (k : Int) := by omega
  have a2 : 16777221 + (k : Int) < (longFrame.n : Int) := by rw [hn]; omega
  have a3 : (longCorridor k).cF (16777221 + (k : Int)) = false := by simp [longCorridor]
  have a4 : ((longCorridor k).gF (16777221 + (k : Int))).lt (Score.fin k) = false := by
    simp [longCorridor, Score.lt]
  have a5 : 16777221 + (k : Int) ≠ longFrame.gi := by rw [hgi]; omega
  have key := Frame.iterateF_round longFrame (longCorridor k)
    { fScore := longF k, gScore := Score.fin k, index := 16777221 + (k : Int), sequence := k }
    htop a1 a2 a3 a4 a5 (k : Int) 1 hx hy _ rfl [] her _ (longCorridor_relax k hk _)
  rw [key]
  clear key htop her a1 a2 a3 a4 a5 hx hy
  have hcast : ((k + 1 : Nat) : Int) = (k : Int) + 1 := by push_cast; rfl
  unfold longCorridor
  simp only [FState.mk.injEq, hcast]
  refine ⟨?_, ?_, ?_, ?_, ?_, ?_, ?_, trivial, trivial⟩
  · simp only [List.cons.injEq, NodeRecord.mk.injEq, and_true]
    unfold longF
    rw [if_neg (by omega)]
    have : ((k : Int) + 1).toNat = k + 1 := by omega
    rw [this]
  · funext j
    dsimp only [upd]
    by_cases h1 : j = 16777221 + ((k : Int) + 1)
    · rw [if_pos h1, if_pos (by omega)]
      congr 1
      omega
    · rw [if_neg h1]
      by_cases h2 : 16777221 ≤ j ∧ j ≤ 16777221 + (k : Int)
      · rw [if_pos h2, if_pos (by omega)]
      · rw [if_neg h2, if_neg (by omega)]
  · funext j
    dsimp only [upd]
    by_cases h1 : j = 16777221 + ((k : Int) + 1)
    · rw [if_pos h1, if_pos (by omega)]
      unfold longF
      rw [if_neg (by omega)]
      have e1 : j - 16777221 = (k : Int) + 1 := by omega
      have e2 : ((k : Int) + 1).toNat = k + 1 := by omega
      rw [e1, e2]
    · rw [if_neg h1]
      by_cases h2 : 16777221 ≤ j ∧ j ≤ 16777221 + (k : Int)
      · rw [if_pos h2, if_pos (by omega)]
      · rw [if_neg h2, if_neg (by omega)]
  · funext j
    dsimp only [upd]
    by_cases h1 : j = 16777221 + ((k : Int) + 1)
    · rw [if_pos h1, if_pos (by omega)]
      omega
    · rw [if_neg h1]
      by_cases h2 : 16777221 < j ∧ j ≤ 16777221 + (k : Int)
      · rw [if_pos h2, if_pos (by omega)]
      · rw [if_neg h2, if_neg (by omega)]
  · funext j
    dsimp only [upd]
    by_cases h1 : j = 16777221 + ((k : Int) + 1)
    · rw [if_pos h1]
      simp [h1]
    · rw [if_neg h1]
      by_cases h2 : j = 16777221 + (k : Int)
      · rw [if_pos h2]
        simp [h1]
      · rw [if_neg h2]
        simp [h1, h2]
  · funext j
    dsimp only [upd]
    by_cases h1 : j = 16777221 + (k : Int)
    · rw [if_pos h1]
      simp only [true_eq_decide_iff]
      omega
    · rw [if_neg h1]
      simp only [decide_eq_decide]
      omega
  · funext j
    dsimp only [upd]
    by_cases h1 : j = 16777221 + ((k : Int) + 1)
    · rw [if_pos h1, if_neg (by omega), if_pos ⟨by omega, by omega⟩]
    · rw [if_neg h1]
      by_cases h0 : k = 0
      · subst h0
        rw [if_neg (by rw [hsi]; simp)]
        rw [if_neg (by omega), if_neg (by omega), if_neg (by omega), if_neg (by omega)]
      · have hb : longFrame.inB (k : Int) 1 = true := by
          rw [longFrame_inB]; omega
        have hkk : longFrame.kF (1 * longFrame.w + (k : Int)) = CellType.Empty := by
          show longKind (1 * (16777221 : Int) + (k : Int)) = _
          have : 1 * (16777221 : Int) + (k : Int) = 16777221 + (k : Int) := by omega
          rw [this]
          exact longKind_corridor _ (by omega) (by omega)
        rw [if_pos (by rw [hsi]; omega),
          Frame.setOverlayF_plain longFrame _ _ _ _ hb (by rw [hkk]; decide)
            (by rw [hkk]; decide)]
        have : 1 * longFrame.w + (k : Int) = 16777221 + (k : Int) := by
          show 1 * (16777221 : Int) + (k : Int) = _
          omega
        rw [this]
        dsimp only [upd]
        by_cases h2 : j = 16777221 + (k : Int)
        · rw [if_pos h2, if_pos (by omega)]
        · rw [if_neg h2]
          by_cases h3 : 16777221 < j ∧ j < 16777221 + (k : Int)
          · rw [if_pos h3, if_pos (by omega)]
          · rw [if_neg h3, if_neg (by omega), if_neg (by omega), if_neg (by omega)]

set_option maxRecDepth 100000

theorem Frame.runF_add (fr : Frame) (a b : Nat) (st : FState) :
    fr.runF (a + b) st = fr.runF b (fr.runF a st) := by
  induction a generalizing st with
  | zero =>
    rw [Nat.zero_add]
    rfl
  | succ n ih =>
    rw [Nat.succ_add]
    show fr.runF (n + b) (fr.iterateF st) = fr.runF b (fr.runF n (fr.iterateF st))
    exact ih _

theorem longCorridor_run (k : Nat) (hk : k ≤ 16777216) :
    longFrame.runF k (longCorridor 0) = longCorridor k := by
  induction k with
  | zero => rfl
  | succ n ih =>
    rw [Frame.runF_succ, ih (by omega), longCorridor_step n (by omega)]

/-- The nine rounds after the corridor: the status stays Running and the
record popped is never the Goal. -/
theorem longTail_running (i : Nat) (hi : i < 9) :
    (longFrame.runF i (longCorridor 16777216)).status = Status.Running
      ∧ ∀ c, pqTop (longFrame.runF i (longCorridor 16777216)).openSet = some c →
          c.index ≠ longFrame.gi := by
  have h : ∀ i : Fin 9,
      (longFrame.runF i (longCorridor 16777216)).status = Status.Running
        ∧ (pqTop (longFrame.runF i (longCorridor 16777216)).openSet).map (fun c => c.index)
            ≠ some longFrame.gi := by
    decide
  obtain ⟨h1, h2⟩ := h ⟨i, hi⟩
  refine ⟨h1, fun c hc e => h2 ?_⟩
  show (pqTop (longFrame.runF i (longCorridor 16777216)).openSet).map (fun c => c.index) = _
  rw [hc]
  exact congrArg some e

theorem long_running (i : Nat) (hi : i < 16777216 + 9) :
    (longFrame.runF i (longCorridor 0)).status = Status.Running
      ∧ ∀ c, pqTop (longFrame.runF i (longCorridor 0)).openSet = some c →
          c.index ≠ longFrame.gi := by
  rcases Nat.lt_or_ge i 16777216 with h | h
  · rw [longCorridor_run i (by omega)]
    refine ⟨rfl, fun c hc => ?_⟩
    have : c = { fScore := longF i, gScore := Score.fin i, index := 16777221 + (i : Int),
                 sequence := i } := by
      have h1 : pqTop (longCorridor i).openSet
          = some { fScore := longF i, gScore := Score.fin i, index := 16777221 + (i : Int),
                   sequence := i } := rfl
      rw [h1] at hc
      exact (Option.some.inj hc).symm
    rw [this]
    have hgi : longFrame.gi = 16777220 := by decide
    rw [hgi]
    show 16777221 + (i : Int) ≠ _
    omega
  · obtain ⟨j, rfl⟩ : ∃ j, i = 16777216 + j := ⟨i - 16777216, by omega⟩
    rw [Frame.runF_add, longCorridor_run 16777216 (by omega)]
    exact longTail_running j (by omega)

/-- The first `2^24 + 9` rounds of `step` on the long grid. -/
theorem long_stepLoop :
    Pathfinder.stepLoop (16777216 + 9) (longFrame.pair (longCorridor 0))
      = some (longFrame.pair longLast) := by
  rw [Frame.stepLoop_pair longFrame (16777216 + 9) (longCorridor 0) long_running,
    Frame.runF_add, longCorridor_run 16777216 (by omega)]
  rfl

/-! ## The start of the search on the long grid -/

theorem longFrame_startF : longFrame.startF = longCorridor 0 := by
  have hsi : longFrame.si = 16777221 := by decide
  unfold Frame.startF longCorridor
  rw [hsi]
  simp only [FState.mk.injEq, true_and, and_true, List.cons.injEq, NodeRecord.mk.injEq,
    Nat.cast_zero, add_zero, Nat.cast_ofNat]
  refine ⟨?_, ?_, ?_, ?_, ?_, ?_, ?_⟩
  · rfl
  · funext j
    dsimp only [upd]
    by_cases h : j = 16777221
    · rw [if_pos h, if_pos (by omega)]
      subst h
      rfl
    · rw [if_neg h, if_neg (by omega)]
  · funext j
    dsimp only [upd]
    by_cases h : j = 16777221
    · rw [if_pos h, if_pos (by omega)]
      subst h
      rfl
    · rw [if_neg h, if_neg (by omega)]
  · funext j
    dsimp only [upd]
    by_cases h : j = 16777221
    · rw [if_pos h, if_neg (by omega)]
    · rw [if_neg h, if_neg (by omega)]
  · funext j
    dsimp only [upd]
    by_cases h : j = 16777221
    · rw [if_pos h]
      simp [h]
    · rw [if_neg h]
      simp [h]
  · funext j
    simp only [false_eq_decide_iff]
    omega
  · funext j
    rw [if_neg (by omega), if_neg (by omega)]

theorem long_start :
    (Pathfinder.ctor longGrid).start longGrid = (true, longFrame.pair (longCorridor 0)) := by
  rw [← longFrame_startF]
  exact Frame.start_pair longFrame _ (by decide) (by decide)

theorem Frame.grid_WF (fr : Frame) (vF : Int → CellOverlay) (hw : 1 ≤ fr.w) (hh : 1 ≤ fr.h) :
    (fr.grid vF).WF :=
  ⟨hw, hh, vecOf_length _ _, vecOf_length _ _⟩

theorem longGrid_WF : longGrid.WF := Frame.grid_WF longFrame _ (by decide) (by decide)

theorem longGrid_Placed : longGrid.Placed := by
  have hcell : ∀ x y, longGrid.inBounds x y = true →
      longGrid.cell x y = longKind (y * 16777221 + x) := fun x y hb =>
    Frame.cell_grid longFrame _ x y hb
  have hin : ∀ x y, longGrid.inBounds x y = true ↔ 0 ≤ x ∧ 0 ≤ y ∧ x < 16777221 ∧ y < 3 :=
    fun x y => Frame.inB_iff longFrame x y
  refine ⟨?_, ?_, ?_, ?_, ?_⟩
  · intro x y hb
    rw [hcell x y hb]
    rw [hin] at hb
    show _ ↔ some (⟨0, 1⟩ : Vector2i) = some ⟨x, y⟩
    unfold longKind
    constructor
    · intro h
      by_cases h1 : y * 16777221 + x = 16777221
      · have : x = 0 ∧ y = 1 := by omega
        rw [this.1, this.2]
      · rw [if_neg h1] at h
        split_ifs at h
    · intro h
      simp only [Option.some.injEq, Vector2i.mk.injEq] at h
      rw [if_pos (by omega)]
  · intro x y hb
    rw [hcell x y hb]
    rw [hin] at hb
    show _ ↔ some (⟨16777220, 0⟩ : Vector2i) = some ⟨x, y⟩
    unfold longKind
    constructor
    · intro h
      by_cases h1 : y * 16777221 + x = 16777221
      · rw [if_pos h1] at h
        cases h
      · rw [if_neg h1] at h
        by_cases h2 : y * 16777221 + x = 16777220
        · have : x = 16777220 ∧ y = 0 := by omega
          rw [this.1, this.2]
        · rw [if_neg h2] at h
          split_ifs at h
    · intro h
      simp only [Option.some.injEq, Vector2i.mk.injEq] at h
      rw [if_neg (by omega), if_pos (by omega)]
  · intro p hp
    have : p = ⟨0, 1⟩ := (Option.some.inj hp).symm
    rw [this, hin]
    decide
  · intro p hp
    have : p = ⟨16777220, 0⟩ := (Option.some.inj hp).symm
    rw [this, hin]
    decide
  · intro p q hp hq
    have e1 : p = ⟨0, 1⟩ := (Option.some.inj hp).symm
    have e2 : q = ⟨16777220, 0⟩ := (Option.some.inj hq).symm
    rw [e1, e2]
    decide

/-! ## The end of the search on the long grid -/

theorem longLast_status : longLast.status = Status.Running := by decide

theorem longEnd_status : longEnd.status = Status.PathFound := by decide

theorem longGrid_Attached : (Pathfinder.ctor longGrid).Attached longGrid := by
  unfold Pathfinder.Attached Pathfinder.ctor
  simp

theorem Pathfinder.search_one (pf : Pathfinder) (g : Grid) (b : Int) (n : Nat)
    (hb : (if b < 1 then 1 else b).toNat = n) :
    pf.search g [b] = Pathfinder.stepLoop n (pf.start g).2 := by
  unfold Pathfinder.search
  rw [Pathfinder.runSteps_eq_stepLoop]
  simp only [List.map_cons, List.map_nil, List.sum_cons, List.sum_nil, Nat.add_zero, hb]

theorem Pathfinder.stepLoop_last (n : Nat) (s s1 : Pathfinder × Grid)
    (h : Pathfinder.stepLoop n s = some s1) (hrun : s1.1.m_status = Status.Running) :
    Pathfinder.stepLoop (n + 1) s = Pathfinder.iterate s1.1 s1.2 := by
  rw [Pathfinder.stepLoop_add, h]
  show Pathfinder.stepLoop (0 + 1) s1 = _
  rw [Pathfinder.stepLoop_succ 0 s1 (by rw [not_not]; exact hrun)]
  cases Pathfinder.iterate s1.1 s1.2 <;> rfl

theorem long_budget : (if (16777226 : Int) < 1 then 1 else (16777226 : Int)).toNat
    = 16777216 + 9 + 1 := by decide

theorem long_stepLoop_start :
    Pathfinder.stepLoop (16777216 + 9) ((Pathfinder.ctor longGrid).start longGrid).2
      = some (longFrame.pair longLast) := by
  have hst : ((Pathfinder.ctor longGrid).start longGrid).2 = longFrame.pair (longCorridor 0) := by
    rw [long_start]
  rw [hst]
  exact long_stepLoop

theorem Frame.pair_status (fr : Frame) (st : FState) :
    (fr.pair st).1.m_status = st.status := rfl

theorem long_iterate :
    (Pathfinder.ctor longGrid).search longGrid [16777226]
      = Pathfinder.iterate (longFrame.pair longLast).1 (longFrame.pair longLast).2 :=
  (Pathfinder.search_one _ _ _ _ long_budget).trans
    (Pathfinder.stepLoop_last (16777216 + 9) _ _ long_stepLoop_start
      ((Frame.pair_status longFrame longLast).trans longLast_status))

/-- The search on the long grid, run by one call `step(16777226)`, returns with
the pathfinder in the state `longEnd`. -/
theorem long_search :
    ∃ g1, (Pathfinder.ctor longGrid).search longGrid [16777226]
      = some (longFrame.pf longEnd, g1) := by
  obtain ⟨st1, he, _, _⟩ := Pathfinder.search_Run longGrid longGrid_WF longGrid_Placed
    ⟨0, 1⟩ ⟨16777220, 0⟩ rfl rfl (Pathfinder.ctor longGrid) longGrid_Attached [16777226]
  have h3 : Pathfinder.iterate (longFrame.pair longLast).1 (longFrame.pair longLast).2
      = some st1 := long_iterate.symm.trans he
  have e2 : st1.1 = longFrame.pf (longFrame.iterateF longLast) :=
    Frame.iterate_goal longFrame longLast st1 h3
  have e3 : longFrame.iterateF longLast = longEnd := by
    unfold longEnd
    rfl
  rw [e3] at e2
  refine ⟨st1.2, ?_⟩
  rw [he, ← e2]

set_option maxRecDepth 100000

/-! ## Closed cells keep their parent and their g score -/

theorem Frame.relaxF_keep (fr : Frame) (cur cx cy : Int) (st : FState) (off : Int × Int)
    (j : Int) (hj : st.cF j = true) :
    (fr.relaxF cur cx cy st off).pF j = st.pF j
      ∧ (fr.relaxF cur cx cy st off).gF j = st.gF j
      ∧ (fr.relaxF cur cx cy st off).cF j = true := by
  by_cases h1 : fr.inB (cx + off.1) (cy + off.2) = true
  · by_cases h2 : st.cF ((cy + off.2) * fr.w + (cx + off.1)) = true
    · rw [Frame.relaxF_closed fr cur cx cy st off h2]
      exact ⟨rfl, rfl, hj⟩
    · by_cases h3 : fr.kF ((cy + off.2) * fr.w + (cx + off.1)) = CellType.Obstacle
      · rw [Frame.relaxF_obstacle fr cur cx cy st off h3]
        exact ⟨rfl, rfl, hj⟩
      · by_cases h4 : ((st.gF cur).add (Score.fin 1)).lt
            (st.gF ((cy + off.2) * fr.w + (cx + off.1))) = true
        · rw [Frame.relaxF_take fr cur cx cy st off _ _ rfl h1
            (by simpa using h2) h3 rfl h4]
          have hne : j ≠ (cy + off.2) * fr.w + (cx + off.1) := by
            intro e
            rw [e] at hj
            exact h2 hj
          simp only [upd, if_neg hne]
          exact ⟨trivial, trivial, hj⟩
        · have : fr.relaxF cur cx cy st off = st := by
            unfold Frame.relaxF
            simp [h1, h2, h3, h4]
          rw [this]
          exact ⟨rfl, rfl, hj⟩
  · rw [Frame.relaxF_out fr cur cx cy st off (by simpa using h1)]
    exact ⟨rfl, rfl, hj⟩

theorem Frame.relaxFold_keep (fr : Frame) (cur cx cy : Int) (offs : List (Int × Int))
    (st : FState) (j : Int) (hj : st.cF j = true) :
    (offs.foldl (fr.relaxF cur cx cy) st).pF j = st.pF j
      ∧ (offs.foldl (fr.relaxF cur cx cy) st).gF j = st.gF j
      ∧ (offs.foldl (fr.relaxF cur cx cy) st).cF j = true := by
  induction offs generalizing st with
  | nil => exact ⟨rfl, rfl, hj⟩
  | cons o rest ih =>
    simp only [List.foldl_cons]
    obtain ⟨a1, a2, a3⟩ := Frame.relaxF_keep fr cur cx cy st o j hj
    obtain ⟨b1, b2, b3⟩ := ih (fr.relaxF cur cx cy st o) a3
    exact ⟨b1.trans a1, b2.trans a2, b3⟩

theorem Frame.iterateF_keep (fr : Frame) (st : FState) (j : Int) (hj : st.cF j = true) :
    (fr.iterateF st).pF j = st.pF j ∧ (fr.iterateF st).gF j = st.gF j
      ∧ (fr.iterateF st).cF j = true := by
  unfold Frame.iterateF
  cases pqTop st.openSet with
  | none => exact ⟨rfl, rfl, hj⟩
  | some current =>
    simp only []
    by_cases h1 : current.index < 0 ∨ current.index ≥ (fr.n : Int)
    · rw [if_pos h1]
      exact ⟨rfl, rfl, hj⟩
    · rw [if_neg h1]
      by_cases h2 : st.cF current.index = true
      · rw [if_pos h2]
        exact ⟨rfl, rfl, hj⟩
      · rw [if_neg h2]
        by_cases h3 : (st.gF current.index).lt current.gScore = true
        · rw [if_pos h3]
          exact ⟨rfl, rfl, hj⟩
        · rw [if_neg h3]
          by_cases h4 : current.index = fr.gi
          · rw [if_pos h4]
            exact ⟨rfl, rfl, hj⟩
          · rw [if_neg h4]
            obtain ⟨a1, a2, a3⟩ := Frame.relaxFold_keep fr current.index
              (Int.tmod current.index fr.w) (Int.tdiv current.index fr.w) Pathfinder.offsets
              { openSet := st.openSet.erase current
                gF := st.gF
                fF := st.fF
                pF := st.pF
                oF := upd st.oF current.index false
                cF := st.cF
                vF :=
                  if current.index ≠ fr.si then
                    fr.setOverlayF st.vF (Int.tmod current.index fr.w)
                      (Int.tdiv current.index fr.w) CellOverlay.ClosedSet
                  else st.vF
                seq := st.seq
                status := st.status } j hj
            refine ⟨a1, a2, ?_⟩
            simp only [upd]
            by_cases e : j = current.index
            · rw [if_pos e]
            · rw [if_neg e]
              exact a3

theorem Frame.runF_keep (fr : Frame) (k : Nat) (st : FState) (j : Int) (hj : st.cF j = true) :
    (fr.runF k st).pF j = st.pF j ∧ (fr.runF k st).gF j = st.gF j
      ∧ (fr.runF k st).cF j = true := by
  induction k generalizing st with
  | zero => exact ⟨rfl, rfl, hj⟩
  | succ n ih =>
    obtain ⟨a1, a2, a3⟩ := Frame.iterateF_keep fr st j hj
    obtain ⟨b1, b2, b3⟩ := ih (fr.iterateF st) a3
    exact ⟨b1.trans a1, b2.trans a2, b3⟩

/-! ## The parents at the end of the search on the long grid -/

theorem longEnd_eq : longEnd = longFrame.runF (9 + 1) (longCorridor 16777216) := by
  unfold longEnd longLast
  exact (Frame.runF_succ longFrame 9 _).symm

theorem longEnd_corridor (i : Int) (h0 : 0 ≤ i) (h1 : i < 16777216) :
    longEnd.pF (16777221 + i) = (if 0 < i then 16777221 + i - 1 else -1)
      ∧ longEnd.gF (16777221 + i) = Score.fin i.toNat := by
  have hc : (longCorridor 16777216).cF (16777221 + i) = true := by
    simp only [longCorridor, decide_eq_true_eq]
    omega
  obtain ⟨a1, a2, _⟩ := Frame.runF_keep longFrame (9 + 1) (longCorridor 16777216) _ hc
  rw [longEnd_eq, a1, a2]
  constructor
  · simp only [longCorridor]
    by_cases hi : 0 < i
    · rw [if_pos hi, if_pos (by omega)]
    · rw [if_neg hi, if_neg (by omega)]
  · simp only [longCorridor]
    rw [if_pos (by omega)]
    congr 1
    omega

theorem longEnd_block :
    longEnd.pF 16777220 = 33554441 ∧ longEnd.pF 33554441 = 50331662
      ∧ longEnd.pF 50331662 = 50331661 ∧ longEnd.pF 50331661 = 50331660
      ∧ longEnd.pF 50331660 = 33554439 ∧ longEnd.pF 33554439 = 16777218
      ∧ longEnd.pF 16777218 = 16777217 ∧ longEnd.pF 16777217 = 16777216
      ∧ longEnd.pF 16777216 = 33554437 ∧ longEnd.pF 33554437 = 33554436
      ∧ longEnd.gF 16777220 = Score.fin 16777216
      ∧ longEnd.gF 33554441 = Score.fin 16777216 := by
  decide

theorem Frame.parent_pf (fr : Frame) (st : FState) (j : Int) (h0 : 0 ≤ j)
    (h1 : j < (fr.n : Int)) : vecGet (fr.pf st).m_parents j (-1) = st.pF j :=
  vecGet_vecOf _ _ _ _ h0 h1

theorem Frame.gScore_pf (fr : Frame) (st : FState) (j : Int) (h0 : 0 ≤ j)
    (h1 : j < (fr.n : Int)) : vecGet (fr.pf st).m_gScores j Score.inf = st.gF j :=
  vecGet_vecOf _ _ _ _ h0 h1

theorem Frame.parents_length (fr : Frame) (st : FState) :
    (fr.pf st).m_parents.length = fr.n := vecOf_length _ _

theorem long_parent (j : Int) (h0 : 0 ≤ j) (h1 : j < 50331663) :
    vecGet (longFrame.pf longEnd).m_parents j (-1) = longEnd.pF j :=
  Frame.parent_pf longFrame longEnd j h0 (by rw [longFrame_n]; exact h1)

theorem long_gScore (j : Int) (h0 : 0 ≤ j) (h1 : j < 50331663) :
    vecGet (longFrame.pf longEnd).m_gScores j Score.inf = longEnd.gF j :=
  Frame.gScore_pf longFrame longEnd j h0 (by rw [longFrame_n]; exact h1)

theorem Pathfinder.parentWalk_cons (pf : Pathfinder) (fuel : Nat) (cur next : Int)
    (rest : List Int) (h0 : 0 ≤ cur) (hp : vecGet pf.m_parents cur (-1) = next)
    (h : pf.parentWalk fuel next = some rest) :
    pf.parentWalk (fuel + 1) cur = some (cur :: rest) := by
  unfold Pathfinder.parentWalk
  rw [if_pos (by omega), hp, h]
  rfl

theorem longWalk_length (i : Nat) : (longWalk i).length = i + 1 := by
  induction i with
  | zero => rfl
  | succ n ih =>
    unfold longWalk
    rw [List.length_cons, ih]

theorem long_walk (i : Nat) (hi : i ≤ 16777216) :
    (longFrame.pf longEnd).parentWalk (i + 1) (16777221 + (i : Int)) = some (longWalk i) := by
  induction i with
  | zero =>
    apply Pathfinder.parentWalk_cons _ 0 _ (-1) [] (by omega)
    · rw [long_parent _ (by omega) (by omega)]
      have := (longEnd_corridor 0 (by omega) (by omega)).1
      rw [if_neg (by omega)] at this
      exact this
    · rfl
  | succ n ih =>
    unfold longWalk
    apply Pathfinder.parentWalk_cons _ (n + 1) _ (16777221 + (n : Int)) _ (by omega)
    · rw [long_parent _ (by omega) (by omega)]
      rcases Nat.lt_or_ge (n + 1) 16777216 with h | h
      · have := (longEnd_corridor ((n + 1 : Nat) : Int) (by omega) (by omega)).1
        rw [if_pos (by omega)] at this
        rw [this]
        omega
      · have hn : n = 16777215 := by omega
        subst hn
        exact longEnd_block.2.2.2.2.2.2.2.2.2.1
    · exact ih (by omega)

theorem longCells_length : longCells.length = 16777226 := by
  unfold longCells
  rw [List.length_append, longWalk_length]
  rfl

/-- The walk of `reconstructPath` at the end of the search on the long grid. -/
theorem long_pathCells : (longFrame.pf longEnd).pathCells = some longCells := by
  obtain ⟨b1, b2, b3, b4, b5, b6, b7, b8, b9, _⟩ := longEnd_block
  have hlen : (longFrame.pf longEnd).m_parents.length = (16777216 + 1 + 9) + 33554437 := by
    rw [Frame.parents_length]
    have := longFrame_n
    omega
  unfold Pathfinder.pathCells
  rw [if_neg (by decide), hlen]
  apply Pathfinder.parentWalk_more
  have w0 := long_walk 16777216 (by omega)
  have w1 := Pathfinder.parentWalk_cons _ _ 16777216 _ _ (by omega)
    ((long_parent _ (by omega) (by omega)).trans b9) w0
  have w2 := Pathfinder.parentWalk_cons _ _ 16777217 _ _ (by omega)
    ((long_parent _ (by omega) (by omega)).trans b8) w1
  have w3 := Pathfinder.parentWalk_cons _ _ 16777218 _ _ (by omega)
    ((long_parent _ (by omega) (by omega)).trans b7) w2
  have w4 := Pathfinder.parentWalk_cons _ _ 33554439 _ _ (by omega)
    ((long_parent _ (by omega) (by omega)).trans b6) w3
  have w5 := Pathfinder.parentWalk_cons _ _ 50331660 _ _ (by omega)
    ((long_parent _ (by omega) (by omega)).trans b5) w4
  have w6 := Pathfinder.parentWalk_cons _ _ 50331661 _ _ (by omega)
    ((long_parent _ (by omega) (by omega)).trans b4) w5
  have w7 := Pathfinder.parentWalk_cons _ _ 50331662 _ _ (by omega)
    ((long_parent _ (by omega) (by omega)).trans b3) w6
  have w8 := Pathfinder.parentWalk_cons _ _ 33554441 _ _ (by omega)
    ((long_parent _ (by omega) (by omega)).trans b2) w7
  have w9 := Pathfinder.parentWalk_cons _ _ 16777220 _ _ (by omega)
    ((long_parent _ (by omega) (by omega)).trans b1) w8
  exact w9

set_option maxRecDepth 100000

/-! ## A shorter path on the long grid -/

theorem rowCells_head (n : Nat) (f : Nat → Vector2i) (l : List Vector2i) :
    ((List.range (n + 1)).map f ++ l).head? = some (f 0) := by
  rw [List.range_succ_eq_map]
  rfl

theorem rowCells_last (n : Nat) (f : Nat → Vector2i) :
    ((List.range (n + 1)).map f).getLast? = some (f n) := by
  rw [List.range_succ, List.map_append, List.map_singleton, List.getLast?_append]
  rfl

theorem rowCells_chain (n : Nat) :
    List.Chain' Vector2i.adjacent
      ((List.range (n + 1)).map (fun (i : Nat) => (⟨(i : Int), 1⟩ : Vector2i))) := by
  rw [List.chain'_map, List.chain'_range_succ]
  intro m _
  unfold Vector2i.adjacent
  simp only [Nat.succ_eq_add_one, Nat.cast_add, Nat.cast_one]
  omega

theorem longGrid_cell (x y : Int) (hb : longGrid.inBounds x y = true) :
    longGrid.cell x y = longKind (y * 16777221 + x) :=
  Frame.cell_grid longFrame _ x y hb

theorem longGrid_inBounds (x y : Int) :
    longGrid.inBounds x y = true ↔ 0 ≤ x ∧ 0 ≤ y ∧ x < 16777221 ∧ y < 3 :=
  Frame.inB_iff longFrame x y

theorem longGrid_passable (x y : Int) (h0 : 0 ≤ x) (h1 : x < 16777221) (h2 : 0 ≤ y)
    (h3 : y < 3) (hk : longKind (y * 16777221 + x) ≠ CellType.Obstacle) :
    longGrid.passable ⟨x, y⟩ := by
  have hb : longGrid.inBounds x y = true := (longGrid_inBounds x y).2 ⟨h0, h2, h1, h3⟩
  refine ⟨hb, ?_⟩
  show longGrid.cell x y ≠ _
  rw [longGrid_cell x y hb]
  exact hk

theorem rowCells_path (n : Nat) (hn : n ≤ 16777216) (l2 : List Vector2i) (t : Vector2i)
    (hlast : l2.getLast? = some t) (hchain : List.Chain' Vector2i.adjacent l2)
    (hjoint : ∀ y ∈ l2.head?, Vector2i.adjacent ⟨(n : Int), 1⟩ y)
    (hpass : ∀ c ∈ l2, longGrid.passable c) :
    longGrid.IsPath ⟨0, 1⟩ t
        ((List.range (n + 1)).map (fun (i : Nat) => (⟨(i : Int), 1⟩ : Vector2i)) ++ l2)
      ∧ ((List.range (n + 1)).map (fun (i : Nat) => (⟨(i : Int), 1⟩ : Vector2i)) ++ l2).length
        = n + 1 + l2.length := by
  refine ⟨⟨rowCells_head _ _ _, ?_, ?_, ?_⟩, ?_⟩
  · rw [List.getLast?_append, hlast]
    rfl
  · rw [List.chain'_append]
    refine ⟨rowCells_chain _, hchain, ?_⟩
    intro x hx y hy
    rw [rowCells_last] at hx
    have e1 : x = ⟨(n : Int), 1⟩ := (Option.some.inj hx).symm
    rw [e1]
    exact hjoint y hy
  · intro c hc
    rw [List.mem_append] at hc
    rcases hc with hc | hc
    · rw [List.mem_map] at hc
      obtain ⟨i, hi, rfl⟩ := hc
      rw [List.mem_range] at hi
      apply longGrid_passable _ _ (by omega) (by omega) (by omega) (by omega)
      by_cases h0 : i = 0
      · subst h0
        decide
      · have : (1 : Int) * 16777221 + (i : Int) = 16777221 + (i : Int) := by omega
        rw [this, longKind_corridor _ (by omega) (by omega)]
        decide
    · exact hpass c hc
  · rw [List.length_append, List.length_map, List.length_range]

theorem longBlock_passable :
    ∀ c ∈ ([⟨16777216, 2⟩, ⟨16777217, 2⟩, ⟨16777218, 2⟩, ⟨16777219, 2⟩, ⟨16777220, 2⟩,
        ⟨16777220, 1⟩, ⟨16777220, 0⟩] : List Vector2i), longGrid.passable c := by
  intro c hc
  simp only [List.mem_cons, List.mem_singleton, List.not_mem_nil, or_false] at hc
  rcases hc with rfl | rfl | rfl | rfl | rfl | rfl | rfl <;>
    exact longGrid_passable _ _ (by decide) (by decide) (by decide) (by decide) (by decide)

/-- The corridor followed by row 2 of the block is a path of the long grid from
the Start to the Goal with 16777224 cells, that is 16777223 moves. -/
theorem longShort_path :
    longGrid.IsPath ⟨0, 1⟩ ⟨16777220, 0⟩ longShort ∧ longShort.length = 16777224 :=
  rowCells_path 16777216 (le_refl _) _ _ rfl
    (by
      simp only [List.chain'_cons, List.chain'_singleton, and_true]
      decide)
    (fun y hy => by
      have e2 : y = ⟨16777216, 2⟩ := (Option.some.inj hy).symm
      rw [e2]
      decide)
    longBlock_passable

/-! ## The outcome of the search on the long grid -/

theorem Frame.pf_goalIndex (fr : Frame) (st : FState) : (fr.pf st).m_goalIndex = fr.gi := rfl

/-- The search on the long grid ends in PathFound; the walk of `reconstructPath`
visits the 16777226 cells `longCells`, and the Goal and its parent both have
the g score `2^24`. -/
theorem long_outcome :
    ∃ pf1 g1, (Pathfinder.ctor longGrid).search longGrid [16777226] = some (pf1, g1)
      ∧ pf1.m_status = Status.PathFound
      ∧ pf1.m_goalIndex = 16777220
      ∧ pf1.pathCells = some longCells
      ∧ vecGet pf1.m_parents 16777220 (-1) = 33554441
      ∧ vecGet pf1.m_gScores 33554441 Score.inf = Score.fin 16777216
      ∧ vecGet pf1.m_gScores 16777220 Score.inf = Score.fin 16777216 := by
  obtain ⟨g1, he⟩ := long_search
  obtain ⟨b1, _, _, _, _, _, _, _, _, _, b11, b12⟩ := longEnd_block
  refine ⟨longFrame.pf longEnd, g1, he, ?_, ?_, long_pathCells, ?_, ?_, ?_⟩
  · exact (Frame.pair_status longFrame longEnd).trans longEnd_status
  · rw [Frame.pf_goalIndex]
    decide
  · exact (long_parent _ (by omega) (by omega)).trans b1
  · exact (long_gScore _ (by omega) (by omega)).trans b12
  · exact (long_gScore _ (by omega) (by omega)).trans b11

/-! ## Grid contracts -/

/-- C5. In every grid reached from construction (with positive dimensions) by
public `Grid` mutators, the placement invariant holds: a cell has kind Start
(Goal) exactly when it is the stored Start (Goal) position, the stored
positions are in bounds and differ; hence at most one cell has kind Start and
at most one has kind Goal. -/
theorem Grid.placement_invariant (width height : Int) (hw : 1 ≤ width) (hh : 1 ≤ height)
    (ops : List GridOp) :
    (GridOp.runAll ops (Grid.ctor width height)).Placed
      ∧ (∀ x y x1 y1,
          (GridOp.runAll ops (Grid.ctor width height)).inBounds x y = true →
          (GridOp.runAll ops (Grid.ctor width height)).inBounds x1 y1 = true →
          (GridOp.runAll ops (Grid.ctor width height)).cell x y = CellType.Start →
          (GridOp.runAll ops (Grid.ctor width height)).cell x1 y1 = CellType.Start →
          x = x1 ∧ y = y1)
      ∧ (∀ x y x1 y1,
          (GridOp.runAll ops (Grid.ctor width height)).inBounds x y = true →
          (GridOp.runAll ops (Grid.ctor width height)).inBounds x1 y1 = true →
          (GridOp.runAll ops (Grid.ctor width height)).cell x y = CellType.Goal →
          (GridOp.runAll ops (Grid.ctor width height)).cell x1 y1 = CellType.Goal →
          x = x1 ∧ y = y1) := by
  have h := GridOp.runAll_inv ops (Grid.ctor width height) (Grid.ctor_WF width height hw hh)
    (Grid.ctor_Placed width height)
  exact ⟨h.2, Grid.Placed.unique_start _ h.2, Grid.Placed.unique_goal _ h.2⟩

theorem Grid.placement_invariant_witness :
    (GridOp.runAll [GridOp.setStart ⟨0, 0⟩, GridOp.setGoal ⟨2, 1⟩, GridOp.setObstacle 1 0,
        GridOp.setStart ⟨1, 1⟩, GridOp.clearCell 2 1] (Grid.ctor 3 2)).Placed :=
  (Grid.placement_invariant 3 2 (by decide) (by decide)
    [GridOp.setStart ⟨0, 0⟩, GridOp.setGoal ⟨2, 1⟩, GridOp.setObstacle 1 0,
      GridOp.setStart ⟨1, 1⟩, GridOp.clearCell 2 1]).1

/-- C7. `setObstacle` fails exactly out of bounds or on a Start/Goal cell,
`setStart` (`setGoal`) exactly out of bounds, on an Obstacle or on the stored
Goal (Start) position, `clearCell` exactly out of bounds; a failing call, and a
`setOverlay` out of bounds or on a Start/Goal cell, leaves the grid as it was. -/
theorem Grid.failed_edit_atomic (g : Grid) (x y : Int) (c : Vector2i) (v : CellOverlay) :
    ((g.setObstacle x y).1 = false ↔
        (g.inBounds x y = false ∨ g.cell x y = CellType.Start ∨ g.cell x y = CellType.Goal))
      ∧ ((g.setStart c).1 = false ↔
        (g.inBounds c.x c.y = false ∨ g.cell c.x c.y = CellType.Obstacle ∨ g.m_goal = some c))
      ∧ ((g.setGoal c).1 = false ↔
        (g.inBounds c.x c.y = false ∨ g.cell c.x c.y = CellType.Obstacle ∨ g.m_start = some c))
      ∧ ((g.clearCell x y).1 = false ↔ g.inBounds x y = false)
      ∧ ((g.setObstacle x y).1 = false → (g.setObstacle x y).2 = g)
      ∧ ((g.setStart c).1 = false → (g.setStart c).2 = g)
      ∧ ((g.setGoal c).1 = false → (g.setGoal c).2 = g)
      ∧ ((g.clearCell x y).1 = false → (g.clearCell x y).2 = g)
      ∧ ((g.inBounds x y = false ∨ g.cell x y = CellType.Start ∨ g.cell x y = CellType.Goal) →
        g.setOverlay x y v = g) := by
  refine ⟨?_, ?_, ?_, ?_, ?_, ?_, ?_, ?_, ?_⟩
  · rcases Grid.setObstacle_spec g x y with ⟨hb, h1, h2, he⟩ | ⟨hf, he⟩
    · rw [he]
      constructor
      · intro h; cases h
      · rintro (h | h | h)
        · rw [hb] at h; cases h
        · exact absurd h h1
        · exact absurd h h2
    · rw [he]; exact ⟨fun _ => hf, fun _ => rfl⟩
  · rcases Grid.setStart_spec g c with ⟨hb, h1, h2, he⟩ | ⟨hf, he⟩
    · rw [he]
      constructor
      · intro h; cases h
      · rintro (h | h | h)
        · rw [hb] at h; cases h
        · exact absurd h h1
        · exact absurd h h2
    · rw [he]; exact ⟨fun _ => hf, fun _ => rfl⟩
  · rcases Grid.setGoal_spec g c with ⟨hb, h1, h2, he⟩ | ⟨hf, he⟩
    · rw [he]
      constructor
      · intro h; cases h
      · rintro (h | h | h)
        · rw [hb] at h; cases h
        · exact absurd h h1
        · exact absurd h h2
    · rw [he]; exact ⟨fun _ => hf, fun _ => rfl⟩
  · rcases Grid.clearCell_spec g x y with ⟨hb, he⟩ | ⟨hf, he⟩
    · rw [he]
      constructor
      · intro h; cases h
      · intro h; rw [hb] at h; cases h
    · rw [he]; exact ⟨fun _ => hf, fun _ => rfl⟩
  · rcases Grid.setObstacle_spec g x y with ⟨_, _, _, he⟩ | ⟨_, he⟩
    · rw [he]; intro h; cases h
    · rw [he]; intro _; rfl
  · rcases Grid.setStart_spec g c with ⟨_, _, _, he⟩ | ⟨_, he⟩
    · rw [he]; intro h; cases h
    · rw [he]; intro _; rfl
  · rcases Grid.setGoal_spec g c with ⟨_, _, _, he⟩ | ⟨_, he⟩
    · rw [he]; intro h; cases h
    · rw [he]; intro _; rfl
  · rcases Grid.clearCell_spec g x y with ⟨_, he⟩ | ⟨_, he⟩
    · rw [he]; intro h; cases h
    · rw [he]; intro _; rfl
  · intro hf
    rcases Grid.setOverlay_spec g x y v with ⟨hb, h1, h2, _⟩ | ⟨_, he⟩
    · rcases hf with h | h | h
      · rw [hb] at h; cases h
      · exact absurd h h1
      · exact absurd h h2
    · exact he

/-- C8. On a grid that satisfies the placement invariant, `setStart p` at an
in-bounds cell that is not Obstacle and not the stored Goal returns true; then
the stored Start is `p`, the cell `p` has kind Start, a previous Start at
another cell is Empty, every other kind, the Goal, the dimensions and the
overlay layer are unchanged.  Symmetrically for `setGoal`. -/
theorem Grid.setStart_setGoal_post (g : Grid) (hwf : g.WF) (hp : g.Placed) (p : Vector2i)
    (hb : g.inBounds p.x p.y = true) (hk : g.cell p.x p.y ≠ CellType.Obstacle) :
    (g.m_goal ≠ some p →
        (g.setStart p).1 = true
        ∧ (g.setStart p).2.m_start = some p
        ∧ (g.setStart p).2.cell p.x p.y = CellType.Start
        ∧ (∀ q, g.m_start = some q → q ≠ p → (g.setStart p).2.cell q.x q.y = CellType.Empty)
        ∧ (∀ x y, g.inBounds x y = true → p ≠ { x := x, y := y } →
            g.m_start ≠ some { x := x, y := y } → (g.setStart p).2.cell x y = g.cell x y)
        ∧ (g.setStart p).2.m_goal = g.m_goal
        ∧ (g.setStart p).2.m_overlays = g.m_overlays
        ∧ (g.setStart p).2.m_width = g.m_width ∧ (g.setStart p).2.m_height = g.m_height)
      ∧ (g.m_start ≠ some p →
        (g.setGoal p).1 = true
        ∧ (g.setGoal p).2.m_goal = some p
        ∧ (g.setGoal p).2.cell p.x p.y = CellType.Goal
        ∧ (∀ q, g.m_goal = some q → q ≠ p → (g.setGoal p).2.cell q.x q.y = CellType.Empty)
        ∧ (∀ x y, g.inBounds x y = true → p ≠ { x := x, y := y } →
            g.m_goal ≠ some { x := x, y := y } → (g.setGoal p).2.cell x y = g.cell x y)
        ∧ (g.setGoal p).2.m_start = g.m_start
        ∧ (g.setGoal p).2.m_overlays = g.m_overlays
        ∧ (g.setGoal p).2.m_width = g.m_width ∧ (g.setGoal p).2.m_height = g.m_height) := by
  constructor
  · intro hng
    obtain ⟨g1, he, hw, hh, hc, ho, hs, ht⟩ := Grid.setStart_ok g p hb hk hng
    have hcell := Grid.setStart_cell g hwf hp p hb g1 hw hc
    rw [he]
    refine ⟨rfl, hs, ?_, ?_, ?_, ht, ho, hw, hh⟩
    · show g1.cell p.x p.y = _
      rw [hcell p.x p.y hb, if_pos rfl]
    · intro q hq hqp
      show g1.cell q.x q.y = _
      rw [hcell q.x q.y (hp.2.2.1 q hq), if_neg (fun h => hqp h.symm), if_pos hq]
    · intro x y hb1 hne hns
      show g1.cell x y = _
      rw [hcell x y hb1, if_neg hne, if_neg hns]
  · intro hng
    obtain ⟨g1, he, hw, hh, hc, ho, hs, ht⟩ := Grid.setGoal_ok g p hb hk hng
    have hcell := Grid.setGoal_cell g hwf hp p hb g1 hw hc
    rw [he]
    refine ⟨rfl, ht, ?_, ?_, ?_, hs, ho, hw, hh⟩
    · show g1.cell p.x p.y = _
      rw [hcell p.x p.y hb, if_pos rfl]
    · intro q hq hqp
      show g1.cell q.x q.y = _
      rw [hcell q.x q.y (hp.2.2.2.1 q hq), if_neg (fun h => hqp h.symm), if_pos hq]
    · intro x y hb1 hne hns
      show g1.cell x y = _
      rw [hcell x y hb1, if_neg hne, if_neg hns]

theorem Grid.setStart_setGoal_post_witness :
    ((GridOp.runAll [GridOp.setStart ⟨0, 0⟩, GridOp.setGoal ⟨2, 0⟩] (Grid.ctor 3 1)).setStart
        ⟨1, 0⟩).2.cell 0 0 = CellType.Empty
      ∧ ((GridOp.runAll [GridOp.setStart ⟨0, 0⟩, GridOp.setGoal ⟨2, 0⟩] (Grid.ctor 3 1)).setStart
        ⟨1, 0⟩).2.m_start = some ⟨1, 0⟩ :=
  have h := (Grid.setStart_setGoal_post
    (GridOp.runAll [GridOp.setStart ⟨0, 0⟩, GridOp.setGoal ⟨2, 0⟩] (Grid.ctor 3 1))
    (GridOp.runAll_inv _ _ (Grid.ctor_WF 3 1 (by decide) (by decide)) (Grid.ctor_Placed 3 1)).1
    (GridOp.runAll_inv _ _ (Grid.ctor_WF 3 1 (by decide) (by decide)) (Grid.ctor_Placed 3 1)).2
    ⟨1, 0⟩ (by decide) (by decide)).1 (by decide)
  ⟨h.2.2.2.1 ⟨0, 0⟩ (by decide) (by decide), h.2.1⟩

/-! ## Failing `start` -/

/-- C9. When the grid has no Start or no Goal, `start()` returns false and
leaves the whole pathfinder state and the whole grid state as they were. -/
theorem Pathfinder.start_fails_unchanged (pf : Pathfinder) (g : Grid)
    (h : g.m_start = none ∨ g.m_goal = none) : pf.start g = (false, pf, g) := by
  unfold Pathfinder.start
  rcases h with h | h
  · rw [h]
  · rw [h]
    cases g.m_start <;> rfl

theorem Pathfinder.start_fails_unchanged_witness :
    (Pathfinder.ctor (Grid.ctor 2 2)).start (Grid.ctor 2 2)
      = (false, Pathfinder.ctor (Grid.ctor 2 2), Grid.ctor 2 2) :=
  Pathfinder.start_fails_unchanged _ _ (Or.inl rfl)

/-- C10 (as stated, refuted).  A search is started on a 2x1 grid, the Start
cell is cleared while the search is Running, and `start()` is called again: it
returns false and the status is Running, not Idle. -/
theorem Pathfinder.start_fails_status_counterexample :
    (CoreOp.runAll
        [CoreOp.grid (GridOp.setStart ⟨0, 0⟩), CoreOp.grid (GridOp.setGoal ⟨1, 0⟩),
          CoreOp.start, CoreOp.grid (GridOp.clearCell 0 0)]
        (freshState 2 1)).map
      (fun s => (s.2.m_start, (s.1.start s.2).1, (s.1.start s.2).2.1.m_status))
      = some (none, false, Status.Running) := by
  decide

/-- C10 (amended).  When the grid has no Start or no Goal, `start()` returns
false and the status after the call is the status before it; in particular an
Idle pathfinder stays Idle. -/
theorem Pathfinder.start_fails_status (pf : Pathfinder) (g : Grid)
    (h : g.m_start = none ∨ g.m_goal = none) :
    (pf.start g).1 = false ∧ (pf.start g).2.1.m_status = pf.m_status
      ∧ (pf.m_status = Status.Idle → (pf.start g).2.1.m_status = Status.Idle) := by
  have e : pf.start g = (false, pf, g) := by
    unfold Pathfinder.start
    rcases h with h | h
    · rw [h]
    · rw [h]
      cases g.m_start <;> rfl
  rw [e]
  exact ⟨rfl, rfl, fun hs => hs⟩

theorem Pathfinder.start_fails_status_witness :
    ((Pathfinder.ctor (Grid.ctor 2 1)).start (Grid.ctor 2 1)).1 = false
      ∧ ((Pathfinder.ctor (Grid.ctor 2 1)).start (Grid.ctor 2 1)).2.1.m_status = Status.Idle :=
  ⟨(Pathfinder.start_fails_status (Pathfinder.ctor (Grid.ctor 2 1)) (Grid.ctor 2 1)
      (Or.inl rfl)).1,
    (Pathfinder.start_fails_status (Pathfinder.ctor (Grid.ctor 2 1)) (Grid.ctor 2 1)
      (Or.inl rfl)).2.2 rfl⟩

/-- C4 (as stated, refuted).  On a 3x1 grid a search from (0,0) to (2,0) ends
with overlay Path on (1,0); `setStart (1,0)` then succeeds, and the Start cell
carries overlay Path. -/
theorem Grid.overlay_immunity_counterexample :
    (CoreOp.runAll
        [CoreOp.grid (GridOp.setStart ⟨0, 0⟩), CoreOp.grid (GridOp.setGoal ⟨2, 0⟩),
          CoreOp.start, CoreOp.step 8, CoreOp.grid (GridOp.setStart ⟨1, 0⟩)]
        (freshState 3 1)).map
      (fun s => (s.1.m_status, s.2.m_start, s.2.overlay 1 0))
      = some (Status.PathFound, some ⟨1, 0⟩, CellOverlay.Path) := by
  decide

/-- C4 (amended).  From a freshly constructed grid and pathfinder, along every
sequence of core operations in which each successful `setStart` / `setGoal`
lands on a cell whose overlay is None, the overlay of the stored Start and of
the stored Goal is None after each operation. -/
theorem Grid.overlay_immunity (width height : Int) (hw : 1 ≤ width) (hh : 1 ≤ height)
    (ops : List CoreOp) (s : Pathfinder × Grid)
    (hc : CoreOp.allLandClean ops (freshState width height))
    (hr : CoreOp.runAll ops (freshState width height) = some s) :
    s.2.OverlayImmune :=
  (CoreOp.runAll_Clean ops (freshState width height) s
    ⟨Grid.ctor_WF width height hw hh, Grid.ctor_Placed width height,
      Grid.ctor_Immune width height⟩ hc hr).2.2

theorem Grid.overlay_immunity_witness :
    Grid.OverlayImmune
      { m_width := 3, m_height := 1,
        m_cells := [CellType.Start, CellType.Empty, CellType.Goal],
        m_overlays := [CellOverlay.None, CellOverlay.Path, CellOverlay.None],
        m_start := some ⟨0, 0⟩, m_goal := some ⟨2, 0⟩ } :=
  Grid.overlay_immunity 3 1 (by decide) (by decide)
    [CoreOp.grid (GridOp.setStart ⟨0, 0⟩), CoreOp.grid (GridOp.setGoal ⟨2, 0⟩),
      CoreOp.start, CoreOp.step 8]
    ({ m_width := 3, m_height := 1, m_startIndex := 0, m_goalIndex := 2, m_openSet := [],
       m_gScores := [Score.fin 0, Score.fin 1, Score.fin 2],
       m_fScores := [Score.fin 2, Score.fin 2, Score.fin 2],
       m_parents := [-1, 0, 1], m_inOpen := [false, false, false],
       m_inClosed := [true, true, false], m_sequenceCounter := 3,
       m_status := Status.PathFound },
     { m_width := 3, m_height := 1,
       m_cells := [CellType.Start, CellType.Empty, CellType.Goal],
       m_overlays := [CellOverlay.None, CellOverlay.Path, CellOverlay.None],
       m_start := some ⟨0, 0⟩, m_goal := some ⟨2, 0⟩ })
    (by decide) (by decide)

/-! ## Contracts of the search -/

/-- C1, with the optimality on grids where binary32 is exact.  On a well-formed
grid with Start `s` and Goal `t` placed, `start()` followed by any sequence of
`step` calls returns, and when the status is PathFound the walk of
`reconstructPath` over the parent chain ends; its cells are the ones on which
`reconstructPath` calls `setOverlay` with Path (the start index apart); read
from the start it is a chain of 4-adjacent in-bounds cells from `s` to `t`,
none of kind Obstacle; and when `N + W + H` is at most `2^24` no 4-connected
Obstacle-free path from `s` to `t` has fewer cells (so its number of moves is
the shortest path length). -/
theorem Pathfinder.found_path_optimal (g : Grid) (hwf : g.WF) (hpl : g.Placed)
    (s t : Vector2i) (hs : g.m_start = some s) (ht : g.m_goal = some t) (pf : Pathfinder)
    (hat : pf.Attached g) (budgets : List Int) :
    ∃ pf1 g1, pf.search g budgets = some (pf1, g1)
      ∧ (pf1.m_status = Status.PathFound →
        ∃ cells, pf1.pathCells = some cells
          ∧ (∀ g2, pf1.reconstructPath g2 = some
              (cells.foldl
                (fun acc i =>
                  if i ≠ pf1.m_startIndex then
                    acc.setOverlay (pf1.toGrid i).1 (pf1.toGrid i).2 CellOverlay.Path
                  else acc) g2))
          ∧ g.IsPath s t ((cells.map pf1.cellOf).reverse)
          ∧ (g.Small → ∀ p, g.IsPath s t p → cells.length ≤ p.length)) := by
  obtain ⟨st1, he, hinv, _⟩ := Pathfinder.search_Run g hwf hpl s t hs ht pf hat budgets
  refine ⟨st1.1, st1.2, he, fun h => ?_⟩
  obtain ⟨cells, h1, h2⟩ := hinv.2.2.2.2.1 h
  refine ⟨cells, h1, Pathfinder.reconstructPath_eq_fold st1.1 cells h1, h2, fun hsm => ?_⟩
  obtain ⟨st2, he2, hinv2, _⟩ := Pathfinder.search_Inv g hwf hsm hpl s t hs ht pf hat budgets
  have e : st2 = st1 := Option.some.inj (he2.symm.trans he)
  subst e
  obtain ⟨cells2, k1, _, k3⟩ := hinv2.2.2.2.2.1 h
  have e2 : cells2 = cells := Option.some.inj (k1.symm.trans h1)
  subst e2
  exact k3

theorem Pathfinder.found_path_optimal_witness :
    ∃ pf1 g1,
      (Pathfinder.ctor
          (GridOp.runAll [GridOp.setStart ⟨0, 0⟩, GridOp.setGoal ⟨2, 0⟩] (Grid.ctor 3 1))).search
        (GridOp.runAll [GridOp.setStart ⟨0, 0⟩, GridOp.setGoal ⟨2, 0⟩] (Grid.ctor 3 1)) [8]
        = some (pf1, g1)
      ∧ (pf1.m_status = Status.PathFound →
        ∃ cells, pf1.pathCells = some cells
          ∧ (∀ g2, pf1.reconstructPath g2 = some
              (cells.foldl
                (fun acc i =>
                  if i ≠ pf1.m_startIndex then
                    acc.setOverlay (pf1.toGrid i).1 (pf1.toGrid i).2 CellOverlay.Path
                  else acc) g2))
          ∧ (GridOp.runAll [GridOp.setStart ⟨0, 0⟩, GridOp.setGoal ⟨2, 0⟩] (Grid.ctor 3 1)).IsPath
              ⟨0, 0⟩ ⟨2, 0⟩ ((cells.map pf1.cellOf).reverse)
          ∧ ∀ p,
              (GridOp.runAll [GridOp.setStart ⟨0, 0⟩, GridOp.setGoal ⟨2, 0⟩]
                  (Grid.ctor 3 1)).IsPath ⟨0, 0⟩ ⟨2, 0⟩ p →
                cells.length ≤ p.length) := by
  obtain ⟨pf1, g1, he, h⟩ := Pathfinder.found_path_optimal
    (GridOp.runAll [GridOp.setStart ⟨0, 0⟩, GridOp.setGoal ⟨2, 0⟩] (Grid.ctor 3 1))
    (GridOp.runAll_inv _ _ (Grid.ctor_WF 3 1 (by decide) (by decide)) (Grid.ctor_Placed 3 1)).1
    (GridOp.runAll_inv _ _ (Grid.ctor_WF 3 1 (by decide) (by decide)) (Grid.ctor_Placed 3 1)).2
    ⟨0, 0⟩ ⟨2, 0⟩ (by decide) (by decide)
    (Pathfinder.ctor
      (GridOp.runAll [GridOp.setStart ⟨0, 0⟩, GridOp.setGoal ⟨2, 0⟩] (Grid.ctor 3 1)))
    (by decide) [8]
  refine ⟨pf1, g1, he, fun hst => ?_⟩
  obtain ⟨cells, a, b, c, d⟩ := h hst
  exact ⟨cells, a, b, c, d (by decide)⟩

/-- C1 fails on a grid of more than `2^24` cells.  The long grid (width
16777221, height 3, Start `(0, 1)`, Goal `(16777220, 0)`) is well formed with
Start and Goal placed, and the pathfinder is constructed for it; `start()`
followed by `step(16777226)` ends in PathFound, the walk of `reconstructPath`
has 16777226 cells, that is 16777225 moves, and `longShort` is a 4-connected
Obstacle-free path from the Start to the Goal with 16777224 cells, that is
16777223 moves: the path found is not a shortest one. -/
theorem Pathfinder.found_path_optimal_counterexample :
    longGrid.WF ∧ longGrid.Placed ∧ longGrid.m_start = some ⟨0, 1⟩
      ∧ longGrid.m_goal = some ⟨16777220, 0⟩
      ∧ (Pathfinder.ctor longGrid).Attached longGrid
      ∧ ∃ pf1 g1 cells,
          (Pathfinder.ctor longGrid).search longGrid [16777226] = some (pf1, g1)
            ∧ pf1.m_status = Status.PathFound
            ∧ pf1.pathCells = some cells
            ∧ cells.length = 16777226
            ∧ longGrid.IsPath ⟨0, 1⟩ ⟨16777220, 0⟩ longShort
            ∧ longShort.length = 16777224
            ∧ ¬ ∀ p, longGrid.IsPath ⟨0, 1⟩ ⟨16777220, 0⟩ p → cells.length ≤ p.length := by
  obtain ⟨pf1, g1, he, hst, _, hpc, _⟩ := long_outcome
  obtain ⟨hp, hl⟩ := longShort_path
  refine ⟨longGrid_WF, longGrid_Placed, rfl, rfl, longGrid_Attached, pf1, g1, longCells, he,
    hst, hpc, longCells_length, hp, hl, fun h => ?_⟩
  have := h longShort hp
  rw [longCells_length, hl] at this
  omega

/-- C2. On a well-formed grid with Start `s` and Goal `t` placed, every run of
`start()` followed by `step` calls returns; a status PathFound implies that a
4-connected Obstacle-free path from `s` to `t` exists and a status NoPath that
none exists; and for every budget `k` some number of `step(k)` calls reaches a
terminal status, which is PathFound exactly when such a path exists. -/
theorem Pathfinder.outcome_complete (g : Grid) (hwf : g.WF) (hpl : g.Placed)
    (s t : Vector2i) (hs : g.m_start = some s) (ht : g.m_goal = some t) (pf : Pathfinder)
    (hat : pf.Attached g) :
    (∀ budgets, ∃ pf1 g1, pf.search g budgets = some (pf1, g1)
        ∧ (pf1.m_status = Status.PathFound → ∃ p, g.IsPath s t p)
        ∧ (pf1.m_status = Status.NoPath → ¬ ∃ p, g.IsPath s t p))
      ∧ ∀ k : Int, ∃ m pf1 g1, pf.search g (List.replicate m k) = some (pf1, g1)
        ∧ (pf1.m_status = Status.PathFound ∨ pf1.m_status = Status.NoPath)
        ∧ (pf1.m_status = Status.PathFound ↔ ∃ p, g.IsPath s t p) := by
  have key : ∀ budgets, ∃ pf1 g1, pf.search g budgets = some (pf1, g1)
      ∧ (pf1.m_status = Status.PathFound → ∃ p, g.IsPath s t p)
      ∧ (pf1.m_status = Status.NoPath → ¬ ∃ p, g.IsPath s t p)
      ∧ pf1.m_status ≠ Status.Idle
      ∧ (pf1.m_status = Status.Running →
          pf1.rounds + budgets.length ≤ 5 * g.m_cells.length + 2) := by
    intro budgets
    obtain ⟨st1, he, hinv, hm⟩ := Pathfinder.search_Run g hwf hpl s t hs ht pf hat budgets
    refine ⟨st1.1, st1.2, he, ?_, hinv.2.2.2.2.2, hinv.2.2.1, hm⟩
    intro h
    obtain ⟨cells, _, hp⟩ := hinv.2.2.2.2.1 h
    exact ⟨_, hp⟩
  constructor
  · intro budgets
    obtain ⟨pf1, g1, he, h1, h2, _, _⟩ := key budgets
    exact ⟨pf1, g1, he, h1, h2⟩
  · intro k
    obtain ⟨pf1, g1, he, h1, h2, h3, h4⟩ :=
      key (List.replicate (5 * g.m_cells.length + 2) k)
    have hterm : pf1.m_status = Status.PathFound ∨ pf1.m_status = Status.NoPath := by
      cases hst : pf1.m_status with
      | Idle => exact absurd hst h3
      | Running =>
        have := h4 hst
        simp only [List.length_replicate] at this
        unfold Pathfinder.rounds at this
        omega
      | PathFound => exact Or.inl rfl
      | NoPath => exact Or.inr rfl
    refine ⟨_, pf1, g1, he, hterm, h1, fun hp => ?_⟩
    rcases hterm with h | h
    · exact h
    · exact absurd hp (h2 h)

theorem Pathfinder.outcome_complete_witness :
    ∃ m pf1 g1,
      (Pathfinder.ctor
          (GridOp.runAll [GridOp.setStart ⟨0, 0⟩, GridOp.setGoal ⟨2, 0⟩, GridOp.setObstacle 1 0]
            (Grid.ctor 3 1))).search
        (GridOp.runAll [GridOp.setStart ⟨0, 0⟩, GridOp.setGoal ⟨2, 0⟩, GridOp.setObstacle 1 0]
          (Grid.ctor 3 1)) (List.replicate m 8) = some (pf1, g1)
      ∧ (pf1.m_status = Status.PathFound ∨ pf1.m_status = Status.NoPath)
      ∧ (pf1.m_status = Status.PathFound ↔
        ∃ p, (GridOp.runAll
            [GridOp.setStart ⟨0, 0⟩, GridOp.setGoal ⟨2, 0⟩, GridOp.setObstacle 1 0]
            (Grid.ctor 3 1)).IsPath ⟨0, 0⟩ ⟨2, 0⟩ p) :=
  (Pathfinder.outcome_complete
    (GridOp.runAll [GridOp.setStart ⟨0, 0⟩, GridOp.setGoal ⟨2, 0⟩, GridOp.setObstacle 1 0]
      (Grid.ctor 3 1))
    (GridOp.runAll_inv _ _ (Grid.ctor_WF 3 1 (by decide) (by decide)) (Grid.ctor_Placed 3 1)).1
    (GridOp.runAll_inv _ _ (Grid.ctor_WF 3 1 (by decide) (by decide)) (Grid.ctor_Placed 3 1)).2
    ⟨0, 0⟩ ⟨2, 0⟩ (by decide) (by decide) _ (by decide)).2 8

/-- C3. On a well-formed grid with Start and Goal placed, for every budget `k`
there is a number `m` of `step(k)` calls, at most `5 * N + 2` for `N` cells,
after which `start()` and these calls have returned and the status is
PathFound or NoPath. -/
theorem Pathfinder.search_terminates (g : Grid) (hwf : g.WF) (hpl : g.Placed)
    (s t : Vector2i) (hs : g.m_start = some s) (ht : g.m_goal = some t) (pf : Pathfinder)
    (hat : pf.Attached g) (k : Int) :
    ∃ m, m ≤ 5 * g.m_cells.length + 2 ∧ ∃ pf1 g1,
      pf.search g (List.replicate m k) = some (pf1, g1)
        ∧ (pf1.m_status = Status.PathFound ∨ pf1.m_status = Status.NoPath) := by
  obtain ⟨st1, he, hinv, hm⟩ := Pathfinder.search_Run g hwf hpl s t hs ht pf hat
    (List.replicate (5 * g.m_cells.length + 2) k)
  refine ⟨_, le_refl _, st1.1, st1.2, he, ?_⟩
  cases hst : st1.1.m_status with
  | Idle => exact absurd hst hinv.2.2.1
  | Running =>
    have := hm hst
    simp only [List.length_replicate] at this
    unfold Pathfinder.rounds at this
    omega
  | PathFound => exact Or.inl rfl
  | NoPath => exact Or.inr rfl

theorem Pathfinder.search_terminates_witness :
    ∃ m, m ≤ 5 * 3 + 2 ∧ ∃ pf1 g1,
      (Pathfinder.ctor
          (GridOp.runAll [GridOp.setStart ⟨0, 0⟩, GridOp.setGoal ⟨2, 0⟩] (Grid.ctor 3 1))).search
        (GridOp.runAll [GridOp.setStart ⟨0, 0⟩, GridOp.setGoal ⟨2, 0⟩] (Grid.ctor 3 1))
        (List.replicate m 1) = some (pf1, g1)
      ∧ (pf1.m_status = Status.PathFound ∨ pf1.m_status = Status.NoPath) :=
  Pathfinder.search_terminates
    (GridOp.runAll [GridOp.setStart ⟨0, 0⟩, GridOp.setGoal ⟨2, 0⟩] (Grid.ctor 3 1))
    (GridOp.runAll_inv _ _ (Grid.ctor_WF 3 1 (by decide) (by decide)) (Grid.ctor_Placed 3 1)).1
    (GridOp.runAll_inv _ _ (Grid.ctor_WF 3 1 (by decide) (by decide)) (Grid.ctor_Placed 3 1)).2
    ⟨0, 0⟩ ⟨2, 0⟩ (by decide) (by decide) _ (by decide) 1

/-- C6. On a well-formed grid with Start and Goal placed, after `start()` and
after every further `step` call the kinds are those of the initial grid and
every in-bounds cell of kind Obstacle has overlay None. -/
theorem Pathfinder.obstacles_without_overlay (g : Grid) (hwf : g.WF) (hpl : g.Placed)
    (s t : Vector2i) (hs : g.m_start = some s) (ht : g.m_goal = some t) (pf : Pathfinder)
    (hat : pf.Attached g) (budgets : List Int) :
    ∃ pf1 g1, pf.search g budgets = some (pf1, g1) ∧ g1.m_cells = g.m_cells
      ∧ ∀ x y, g1.inBounds x y = true → g1.cell x y = CellType.Obstacle →
          g1.overlay x y = CellOverlay.None := by
  obtain ⟨st1, he, hinv, _⟩ := Pathfinder.search_Run g hwf hpl s t hs ht pf hat budgets
  exact ⟨st1.1, st1.2, he, hinv.1.2.2.1, hinv.2.1⟩

theorem Pathfinder.obstacles_without_overlay_witness :
    ∃ pf1 g1,
      (Pathfinder.ctor
          (GridOp.runAll [GridOp.setStart ⟨0, 0⟩, GridOp.setGoal ⟨2, 0⟩, GridOp.setObstacle 1 0]
            (Grid.ctor 3 2))).search
        (GridOp.runAll [GridOp.setStart ⟨0, 0⟩, GridOp.setGoal ⟨2, 0⟩, GridOp.setObstacle 1 0]
          (Grid.ctor 3 2)) [1, 1, 1] = some (pf1, g1)
      ∧ g1.m_cells = (GridOp.runAll
          [GridOp.setStart ⟨0, 0⟩, GridOp.setGoal ⟨2, 0⟩, GridOp.setObstacle 1 0]
          (Grid.ctor 3 2)).m_cells
      ∧ ∀ x y, g1.inBounds x y = true → g1.cell x y = CellType.Obstacle →
          g1.overlay x y = CellOverlay.None :=
  Pathfinder.obstacles_without_overlay
    (GridOp.runAll [GridOp.setStart ⟨0, 0⟩, GridOp.setGoal ⟨2, 0⟩, GridOp.setObstacle 1 0]
      (Grid.ctor 3 2))
    (GridOp.runAll_inv _ _ (Grid.ctor_WF 3 2 (by decide) (by decide)) (Grid.ctor_Placed 3 2)).1
    (GridOp.runAll_inv _ _ (Grid.ctor_WF 3 2 (by decide) (by decide)) (Grid.ctor_Placed 3 2)).2
    ⟨0, 0⟩ ⟨2, 0⟩ (by decide) (by decide) _ (by decide) [1, 1, 1]

/-! ## `step` outside Running and the budget of `step` -/

/-- C12. When the status is Idle, PathFound or NoPath, `step(iterations)`
returns with the pathfinder and the grid exactly as they were, so the returned
status is the status before the call and PathFound and NoPath are absorbing. -/
theorem Pathfinder.step_not_running (pf : Pathfinder) (g : Grid) (iterations : Int)
    (h : pf.m_status = Status.Idle ∨ pf.m_status = Status.PathFound
      ∨ pf.m_status = Status.NoPath) :
    pf.step g iterations = some (pf, g) := by
  unfold Pathfinder.step
  rw [if_pos]
  rcases h with h | h | h <;> rw [h] <;> decide

theorem Pathfinder.step_not_running_witness :
    (Pathfinder.ctor scenarioS5).step scenarioS5 8 = some (Pathfinder.ctor scenarioS5, scenarioS5) :=
  Pathfinder.step_not_running (Pathfinder.ctor scenarioS5) scenarioS5 8 (Or.inl rfl)

/-- C17. For budgets `a, b >= 1`, `step(a + b)` gives the pathfinder, grid and
status that `step(a)` followed by `step(b)` gives; a budget below 1 acts as
budget 1; hence two sequences of `step` calls whose budgets (each raised to at
least 1) have the same sum end in the same state, and two sequences of `step`
calls that both end outside Running end in the same pathfinder and grid
(status and overlays included), whatever their budgets. -/
theorem Pathfinder.step_budget_split (pf : Pathfinder) (g : Grid) (a b : Int)
    (ha : 1 ≤ a) (hb : 1 ≤ b) :
    pf.step g (a + b) = (pf.step g a).bind (fun s => s.1.step s.2 b)
      ∧ (∀ n : Int, n < 1 → pf.step g n = pf.step g 1)
      ∧ (∀ l1 l2 : List Int,
          (l1.map (fun n => (if n < 1 then 1 else n).toNat)).sum
            = (l2.map (fun n => (if n < 1 then 1 else n).toNat)).sum →
          Pathfinder.runSteps l1 (pf, g) = Pathfinder.runSteps l2 (pf, g))
      ∧ ∀ (l1 l2 : List Int) (st1 st2 : Pathfinder × Grid),
          Pathfinder.runSteps l1 (pf, g) = some st1 →
          Pathfinder.runSteps l2 (pf, g) = some st2 →
          st1.1.m_status ≠ Status.Running → st2.1.m_status ≠ Status.Running → st1 = st2 := by
  refine ⟨?_, ?_, ?_, ?_⟩
  rotate_left 3
  · intro l1 l2 st1 st2 h1 h2 t1 t2
    rw [Pathfinder.runSteps_eq_stepLoop] at h1 h2
    exact Pathfinder.stepLoop_terminal (pf, g) _ _ st1 st2 h1 h2 t1 t2
  · have e1 := Pathfinder.step_eq_stepLoop (pf, g) (a + b)
    have e2 := Pathfinder.step_eq_stepLoop (pf, g) a
    simp only [] at e1 e2
    rw [e1, e2]
    have h1 : (if a + b < 1 then 1 else a + b).toNat
        = (if a < 1 then 1 else a).toNat + (if b < 1 then 1 else b).toNat := by
      rw [if_neg (by omega), if_neg (by omega), if_neg (by omega)]
      omega
    rw [h1, Pathfinder.stepLoop_add]
    congr 1
    funext s
    exact (Pathfinder.step_eq_stepLoop s b).symm
  · intro n hn
    have e1 := Pathfinder.step_eq_stepLoop (pf, g) n
    have e2 := Pathfinder.step_eq_stepLoop (pf, g) 1
    simp only [] at e1 e2
    rw [e1, e2, if_pos hn]
    rfl
  · intro l1 l2 h
    rw [Pathfinder.runSteps_eq_stepLoop, Pathfinder.runSteps_eq_stepLoop, h]

theorem Pathfinder.step_budget_split_witness :
    ((Pathfinder.ctor scenarioS5).start scenarioS5).2.1.step
        ((Pathfinder.ctor scenarioS5).start scenarioS5).2.2 (1 + 2)
      = (((Pathfinder.ctor scenarioS5).start scenarioS5).2.1.step
          ((Pathfinder.ctor scenarioS5).start scenarioS5).2.2 1).bind
        (fun s => s.1.step s.2 2) :=
  (Pathfinder.step_budget_split _ _ 1 2 (by decide) (by decide)).1

/-! ## Scenarios -/

/-- C13 (as stated, refuted).  In scenario S2 five `step(1)` calls end in
PathFound and the Goal cell (4,0) has overlay None, not Path. -/
theorem scenarioS2_goal_overlay_counterexample :
    ((Pathfinder.ctor scenarioS2).search scenarioS2 [1, 1, 1, 1, 1]).map
        (fun s => (s.1.m_status, s.2.cell 4 0, s.2.overlay 4 0))
      = some (Status.PathFound, CellType.Goal, CellOverlay.None) := by
  decide

/-- C13 (amended).  In scenario S2 `start()` followed by `step` calls reaches a
terminal status (one `step(8)` does), and whenever the status is terminal it is
PathFound, the walk of `reconstructPath` visits the cells 4, 3, 2, 1, 0 (a path
of 4 moves) and the overlay layer is None, Path, Path, Path, None: the cells
with overlay Path are exactly (1,0), (2,0), (3,0), and the Goal (4,0) keeps
overlay None. -/
theorem scenarioS2_outcome :
    ((Pathfinder.ctor scenarioS2).search scenarioS2 [8]).map (fun s => s.1.m_status)
        = some Status.PathFound
      ∧ ∀ (budgets : List Int) (st : Pathfinder × Grid),
          (Pathfinder.ctor scenarioS2).search scenarioS2 budgets = some st →
          (st.1.m_status = Status.PathFound ∨ st.1.m_status = Status.NoPath) →
          st.1.m_status = Status.PathFound
            ∧ st.1.pathCells = some [4, 3, 2, 1, 0]
            ∧ st.2.m_overlays = [CellOverlay.None, CellOverlay.Path, CellOverlay.Path,
                CellOverlay.Path, CellOverlay.None] := by
  refine ⟨by decide, ?_⟩
  intro budgets st hs hterm
  have hne : st.1.m_status ≠ Status.Running := by
    rcases hterm with h | h <;> rw [h] <;> decide
  have hfin := Pathfinder.search_final (Pathfinder.ctor scenarioS2) scenarioS2 5
    Status.PathFound (by decide) (by decide) (by decide) budgets st hs hne
  have hval : (Pathfinder.stepLoop 5 ((Pathfinder.ctor scenarioS2).start scenarioS2).2).map
      (fun s => (s.1.m_status, s.1.pathCells, s.2.m_overlays))
      = some (Status.PathFound, some [4, 3, 2, 1, 0],
          [CellOverlay.None, CellOverlay.Path, CellOverlay.Path, CellOverlay.Path,
            CellOverlay.None]) := by
    decide
  rw [hfin] at hval
  simp only [Option.map_some', Option.some.injEq, Prod.mk.injEq] at hval
  exact hval

/-- C14 (as stated, refuted).  In scenario S4 two `step(1)` calls end in NoPath
and every overlay of the final grid is None: no cell carries OpenSet or
ClosedSet. -/
theorem scenarioS4_overlays_counterexample :
    ((Pathfinder.ctor scenarioS4).search scenarioS4 [1, 1]).map
        (fun s => (s.1.m_status, s.2.m_overlays))
      = some (Status.NoPath, List.replicate 9 CellOverlay.None) := by
  decide

/-- C14 (amended).  In scenario S4 `start()` followed by `step` calls reaches a
terminal status (one `step(8)` does), and whenever the status is terminal it is
NoPath and every overlay of the final grid is None: there is no Path overlay,
and no OpenSet or ClosedSet overlay either, because the only cell the search
reaches is the Start. -/
theorem scenarioS4_outcome :
    ((Pathfinder.ctor scenarioS4).search scenarioS4 [8]).map (fun s => s.1.m_status)
        = some Status.NoPath
      ∧ ∀ (budgets : List Int) (st : Pathfinder × Grid),
          (Pathfinder.ctor scenarioS4).search scenarioS4 budgets = some st →
          (st.1.m_status = Status.PathFound ∨ st.1.m_status = Status.NoPath) →
          st.1.m_status = Status.NoPath
            ∧ st.2.m_overlays = List.replicate 9 CellOverlay.None := by
  refine ⟨by decide, ?_⟩
  intro budgets st hs hterm
  have hne : st.1.m_status ≠ Status.Running := by
    rcases hterm with h | h <;> rw [h] <;> decide
  have hfin := Pathfinder.search_final (Pathfinder.ctor scenarioS4) scenarioS4 2
    Status.NoPath (by decide) (by decide) (by decide) budgets st hs hne
  have hval : (Pathfinder.stepLoop 2 ((Pathfinder.ctor scenarioS4).start scenarioS4).2).map
      (fun s => (s.1.m_status, s.2.m_overlays))
      = some (Status.NoPath, List.replicate 9 CellOverlay.None) := by
    decide
  rw [hfin] at hval
  simp only [Option.map_some', Option.some.injEq, Prod.mk.injEq] at hval
  exact hval

/-- C15. In scenario S5 `start()` followed by `step` calls reaches a terminal
status (one `step(16)` does), and whenever the status is terminal it is
PathFound and the walk of `reconstructPath`, reversed, is the cell sequence
(0,0), (1,0), (2,0), (2,1), (2,2): the moves in +x come before the moves
in +y. -/
theorem scenarioS5_outcome :
    ((Pathfinder.ctor scenarioS5).search scenarioS5 [16]).map (fun s => s.1.m_status)
        = some Status.PathFound
      ∧ ∀ (budgets : List Int) (st : Pathfinder × Grid),
          (Pathfinder.ctor scenarioS5).search scenarioS5 budgets = some st →
          (st.1.m_status = Status.PathFound ∨ st.1.m_status = Status.NoPath) →
          st.1.m_status = Status.PathFound
            ∧ st.1.pathCells.map (fun cells => (cells.map st.1.cellOf).reverse)
              = some [⟨0, 0⟩, ⟨1, 0⟩, ⟨2, 0⟩, ⟨2, 1⟩, ⟨2, 2⟩] := by
  refine ⟨by decide, ?_⟩
  intro budgets st hs hterm
  have hne : st.1.m_status ≠ Status.Running := by
    rcases hterm with h | h <;> rw [h] <;> decide
  have hfin := Pathfinder.search_final (Pathfinder.ctor scenarioS5) scenarioS5 9
    Status.PathFound (by decide) (by decide) (by decide) budgets st hs hne
  have hval : (Pathfinder.stepLoop 9 ((Pathfinder.ctor scenarioS5).start scenarioS5).2).map
      (fun s => (s.1.m_status,
        s.1.pathCells.map (fun cells => (cells.map s.1.cellOf).reverse)))
      = some (Status.PathFound, some [⟨0, 0⟩, ⟨1, 0⟩, ⟨2, 0⟩, ⟨2, 1⟩, ⟨2, 2⟩]) := by
    decide
  rw [hfin] at hval
  simp only [Option.map_some', Option.some.injEq, Prod.mk.injEq] at hval
  exact hval

/-! ## Editing the grid during a search -/

/-- C20. On a 3x1 grid with Start (0,0) and Goal (2,0): after `start()` and
`step(1)` the cell (1,0) is in the open set; `setObstacle(1,0)` then succeeds;
the next `step(1)` pops (1,0) and leaves the Obstacle cell with overlay
ClosedSet while the status is Running; one more `step(1)` ends in PathFound
and leaves the Obstacle cell with overlay Path. -/
theorem Pathfinder.edit_during_search :
    (CoreOp.runAll
          [CoreOp.grid (GridOp.setStart ⟨0, 0⟩), CoreOp.grid (GridOp.setGoal ⟨2, 0⟩),
            CoreOp.start, CoreOp.step 1, CoreOp.grid (GridOp.setObstacle 1 0),
            CoreOp.step 1]
          (freshState 3 1)).map
        (fun s => (s.1.m_status, s.2.cell 1 0, s.2.overlay 1 0))
        = some (Status.Running, CellType.Obstacle, CellOverlay.ClosedSet)
      ∧ (CoreOp.runAll
          [CoreOp.grid (GridOp.setStart ⟨0, 0⟩), CoreOp.grid (GridOp.setGoal ⟨2, 0⟩),
            CoreOp.start, CoreOp.step 1, CoreOp.grid (GridOp.setObstacle 1 0),
            CoreOp.step 1, CoreOp.step 1]
          (freshState 3 1)).map
        (fun s => (s.1.m_status, s.2.cell 1 0, s.2.overlay 1 0))
        = some (Status.PathFound, CellType.Obstacle, CellOverlay.Path) := by
  constructor <;> decide

/-! ## `reset` -/

/-- C11. From every pathfinder whose five per-cell arrays have one size (the
constructor and `reset` size them together) and every grid, `reset()` yields
status Idle, every overlay None, all g and f entries `INF`, all parents -1, all
inOpen and inClosed entries false, one entry per cell in each array, an empty
open set, sequence counter 0 and start and goal index -1, and leaves the cell
kinds, the stored Start and Goal and the dimensions as they were; and `reset()`
applied twice yields exactly the state of `reset()` applied once. -/
theorem Pathfinder.reset_post_idempotent (pf : Pathfinder) (g : Grid)
    (h1 : pf.m_fScores.length = pf.m_gScores.length)
    (h2 : pf.m_parents.length = pf.m_gScores.length)
    (h3 : pf.m_inOpen.length = pf.m_gScores.length)
    (h4 : pf.m_inClosed.length = pf.m_gScores.length) :
    ((pf.reset g).1.m_status = Status.Idle
        ∧ (∀ x y, (pf.reset g).2.overlay x y = CellOverlay.None)
        ∧ (pf.reset g).2.m_overlays = List.replicate g.m_overlays.length CellOverlay.None
        ∧ (pf.reset g).1.m_gScores = List.replicate g.m_cells.length Score.inf
        ∧ (pf.reset g).1.m_fScores = List.replicate g.m_cells.length Score.inf
        ∧ (pf.reset g).1.m_parents = List.replicate g.m_cells.length (-1)
        ∧ (pf.reset g).1.m_inOpen = List.replicate g.m_cells.length false
        ∧ (pf.reset g).1.m_inClosed = List.replicate g.m_cells.length false
        ∧ (pf.reset g).1.m_openSet = []
        ∧ (pf.reset g).1.m_sequenceCounter = 0
        ∧ (pf.reset g).1.m_startIndex = -1
        ∧ (pf.reset g).1.m_goalIndex = -1
        ∧ (pf.reset g).2.m_cells = g.m_cells
        ∧ (∀ x y, (pf.reset g).2.cell x y = g.cell x y)
        ∧ (pf.reset g).2.m_start = g.m_start
        ∧ (pf.reset g).2.m_goal = g.m_goal
        ∧ (pf.reset g).2.m_width = g.m_width
        ∧ (pf.reset g).2.m_height = g.m_height)
      ∧ (pf.reset g).1.reset (pf.reset g).2 = pf.reset g := by
  have e := Pathfinder.reset_arrays pf g h1 h2 h3 h4
  constructor
  · rw [e]
    refine ⟨rfl, ?_, rfl, rfl, rfl, rfl, rfl, rfl, rfl, rfl, rfl, rfl, rfl, fun _ _ => rfl, rfl,
      rfl, rfl, rfl⟩
    intro x y
    exact vecGet_replicate_self _ _ _
  · rw [e, Pathfinder.reset_arrays _ _ (by simp) (by simp) (by simp) (by simp)]
    simp

theorem Pathfinder.reset_post_idempotent_witness :
    scenarioS2Final.1.m_status = Status.PathFound
      ∧ scenarioS2Final.2.overlay 1 0 = CellOverlay.Path
      ∧ (scenarioS2Final.1.reset scenarioS2Final.2).1.reset
          (scenarioS2Final.1.reset scenarioS2Final.2).2
        = scenarioS2Final.1.reset scenarioS2Final.2 :=
  ⟨by decide, by decide,
    (Pathfinder.reset_post_idempotent scenarioS2Final.1 scenarioS2Final.2 (by decide)
      (by decide) (by decide) (by decide)).2⟩

/-! ## The heuristic -/

/-- C16, on grids where binary32 is exact.  On a well-formed grid, with the
pathfinder constructed for its width: when a Goal `t` is stored and in bounds,
`heuristic` is 0 at the index of the Goal, and when `W + H <= 2^24 + 1`
`heuristic(i)` is `|t.x - i mod W| + |t.y - i div W|` for every index `i` in
`[0, N)`, for 4-adjacent in-bounds cells `a`, `b` it satisfies
`heuristic(a) <= 1 + heuristic(b)`, and for every 4-connected Obstacle-free
path from a cell `c` to the Goal it is at most the number of moves of the path;
when no Goal is stored `heuristic(i)` is 0. -/
theorem Pathfinder.heuristic_manhattan (pf : Pathfinder) (g : Grid) (hwf : g.WF)
    (hw : pf.m_width = g.m_width) :
    (∀ t, g.m_goal = some t → g.inBounds t.x t.y = true →
        pf.heuristic g (t.y * pf.m_width + t.x) = Score.fin 0
          ∧ ((g.m_width + g.m_height).toNat ≤ 2 ^ 24 + 1 →
            (∀ i : Int, 0 ≤ i → i < g.cellCount →
              pf.heuristic g i
                = Score.fin ((t.x - i % g.m_width).natAbs + (t.y - i / g.m_width).natAbs))
            ∧ (∀ a b : Vector2i, g.inBounds a.x a.y = true → g.inBounds b.x b.y = true →
                a.adjacent b →
                ∃ ha hb, pf.heuristic g (a.y * pf.m_width + a.x) = Score.fin ha
                  ∧ pf.heuristic g (b.y * pf.m_width + b.x) = Score.fin hb ∧ ha ≤ 1 + hb)
            ∧ (∀ (c : Vector2i) (p : List Vector2i), g.IsPath c t p →
                ∃ h, pf.heuristic g (c.y * pf.m_width + c.x) = Score.fin h
                  ∧ h ≤ p.length - 1)))
      ∧ (g.m_goal = none → ∀ i, pf.heuristic g i = Score.fin 0) := by
  constructor
  · intro t ht htb
    refine ⟨?_, ?_⟩
    · have := Pathfinder.heuristic_idx pf g hw t ht t.x t.y htb
      rw [hDist_self] at this
      exact this
    intro hsm
    have hex : ∀ x y, g.inBounds x y = true →
        pf.heuristic g (y * pf.m_width + x) = Score.fin (hDist t x y) := by
      intro x y hb
      have := hDist_le g t x y htb hb
      exact Pathfinder.heuristic_small pf g hw t ht x y hb (by omega)
    refine ⟨?_, ?_, ?_⟩
    · intro i h0 h1
      obtain ⟨hb, hi⟩ := Grid.cell_of_index g hwf i h0 h1
      have := hex _ _ hb
      unfold Grid.index at hi
      rw [hw, hi] at this
      exact this
    · intro a b ha hb hab
      refine ⟨hDist t a.x a.y, hDist t b.x b.y, hex a.x a.y ha, hex b.x b.y hb, ?_⟩
      have := hDist_adjacent t a.x a.y b.x b.y hab
      omega
    · intro c p hp
      obtain ⟨hhead, hlast, hchain, hpass⟩ := hp
      cases p with
      | nil => cases hhead
      | cons c1 q =>
        simp only [List.head?_cons, Option.some.injEq] at hhead
        subst hhead
        have hcb : g.inBounds c1.x c1.y = true := (hpass c1 (List.mem_cons_self _ _)).1
        refine ⟨hDist t c1.x c1.y, hex c1.x c1.y hcb, ?_⟩
        have := hDist_chain t q c1 t hchain hlast
        rw [hDist_self] at this
        simp only [List.length_cons]
        omega
  · intro hg i
    unfold Pathfinder.heuristic
    rw [hg]

theorem Pathfinder.heuristic_manhattan_witness :
    (Pathfinder.ctor scenarioS5).heuristic scenarioS5 3 = Score.fin 3
      ∧ (Pathfinder.ctor scenarioS5).heuristic scenarioS5 8 = Score.fin 0 :=
  ⟨(((Pathfinder.heuristic_manhattan (Pathfinder.ctor scenarioS5) scenarioS5
      (GridOp.runAll_inv _ _ (Grid.ctor_WF 3 3 (by decide) (by decide))
        (Grid.ctor_Placed 3 3)).1 rfl).1 ⟨2, 2⟩ (by decide) (by decide)).2 (by decide)).1 3
      (by decide) (by decide),
    ((Pathfinder.heuristic_manhattan (Pathfinder.ctor scenarioS5) scenarioS5
      (GridOp.runAll_inv _ _ (Grid.ctor_WF 3 3 (by decide) (by decide))
        (Grid.ctor_Placed 3 3)).1 rfl).1 ⟨2, 2⟩ (by decide) (by decide)).1⟩

theorem Grid.ctor_setGoal (w h : Int) (c : Vector2i) (h0 : 0 ≤ c.x) (h1 : c.x < w)
    (h2 : 0 ≤ c.y) (h3 : c.y < h) :
    ((Grid.ctor w h).setGoal c).2.m_goal = some c
      ∧ ((Grid.ctor w h).setGoal c).2.m_width = w
      ∧ ((Grid.ctor w h).setGoal c).2.m_height = h
      ∧ ((Grid.ctor w h).setGoal c).2.m_cells.length = (w * h).toNat
      ∧ ((Grid.ctor w h).setGoal c).2.m_overlays.length = (w * h).toNat := by
  obtain ⟨g1, he, e1, e2, e3, e4, _, e6⟩ := Grid.setGoal_ok (Grid.ctor w h) c
    ((Grid.inBounds_iff _ _ _).2 ⟨h0, h2, h1, h3⟩)
    (by rw [Grid.ctor_cell]; decide) (by simp [Grid.ctor])
  rw [he]
  refine ⟨e6, e1, e2, ?_, ?_⟩
  · show g1.m_cells.length = _
    rw [e3]
    simp [vecSet_length, Grid.ctor]
  · show g1.m_overlays.length = _
    rw [e4]
    simp [Grid.ctor]

theorem Pathfinder.heuristic_wideRow (g : Grid) (hg : g.m_goal = some ⟨16777220, 0⟩)
    (hw : g.m_width = 16777221) (hh : g.m_height = 1)
    (hc : g.m_cells.length = (16777221 * 1 : Int).toNat)
    (ho : g.m_overlays.length = (16777221 * 1 : Int).toNat) :
    g.WF ∧ g.m_goal = some ⟨16777220, 0⟩ ∧ g.cellCount = 16777221
      ∧ (Pathfinder.ctor g).heuristic g 1 = Score.fin 16777220
      ∧ (Pathfinder.ctor g).heuristic g 2 = Score.fin 16777218 := by
  have hb : ∀ x : Int, 0 ≤ x → x < 16777221 → g.inBounds x 0 = true := by
    intro x h0 h1
    rw [Grid.inBounds_iff, hw, hh]
    exact ⟨h0, by decide, h1, by decide⟩
  have hi : ∀ x : Int, (Pathfinder.ctor g).idx x 0 = x := by
    intro x
    unfold Pathfinder.idx
    simp
  have h1 := Pathfinder.heuristic_idx (Pathfinder.ctor g) g rfl _ hg 1 0
    (hb 1 (by decide) (by decide))
  have h2 := Pathfinder.heuristic_idx (Pathfinder.ctor g) g rfl _ hg 2 0
    (hb 2 (by decide) (by decide))
  rw [hi] at h1 h2
  refine ⟨⟨?_, ?_, ?_, ?_⟩, hg, ?_, ?_, ?_⟩
  · rw [hw]; decide
  · rw [hh]
  · rw [hc, hw, hh]
  · rw [ho, hw, hh]
  · unfold Grid.cellCount
    rw [hc]
    decide
  · rw [h1]
    decide
  · rw [h2]
    decide

/-- C16 fails on a wide grid.  On the grid of width 16777221 and height 1 with
the Goal at `(16777220, 0)`: the cell of index 1 is at Manhattan distance
16777219 from the Goal and `heuristic(1)` is 16777220; the 4-adjacent cell of
index 2 has `heuristic(2) = 16777218`, so `heuristic(1) <= 1 + heuristic(2)`
fails. -/
theorem Pathfinder.heuristic_manhattan_counterexample :
    ((Grid.ctor 16777221 1).setGoal ⟨16777220, 0⟩).2.WF
      ∧ ((Grid.ctor 16777221 1).setGoal ⟨16777220, 0⟩).2.m_goal = some ⟨16777220, 0⟩
      ∧ ((Grid.ctor 16777221 1).setGoal ⟨16777220, 0⟩).2.cellCount = 16777221
      ∧ (Pathfinder.ctor ((Grid.ctor 16777221 1).setGoal ⟨16777220, 0⟩).2).heuristic
          ((Grid.ctor 16777221 1).setGoal ⟨16777220, 0⟩).2 1 = Score.fin 16777220
      ∧ ((16777220 : Int) - 1 % 16777221).natAbs + ((0 : Int) - 1 / 16777221).natAbs
          = 16777219
      ∧ (Pathfinder.ctor ((Grid.ctor 16777221 1).setGoal ⟨16777220, 0⟩).2).heuristic
          ((Grid.ctor 16777221 1).setGoal ⟨16777220, 0⟩).2 2 = Score.fin 16777218
      ∧ (⟨1, 0⟩ : Vector2i).adjacent ⟨2, 0⟩
      ∧ ¬ (16777220 ≤ 1 + 16777218) := by
  obtain ⟨hg, hw, hh, hc, ho⟩ := Grid.ctor_setGoal 16777221 1 ⟨16777220, 0⟩ (by decide)
    (by decide) (by decide) (by decide)
  obtain ⟨a1, a2, a3, a4, a5⟩ := Pathfinder.heuristic_wideRow _ hg hw hh hc ho
  exact ⟨a1, a2, a3, a4, by decide, a5, by decide, by decide⟩

/-! ## Parent chains -/

/-- The predicate `iterateSafe` rejects a state whose open set holds a record
with an index outside `[0, N)`: there the defensive range check fires. -/
theorem Pathfinder.iterateSafe_rejects :
    ¬ Pathfinder.iterateSafe
      { Pathfinder.ctor (Grid.ctor 3 1) with
        m_openSet := [{ fScore := Score.fin 0, gScore := Score.fin 0, index := 7, sequence := 0 }] }
      (Grid.ctor 3 1) := by
  intro h
  exact (h { fScore := Score.fin 0, gScore := Score.fin 0, index := 7, sequence := 0 } rfl).1
    (by decide)

/-- C18. From a freshly constructed grid with `W, H >= 1` and a pathfinder
constructed on it, every sequence of core operations is safe: in the state in
which each operation runs, the defensive range check on a popped record of
`step` does not fire, `Grid::cell` reads `m_cells` within bounds, and every
access to the g, f, parent, inOpen and inClosed arrays in `reset`, `start`,
`step` and `reconstructPath` is within bounds.  In every state reached, every
record of the open set has an index in `[0, N)`, every parent is -1 or in
`[0, N)`, the five arrays hold `N` entries, while the status is Running the
start and goal index are in `[0, N)`, and every further core operation is
safe. -/
theorem Pathfinder.index_safety (width height : Int) (hw : 1 ≤ width) (hh : 1 ≤ height)
    (ops : List CoreOp) :
    CoreOp.allSafe ops (freshState width height)
      ∧ ∀ st, CoreOp.runAll ops (freshState width height) = some st →
          (∀ r ∈ st.1.m_openSet, 0 ≤ r.index ∧ r.index < st.2.cellCount)
            ∧ (st.1.m_status = Status.Running →
                (0 ≤ st.1.m_startIndex ∧ st.1.m_startIndex < st.2.cellCount)
                  ∧ 0 ≤ st.1.m_goalIndex ∧ st.1.m_goalIndex < st.2.cellCount)
            ∧ (∀ p ∈ st.1.m_parents, -1 ≤ p ∧ p < st.2.cellCount)
            ∧ (st.1.m_gScores.length = st.2.m_cells.length
                ∧ st.1.m_fScores.length = st.2.m_cells.length
                ∧ st.1.m_parents.length = st.2.m_cells.length
                ∧ st.1.m_inOpen.length = st.2.m_cells.length
                ∧ st.1.m_inClosed.length = st.2.m_cells.length)
            ∧ st.1.iterateSafe st.2
            ∧ ∀ op : CoreOp, op.safe st := by
  have h0 := freshState_Shape width height hw hh
  refine ⟨CoreOp.allSafe_of_Shape ops _ h0, fun st he => ?_⟩
  have h := CoreOp.runAll_Shape ops _ st h0 he
  have hs := h
  obtain ⟨_, _, _, h1, h2, h3, h4, h5, h6, h7, h8⟩ := h
  exact ⟨h6, h8, h7, ⟨h1, h2, h3, h4, h5⟩, Pathfinder.iterateSafe_of_Shape st hs,
    fun op => CoreOp.safe_of_Shape op st hs⟩

theorem Pathfinder.index_safety_witness :
    CoreOp.allSafe
      [CoreOp.grid (GridOp.setStart ⟨0, 0⟩), CoreOp.grid (GridOp.setGoal ⟨2, 0⟩), CoreOp.start,
        CoreOp.step 1, CoreOp.grid (GridOp.setObstacle 1 0), CoreOp.step 2, CoreOp.reset]
      (freshState 3 1) :=
  (Pathfinder.index_safety 3 1 (by decide) (by decide)
    [CoreOp.grid (GridOp.setStart ⟨0, 0⟩), CoreOp.grid (GridOp.setGoal ⟨2, 0⟩), CoreOp.start,
      CoreOp.step 1, CoreOp.grid (GridOp.setObstacle 1 0), CoreOp.step 2, CoreOp.reset]).1
